import Mathlib

/-!
# libssh2, Windows CNG backend (`src/wincng.c`): big numbers and key blobs

A shallow embedding of the big-number container (`_libssh2_bn`), of the key-blob
builders for RSA and DSA, of the modular exponentiation that backs the
Diffie-Hellman fallback, of the Diffie-Hellman functions with their native path,
of the decoding of private keys, and of the public key blob that
`_libssh2_wincng_pub_priv_keyfile_parse` derives from a private key.

Conventions of the embedding.

* A byte is a natural number; a byte sequence is a `List Nat` whose entries are
  below 256 (`IsBytes`).  A C pointer with its length is an `Option (List Nat)`:
  `none` is the NULL pointer, `some bs` a buffer of `bs.length` bytes.
* `unsigned long` lengths, offsets and bit counts are natural numbers: the
  embedding covers buffers short enough for these quantities not to wrap (a bit
  count wraps from 2^29 bytes on).
* A function that mutates an object through a pointer returns the new object.
* `realloc`/`malloc` outcomes are Boolean arguments (`true`: the call returned
  memory); `clear` tells whether `LIBSSH2_CLEAR_MEMORY` is defined.  The decoding
  functions allocate on a `Heap` that counts the live blocks, with an allocator
  that decides each `malloc` call.
* The Diffie-Hellman provider is a function of the calls made so far and of the
  call (`DhProvider`); the functions return the list of calls they made.
* A loop is a function with a bound on its turns; the theorems give a bound that
  suffices.
-/

namespace Wincng

/-! ## Bytes and memory -/

/-- Every entry is an `unsigned char` value. -/
def IsBytes (bs : List Nat) : Prop := ∀ x ∈ bs, x < 256

instance (bs : List Nat) : Decidable (IsBytes bs) := by
  unfold IsBytes; infer_instance

/-- The unsigned integer a byte sequence denotes when read most-significant
byte first. -/
def beValue (bs : List Nat) : Nat := bs.foldl (fun acc x => acc * 256 + x) 0

/-- The call `memcpy(mem + dest, src, n)`: the first `n` bytes of `src` replace the bytes
of `mem` at positions `dest .. dest + n - 1`.  A copy that stays inside `mem`
leaves its length unchanged. -/
def memcpy (mem : List Nat) (dest : Nat) (src : List Nat) (n : Nat) : List Nat :=
  mem.take dest ++ src.take n ++ mem.drop (dest + n)

/-- The call `memset(mem + dest, c, n)`. -/
def memset (mem : List Nat) (dest : Nat) (c : Nat) (n : Nat) : List Nat :=
  mem.take dest ++ List.replicate n c ++ mem.drop (dest + n)

/-- The scan `while(!bignum[offset] && offset < length) offset++;` that both
`_libssh2_wincng_bn_size` and `_libssh2_wincng_bignum_bits` run; it returns the
final `offset`.  The first argument bounds the number of turns: the loop makes at
most `length - offset` of them. -/
def skipZeros (bignum : List Nat) (length : Nat) : Nat → Nat → Nat
  | 0, offset => offset
  | fuel + 1, offset =>
    if bignum.getD offset 0 = 0 ∧ offset < length then
      skipZeros bignum length fuel (offset + 1)
    else offset

/-- The loop `while(number >>= 1) bits++;`; it returns the final `bits`.  The
first argument bounds the number of turns: `number` halves at each of them. -/
def shiftCount : Nat → Nat → Nat → Nat
  | 0, _, bits => bits
  | fuel + 1, number, bits =>
    if number / 2 ≠ 0 then shiftCount fuel (number / 2) (bits + 1) else bits

/-! ## The big-number container -/

/-- The type `struct _libssh2_wincng_bignum`: the buffer `bignum` (NULL or allocated);
the field `length` is the length of the buffer. -/
structure _libssh2_bn where
  bignum : Option (List Nat)
deriving DecidableEq, Repr

/-- The field `bn->length`. -/
def _libssh2_bn.length (bn : _libssh2_bn) : Nat :=
  match bn.bignum with
  | none => 0
  | some bs => bs.length

/-- The function `_libssh2_wincng_bignum_init`: a fresh number has no buffer and length 0. -/
def _libssh2_wincng_bignum_init (alloc : Bool) : Option _libssh2_bn :=
  if alloc then some { bignum := none } else none

/-- The call `realloc(p, length)` for `length ≥ 1` when it returns memory: the old
bytes up to `length`, then new bytes (modelled as 0; every caller overwrites them
before reading). -/
def realloc (p : Option (List Nat)) (length : Nat) : List Nat :=
  let old := p.getD []
  old.take length ++ List.replicate (length - old.length) 0

/-- The function `_libssh2_wincng_bignum_resize`: status and the number afterwards.
A resize to the length 0 of a number that has a buffer calls
`realloc(bn->bignum, 0)`, which frees the block and returns NULL: the function
returns -1 whatever the allocator does, `bn->length` keeps its value and
`bn->bignum` keeps pointing to the freed block.  In place of that dangling
pointer the number returned here keeps the bytes of the block (wiped when
`clear`); what a later read of them finds is not defined by the source. -/
def _libssh2_wincng_bignum_resize (clear alloc : Bool) (bn : Option _libssh2_bn)
    (length : Nat) : Int × Option _libssh2_bn :=
  match bn with
  | none => (-1, none)
  | some b =>
    if length = b.length then (0, some b)
    else
      let wiped : _libssh2_bn :=
        match b.bignum with
        | none => b
        | some bs =>
          if clear ∧ b.length > 0 ∧ length < b.length then
            { bignum := some (memset bs length 0 (b.length - length)) }
          else b
      if length = 0 then (-1, some wiped)
      else if alloc then (0, some { bignum := some (realloc wiped.bignum length) })
      else (-1, some wiped)

/-- The call `_libssh2_wincng_random(buf, len)` as seen by its caller: `none` when the
provider fails, `some f` when it filled position `i` with `f i`. -/
abbrev RandomFill := Option (Nat → Nat)

/-- The function `_libssh2_wincng_bignum_rand`: status and the number afterwards.
`bits`, `top` and `bottom` are C `int`s; the callers pass `bits ≥ 1` (for
`bits ≤ 0` the source indexes a buffer of no bytes). -/
def _libssh2_wincng_bignum_rand (clear alloc : Bool) (random : RandomFill)
    (rnd : Option _libssh2_bn) (bits top bottom : Int) : Int × Option _libssh2_bn :=
  match rnd with
  | none => (-1, none)
  | some _ =>
    let length := ((bits + 7) / 8).toNat
    match _libssh2_wincng_bignum_resize clear alloc rnd length with
    | (0, some b) =>
      match random with
      | none => (-1, some b)
      | some f =>
        let bignum := (List.range length).map f
        let bits := bits % 8
        let bits := if bits = 0 then 8 else bits
        let bignum := bignum.set 0 (bignum.getD 0 0 &&& ((1 <<< bits.toNat) - 1))
        let bignum :=
          if top = 0 then bignum.set 0 (bignum.getD 0 0 ||| (1 <<< (bits - 1).toNat))
          else if top = 1 then bignum.set 0 (bignum.getD 0 0 ||| (3 <<< (bits - 2).toNat))
          else bignum
        let bignum :=
          if bottom ≠ 0 then
            bignum.set (length - 1) (bignum.getD (length - 1) 0 ||| 1)
          else bignum
        (0, some { bignum := some bignum })
    | (_, r) => (-1, r)

/-- The loop `for(offset = 0; offset < length; offset++)
bn->bignum[offset] = (word >> (offset * 8)) & 0xff;` of
`_libssh2_wincng_bignum_set_word`. -/
def set_word_loop (word length : Nat) : Nat → Nat → List Nat → List Nat
  | 0, _, bignum => bignum
  | fuel + 1, offset, bignum =>
    if offset < length then
      set_word_loop word length fuel (offset + 1)
        (bignum.set offset ((word >>> (offset * 8)) &&& 0xff))
    else bignum

/-- The function `_libssh2_wincng_bignum_set_word`: status and the number afterwards. -/
def _libssh2_wincng_bignum_set_word (clear alloc : Bool) (bn : Option _libssh2_bn)
    (word : Nat) : Int × Option _libssh2_bn :=
  match bn with
  | none => (-1, none)
  | some _ =>
    let bits := shiftCount word word 0 + 1
    let length := (bits + 7) / 8
    match _libssh2_wincng_bignum_resize clear alloc bn length with
    | (0, some b) =>
      (0, some { bignum := some (set_word_loop word length length 0 (b.bignum.getD [])) })
    | (_, r) => (-1, r)

/-- The function `_libssh2_wincng_bignum_bits`. -/
def _libssh2_wincng_bignum_bits (bn : Option _libssh2_bn) : Nat :=
  match bn with
  | none => 0
  | some b =>
    match b.bignum with
    | none => 0
    | some bignum =>
      if bignum.length = 0 then 0
      else
        let length := bignum.length - 1
        let offset := skipZeros bignum length length 0
        let bits := (length - offset) * 8
        let number := bignum.getD offset 0
        shiftCount number number bits + 1

/-- The call `_libssh2_wincng_bignum_from_bin(bn, len, bin)` with `len = bin.length`: the
number afterwards.  `alloc₁` is the outcome of the resize, `alloc₂` that of the
shrinking `realloc`. -/
def _libssh2_wincng_bignum_from_bin (clear alloc₁ alloc₂ : Bool)
    (bn : Option _libssh2_bn) (bin : Option (List Nat)) : Option _libssh2_bn :=
  match bn, bin with
  | none, _ => none
  | some b, none => some b
  | some b, some bytes =>
    if bytes.length = 0 then some b
    else
      match _libssh2_wincng_bignum_resize clear alloc₁ bn bytes.length with
      | (0, some b1) =>
        let buf := memcpy (b1.bignum.getD []) 0 bytes bytes.length
        let bits := _libssh2_wincng_bignum_bits (some { bignum := some buf })
        let length := (bits + 7) / 8
        let offset := buf.length - length
        if offset > 0 then
          let moved := memcpy buf 0 (buf.drop offset) length
          let moved := if clear then memset moved length 0 offset else moved
          if alloc₂ then some { bignum := some (realloc (some moved) length) }
          else some { bignum := some moved }
        else some { bignum := some buf }
      | (_, r) => r

/-- The call `_libssh2_wincng_bignum_to_bin(bn, bin)`: the destination `bin` afterwards. -/
def _libssh2_wincng_bignum_to_bin (bn : Option _libssh2_bn) (bin : Option (List Nat)) :
    Option (List Nat) :=
  match bin, bn with
  | some dst, some b =>
    match b.bignum with
    | some bignum => if b.length > 0 then some (memcpy dst 0 bignum b.length) else some dst
    | none => some dst
  | _, _ => bin


/-! ## Key blobs -/

/-- The call `_libssh2_wincng_bn_size(bignum, length)` with `length` the length of the
buffer: the length without the leading zero bytes, at least 1.  For a NULL
pointer it is 0.  For a buffer of no bytes the source decrements `length` below
zero and reads `bignum[0]` outside the buffer: no value is defined, `none`. -/
def _libssh2_wincng_bn_size (bignum : Option (List Nat)) : Option Nat :=
  match bignum with
  | none => some 0
  | some bs =>
    if bs.length = 0 then none
    else
      let length := bs.length - 1
      let offset := skipZeros bs length length 0
      let length := length + 1
      some (length - offset)

/-- The length argument that accompanies a pointer argument. -/
def bufLen (data : Option (List Nat)) : Nat := (data.getD []).length

/-- The statement pair the blob builders write out for every integer field:
`if(len < width) memcpy(key + offset + width - len, data, len);
else memcpy(key + offset, data + len - width, width);`. -/
def copy_field (key : List Nat) (offset width : Nat) (data : Option (List Nat)) : List Nat :=
  let d := data.getD []
  let len := d.length
  if len < width then memcpy key (offset + width - len) d len
  else memcpy key offset (d.drop (len - width)) width

/-- The blob types handed to `BCryptImportKeyPair` and `BCryptExportKey`
(`bcrypt.h`; `LEGACY_RSAPRIVATE_BLOB` is defined in `wincng.c` where missing). -/
inductive BlobType where
  | BCRYPT_RSAPUBLIC_BLOB
  | BCRYPT_RSAFULLPRIVATE_BLOB
  | BCRYPT_DSA_PUBLIC_BLOB
  | BCRYPT_DSA_PRIVATE_BLOB
  | BCRYPT_DH_PUBLIC_BLOB
  | BCRYPT_DH_PRIVATE_BLOB
  | LEGACY_RSAPRIVATE_BLOB
deriving DecidableEq, Repr

/-- The constant `BCRYPT_RSAPUBLIC_MAGIC` of `bcrypt.h`, the characters `RSA1`. -/
def BCRYPT_RSAPUBLIC_MAGIC : Nat := 0x31415352

/-- The constant `BCRYPT_RSAFULLPRIVATE_MAGIC` of `bcrypt.h`, the characters `RSA3`. -/
def BCRYPT_RSAFULLPRIVATE_MAGIC : Nat := 0x33415352

/-- The constant `BCRYPT_DSA_PUBLIC_MAGIC` of `bcrypt.h`, the characters `DSPB`. -/
def BCRYPT_DSA_PUBLIC_MAGIC : Nat := 0x42505344

/-- The constant `BCRYPT_DSA_PRIVATE_MAGIC` of `bcrypt.h`, the characters `DSPV`. -/
def BCRYPT_DSA_PRIVATE_MAGIC : Nat := 0x56505344

/-- The header `BCRYPT_RSAKEY_BLOB` of `bcrypt.h`: six `ULONG` fields. -/
structure BCRYPT_RSAKEY_BLOB where
  Magic : Nat
  BitLength : Nat
  cbPublicExp : Nat
  cbModulus : Nat
  cbPrime1 : Nat
  cbPrime2 : Nat
deriving DecidableEq, Repr

/-- The size `sizeof(BCRYPT_RSAKEY_BLOB)`: six 4-byte fields. -/
def sizeof_BCRYPT_RSAKEY_BLOB : Nat := 24

/-- The header `BCRYPT_DSA_KEY_BLOB` of `bcrypt.h`: two `ULONG` fields and the
byte arrays `Count[4]`, `Seed[20]` and `q[20]`. -/
structure BCRYPT_DSA_KEY_BLOB where
  dwMagic : Nat
  cbKey : Nat
  Count : List Nat
  Seed : List Nat
  q : List Nat
deriving DecidableEq, Repr

/-- The size `sizeof(BCRYPT_DSA_KEY_BLOB)`: two 4-byte fields and 44 bytes of arrays. -/
def sizeof_BCRYPT_DSA_KEY_BLOB : Nat := 52

/-- The RSA key blob as `_libssh2_wincng_rsa_new` passes it to
`BCryptImportKeyPair`: the blob type, the header `rsakey` that overlays the
first `sizeof(BCRYPT_RSAKEY_BLOB)` bytes of `key`, and the `keylen` bytes of
`key` (in which the bytes under the header are left 0). -/
structure RsaKeyBlob where
  lpszBlobType : BlobType
  rsakey : BCRYPT_RSAKEY_BLOB
  key : List Nat
deriving DecidableEq, Repr

/-- The DSA key blob as `_libssh2_wincng_dsa_new` passes it to
`BCryptImportKeyPair`; see `RsaKeyBlob`. -/
structure DsaKeyBlob where
  lpszBlobType : BlobType
  dsakey : BCRYPT_DSA_KEY_BLOB
  key : List Nat
deriving DecidableEq, Repr

/-- The blob construction of `_libssh2_wincng_rsa_new`, from the computation of
`mlen` to the choice of the blob type.  `none`: a `_libssh2_wincng_bn_size` call
read outside its buffer. -/
def _libssh2_wincng_rsa_new_blob
    (edata ndata ddata pdata qdata e1data e2data coeffdata : Option (List Nat)) :
    Option RsaKeyBlob := do
  let elen := bufLen edata
  let mlen := max (← _libssh2_wincng_bn_size ndata) (← _libssh2_wincng_bn_size ddata)
  let offset := sizeof_BCRYPT_RSAKEY_BLOB
  let keylen := offset + elen + mlen
  if ddata.isSome ∧ bufLen ddata > 0 then
    let p1len := max (← _libssh2_wincng_bn_size pdata) (← _libssh2_wincng_bn_size e1data)
    let p2len := max (← _libssh2_wincng_bn_size qdata) (← _libssh2_wincng_bn_size e2data)
    let keylen := keylen + (p1len * 3 + p2len * 2 + mlen)
    let key := List.replicate keylen 0
    let key := memcpy key offset (edata.getD []) elen
    let offset := offset + elen
    let key := copy_field key offset mlen ndata
    let offset := offset + mlen
    let key := copy_field key offset p1len pdata
    let offset := offset + p1len
    let key := copy_field key offset p2len qdata
    let offset := offset + p2len
    let key := copy_field key offset p1len e1data
    let offset := offset + p1len
    let key := copy_field key offset p2len e2data
    let offset := offset + p2len
    let key := copy_field key offset p1len coeffdata
    let offset := offset + p1len
    let key := copy_field key offset mlen ddata
    pure {
      lpszBlobType := BlobType.BCRYPT_RSAFULLPRIVATE_BLOB
      rsakey := {
        Magic := BCRYPT_RSAFULLPRIVATE_MAGIC
        BitLength := mlen * 8
        cbPublicExp := elen
        cbModulus := mlen
        cbPrime1 := p1len
        cbPrime2 := p2len }
      key := key }
  else
    let key := List.replicate keylen 0
    let key := memcpy key offset (edata.getD []) elen
    let offset := offset + elen
    let key := copy_field key offset mlen ndata
    pure {
      lpszBlobType := BlobType.BCRYPT_RSAPUBLIC_BLOB
      rsakey := {
        Magic := BCRYPT_RSAPUBLIC_MAGIC
        BitLength := mlen * 8
        cbPublicExp := elen
        cbModulus := mlen
        cbPrime1 := 0
        cbPrime2 := 0 }
      key := key }

/-- The context `libssh2_rsa_ctx`: the provider key handle (of type `κ`) and the retained key blob
(`pbKeyObject`, `cbKeyObject`). -/
structure libssh2_rsa_ctx (κ : Type) where
  hKey : κ
  pbKeyObject : RsaKeyBlob

/-- The function `_libssh2_wincng_rsa_new`: `none` as for `_libssh2_wincng_rsa_new_blob`,
otherwise the status and the context stored through `rsa`.  `alloc₁` and
`alloc₂` are the outcomes of the two `malloc` calls, `importKeyPair` is
`BCryptImportKeyPair` on the RSA algorithm handle (`none`: a failure status). -/
def _libssh2_wincng_rsa_new {κ : Type} (alloc₁ alloc₂ : Bool)
    (importKeyPair : RsaKeyBlob → Option κ)
    (edata ndata ddata pdata qdata e1data e2data coeffdata : Option (List Nat)) :
    Option (Int × Option (libssh2_rsa_ctx κ)) := do
  let blob ← _libssh2_wincng_rsa_new_blob edata ndata ddata pdata qdata e1data e2data coeffdata
  if ¬ alloc₁ then pure (-1, none)
  else
    match importKeyPair blob with
    | none => pure (-1, none)
    | some hKey =>
      if ¬ alloc₂ then pure (-1, none)
      else pure (0, some { hKey := hKey, pbKeyObject := blob })

/-- The blob construction of `_libssh2_wincng_dsa_new`, from the computation of
`length` to the choice of the blob type.  `none`: a `_libssh2_wincng_bn_size`
call read outside its buffer. -/
def _libssh2_wincng_dsa_new_blob (pdata qdata gdata ydata xdata : Option (List Nat)) :
    Option DsaKeyBlob := do
  let length := max (max (← _libssh2_wincng_bn_size pdata) (← _libssh2_wincng_bn_size gdata))
    (← _libssh2_wincng_bn_size ydata)
  let offset := sizeof_BCRYPT_DSA_KEY_BLOB
  let keylen := offset + length * 3
  let keylen := if xdata.isSome ∧ bufLen xdata > 0 then keylen + 20 else keylen
  let key := List.replicate keylen 0
  let Count := memset (List.replicate 4 0) 0 0xff 4
  let Seed := memset (List.replicate 20 0) 0 0xff 20
  let q := copy_field (List.replicate 20 0) 0 20 qdata
  let key := copy_field key offset length pdata
  let offset := offset + length
  let key := copy_field key offset length gdata
  let offset := offset + length
  let key := copy_field key offset length ydata
  if xdata.isSome ∧ bufLen xdata > 0 then
    let offset := offset + length
    let key := copy_field key offset 20 xdata
    pure {
      lpszBlobType := BlobType.BCRYPT_DSA_PRIVATE_BLOB
      dsakey := { dwMagic := BCRYPT_DSA_PRIVATE_MAGIC, cbKey := length,
                  Count := Count, Seed := Seed, q := q }
      key := key }
  else
    pure {
      lpszBlobType := BlobType.BCRYPT_DSA_PUBLIC_BLOB
      dsakey := { dwMagic := BCRYPT_DSA_PUBLIC_MAGIC, cbKey := length,
                  Count := Count, Seed := Seed, q := q }
      key := key }

/-- The context `libssh2_dsa_ctx`; see `libssh2_rsa_ctx`. -/
structure libssh2_dsa_ctx (κ : Type) where
  hKey : κ
  pbKeyObject : DsaKeyBlob

/-- The function `_libssh2_wincng_dsa_new`; see `_libssh2_wincng_rsa_new`. -/
def _libssh2_wincng_dsa_new {κ : Type} (alloc₁ alloc₂ : Bool)
    (importKeyPair : DsaKeyBlob → Option κ)
    (pdata qdata gdata ydata xdata : Option (List Nat)) :
    Option (Int × Option (libssh2_dsa_ctx κ)) := do
  let blob ← _libssh2_wincng_dsa_new_blob pdata qdata gdata ydata xdata
  if ¬ alloc₁ then pure (-1, none)
  else
    match importKeyPair blob with
    | none => pure (-1, none)
    | some hKey =>
      if ¬ alloc₂ then pure (-1, none)
      else pure (0, some { hKey := hKey, pbKeyObject := blob })

/-- The call `memcpy_with_be_padding(dest, dest_len, src, src_len)`, where the pointer
`dest` points `dest` bytes into the memory block `mem`: the block afterwards.
`none`: the copy would start before the block. -/
def memcpy_with_be_padding (mem : List Nat) (dest dest_len : Nat) (src : List Nat)
    (src_len : Nat) : Option (List Nat) :=
  let mem := if dest_len > src_len then memset mem dest 0 (dest_len - src_len) else mem
  if src_len ≤ dest + dest_len then some (memcpy mem (dest + dest_len - src_len) src src_len)
  else none

/-- The function `round_down` (C division truncates). -/
def round_down (number multiple : Int) : Int := Int.tdiv number multiple * multiple

/-! ## Modular exponentiation and the Diffie-Hellman fallback -/

/-- The calls `_libssh2_wincng_bignum_mod_exp` makes to the provider, on the RSA
algorithm handle; `κ` is the type of key handles, `none` stands for a failure
status.
* `importKeyPair blob`: `BCryptImportKeyPair`, the key handle.
* `encryptSize hKey input`: `BCryptEncrypt` with `BCRYPT_PAD_NONE` and no output
  buffer, the size it reports.
* `encrypt hKey input cbOutput`: `BCryptEncrypt` with `BCRYPT_PAD_NONE` into a
  buffer of `cbOutput` bytes, the bytes it wrote (their number is the reported
  result size). -/
structure RsaProvider (κ : Type) where
  importKeyPair : RsaKeyBlob → Option κ
  encryptSize : κ → List Nat → Option Nat
  encrypt : κ → List Nat → Nat → Option (List Nat)

/-- The bytes of a number (none for a NULL buffer). -/
def _libssh2_bn.bytes (bn : _libssh2_bn) : List Nat := bn.bignum.getD []

/-- The call `_libssh2_wincng_bignum_mod_exp(r, a, p, m)`: status and `r` afterwards; `r`
is a number distinct from `a`, `p` and `m`.  `allocKey` and `allocBuf` are the
outcomes of the two `malloc` calls, `allocR` and `allocEnd` those of the two
resizes of `r`.  The source does not test the status of the second resize: after
a successful encrypt call the function returns 0 with `r` as that resize left
it. -/
def _libssh2_wincng_bignum_mod_exp {κ : Type} (prov : RsaProvider κ)
    (clear allocKey allocR allocBuf allocEnd : Bool)
    (r a p m : Option _libssh2_bn) : Int × Option _libssh2_bn :=
  match r, a, p, m with
  | some _, some aa, some pp, some mm =>
    let offset := sizeof_BCRYPT_RSAKEY_BLOB
    let keylen := offset + pp.length + mm.length
    if ¬ allocKey then (-1, r)
    else
      let rsakey : BCRYPT_RSAKEY_BLOB := {
        Magic := BCRYPT_RSAPUBLIC_MAGIC
        BitLength := mm.length * 8
        cbPublicExp := pp.length
        cbModulus := mm.length
        cbPrime1 := 0
        cbPrime2 := 0 }
      let key := List.replicate keylen 0
      let key := memcpy key offset pp.bytes pp.length
      let offset := offset + pp.length
      let key := memcpy key offset mm.bytes mm.length
      match prov.importKeyPair
          { lpszBlobType := BlobType.BCRYPT_RSAPUBLIC_BLOB, rsakey := rsakey, key := key } with
      | none => (-1, r)
      | some hKey =>
        match prov.encryptSize hKey aa.bytes with
        | none => (-1, r)
        | some length =>
          match _libssh2_wincng_bignum_resize clear allocR r length with
          | (0, some r1) =>
            let length := max aa.length length
            if ¬ allocBuf then (-1, some r1)
            else
              match memcpy_with_be_padding (List.replicate length 0) 0 length
                  aa.bytes aa.length with
              | none => (-1, some r1)
              | some bignum =>
                match prov.encrypt hKey bignum r1.length with
                | none => (-1, some r1)
                | some out =>
                  let r2 : _libssh2_bn :=
                    { bignum := r1.bignum.map fun buf => memcpy buf 0 out out.length }
                  (0, (_libssh2_wincng_bignum_resize clear allocEnd (some r2) out.length).2)
          | (_, r1) => (-1, r1)
  | _, _, _, _ => (-1, r)

/-- The fallback branch of `_libssh2_dh_key_pair` (the statements after the
`while` loop): status, `dhctx->dh_privbn` and `public` afterwards.  `allocInit`
is the outcome of `_libssh2_wincng_bignum_init`, `allocRand` that of the resize
in `_libssh2_wincng_bignum_rand`; the other arguments are those of
`_libssh2_wincng_bignum_mod_exp`. -/
def _libssh2_dh_key_pair_fallback {κ : Type} (prov : RsaProvider κ) (random : RandomFill)
    (clear allocInit allocRand allocKey allocR allocBuf allocEnd : Bool)
    (public_ g p : Option _libssh2_bn) (group_order : Int) :
    Int × Option _libssh2_bn × Option _libssh2_bn :=
  match _libssh2_wincng_bignum_init allocInit with
  | none => (-1, none, public_)
  | some bn =>
    match _libssh2_wincng_bignum_rand clear allocRand random (some bn)
        (group_order * 8 - 1) 0 (-1) with
    | (0, dh_privbn) =>
      match _libssh2_wincng_bignum_mod_exp prov clear allocKey allocR allocBuf allocEnd
          public_ g dh_privbn p with
      | (0, pub) => (0, dh_privbn, pub)
      | (_, pub) => (-1, dh_privbn, pub)
    | (_, dh_privbn) => (-1, dh_privbn, public_)

/-! ## Diffie-Hellman: the provider, the context and the two operations -/

/-- The status `STATUS_NOT_SUPPORTED` (`0xC00000BB`) as a signed 32-bit `NTSTATUS`. -/
def STATUS_NOT_SUPPORTED : Int := -1073741637

/-- The status `STATUS_NO_MEMORY` (`0xC0000017`) as a signed 32-bit `NTSTATUS`. -/
def STATUS_NO_MEMORY : Int := -1073741801

/-- The macro `BCRYPT_SUCCESS(status)`: the status is not negative. -/
def BCRYPT_SUCCESS (status : Int) : Bool := decide (0 ≤ status)

/-- The constant `BCRYPT_DH_PUBLIC_MAGIC` of `bcrypt.h`, the characters `DHPB`. -/
def BCRYPT_DH_PUBLIC_MAGIC : Nat := 0x42504844

/-- The constant `BCRYPT_DH_PRIVATE_MAGIC` of `bcrypt.h`, the characters `DHPV`. -/
def BCRYPT_DH_PRIVATE_MAGIC : Nat := 0x56504844

/-- The constant `BCRYPT_DH_PARAMETERS_MAGIC` of `bcrypt.h`, the characters `DHPM`. -/
def BCRYPT_DH_PARAMETERS_MAGIC : Nat := 0x4d504844

/-- The header `BCRYPT_DH_PARAMETER_HEADER` of `bcrypt.h`: three `ULONG` fields. -/
structure BCRYPT_DH_PARAMETER_HEADER where
  cbLength : Nat
  dwMagic : Nat
  cbKeyLength : Nat
deriving DecidableEq, Repr

/-- The size `sizeof(BCRYPT_DH_PARAMETER_HEADER)`: three 4-byte fields. -/
def sizeof_BCRYPT_DH_PARAMETER_HEADER : Nat := 12

/-- The header `BCRYPT_DH_KEY_BLOB` of `bcrypt.h`: two `ULONG` fields. -/
structure BCRYPT_DH_KEY_BLOB where
  dwMagic : Nat
  cbKey : Nat
deriving DecidableEq, Repr

/-- The size `sizeof(BCRYPT_DH_KEY_BLOB)`: two 4-byte fields. -/
def sizeof_BCRYPT_DH_KEY_BLOB : Nat := 8

/-- A Diffie-Hellman parameter blob: the header that overlays the first
`sizeof(BCRYPT_DH_PARAMETER_HEADER)` bytes of `blob`, and the bytes of `blob` (in
which the bytes under the header are left 0). -/
structure DhParams where
  header : BCRYPT_DH_PARAMETER_HEADER
  blob : List Nat
deriving DecidableEq, Repr

/-- A Diffie-Hellman key blob; see `DhParams`. -/
structure DhKeyBlob where
  header : BCRYPT_DH_KEY_BLOB
  blob : List Nat
deriving DecidableEq, Repr

/-- The calls that `_libssh2_dh_key_pair`, `_libssh2_dh_secret` and
`_libssh2_dh_dtor` make to the provider on the Diffie-Hellman algorithm handle,
with the arguments that matter:
`BCryptGenerateKeyPair`, `BCryptSetProperty` (of `BCRYPT_DH_PARAMETERS`),
`BCryptFinalizeKeyPair`, `BCryptExportKey` without and with an output buffer,
`BCryptDestroyKey`, `BCryptImportKeyPair` (of a `BCRYPT_DH_PUBLIC_BLOB`),
`BCryptSecretAgreement`, `BCryptDeriveKey` (with `BCRYPT_KDF_RAW_SECRET`) without
and with an output buffer, and `BCryptDestroySecret`. -/
inductive DhCall where
  | GenerateKeyPair (dwLength : Nat)
  | SetProperty (hKey : Nat) (params : DhParams)
  | FinalizeKeyPair (hKey : Nat)
  | ExportKeySize (hKey : Nat) (blobType : BlobType)
  | ExportKey (hKey : Nat) (blobType : BlobType) (cbOutput : Nat)
  | DestroyKey (hKey : Nat)
  | ImportKeyPair (blob : DhKeyBlob)
  | SecretAgreement (hPrivKey hPubKey : Nat)
  | DeriveKeySize (hSecret : Nat)
  | DeriveKey (hSecret : Nat) (cbDerivedKey : Nat)
  | DestroySecret (hSecret : Nat)
deriving DecidableEq, Repr

/-- What a provider call hands back: the status, and where the call has such an
output the handle it created, the size it reported, the header of the key blob
it exported and the bytes it wrote to the output buffer. -/
structure DhResp where
  status : Int
  handle : Nat
  size : Nat
  dwMagic : Nat
  cbKey : Nat
  bytes : List Nat
deriving DecidableEq, Repr

/-- A provider: its answer to a call is a function of the calls made before it
and of the call. -/
abbrev DhProvider := List DhCall → DhCall → DhResp

/-- The part of the global `_libssh2_wincng` that the Diffie-Hellman code reads:
the algorithm handle `hAlgDH` (NULL when the provider has no Diffie-Hellman) and
the capability flag `hasAlgDHwithKDF` (0 unknown, 1 supported, -1 unsupported). -/
structure _libssh2_wincng_ctx where
  hAlgDH : Option Nat
  hasAlgDHwithKDF : Int
deriving DecidableEq, Repr

/-- The type `_libssh2_dh_ctx`. -/
structure _libssh2_dh_ctx where
  dh_handle : Option Nat
  dh_params : Option DhParams
  dh_privbn : Option _libssh2_bn
deriving DecidableEq, Repr

/-- The function `_libssh2_dh_init`. -/
def _libssh2_dh_init : _libssh2_dh_ctx :=
  { dh_handle := none, dh_params := none, dh_privbn := none }

/-- The function `_libssh2_dh_dtor`: the context and the calls afterwards. -/
def _libssh2_dh_dtor (log : List DhCall) (dhctx : _libssh2_dh_ctx) :
    _libssh2_dh_ctx × List DhCall :=
  let log :=
    match dhctx.dh_handle with
    | some h => log ++ [DhCall.DestroyKey h]
    | none => log
  ({ dh_handle := none, dh_params := none, dh_privbn := none }, log)

/-- Outcomes of the allocations of one turn of the loop of
`_libssh2_dh_key_pair`, in the order of the source: the parameter blob, the
export blob, the resize of `public`, `_libssh2_wincng_bignum_init` and the resize
of the private number. -/
structure KeyPairAllocs where
  blobParams : Bool
  blobKey : Bool
  resizePublic : Bool
  initPriv : Bool
  resizePriv : Bool
deriving DecidableEq, Repr

/-- Outcomes of the allocations of the fallback branch of
`_libssh2_dh_key_pair`; see `_libssh2_dh_key_pair_fallback`. -/
structure FallbackAllocs where
  init : Bool
  rand : Bool
  key : Bool
  r : Bool
  buf : Bool
  fin : Bool
deriving DecidableEq, Repr

/-- Outcomes of the allocations of `_libssh2_dh_secret`: the peer blob, the
resize of `secret`, and the four of `_libssh2_wincng_bignum_mod_exp`. -/
structure SecretAllocs where
  blob : Bool
  secret : Bool
  key : Bool
  r : Bool
  buf : Bool
  fin : Bool
deriving DecidableEq, Repr

/-- How one turn of the loop of `_libssh2_dh_key_pair` ends: with a `return`
(`done`) or with `continue` (`again`); in both cases the context, `public` and
the provider calls so far. -/
inductive KeyPairStep where
  | done (status : Int) (dhctx : _libssh2_dh_ctx) (public_ : Option _libssh2_bn)
      (log : List DhCall)
  | again (dhctx : _libssh2_dh_ctx) (public_ : Option _libssh2_bn) (log : List DhCall)
deriving DecidableEq, Repr

/-- The second half of one turn of the loop of `_libssh2_dh_key_pair`: the
statements after the second `BCryptExportKey` call succeeded, from
`if(hasAlgDHwithKDF == -1)` to the end of the loop body.  `hKey` is
`dhctx->dh_handle` and `r5` is what the export wrote: the header fields
`dwMagic` and `cbKey` of the blob and its bytes.  The exported blob holds at
least one byte per field (`cbKey ≥ 1`). -/
def _libssh2_dh_key_pair_store (clear : Bool) (a : KeyPairAllocs) (hasAlgDHwithKDF : Int)
    (log : List DhCall) (dhctx : _libssh2_dh_ctx) (public_ : Option _libssh2_bn)
    (hKey : Nat) (r5 : DhResp) : KeyPairStep :=
  let log := if hasAlgDHwithKDF = -1 then log ++ [DhCall.DestroyKey hKey] else log
  let dhctx := if hasAlgDHwithKDF = -1 then { dhctx with dh_handle := none } else dhctx
  match _libssh2_wincng_bignum_resize clear a.resizePublic public_ r5.cbKey with
  | (0, some pub) =>
    let src := r5.bytes.drop (sizeof_BCRYPT_DH_KEY_BLOB + 2 * r5.cbKey)
    let pub : _libssh2_bn :=
      { bignum := pub.bignum.map (fun buf => memcpy buf 0 src r5.cbKey) }
    if r5.dwMagic = BCRYPT_DH_PRIVATE_MAGIC then
      let privbn := _libssh2_wincng_bignum_init a.initPriv
      let dhctx := { dhctx with dh_privbn := privbn }
      match privbn with
      | none => KeyPairStep.done (-1) dhctx (some pub) log
      | some _ =>
        match _libssh2_wincng_bignum_resize clear a.resizePriv privbn r5.cbKey with
        | (0, some priv) =>
          let src := r5.bytes.drop (sizeof_BCRYPT_DH_KEY_BLOB + 3 * r5.cbKey)
          let priv : _libssh2_bn :=
            { bignum := priv.bignum.map (fun buf => memcpy buf 0 src r5.cbKey) }
          let dhctx := { dhctx with dh_privbn := some priv }
          if priv.bytes.getD (priv.length - 1) 0 % 2 = 0 then
            let (dhctx, log) := _libssh2_dh_dtor log dhctx
            KeyPairStep.again dhctx (some pub) log
          else KeyPairStep.done 0 dhctx (some pub) log
        | (_, priv) =>
          KeyPairStep.done (-1) { dhctx with dh_privbn := priv } (some pub) log
    else KeyPairStep.done 0 dhctx (some pub) log
  | (_, pub) => KeyPairStep.done (-1) dhctx pub log

/-- One turn of the loop `while(_libssh2_wincng.hAlgDH && hasAlgDHwithKDF != -1)`
of `_libssh2_dh_key_pair`: the statements up to the second `BCryptExportKey`
call, then `_libssh2_dh_key_pair_store`.  `g` and `p` are valid numbers and
`group_order` is not negative. -/
def _libssh2_dh_key_pair_body (prov : DhProvider) (clear : Bool) (a : KeyPairAllocs)
    (hasAlgDHwithKDF : Int) (log : List DhCall) (dhctx : _libssh2_dh_ctx)
    (public_ : Option _libssh2_bn) (g p : _libssh2_bn) (group_order : Int) : KeyPairStep :=
  let key_length_bytes := max (round_down group_order 8).toNat (max g.length p.length)
  let c1 := DhCall.GenerateKeyPair (key_length_bytes * 8)
  let r1 := prov log c1
  let log := log ++ [c1]
  if ¬ BCRYPT_SUCCESS r1.status then KeyPairStep.done (-1) dhctx public_ log
  else
    let dhctx := { dhctx with dh_handle := some r1.handle }
    let dh_params_len := sizeof_BCRYPT_DH_PARAMETER_HEADER + 2 * key_length_bytes
    if ¬ a.blobParams then KeyPairStep.done (-1) dhctx public_ log
    else
      let header : BCRYPT_DH_PARAMETER_HEADER := {
        cbLength := dh_params_len
        dwMagic := BCRYPT_DH_PARAMETERS_MAGIC
        cbKeyLength := key_length_bytes }
      match (memcpy_with_be_padding (List.replicate dh_params_len 0)
          sizeof_BCRYPT_DH_PARAMETER_HEADER key_length_bytes p.bytes p.length).bind
          (fun blob => memcpy_with_be_padding blob
            (sizeof_BCRYPT_DH_PARAMETER_HEADER + key_length_bytes) key_length_bytes
            g.bytes g.length) with
      | none => KeyPairStep.done (-1) dhctx public_ log
      | some blob =>
        let dh_params : DhParams := { header := header, blob := blob }
        let c2 := DhCall.SetProperty r1.handle dh_params
        let r2 := prov log c2
        let log := log ++ [c2]
        let dhctx :=
          if hasAlgDHwithKDF = -1 then dhctx else { dhctx with dh_params := some dh_params }
        if ¬ BCRYPT_SUCCESS r2.status then KeyPairStep.done (-1) dhctx public_ log
        else
          let c3 := DhCall.FinalizeKeyPair r1.handle
          let r3 := prov log c3
          let log := log ++ [c3]
          if ¬ BCRYPT_SUCCESS r3.status then KeyPairStep.done (-1) dhctx public_ log
          else
            let key_type :=
              if hasAlgDHwithKDF = 1 then BlobType.BCRYPT_DH_PUBLIC_BLOB
              else BlobType.BCRYPT_DH_PRIVATE_BLOB
            let c4 := DhCall.ExportKeySize r1.handle key_type
            let r4 := prov log c4
            let log := log ++ [c4]
            if ¬ BCRYPT_SUCCESS r4.status then KeyPairStep.done (-1) dhctx public_ log
            else if ¬ a.blobKey then KeyPairStep.done (-1) dhctx public_ log
            else
              let c5 := DhCall.ExportKey r1.handle key_type r4.size
              let r5 := prov log c5
              let log := log ++ [c5]
              if ¬ BCRYPT_SUCCESS r5.status then KeyPairStep.done (-1) dhctx public_ log
              else
                _libssh2_dh_key_pair_store clear a hasAlgDHwithKDF log dhctx public_
                  r1.handle r5

/-- What `_libssh2_dh_key_pair` leaves: the status, the context, `public` and the
provider calls made so far. -/
structure KeyPairResult where
  status : Int
  dhctx : _libssh2_dh_ctx
  public_ : Option _libssh2_bn
  log : List DhCall
deriving DecidableEq, Repr

/-- The function `_libssh2_dh_key_pair`.  The first argument bounds the number of
turns of the loop (`none`: more turns were needed), the second counts the turns
made; turn `i` allocates with the outcomes `allocs i`. -/
def _libssh2_dh_key_pair {κ : Type} (prov : DhProvider) (rsa : RsaProvider κ)
    (random : RandomFill) (clear : Bool) (allocs : Nat → KeyPairAllocs)
    (fb : FallbackAllocs) (G : _libssh2_wincng_ctx) (g p : _libssh2_bn)
    (group_order : Int) :
    Nat → Nat → List DhCall → _libssh2_dh_ctx → Option _libssh2_bn → Option KeyPairResult
  | fuel, turn, log, dhctx, public_ =>
    if G.hAlgDH.isSome ∧ G.hasAlgDHwithKDF ≠ -1 then
      match fuel with
      | 0 => none
      | fuel + 1 =>
        match _libssh2_dh_key_pair_body prov clear (allocs turn) G.hasAlgDHwithKDF log dhctx
            public_ g p group_order with
        | KeyPairStep.done status dhctx public_ log =>
          some { status := status, dhctx := dhctx, public_ := public_, log := log }
        | KeyPairStep.again dhctx public_ log =>
          _libssh2_dh_key_pair prov rsa random clear allocs fb G g p group_order
            fuel (turn + 1) log dhctx public_
    else
      match _libssh2_dh_key_pair_fallback rsa random clear fb.init fb.rand fb.key fb.r
          fb.buf fb.fin public_ (some g) (some p) group_order with
      | (status, dh_privbn, pub) =>
        some { status := status, dhctx := { dhctx with dh_privbn := dh_privbn },
               public_ := pub, log := log }

/-- The loop of `_libssh2_dh_secret` that swaps the bytes at `start` and `end`
while `start < end`; it returns the buffer.  The first argument bounds the number
of turns. -/
def swap_loop : Nat → Nat → Nat → List Nat → List Nat
  | 0, _, _, bignum => bignum
  | fuel + 1, start, end_, bignum =>
    if start < end_ then
      let tmp := bignum.getD end_ 0
      let bignum := bignum.set end_ (bignum.getD start 0)
      let bignum := bignum.set start tmp
      swap_loop fuel (start + 1) (end_ - 1) bignum
    else bignum

/-- The number `secret` after a `BCryptDeriveKey` call wrote `bytes` to the front
of its buffer. -/
def derive_into (sec : _libssh2_bn) (bytes : List Nat) : _libssh2_bn :=
  { bignum := sec.bignum.map (fun buf => memcpy buf 0 bytes bytes.length) }

/-- The number `secret` after the swap loop of `_libssh2_dh_secret` ran from
`secret->bignum` to `secret->bignum + secret->length - 1`. -/
def swap_bytes (length : Nat) (sec : _libssh2_bn) : _libssh2_bn :=
  { bignum := sec.bignum.map (fun buf => swap_loop length 0 (length - 1) buf) }

/-- What `_libssh2_dh_secret` leaves: the status, `secret`, the global and the
provider calls made so far. -/
structure SecretResult where
  status : Int
  secret : Option _libssh2_bn
  G : _libssh2_wincng_ctx
  log : List DhCall
deriving DecidableEq, Repr

/-- The peer blob that `_libssh2_dh_secret` builds from the saved parameters and
the peer's public value `f` (`none`: a padded copy would start before its
block). -/
def _libssh2_dh_secret_blob (dh_params : DhParams) (f : _libssh2_bn) : Option DhKeyBlob :=
  let key_length_bytes := max f.length dh_params.header.cbKeyLength
  let public_blob_len := sizeof_BCRYPT_DH_KEY_BLOB + 3 * key_length_bytes
  let header : BCRYPT_DH_KEY_BLOB :=
    { dwMagic := BCRYPT_DH_PUBLIC_MAGIC, cbKey := key_length_bytes }
  let dest := sizeof_BCRYPT_DH_KEY_BLOB
  let src := dh_params.blob.drop sizeof_BCRYPT_DH_PARAMETER_HEADER
  (memcpy_with_be_padding (List.replicate public_blob_len 0) dest key_length_bytes
      src dh_params.header.cbKeyLength).bind fun blob =>
  (memcpy_with_be_padding blob (dest + key_length_bytes) key_length_bytes
      (src.drop dh_params.header.cbKeyLength) dh_params.header.cbKeyLength).bind fun blob =>
  (memcpy_with_be_padding blob (dest + 2 * key_length_bytes) key_length_bytes
      f.bytes f.length).map fun blob =>
  { header := header, blob := blob }

/-- The function `_libssh2_dh_secret`.  The bytes a `BCryptDeriveKey` call wrote
are copied over the front of the buffer of `secret`; the swap loop runs over the
`secret->length` bytes of the buffer.  The result is `none` where the source
reads outside every object: after a successful derivation into a `secret` whose
buffer is NULL (it then has the length 0 and the derived length is 0), the swap
loop starts with `start = NULL` and `end = NULL - 1`, finds `start < end` and
reads `*end`.  This happens before the flag is assigned. -/
def _libssh2_dh_secret {κ : Type} (prov : DhProvider) (rsa : RsaProvider κ) (clear : Bool)
    (a : SecretAllocs) (G : _libssh2_wincng_ctx) (log : List DhCall)
    (dhctx : _libssh2_dh_ctx) (secret f p : Option _libssh2_bn) : Option SecretResult :=
  let fb (secret : Option _libssh2_bn) (G : _libssh2_wincng_ctx) (log : List DhCall) :
      SecretResult :=
    { status := (_libssh2_wincng_bignum_mod_exp rsa clear a.key a.r a.buf a.fin secret f
        dhctx.dh_privbn p).1,
      secret := (_libssh2_wincng_bignum_mod_exp rsa clear a.key a.r a.buf a.fin secret f
        dhctx.dh_privbn p).2,
      G := G, log := log }
  match G.hAlgDH, dhctx.dh_handle, dhctx.dh_params, f with
  | some _, some dh_handle, some dh_params, some ff =>
    if G.hasAlgDHwithKDF = -1 then some (fb secret G log)
    else if ¬ a.blob then some { status := -1, secret := secret, G := G, log := log }
    else
      match _libssh2_dh_secret_blob dh_params ff with
      | none => some { status := -1, secret := secret, G := G, log := log }
      | some blob =>
        let c1 := DhCall.ImportKeyPair blob
        let r1 := prov log c1
        let log := log ++ [c1]
        if ¬ BCRYPT_SUCCESS r1.status then
          some { status := -1, secret := secret, G := G, log := log }
        else
          let c2 := DhCall.SecretAgreement dh_handle r1.handle
          let r2 := prov log c2
          let log := log ++ [c2]
          if ¬ BCRYPT_SUCCESS r2.status then
            some { status := -1, secret := secret, G := G,
                   log := log ++ [DhCall.DestroyKey r1.handle] }
          else
            let out (log : List DhCall) : List DhCall :=
              log ++ [DhCall.DestroyKey r1.handle, DhCall.DestroySecret r2.handle]
            let c3 := DhCall.DeriveKeySize r2.handle
            let r3 := prov log c3
            let log := log ++ [c3]
            if ¬ BCRYPT_SUCCESS r3.status then
              if r3.status = STATUS_NOT_SUPPORTED then
                some (fb secret { G with hasAlgDHwithKDF := -1 } (out log))
              else some { status := -1, secret := secret, G := G, log := out log }
            else
              match _libssh2_wincng_bignum_resize clear a.secret secret r3.size with
              | (0, some sec) =>
                let c4 := DhCall.DeriveKey r2.handle r3.size
                let r4 := prov log c4
                let log := log ++ [c4]
                let length := sec.length
                let sec := derive_into sec r4.bytes
                if ¬ BCRYPT_SUCCESS r4.status then
                  if r4.status = STATUS_NOT_SUPPORTED then
                    some (fb (some sec) { G with hasAlgDHwithKDF := -1 } (out log))
                  else some { status := -1, secret := some sec, G := G, log := out log }
                else
                  match sec.bignum with
                  | none => none
                  | some _ =>
                    some { status := 0, secret := some (swap_bytes length sec),
                           G := { G with hasAlgDHwithKDF := 1 }, log := out log }
              | (_, sec) => some { status := -1, secret := sec, G := G, log := out log }
  | _, _, _, _ => some (fb secret G log)

/-! ## Decoding of private keys -/

/-- The heap as the decoding functions see it: the number of `malloc` calls made
so far and the number of blocks that are allocated and not freed. -/
structure Heap where
  calls : Nat
  live : Int
deriving DecidableEq, Repr

/-- A `malloc` call: whether it returned memory, which the allocator `alloc`
decides from the number of calls made before, and the heap afterwards. -/
def Heap.malloc (alloc : Nat → Bool) (heap : Heap) : Bool × Heap :=
  (alloc heap.calls,
    { calls := heap.calls + 1, live := if alloc heap.calls then heap.live + 1 else heap.live })

/-- A `free` or `_libssh2_wincng_safe_free` call: nothing happens for a NULL
pointer. -/
def Heap.free {α : Type} (heap : Heap) (ptr : Option α) : Heap :=
  match ptr with
  | none => heap
  | some _ => { heap with live := heap.live - 1 }

/-- The structure types that the file passes to `CryptDecodeObjectEx`. -/
inductive StructType where
  | X509_MULTI_BYTE_UINT
  | X509_SEQUENCE_OF_ANY
  | PKCS_RSA_PRIVATE_KEY
deriving DecidableEq, Repr

/-- What `CryptDecodeObjectEx` decodes to: the bytes of a `CRYPT_DATA_BLOB`
(least-significant byte first) for `X509_MULTI_BYTE_UINT`, the encoded elements
(the `CRYPT_DER_BLOB`s) for `X509_SEQUENCE_OF_ANY`, and the bytes of a legacy
private key blob for `PKCS_RSA_PRIVATE_KEY`. -/
def Decoded : StructType → Type
  | StructType.X509_MULTI_BYTE_UINT => List Nat
  | StructType.X509_SEQUENCE_OF_ANY => List (List Nat)
  | StructType.PKCS_RSA_PRIVATE_KEY => List Nat

/-- The decode primitive `CryptDecodeObjectEx`: `size` is the call without an
output buffer (the size it reports), `decode` the call with one (`none`: the call
returned FALSE). -/
structure CryptDecoder where
  size : StructType → List Nat → Option Nat
  decode : (t : StructType) → List Nat → Option (Decoded t)

/-- The function `_libssh2_wincng_asn_decode`: status, the decoded structure
stored through `ppbDecoded` (`none`: nothing stored) and the heap. -/
def _libssh2_wincng_asn_decode (dec : CryptDecoder) (alloc : Nat → Bool) (heap : Heap)
    (pbEncoded : List Nat) (t : StructType) : Int × Option (Decoded t) × Heap :=
  match dec.size t pbEncoded with
  | none => (-1, none, heap)
  | some _ =>
    match heap.malloc alloc with
    | (false, heap) => (-1, none, heap)
    | (true, heap) =>
      match dec.decode t pbEncoded with
      | none => (-1, none, heap.free (some ()))
      | some d => (0, some d, heap)

/-- The loop `for(index = 0; ((index + offset) < cbOutput) && (index < cbInput);
index++) pbOutput[index + offset] = pbInput[length - index];` of
`_libssh2_wincng_bn_ltob`.  The first argument bounds the number of turns. -/
def bn_ltob_loop (pbInput : List Nat) (length offset cbOutput cbInput : Nat) :
    Nat → Nat → List Nat → List Nat
  | 0, _, pbOutput => pbOutput
  | fuel + 1, index, pbOutput =>
    if index + offset < cbOutput ∧ index < cbInput then
      bn_ltob_loop pbInput length offset cbOutput cbInput fuel (index + 1)
        (pbOutput.set (index + offset) (pbInput.getD (length - index) 0))
    else pbOutput

/-- The function `_libssh2_wincng_bn_ltob`: status, the buffer stored through
`ppbOutput` (`none`: nothing stored) and the heap. -/
def _libssh2_wincng_bn_ltob (alloc : Nat → Bool) (heap : Heap) (pbInput : List Nat) :
    Int × Option (List Nat) × Heap :=
  let cbInput := pbInput.length
  if cbInput < 1 then (0, none, heap)
  else
    let length := cbInput - 1
    let offset := if pbInput.getD length 0 &&& (1 <<< 7) ≠ 0 then 1 else 0
    let cbOutput := cbInput + offset
    match heap.malloc alloc with
    | (false, heap) => (-1, none, heap)
    | (true, heap) =>
      let pbOutput := (List.replicate cbOutput 0).set 0 0
      (0, some (bn_ltob_loop pbInput length offset cbOutput cbInput cbInput 0 pbOutput), heap)

/-- The function `_libssh2_wincng_asn_decode_bn`: status, the pointer stored
through `ppbDecoded` (`none`: nothing stored; `some none`: NULL stored, which
happens for an integer of no bytes) and the heap. -/
def _libssh2_wincng_asn_decode_bn (dec : CryptDecoder) (alloc : Nat → Bool) (heap : Heap)
    (pbEncoded : List Nat) : Int × Option (Option (List Nat)) × Heap :=
  match _libssh2_wincng_asn_decode dec alloc heap pbEncoded StructType.X509_MULTI_BYTE_UINT with
  | (0, some pbInteger, heap) =>
    match _libssh2_wincng_bn_ltob alloc heap pbInteger with
    | (0, pbDecoded, heap) => (0, some pbDecoded, heap.free (some ()))
    | (ret, _, heap) => (ret, none, heap.free (some ()))
  | (ret, _, heap) => (ret, none, heap)

/-- The decoding loop of `_libssh2_wincng_asn_decode_bns` over the elements that
remain: the status of the last call, the pointers stored in `rpbDecoded` so far
(their number is `index`) and the heap.  The loop stops at the first element that
fails. -/
def asn_decode_bns_loop (dec : CryptDecoder) (alloc : Nat → Bool) :
    List (List Nat) → List (Option (List Nat)) → Heap →
      Int × List (Option (List Nat)) × Heap
  | [], rpbDecoded, heap => (0, rpbDecoded, heap)
  | pBlob :: rest, rpbDecoded, heap =>
    match _libssh2_wincng_asn_decode_bn dec alloc heap pBlob with
    | (0, some pbDecoded, heap) =>
      asn_decode_bns_loop dec alloc rest (rpbDecoded ++ [pbDecoded]) heap
    | (0, none, heap) => (-1, rpbDecoded, heap)
    | (ret, _, heap) => (ret, rpbDecoded, heap)

/-- The loops that free every decoded element. -/
def free_all (heap : Heap) : List (Option (List Nat)) → Heap
  | [] => heap
  | ptr :: rest => free_all (heap.free ptr) rest

/-- The function `_libssh2_wincng_asn_decode_bns`: status, the array stored
through `prpbDecoded` with the lengths stored through `prcbDecoded` and the count
stored through `pcbCount` (the list of decoded buffers, `none`: nothing stored),
and the heap. -/
def _libssh2_wincng_asn_decode_bns (dec : CryptDecoder) (alloc : Nat → Bool) (heap : Heap)
    (pbEncoded : List Nat) : Int × Option (List (Option (List Nat))) × Heap :=
  match _libssh2_wincng_asn_decode dec alloc heap pbEncoded StructType.X509_SEQUENCE_OF_ANY with
  | (0, some pbDecoded, heap) =>
    match heap.malloc alloc with
    | (true, heap) =>
      match heap.malloc alloc with
      | (true, heap) =>
        match asn_decode_bns_loop dec alloc pbDecoded [] heap with
        | (0, rpbDecoded, heap) => (0, some rpbDecoded, heap.free (some ()))
        | (ret, rpbDecoded, heap) =>
          let heap := free_all heap rpbDecoded
          let heap := (heap.free (some ())).free (some ())
          (ret, none, heap.free (some ()))
      | (false, heap) => (-1, none, (heap.free (some ())).free (some ()))
    | (false, heap) => (-1, none, heap.free (some ()))
  | (ret, _, heap) => (ret, none, heap)

/-- The function `_libssh2_wincng_dsa_new` with its two `malloc` calls and its
`free` calls made on the heap: `none` as for `_libssh2_wincng_dsa_new_blob`,
otherwise status, context and heap. -/
def _libssh2_wincng_dsa_new_heap {κ : Type} (alloc : Nat → Bool)
    (importKeyPair : DsaKeyBlob → Option κ) (heap : Heap)
    (pdata qdata gdata ydata xdata : Option (List Nat)) :
    Option (Int × Option (libssh2_dsa_ctx κ) × Heap) :=
  match _libssh2_wincng_dsa_new_blob pdata qdata gdata ydata xdata with
  | none => none
  | some blob =>
    match heap.malloc alloc with
    | (false, heap) => some (-1, none, heap)
    | (true, heap) =>
      match importKeyPair blob with
      | none => some (-1, none, heap.free (some ()))
      | some hKey =>
        match heap.malloc alloc with
        | (false, heap) => some (-1, none, heap.free (some ()))
        | (true, heap) => some (0, some { hKey := hKey, pbKeyObject := blob }, heap)

/-- The function `_libssh2_wincng_dsa_new_private_parse`; `pbEncoded` is an
allocated block that the function frees.  The result is `none` as for
`_libssh2_wincng_dsa_new_blob`, otherwise status, the context stored through
`dsa` and the heap. -/
def _libssh2_wincng_dsa_new_private_parse {κ : Type} (dec : CryptDecoder)
    (alloc : Nat → Bool) (importKeyPair : DsaKeyBlob → Option κ) (heap : Heap)
    (pbEncoded : List Nat) : Option (Int × Option (libssh2_dsa_ctx κ) × Heap) :=
  match _libssh2_wincng_asn_decode_bns dec alloc heap pbEncoded with
  | (0, some rpbDecoded, heap) =>
    let heap := heap.free (some pbEncoded)
    let length := rpbDecoded.length
    let finish (ret : Int) (dsa : Option (libssh2_dsa_ctx κ)) (heap : Heap) :
        Int × Option (libssh2_dsa_ctx κ) × Heap :=
      let heap := free_all heap rpbDecoded
      (ret, dsa, (heap.free (some ())).free (some ()))
    if length = 6 then
      match _libssh2_wincng_dsa_new_heap alloc importKeyPair heap
          (rpbDecoded.getD 1 none) (rpbDecoded.getD 2 none) (rpbDecoded.getD 3 none)
          (rpbDecoded.getD 4 none) (rpbDecoded.getD 5 none) with
      | none => none
      | some (ret, dsa, heap) => some (finish ret dsa heap)
    else some (finish (-1) none heap)
  | (_, _, heap) => some (-1, none, heap.free (some pbEncoded))

/-- The function `_libssh2_wincng_rsa_new_private_parse`; `pbEncoded` is an
allocated block that the function frees, `importKeyPair` is `BCryptImportKeyPair`
of a `LEGACY_RSAPRIVATE_BLOB` on the RSA algorithm handle.  The result is the
status, the fields `hKey` and `pbKeyObject` of the context stored through `rsa`,
and the heap. -/
def _libssh2_wincng_rsa_new_private_parse {κ : Type} (dec : CryptDecoder)
    (alloc : Nat → Bool) (importKeyPair : BlobType → List Nat → Option κ) (heap : Heap)
    (pbEncoded : List Nat) : Int × Option (κ × List Nat) × Heap :=
  match _libssh2_wincng_asn_decode dec alloc heap pbEncoded StructType.PKCS_RSA_PRIVATE_KEY with
  | (0, some pbStructInfo, heap) =>
    let heap := heap.free (some pbEncoded)
    match importKeyPair BlobType.LEGACY_RSAPRIVATE_BLOB pbStructInfo with
    | none => (-1, none, heap.free (some ()))
    | some hKey =>
      match heap.malloc alloc with
      | (false, heap) => (-1, none, heap.free (some ()))
      | (true, heap) => (0, some (hKey, pbStructInfo), heap)
  | (_, _, heap) => (-1, none, heap.free (some pbEncoded))

/-! ## The public key of a private key file -/

/-- Modelled from the spec: the library function `_libssh2_htonu32` (of `misc.c`,
which is not among the sources at hand) stores a 32-bit value as four bytes in
network byte order, the most significant byte first. -/
def _libssh2_htonu32 (value : Nat) : List Nat :=
  [value / 2 ^ 24 % 256, value / 2 ^ 16 % 256, value / 2 ^ 8 % 256, value % 256]

/-- The function `_libssh2_wincng_pub_priv_write`: the buffer `key` and the
offset afterwards.  `none`: `memcpy` reads `length > 0` bytes through a NULL
pointer. -/
def _libssh2_wincng_pub_priv_write (key : List Nat) (offset : Nat)
    (bignum : Option (List Nat)) (length : Nat) : Option (List Nat × Nat) :=
  if bignum.isNone ∧ 0 < length then none
  else
    let key := memcpy key offset (_libssh2_htonu32 length) 4
    let offset := offset + 4
    let key := memcpy key offset (bignum.getD []) length
    let offset := offset + length
    some (key, offset)

/-- The characters `ssh-rsa`. -/
def ssh_rsa : List Nat := [0x73, 0x73, 0x68, 0x2d, 0x72, 0x73, 0x61]

/-- The characters `ssh-dss`. -/
def ssh_dss : List Nat := [0x73, 0x73, 0x68, 0x2d, 0x64, 0x73, 0x73]

/-- What `_libssh2_wincng_pub_priv_keyfile_parse` stores through `method`,
`method_len`, `pubkeydata` and `pubkeydata_len`. -/
structure PubPrivKey where
  method : List Nat
  method_len : Nat
  pubkeydata : List Nat
  pubkeydata_len : Nat
deriving DecidableEq, Repr

/-- The end of `_libssh2_wincng_pub_priv_keyfile_parse`, from the loop that frees
the decoded elements: status, what is stored through the output pointers, and
the heap.  `mth` and `key` are blocks of the session allocator. -/
def pub_priv_finish (rpbDecoded : List (Option (List Nat))) (ret : Int)
    (mth key : Option (List Nat)) (mthlen keylen : Nat) (heap : Heap) :
    Int × Option PubPrivKey × Heap :=
  let heap := free_all heap rpbDecoded
  let heap := (heap.free (some ())).free (some ())
  if ret ≠ 0 then (ret, none, heap)
  else
    (ret, some { method := mth.getD [], method_len := mthlen,
                 pubkeydata := key.getD [], pubkeydata_len := keylen }, heap)

/-- The function `_libssh2_wincng_pub_priv_keyfile_parse`; `pbEncoded` is an
allocated block that the function frees, `allocMth` and `allocKey` are the
outcomes of the two `LIBSSH2_ALLOC` calls.  `none`: a
`_libssh2_wincng_pub_priv_write` call reads through a NULL pointer (the method
was not allocated and the key was). -/
def _libssh2_wincng_pub_priv_keyfile_parse (dec : CryptDecoder) (alloc : Nat → Bool)
    (allocMth allocKey : Bool) (heap : Heap) (pbEncoded : List Nat) :
    Option (Int × Option PubPrivKey × Heap) :=
  match _libssh2_wincng_asn_decode_bns dec alloc heap pbEncoded with
  | (0, some rpbDecoded, heap) =>
    let heap := heap.free (some pbEncoded)
    let length := rpbDecoded.length
    let rpb (i : Nat) : Option (List Nat) := rpbDecoded.getD i none
    let rcb (i : Nat) : Nat := bufLen (rpbDecoded.getD i none)
    if length = 9 then
      let mthlen := 7
      let mth := if allocMth then some ssh_rsa else none
      let ret : Int := if allocMth then 0 else -1
      let keylen := 4 + mthlen + 4 + rcb 2 + 4 + rcb 1
      if allocKey then
        (_libssh2_wincng_pub_priv_write (List.replicate keylen 0) 0 mth mthlen).bind
          (fun w1 =>
        (_libssh2_wincng_pub_priv_write w1.1 w1.2 (rpb 2) (rcb 2)).bind
          (fun w2 =>
        (_libssh2_wincng_pub_priv_write w2.1 w2.2 (rpb 1) (rcb 1)).map
          (fun w3 => pub_priv_finish rpbDecoded ret mth (some w3.1) mthlen keylen heap)))
      else some (pub_priv_finish rpbDecoded (-1) mth none mthlen keylen heap)
    else if length = 6 then
      let mthlen := 7
      let mth := if allocMth then some ssh_dss else none
      let ret : Int := if allocMth then 0 else -1
      let keylen := 4 + mthlen + 4 + rcb 1 + 4 + rcb 2 + 4 + rcb 3 + 4 + rcb 4
      if allocKey then
        (_libssh2_wincng_pub_priv_write (List.replicate keylen 0) 0 mth mthlen).bind
          (fun w1 =>
        (_libssh2_wincng_pub_priv_write w1.1 w1.2 (rpb 1) (rcb 1)).bind
          (fun w2 =>
        (_libssh2_wincng_pub_priv_write w2.1 w2.2 (rpb 2) (rcb 2)).bind
          (fun w3 =>
        (_libssh2_wincng_pub_priv_write w3.1 w3.2 (rpb 3) (rcb 3)).bind
          (fun w4 =>
        (_libssh2_wincng_pub_priv_write w4.1 w4.2 (rpb 4) (rcb 4)).map
          (fun w5 => pub_priv_finish rpbDecoded ret mth (some w5.1) mthlen keylen heap)))))
      else some (pub_priv_finish rpbDecoded (-1) mth none mthlen keylen heap)
    else some (pub_priv_finish rpbDecoded (-1) none none 0 0 heap)
  | (_, _, heap) => some (-1, none, heap.free (some pbEncoded))
/-! ## Definitions used in statements and proofs -/

/-- Number of zero bytes at the front of a byte sequence. -/
def leadingZeros : List Nat → Nat
  | [] => 0
  | x :: xs => if x = 0 then leadingZeros xs + 1 else 0


/-- The minimality the data model asks of a stored buffer: no leading zero byte,
unless the value is zero, and then the buffer is the single byte `0x00`. -/
def Minimal (bs : List Nat) : Prop :=
  if beValue bs = 0 then bs = [0] else bs.head? ≠ some 0

instance (bs : List Nat) : Decidable (Minimal bs) := by
  unfold Minimal; infer_instance

/-- The width rule of the key-blob layout: `src` right-aligned in a field of
`width` bytes, zero bytes in front when it is shorter, its last `width` bytes
otherwise. -/
def fitWidth (src : List Nat) (width : Nat) : List Nat :=
  if src.length < width then List.replicate (width - src.length) 0 ++ src
  else src.drop (src.length - width)

/-- The value of `_libssh2_wincng_bn_size` where it is defined (0 elsewhere). -/
def bnSize (data : Option (List Nat)) : Nat := (_libssh2_wincng_bn_size data).getD 0

/-- A buffer argument on which `_libssh2_wincng_bn_size` reads inside the buffer:
a NULL pointer or a buffer of at least one byte. -/
def Readable (data : Option (List Nat)) : Prop := data ≠ some []

instance (data : Option (List Nat)) : Decidable (Readable data) := by
  unfold Readable; infer_instance

/-- The condition `ddata && dlen > 0` (and `xdata && xlen > 0`). -/
def Present (data : Option (List Nat)) : Prop := data.isSome ∧ bufLen data > 0

instance (data : Option (List Nat)) : Decidable (Present data) := by
  unfold Present; infer_instance

/-- Cuts a byte sequence into consecutive fields of the given widths. -/
def splitWidths (bytes : List Nat) : List Nat → List (List Nat)
  | [] => []
  | w :: ws => bytes.take w :: splitWidths (bytes.drop w) ws

/-- The integer fields that follow the header of an RSA key blob, cut at the
widths the header declares, in the order of the `BCRYPT_RSAKEY_BLOB` layout:
PublicExponent, Modulus, and for a full private blob Prime1, Prime2, Exponent1,
Exponent2, Coefficient, PrivateExponent. -/
def rsaFields (blob : RsaKeyBlob) : List (List Nat) :=
  let h := blob.rsakey
  splitWidths (blob.key.drop sizeof_BCRYPT_RSAKEY_BLOB)
    (if h.Magic = BCRYPT_RSAFULLPRIVATE_MAGIC then
      [h.cbPublicExp, h.cbModulus, h.cbPrime1, h.cbPrime2, h.cbPrime1, h.cbPrime2,
        h.cbPrime1, h.cbModulus]
    else [h.cbPublicExp, h.cbModulus])

/-- The arguments of one call of `_libssh2_dh_secret`, the global apart. -/
structure SecretCall (κ : Type) where
  prov : DhProvider
  rsa : RsaProvider κ
  clear : Bool
  allocs : SecretAllocs
  log : List DhCall
  dhctx : _libssh2_dh_ctx
  secret : Option _libssh2_bn
  f : Option _libssh2_bn
  p : Option _libssh2_bn

/-- The global after a sequence of calls of `_libssh2_dh_secret` with arbitrary
arguments.  Calls of `_libssh2_dh_key_pair` in between do not appear: that
function reads the global and has no assignment to it.  A call in which the
source reads outside every object ends the sequence with the global as it was
before that call: the read comes before the assignment to the flag. -/
def globalAfter {κ : Type} : List (SecretCall κ) → _libssh2_wincng_ctx → _libssh2_wincng_ctx
  | [], G => G
  | c :: cs, G =>
    match _libssh2_dh_secret c.prov c.rsa c.clear c.allocs G c.log c.dhctx
        c.secret c.f c.p with
    | some res => globalAfter cs res.G
    | none => G

/-- A provider that answers every call with success and the handle 1, except
that the length query of the raw derivation reports `STATUS_NOT_SUPPORTED`. -/
def noRawKdfProvider : DhProvider := fun _ c =>
  match c with
  | DhCall.DeriveKeySize _ => ⟨STATUS_NOT_SUPPORTED, 0, 0, 0, 0, []⟩
  | _ => ⟨0, 1, 0, 0, 0, []⟩

/-- The answer of the provider to the import of the peer blob, the first call of
the fast path of `_libssh2_dh_secret` after the calls `log`. -/
def importResp (prov : DhProvider) (log : List DhCall) (blob : DhKeyBlob) : DhResp :=
  prov log (DhCall.ImportKeyPair blob)

/-- The answer of the provider to the secret agreement, the second call. -/
def agreementResp (prov : DhProvider) (log : List DhCall) (dh_handle : Nat)
    (blob : DhKeyBlob) : DhResp :=
  prov (log ++ [DhCall.ImportKeyPair blob])
    (DhCall.SecretAgreement dh_handle (importResp prov log blob).handle)

/-- The answer of the provider to the length query of the raw derivation, the
third call. -/
def deriveSizeResp (prov : DhProvider) (log : List DhCall) (dh_handle : Nat)
    (blob : DhKeyBlob) : DhResp :=
  prov (log ++ [DhCall.ImportKeyPair blob] ++
      [DhCall.SecretAgreement dh_handle (importResp prov log blob).handle])
    (DhCall.DeriveKeySize (agreementResp prov log dh_handle blob).handle)

/-- The answer of the provider to the raw derivation into the buffer of
`secret`, the fourth call. -/
def deriveResp (prov : DhProvider) (log : List DhCall) (dh_handle : Nat)
    (blob : DhKeyBlob) : DhResp :=
  prov (log ++ [DhCall.ImportKeyPair blob] ++
      [DhCall.SecretAgreement dh_handle (importResp prov log blob).handle] ++
      [DhCall.DeriveKeySize (agreementResp prov log dh_handle blob).handle])
    (DhCall.DeriveKey (agreementResp prov log dh_handle blob).handle
      (deriveSizeResp prov log dh_handle blob).size)

/-- The provider calls made when the fast path of `_libssh2_dh_secret` stops
after its first `n` calls (import, agreement, length query, derivation), the
releases at the label `out` included. -/
def fastPathLog (prov : DhProvider) (log : List DhCall) (dh_handle : Nat) (blob : DhKeyBlob) :
    Nat → List DhCall
  | 0 => log
  | 1 => log ++ [DhCall.ImportKeyPair blob]
  | 2 => log ++ [DhCall.ImportKeyPair blob] ++
      [DhCall.SecretAgreement dh_handle (importResp prov log blob).handle] ++
      [DhCall.DestroyKey (importResp prov log blob).handle]
  | 3 => log ++ [DhCall.ImportKeyPair blob] ++
      [DhCall.SecretAgreement dh_handle (importResp prov log blob).handle] ++
      [DhCall.DeriveKeySize (agreementResp prov log dh_handle blob).handle] ++
      [DhCall.DestroyKey (importResp prov log blob).handle,
        DhCall.DestroySecret (agreementResp prov log dh_handle blob).handle]
  | _ => log ++ [DhCall.ImportKeyPair blob] ++
      [DhCall.SecretAgreement dh_handle (importResp prov log blob).handle] ++
      [DhCall.DeriveKeySize (agreementResp prov log dh_handle blob).handle] ++
      [DhCall.DeriveKey (agreementResp prov log dh_handle blob).handle
        (deriveSizeResp prov log dh_handle blob).size] ++
      [DhCall.DestroyKey (importResp prov log blob).handle,
        DhCall.DestroySecret (agreementResp prov log dh_handle blob).handle]

/-- A provider for `_libssh2_wincng_bignum_mod_exp` that imports every key and
reports an output size of 1 byte, and whose encrypt call into the output buffer
fails. -/
def failingEncryptProvider : RsaProvider Unit where
  importKeyPair := fun _ => some ()
  encryptSize := fun _ _ => some 1
  encrypt := fun _ _ _ => none

/-- The key blob that `_libssh2_wincng_bignum_mod_exp` builds from `p` and `m`
and imports. -/
def modExpKeyBlob (p m : _libssh2_bn) : RsaKeyBlob :=
  { lpszBlobType := BlobType.BCRYPT_RSAPUBLIC_BLOB,
    rsakey := {
      Magic := BCRYPT_RSAPUBLIC_MAGIC
      BitLength := m.length * 8
      cbPublicExp := p.length
      cbModulus := m.length
      cbPrime1 := 0
      cbPrime2 := 0 },
    key := memcpy
      (memcpy (List.replicate (sizeof_BCRYPT_RSAKEY_BLOB + p.length + m.length) 0)
        sizeof_BCRYPT_RSAKEY_BLOB p.bytes p.length)
      (sizeof_BCRYPT_RSAKEY_BLOB + p.length) m.bytes m.length }

/-- What `_libssh2_wincng_asn_decode_bn` stores for the encoded integer `blob`
when every allocation succeeds (`none`: the integer does not decode). -/
def decodeInteger (dec : CryptDecoder) (blob : List Nat) : Option (Option (List Nat)) :=
  (_libssh2_wincng_asn_decode_bn dec (fun _ => true) ⟨0, 0⟩ blob).2.1

/-- The number of allocated blocks among decoded elements (a NULL element is no
block). -/
def liveBlocks : List (Option (List Nat)) → Int
  | [] => 0
  | none :: rest => liveBlocks rest
  | some _ :: rest => liveBlocks rest + 1

/-- A decoder that takes every input for the sequence of the six elements `01`
to `06`, and takes an element for the integer of the same bytes, except that
the element `bad` does not decode. -/
def sixElementDecoder (bad : List Nat) : CryptDecoder where
  size := fun t e =>
    match t with
    | StructType.X509_MULTI_BYTE_UINT => if e = bad then none else some 16
    | _ => some 16
  decode := fun t e =>
    match t with
    | StructType.X509_MULTI_BYTE_UINT => if e = bad then none else some e
    | StructType.X509_SEQUENCE_OF_ANY => some [[1], [2], [3], [4], [5], [6]]
    | StructType.PKCS_RSA_PRIVATE_KEY => some e

/-- The number of `BCryptGenerateKeyPair` calls among the provider calls. -/
def countGenerations : List DhCall → Nat
  | [] => 0
  | DhCall.GenerateKeyPair _ :: cs => countGenerations cs + 1
  | _ :: cs => countGenerations cs

/-- The number of `BCryptExportKey` calls into an output buffer among the
provider calls. -/
def countExports : List DhCall → Nat
  | [] => 0
  | DhCall.ExportKey _ _ _ :: cs => countExports cs + 1
  | _ :: cs => countExports cs

/-- The private value in an exported `BCRYPT_DH_PRIVATE_BLOB`: the fourth field
of `cbKey` bytes after the header. -/
def dhPrivateField (r : DhResp) : List Nat :=
  (r.bytes.drop (sizeof_BCRYPT_DH_KEY_BLOB + 3 * r.cbKey)).take r.cbKey

/-- A provider with keys of one byte that answers every call with success and
the handle 1; it exports modulus 23, generator 5 and public value 8, and as the
private value 4 in its first `k` exports and 3 afterwards.  A public blob holds
no private value. -/
def retryProvider (k : Nat) : DhProvider := fun log c =>
  match c with
  | DhCall.ExportKeySize _ t =>
    if t = BlobType.BCRYPT_DH_PRIVATE_BLOB then ⟨0, 0, 12, 0, 0, []⟩ else ⟨0, 0, 11, 0, 0, []⟩
  | DhCall.ExportKey _ t _ =>
    if t = BlobType.BCRYPT_DH_PRIVATE_BLOB then
      ⟨0, 0, 12, BCRYPT_DH_PRIVATE_MAGIC, 1,
        List.replicate 8 0 ++ [23, 5, 8, if countExports log < k then 4 else 3]⟩
    else ⟨0, 0, 11, BCRYPT_DH_PUBLIC_MAGIC, 1, List.replicate 8 0 ++ [23, 5, 8]⟩
  | _ => ⟨0, 1, 0, 0, 0, []⟩

/-- The key width of `_libssh2_dh_key_pair`:
`max(round_down(group_order, 8), max(g->length, p->length))`. -/
def dhKeyLength (g p : _libssh2_bn) (group_order : Int) : Nat :=
  max (round_down group_order 8).toNat (max g.length p.length)

/-- The Diffie-Hellman parameters as the blob layout describes them for the key
width `k = dhKeyLength g p group_order`: the header declares the total length,
the parameters magic and the width `k`; after the header come `p` and then `g`,
each right-aligned in `k` bytes.  (The header bytes of `blob` are 0: the header
is kept as a record.) -/
def dhParamsBlob (g p : _libssh2_bn) (group_order : Int) : DhParams :=
  { header := {
      cbLength := sizeof_BCRYPT_DH_PARAMETER_HEADER + 2 * dhKeyLength g p group_order
      dwMagic := BCRYPT_DH_PARAMETERS_MAGIC
      cbKeyLength := dhKeyLength g p group_order },
    blob := List.replicate sizeof_BCRYPT_DH_PARAMETER_HEADER 0 ++
      fitWidth p.bytes (dhKeyLength g p group_order) ++
      fitWidth g.bytes (dhKeyLength g p group_order) }

/-- The blob type that `_libssh2_dh_key_pair` asks the provider to export. -/
def dhKeyType (flag : Int) : BlobType :=
  if flag = 1 then BlobType.BCRYPT_DH_PUBLIC_BLOB else BlobType.BCRYPT_DH_PRIVATE_BLOB

/-- The key handle that the provider hands out in a turn of the loop of
`_libssh2_dh_key_pair` that starts after the calls `log`. -/
def keyPairHandle (prov : DhProvider) (log : List DhCall) (g p : _libssh2_bn)
    (group_order : Int) : Nat :=
  (prov log (DhCall.GenerateKeyPair (dhKeyLength g p group_order * 8))).handle

/-- The provider calls after the first `n` calls of a turn of the loop of
`_libssh2_dh_key_pair` that starts after the calls `log`: key generation, the
parameters, finalisation, the size query of the export, the export. -/
def keyPairTurnLog (prov : DhProvider) (log : List DhCall) (g p : _libssh2_bn)
    (group_order : Int) (flag : Int) : Nat → List DhCall
  | 0 => log
  | 1 => log ++ [DhCall.GenerateKeyPair (dhKeyLength g p group_order * 8)]
  | 2 => log ++ [DhCall.GenerateKeyPair (dhKeyLength g p group_order * 8)] ++
      [DhCall.SetProperty (keyPairHandle prov log g p group_order)
        (dhParamsBlob g p group_order)]
  | 3 => log ++ [DhCall.GenerateKeyPair (dhKeyLength g p group_order * 8)] ++
      [DhCall.SetProperty (keyPairHandle prov log g p group_order)
        (dhParamsBlob g p group_order)] ++
      [DhCall.FinalizeKeyPair (keyPairHandle prov log g p group_order)]
  | 4 => log ++ [DhCall.GenerateKeyPair (dhKeyLength g p group_order * 8)] ++
      [DhCall.SetProperty (keyPairHandle prov log g p group_order)
        (dhParamsBlob g p group_order)] ++
      [DhCall.FinalizeKeyPair (keyPairHandle prov log g p group_order)] ++
      [DhCall.ExportKeySize (keyPairHandle prov log g p group_order) (dhKeyType flag)]
  | _ => log ++ [DhCall.GenerateKeyPair (dhKeyLength g p group_order * 8)] ++
      [DhCall.SetProperty (keyPairHandle prov log g p group_order)
        (dhParamsBlob g p group_order)] ++
      [DhCall.FinalizeKeyPair (keyPairHandle prov log g p group_order)] ++
      [DhCall.ExportKeySize (keyPairHandle prov log g p group_order) (dhKeyType flag)] ++
      [DhCall.ExportKey (keyPairHandle prov log g p group_order) (dhKeyType flag)
        (prov (log ++ [DhCall.GenerateKeyPair (dhKeyLength g p group_order * 8)] ++
          [DhCall.SetProperty (keyPairHandle prov log g p group_order)
            (dhParamsBlob g p group_order)] ++
          [DhCall.FinalizeKeyPair (keyPairHandle prov log g p group_order)])
          (DhCall.ExportKeySize (keyPairHandle prov log g p group_order)
            (dhKeyType flag))).size]

/-- The key blob that the provider exports in a turn of the loop of
`_libssh2_dh_key_pair` that starts after the calls `log`. -/
def keyPairExportResp (prov : DhProvider) (log : List DhCall) (g p : _libssh2_bn)
    (group_order : Int) (flag : Int) : DhResp :=
  prov (keyPairTurnLog prov log g p group_order flag 4)
    (DhCall.ExportKey (keyPairHandle prov log g p group_order) (dhKeyType flag)
      (prov (keyPairTurnLog prov log g p group_order flag 3)
        (DhCall.ExportKeySize (keyPairHandle prov log g p group_order)
          (dhKeyType flag))).size)

/-- The blob types of the export calls (size queries included) among the
provider calls, in order. -/
def exportTypes : List DhCall → List BlobType
  | [] => []
  | DhCall.ExportKeySize _ t :: cs => t :: exportTypes cs
  | DhCall.ExportKey _ t _ :: cs => t :: exportTypes cs
  | _ :: cs => exportTypes cs

/-- The public value in an exported Diffie-Hellman key blob: the third field of
`cbKey` bytes after the header. -/
def dhPublicField (r : DhResp) : List Nat :=
  (r.bytes.drop (sizeof_BCRYPT_DH_KEY_BLOB + 2 * r.cbKey)).take r.cbKey

/-- The value of a byte sequence read least-significant byte first. -/
def leValue : List Nat → Nat
  | [] => 0
  | x :: xs => x + 256 * leValue xs

/-- A decoder that takes every input for the sequence of the elements `elems`,
and takes an element for the integer whose bytes, least significant first, are
the bytes of the element. -/
def listDecoder (elems : List (List Nat)) : CryptDecoder where
  size := fun _ _ => some 16
  decode := fun t e =>
    match t with
    | StructType.X509_MULTI_BYTE_UINT => some e
    | StructType.X509_SEQUENCE_OF_ANY => some elems
    | StructType.PKCS_RSA_PRIVATE_KEY => some e

/-- A buffer of `n` bytes whose first byte is below `2 ^ b`. -/
def TopBounded (n b : Nat) (l : List Nat) : Prop :=
  l.length = n ∧ IsBytes l ∧ l.getD 0 0 < 2 ^ b

/-- The private exponent of the fallback branch of `_libssh2_dh_key_pair`, from
`n` random bytes `f 0 .. f (n - 1)`: the first byte is masked to its 7
low bits and its bit 6 is set, the last byte has its bit 0 set, every other bit
is the random one. -/
def fallbackPrivateBytes (f : Nat → Nat) (n : Nat) : List Nat :=
  (List.range n).map (fun i =>
    if i = 0 then
      if i + 1 = n then ((f i &&& 127) ||| 64) ||| 1 else (f i &&& 127) ||| 64
    else if i + 1 = n then f i ||| 1 else f i)

/-- The provider calls made when a turn of the loop of `_libssh2_dh_key_pair`
ends. -/
def KeyPairStep.calls : KeyPairStep → List DhCall
  | KeyPairStep.done _ _ _ log => log
  | KeyPairStep.again _ _ log => log

/-- The calls are all `BCryptDestroyKey` calls. -/
def OnlyDestroys (d : List DhCall) : Prop :=
  ∀ c ∈ d, ∃ h, c = DhCall.DestroyKey h

/-- What `_libssh2_dh_key_pair` leaves with the provider `retryProvider 0`, the
flag Unknown, the generator 5, the modulus 23 and the group order 1, when every
allocation succeeds: one turn of five provider calls. -/
def retryResult : KeyPairResult :=
  ⟨0,
    ⟨some 1, some ⟨⟨14, BCRYPT_DH_PARAMETERS_MAGIC, 1⟩, List.replicate 12 0 ++ [23, 5]⟩,
      some ⟨some [3]⟩⟩,
    some ⟨some [8]⟩,
    [DhCall.GenerateKeyPair 8,
      DhCall.SetProperty 1 ⟨⟨14, BCRYPT_DH_PARAMETERS_MAGIC, 1⟩, List.replicate 12 0 ++ [23, 5]⟩,
      DhCall.FinalizeKeyPair 1,
      DhCall.ExportKeySize 1 BlobType.BCRYPT_DH_PRIVATE_BLOB,
      DhCall.ExportKey 1 BlobType.BCRYPT_DH_PRIVATE_BLOB 12]⟩

/-- The big-endian encoding of `v` in exactly `width` bytes (of `v` modulo
`256 ^ width`). -/
def toBE (v : Nat) : Nat → List Nat
  | 0 => []
  | width + 1 => toBE (v / 256) width ++ [v % 256]

/-- A provider whose no-padding RSA public-key encrypt is exact modular
exponentiation: the key handle is the imported blob, the reported size is the
declared modulus width, and the output is the big-endian encoding, in that
width, of `input ^ PublicExponent mod Modulus`. -/
def exactModExpProvider : RsaProvider RsaKeyBlob where
  importKeyPair := fun blob => some blob
  encryptSize := fun blob _ => some blob.rsakey.cbModulus
  encrypt := fun blob input _ =>
    some (toBE (beValue input ^ beValue ((rsaFields blob).getD 0 []) %
      beValue ((rsaFields blob).getD 1 [])) blob.rsakey.cbModulus)

/-- The value of a number: its bytes read most-significant byte first. -/
def _libssh2_bn.value (bn : _libssh2_bn) : Nat := beValue bn.bytes

/-- The encoding `string(x)` of the SSH wire format: the length of `x` as four
bytes, most significant first, then `x`. -/
def sshString (x : List Nat) : List Nat := toBE x.length 4 ++ x
/-! ## Auxiliary facts -/

theorem leadingZeros_le (l : List Nat) : leadingZeros l ≤ l.length := by
  induction l with
  | nil => simp [leadingZeros]
  | cons x xs ih =>
    simp only [leadingZeros, List.length_cons]
    split <;> omega

theorem getD_of_lt_leadingZeros (l : List Nat) (i : Nat) (h : i < leadingZeros l) :
    l.getD i 0 = 0 := by
  induction l generalizing i with
  | nil => simp [leadingZeros] at h
  | cons x xs ih =>
    simp only [leadingZeros] at h
    split at h
    · cases i with
      | zero => simpa using ‹x = 0›
      | succ j =>
        have := ih j (by omega)
        simpa using this
    · omega

theorem getD_leadingZeros_ne (l : List Nat) (h : leadingZeros l < l.length) :
    l.getD (leadingZeros l) 0 ≠ 0 := by
  induction l with
  | nil => simp at h
  | cons x xs ih =>
    simp only [leadingZeros, List.length_cons] at h ⊢
    split
    · rename_i hx
      rw [if_pos hx] at h
      have := ih (by omega)
      simpa using this
    · rename_i hx
      simpa using hx

theorem drop_leadingZeros (l : List Nat) :
    l.drop (leadingZeros l) = l.dropWhile (fun x => x == 0) := by
  induction l with
  | nil => simp [leadingZeros]
  | cons x xs ih =>
    simp only [leadingZeros]
    by_cases hx : x = 0
    · simp [hx, ih]
    · simp [hx]

theorem leadingZeros_eq_length_iff (l : List Nat) :
    leadingZeros l = l.length ↔ ∀ x ∈ l, x = 0 := by
  induction l with
  | nil => simp [leadingZeros]
  | cons x xs ih =>
    simp only [leadingZeros, List.length_cons, List.mem_cons, forall_eq_or_imp]
    by_cases hx : x = 0
    · simp [hx, ih]
    · simp [hx]

theorem skipZeros_eq (l : List Nat) (length : Nat) (hlen : length < l.length) :
    ∀ (fuel offset : Nat), offset ≤ leadingZeros l → offset ≤ length →
      length ≤ offset + fuel →
      skipZeros l length fuel offset = min (leadingZeros l) length := by
  intro fuel
  induction fuel with
  | zero =>
    intro offset h1 h2 h3
    simp only [skipZeros]
    omega
  | succ fuel ih =>
    intro offset h1 h2 h3
    simp only [skipZeros]
    split
    · rename_i hc
      have hne : offset ≠ leadingZeros l := by
        intro he
        have := getD_leadingZeros_ne l (by omega)
        rw [← he] at this
        exact this hc.1
      exact ih (offset + 1) (by omega) (by omega) (by omega)
    · rename_i hc
      by_cases hz : l.getD offset 0 = 0
      · have : ¬ offset < length := fun h => hc ⟨hz, h⟩
        omega
      · have : ¬ offset < leadingZeros l := fun h => hz (getD_of_lt_leadingZeros l offset h)
        omega

theorem shiftCount_eq : ∀ (fuel number bits : Nat), number ≤ fuel →
    shiftCount fuel number bits = bits + Nat.log2 number := by
  intro fuel
  induction fuel with
  | zero =>
    intro number bits h
    have : number = 0 := by omega
    subst this
    simp [shiftCount, Nat.log2]
  | succ fuel ih =>
    intro number bits h
    simp only [shiftCount]
    split
    · rename_i hc
      rw [ih (number / 2) (bits + 1) (by omega)]
      have h2 : number ≥ 2 := by omega
      conv_rhs => rw [Nat.log2]
      rw [if_pos h2]
      omega
    · rename_i hc
      have h2 : ¬ number ≥ 2 := by omega
      rw [Nat.log2, if_neg h2]
      rfl


theorem foldl_be (l : List Nat) (a : Nat) :
    l.foldl (fun acc x => acc * 256 + x) a = a * 256 ^ l.length + beValue l := by
  induction l generalizing a with
  | nil => simp [beValue]
  | cons x xs ih =>
    simp only [List.foldl_cons, List.length_cons, beValue]
    rw [ih (a * 256 + x), ih (0 * 256 + x)]
    ring

theorem beValue_cons (x : Nat) (l : List Nat) :
    beValue (x :: l) = x * 256 ^ l.length + beValue l := by
  have := foldl_be l (0 * 256 + x)
  simp only [beValue, List.foldl_cons] at this ⊢
  rw [this]; simp [beValue]

theorem beValue_lt (l : List Nat) (h : IsBytes l) : beValue l < 256 ^ l.length := by
  induction l with
  | nil => simp [beValue]
  | cons x xs ih =>
    rw [beValue_cons, List.length_cons, pow_succ]
    have hx : x < 256 := h x (by simp)
    have := ih (fun y hy => h y (by simp [hy]))
    nlinarith

theorem beValue_replicate_zero (n : Nat) : beValue (List.replicate n 0) = 0 := by
  induction n with
  | zero => simp [beValue]
  | succ n ih => rw [List.replicate_succ, beValue_cons, ih]; simp

theorem beValue_append (l₁ l₂ : List Nat) :
    beValue (l₁ ++ l₂) = beValue l₁ * 256 ^ l₂.length + beValue l₂ := by
  simp only [beValue, List.foldl_append]
  rw [foldl_be]; rfl

theorem beValue_drop_leadingZeros (l : List Nat) :
    beValue (l.drop (leadingZeros l)) = beValue l := by
  induction l with
  | nil => simp [leadingZeros]
  | cons x xs ih =>
    simp only [leadingZeros]
    by_cases hx : x = 0
    · simp [hx, ih, beValue_cons]
    · simp [hx]

theorem log2_mul_pow_add (x k r : Nat) (hx : x ≠ 0) (hr : r < 2 ^ k) :
    Nat.log2 (x * 2 ^ k + r) = Nat.log2 x + k := by
  have hpos : x * 2 ^ k + r ≠ 0 := by
    have : 0 < x * 2 ^ k := Nat.mul_pos (Nat.pos_of_ne_zero hx) (by positivity)
    omega
  apply Nat.le_antisymm
  · have h1 : x < 2 ^ (Nat.log2 x + 1) := Nat.lt_log2_self
    have h2 : x * 2 ^ k + r < 2 ^ (Nat.log2 x + k + 1) := by
      have : x + 1 ≤ 2 ^ (Nat.log2 x + 1) := h1
      calc x * 2 ^ k + r < (x + 1) * 2 ^ k := by nlinarith
        _ ≤ 2 ^ (Nat.log2 x + 1) * 2 ^ k := Nat.mul_le_mul_right _ this
        _ = 2 ^ (Nat.log2 x + k + 1) := by ring
    have := (Nat.log2_lt hpos).2 h2
    omega
  · apply (Nat.le_log2 hpos).2
    have h1 : 2 ^ Nat.log2 x ≤ x := Nat.log2_self_le hx
    calc 2 ^ (Nat.log2 x + k) = 2 ^ Nat.log2 x * 2 ^ k := by ring
      _ ≤ x * 2 ^ k := Nat.mul_le_mul_right _ h1
      _ ≤ x * 2 ^ k + r := Nat.le_add_right _ _

theorem log2_byte_le (x : Nat) (h : x < 256) : Nat.log2 x ≤ 7 := by
  by_cases hx : x = 0
  · subst hx; simp [Nat.log2]
  · have := (Nat.log2_lt hx (k := 8)).2 (by simpa using h)
    omega

/-- The bit count computed by `_libssh2_wincng_bignum_bits` on a non-empty buffer. -/
theorem bignum_bits_eq (l : List Nat) (hl : l ≠ []) :
    _libssh2_wincng_bignum_bits (some { bignum := some l }) =
      (l.length - 1 - min (leadingZeros l) (l.length - 1)) * 8 +
        Nat.log2 (l.getD (min (leadingZeros l) (l.length - 1)) 0) + 1 := by
  have hlen : 0 < l.length := List.length_pos.mpr hl
  simp only [_libssh2_wincng_bignum_bits]
  rw [if_neg (by omega)]
  rw [skipZeros_eq l (l.length - 1) (by omega) (l.length - 1) 0 (by omega) (by omega) (by omega)]
  rw [shiftCount_eq _ _ _ (le_refl _)]


theorem length_realloc (p : Option (List Nat)) (n : Nat) : (realloc p n).length = n := by
  simp only [realloc, List.length_append, List.length_take, List.length_replicate]
  omega

theorem resize_ok (clear : Bool) (bn : _libssh2_bn) (n : Nat) (hn : n ≠ 0) :
    ∃ buf, _libssh2_wincng_bignum_resize clear true (some bn) n =
        (0, some { bignum := some buf }) ∧ buf.length = n := by
  simp only [_libssh2_wincng_bignum_resize]
  by_cases h : n = bn.length
  · rw [if_pos h]
    obtain ⟨bg⟩ := bn
    cases bg with
    | none => simp [_libssh2_bn.length] at h; exact absurd h hn
    | some bs => exact ⟨bs, rfl, by simpa [_libssh2_bn.length] using h.symm⟩
  · rw [if_neg h, if_neg hn]
    exact ⟨_, rfl, length_realloc _ _⟩

theorem memcpy_full (buf src : List Nat) (h : buf.length = src.length) :
    memcpy buf 0 src src.length = src := by
  simp [memcpy, ← h]

/-- The buffer `_libssh2_wincng_bignum_from_bin` leaves when both allocations succeed. -/
theorem from_bin_eq (clear : Bool) (bn : _libssh2_bn) (b : List Nat) (hb : b ≠ [])
    (hbytes : IsBytes b) :
    _libssh2_wincng_bignum_from_bin clear true true (some bn) (some b) =
      some { bignum := some (b.drop (min (leadingZeros b) (b.length - 1))) } := by
  have hlen : 0 < b.length := List.length_pos.mpr hb
  obtain ⟨buf, hres, hbuf⟩ := resize_ok clear bn b.length (by omega)
  simp only [_libssh2_wincng_bignum_from_bin]
  rw [if_neg (by omega), hres]
  simp only [Option.getD_some]
  rw [memcpy_full buf b hbuf, bignum_bits_eq b hb]
  set k := min (leadingZeros b) (b.length - 1) with hk
  have hkle : k ≤ b.length - 1 := Nat.min_le_right _ _
  have hx : b.getD k 0 < 256 := by
    rw [List.getD_eq_getElem _ _ (by omega)]
    exact hbytes _ (List.getElem_mem _)
  have hlog := log2_byte_le _ hx
  have hlength : ((b.length - 1 - k) * 8 + Nat.log2 (b.getD k 0) + 1 + 7) / 8 = b.length - k := by
    omega
  rw [hlength]
  have hoff : b.length - (b.length - k) = k := by omega
  rw [hoff]
  by_cases hk0 : k > 0
  · rw [if_pos hk0]
    simp only [if_true]
    have hmoved : memcpy b 0 (List.drop k b) (b.length - k) = b.drop k ++ b.drop (b.length - k) := by
      simp [memcpy]
    rw [hmoved]
    congr 2
    cases clear
    · simp [realloc]
    · simp [realloc, memset]
  · rw [if_neg hk0]
    have : k = 0 := by omega
    simp [this]

theorem leadingZeros_lt_of_beValue_ne (l : List Nat) (h : beValue l ≠ 0) :
    leadingZeros l < l.length := by
  rcases Nat.lt_or_ge (leadingZeros l) l.length with h1 | h1
  · exact h1
  · exfalso
    apply h
    rw [← beValue_drop_leadingZeros, List.drop_eq_nil_of_le h1]
    rfl

theorem canonical_eq (b : List Nat) (hb : b ≠ []) :
    b.drop (min (leadingZeros b) (b.length - 1)) =
      if ∀ x ∈ b, x = 0 then [0] else b.dropWhile (fun x => x == 0) := by
  have hlen : 0 < b.length := List.length_pos.mpr hb
  by_cases hz : ∀ x ∈ b, x = 0
  · rw [if_pos hz]
    have hl := (leadingZeros_eq_length_iff b).2 hz
    rw [hl, Nat.min_eq_right (by omega)]
    rw [List.drop_eq_getElem_cons (by omega)]
    have : b[b.length - 1] = 0 := hz _ (List.getElem_mem _)
    rw [this, List.drop_eq_nil_of_le (by omega)]
  · rw [if_neg hz]
    have hl : leadingZeros b ≠ b.length := fun h => hz ((leadingZeros_eq_length_iff b).1 h)
    have := leadingZeros_le b
    rw [Nat.min_eq_left (by omega), drop_leadingZeros]

/-- C1. Round trip: for every non-empty byte sequence `b`, importing `b` into a
fresh number (both allocations succeeding) and exporting it writes, at the front
of the destination, `b` without its leading zero bytes when `b` has a non-zero
byte, and the single byte `0x00` when `b` is all zeros; the rest of the
destination is untouched. -/
theorem from_bin_to_bin_roundtrip (clear : Bool) (b dst : List Nat) (hb : b ≠ [])
    (hbytes : IsBytes b) :
    _libssh2_wincng_bignum_to_bin
        (_libssh2_wincng_bignum_from_bin clear true true
          (_libssh2_wincng_bignum_init true) (some b))
        (some dst) =
      some ((if ∀ x ∈ b, x = 0 then [0] else b.dropWhile (fun x => x == 0)) ++
        dst.drop (if ∀ x ∈ b, x = 0 then 1 else (b.dropWhile (fun x => x == 0)).length)) := by
  have hinit : _libssh2_wincng_bignum_init true = some { bignum := none } := rfl
  rw [hinit, from_bin_eq clear _ b hb hbytes, canonical_eq b hb]
  have hlen : 0 < b.length := List.length_pos.mpr hb
  by_cases hz : ∀ x ∈ b, x = 0
  · simp only [if_pos hz]
    simp [_libssh2_wincng_bignum_to_bin, _libssh2_bn.length, memcpy]
  · simp only [if_neg hz]
    have hne : b.dropWhile (fun x => x == 0) ≠ [] := by
      rw [← drop_leadingZeros]
      have hl : leadingZeros b ≠ b.length := fun h => hz ((leadingZeros_eq_length_iff b).1 h)
      have := leadingZeros_le b
      intro h
      have := congrArg List.length h
      simp at this
      omega
    have hpos : (b.dropWhile (fun x => x == 0)).length > 0 := List.length_pos.mpr hne
    simp only [_libssh2_wincng_bignum_to_bin, _libssh2_bn.length]
    rw [if_pos hpos]
    simp [memcpy]

theorem from_bin_to_bin_roundtrip_witness :
    [0, 0, 1, 0, 2] ≠ [] ∧ IsBytes [0, 0, 1, 0, 2] ∧
    _libssh2_wincng_bignum_to_bin
        (_libssh2_wincng_bignum_from_bin true true true
          (_libssh2_wincng_bignum_init true) (some [0, 0, 1, 0, 2]))
        (some [9, 9, 9, 9, 9]) = some [1, 0, 2, 9, 9] :=
  ⟨by decide, by decide,
    from_bin_to_bin_roundtrip true [0, 0, 1, 0, 2] [9, 9, 9, 9, 9] (by decide) (by decide)⟩

/-- C4. Bit length: for every buffer of bytes whose big-endian value `v` is not
zero (whatever the number of leading zero bytes), `_libssh2_wincng_bignum_bits`
returns `floor(log2 v) + 1`; for a NULL number, a NULL buffer or an empty buffer
it returns 0. -/
theorem bignum_bits_significant (l : List Nat) (hbytes : IsBytes l) (hv : beValue l ≠ 0) :
    _libssh2_wincng_bignum_bits (some { bignum := some l }) = Nat.log2 (beValue l) + 1 ∧
    _libssh2_wincng_bignum_bits none = 0 ∧
    _libssh2_wincng_bignum_bits (some { bignum := none }) = 0 ∧
    _libssh2_wincng_bignum_bits (some { bignum := some [] }) = 0 := by
  refine ⟨?_, rfl, rfl, rfl⟩
  have hl : l ≠ [] := by
    rintro rfl
    exact hv rfl
  have hlt := leadingZeros_lt_of_beValue_ne l hv
  rw [bignum_bits_eq l hl, Nat.min_eq_left (by omega)]
  have hx0 := getD_leadingZeros_ne l hlt
  have hdrop : l.drop (leadingZeros l) =
      l.getD (leadingZeros l) 0 :: l.drop (leadingZeros l + 1) := by
    rw [List.drop_eq_getElem_cons hlt, List.getD_eq_getElem _ _ hlt]
  have hval : beValue l = l.getD (leadingZeros l) 0 * 2 ^ ((l.length - 1 - leadingZeros l) * 8) +
      beValue (l.drop (leadingZeros l + 1)) := by
    rw [← beValue_drop_leadingZeros, hdrop, beValue_cons, List.length_drop]
    have : (256 : Nat) ^ (l.length - (leadingZeros l + 1)) =
        2 ^ ((l.length - 1 - leadingZeros l) * 8) := by
      rw [show (256 : Nat) = 2 ^ 8 by norm_num, ← pow_mul]
      congr 1; omega
    rw [this]
  have hrest : beValue (l.drop (leadingZeros l + 1)) < 2 ^ ((l.length - 1 - leadingZeros l) * 8) := by
    have h1 := beValue_lt (l.drop (leadingZeros l + 1))
      (fun y hy => hbytes y (List.mem_of_mem_drop hy))
    rw [List.length_drop] at h1
    have : (256 : Nat) ^ (l.length - (leadingZeros l + 1)) =
        2 ^ ((l.length - 1 - leadingZeros l) * 8) := by
      rw [show (256 : Nat) = 2 ^ 8 by norm_num, ← pow_mul]
      congr 1; omega
    rw [this] at h1
    exact h1
  rw [hval, log2_mul_pow_add _ _ _ hx0 hrest]
  omega

theorem bignum_bits_significant_witness :
    IsBytes [0, 0, 5, 0] ∧ beValue [0, 0, 5, 0] = 1280 ∧
    _libssh2_wincng_bignum_bits (some { bignum := some [0, 0, 5, 0] }) =
      Nat.log2 (beValue [0, 0, 5, 0]) + 1 :=
  ⟨by decide, by decide, (bignum_bits_significant [0, 0, 5, 0] (by decide) (by decide)).1⟩

/-- C2, evaluated at the word 256: `_libssh2_wincng_bignum_set_word` leaves the
two bytes `00 01`, least-significant byte first, and `_libssh2_wincng_bignum_to_bin`
exports them in that order; read most-significant byte first they denote 1, while
the minimal big-endian encoding of 256 is `01 00`. -/
theorem set_word_256_exports_low_byte_first :
    _libssh2_wincng_bignum_to_bin
        (_libssh2_wincng_bignum_set_word true true (_libssh2_wincng_bignum_init true) 256).2
        (some [9, 9]) = some [0, 1] ∧
    beValue [0, 1] = 1 ∧ beValue [1, 0] = 256 := by
  decide

theorem minimal_dropWhile (b : List Nat) (hz : ¬ ∀ x ∈ b, x = 0) :
    Minimal (b.dropWhile (fun x => x == 0)) := by
  have hl : leadingZeros b < b.length := by
    have h1 : leadingZeros b ≠ b.length := fun h => hz ((leadingZeros_eq_length_iff b).1 h)
    have := leadingZeros_le b
    omega
  have hx0 := getD_leadingZeros_ne b hl
  rw [← drop_leadingZeros, List.drop_eq_getElem_cons hl]
  rw [List.getD_eq_getElem _ _ hl] at hx0
  have hpos : 0 < b[leadingZeros b] := Nat.pos_of_ne_zero hx0
  have hv : beValue (b[leadingZeros b] :: List.drop (leadingZeros b + 1) b) ≠ 0 := by
    rw [beValue_cons]
    have : 0 < b[leadingZeros b] * 256 ^ (List.drop (leadingZeros b + 1) b).length :=
      Nat.mul_pos hpos (by positivity)
    omega
  simp only [Minimal, if_neg hv, List.head?_cons, ne_eq, Option.some.injEq]
  exact hx0

/-- C3 as stated fails: with `bits = 16`, no top policy (`top = -1`),
`bottom = 0` and the random bytes `00 05`, `_libssh2_wincng_bignum_rand` leaves
the buffer `00 05`, whose value is 5 and whose first byte is zero. -/
theorem rand_leaves_leading_zero :
    _libssh2_wincng_bignum_rand true true (some fun i => [0, 5].getD i 0)
        (_libssh2_wincng_bignum_init true) 16 (-1) 0 =
      (0, some { bignum := some [0, 5] }) ∧
    ¬ Minimal [0, 5] := by
  decide

/-- With the allocation and the random fill succeeding,
`_libssh2_wincng_bignum_rand` returns success and leaves `ceil(bits / 8)` bytes. -/
theorem rand_ok (clear : Bool) (f : Nat → Nat) (rnd : _libssh2_bn) (bits top bottom : Int)
    (hbits : 1 ≤ bits) :
    ∃ bs, _libssh2_wincng_bignum_rand clear true (some f) (some rnd) bits top bottom =
        (0, some { bignum := some bs }) ∧ bs.length = ((bits + 7) / 8).toNat := by
  have hn : ((bits + 7) / 8).toNat ≠ 0 := by
    have : 1 ≤ (bits + 7) / 8 := by omega
    omega
  obtain ⟨buf, hres, _⟩ := resize_ok clear rnd _ hn
  simp only [_libssh2_wincng_bignum_rand, hres]
  refine ⟨_, rfl, ?_⟩
  split_ifs <;> simp

/-- C3 as amended: after `_libssh2_wincng_bignum_from_bin` on a non-empty byte
sequence (allocations succeeding, whatever the number held before) the buffer has
no leading zero byte unless its value is zero, in which case it is the single
byte `0x00`; after `_libssh2_wincng_bignum_rand` (allocation and random fill
succeeding) the buffer has exactly `ceil(bits / 8)` bytes, whatever the random
bytes are. -/
theorem from_bin_minimal_rand_length :
    (∀ (clear : Bool) (bn : _libssh2_bn) (b : List Nat), b ≠ [] → IsBytes b →
      ∃ bs, _libssh2_wincng_bignum_from_bin clear true true (some bn) (some b) =
          some { bignum := some bs } ∧ Minimal bs) ∧
    (∀ (clear : Bool) (f : Nat → Nat) (rnd : _libssh2_bn) (bits top bottom : Int),
      1 ≤ bits →
      ∃ bs, _libssh2_wincng_bignum_rand clear true (some f) (some rnd) bits top bottom =
          (0, some { bignum := some bs }) ∧ bs.length = ((bits + 7) / 8).toNat) := by
  constructor
  · intro clear bn b hb hbytes
    refine ⟨_, from_bin_eq clear bn b hb hbytes, ?_⟩
    rw [canonical_eq b hb]
    by_cases hz : ∀ x ∈ b, x = 0
    · rw [if_pos hz]; decide
    · rw [if_neg hz]; exact minimal_dropWhile b hz
  · intro clear f rnd bits top bottom hbits
    exact rand_ok clear f rnd bits top bottom hbits

theorem from_bin_minimal_rand_length_witness :
    ([0, 7] ≠ [] ∧ IsBytes [0, 7] ∧
      ∃ bs, _libssh2_wincng_bignum_from_bin true true true (some { bignum := none })
          (some [0, 7]) = some { bignum := some bs } ∧ Minimal bs) ∧
    ((1 : Int) ≤ 9 ∧
      ∃ bs, _libssh2_wincng_bignum_rand true true (some fun _ => 255)
          (some { bignum := none }) 9 0 (-1) = (0, some { bignum := some bs }) ∧
        bs.length = (((9 : Int) + 7) / 8).toNat) :=
  ⟨⟨by decide, by decide,
      from_bin_minimal_rand_length.1 true { bignum := none } [0, 7] (by decide) (by decide)⟩,
    ⟨by decide,
      from_bin_minimal_rand_length.2 true (fun _ => 255) { bignum := none } 9 0 (-1)
        (by decide)⟩⟩

/-! ## Key blobs: layout -/

theorem length_fitWidth (src : List Nat) (w : Nat) : (fitWidth src w).length = w := by
  simp only [fitWidth]
  split
  · simp; omega
  · simp; omega

theorem memcpy_mid (pre mid post src : List Nat) (offset n : Nat) (ho : offset = pre.length)
    (hm : mid.length = n) (hs : src.length = n) :
    memcpy (pre ++ (mid ++ post)) offset src n = (pre ++ src) ++ post := by
  subst ho
  simp only [memcpy]
  rw [List.take_left, ← hs, List.take_length, hs, ← hm]
  rw [← List.append_assoc, ← List.length_append, List.drop_left]

theorem copy_field_mid (pre post : List Nat) (offset w : Nat) (data : Option (List Nat))
    (ho : offset = pre.length) :
    copy_field (pre ++ (List.replicate w 0 ++ post)) offset w data =
      (pre ++ fitWidth (data.getD []) w) ++ post := by
  simp only [copy_field, fitWidth]
  split
  · rename_i hlt
    have hsplit : List.replicate w 0 =
        List.replicate (w - (data.getD []).length) 0 ++
          List.replicate (data.getD []).length 0 := by
      rw [← List.replicate_add]; congr 1; omega
    rw [hsplit]
    have := memcpy_mid (pre ++ List.replicate (w - (data.getD []).length) 0)
      (List.replicate (data.getD []).length 0) post (data.getD [])
      (offset + w - (data.getD []).length) (data.getD []).length
      (by simp; omega) (by simp) rfl
    simp only [List.append_assoc] at this ⊢
    exact this
  · rename_i hge
    exact memcpy_mid pre (List.replicate w 0) post _ offset w ho (by simp) (by simp; omega)

theorem bn_size_eq (bs : List Nat) (h : bs ≠ []) :
    _libssh2_wincng_bn_size (some bs) =
      some (bs.length - min (leadingZeros bs) (bs.length - 1)) := by
  have hlen : 0 < bs.length := List.length_pos.mpr h
  simp only [_libssh2_wincng_bn_size]
  rw [if_neg (by omega)]
  rw [skipZeros_eq bs (bs.length - 1) (by omega) (bs.length - 1) 0 (by omega) (by omega)
    (by omega)]
  congr 2
  omega

theorem bn_size_readable (data : Option (List Nat)) (h : Readable data) :
    _libssh2_wincng_bn_size data = some (bnSize data) := by
  cases data with
  | none => rfl
  | some bs =>
    have hb : bs ≠ [] := fun he => h (by rw [he])
    simp [bnSize, bn_size_eq bs hb]

theorem bnSize_some (bs : List Nat) (h : bs ≠ []) :
    bnSize (some bs) = bs.length - min (leadingZeros bs) (bs.length - 1) := by
  simp [bnSize, bn_size_eq bs h]

/-- The private blob `_libssh2_wincng_rsa_new` builds, byte for byte. -/
theorem rsa_new_blob_private (edata ndata ddata pdata qdata e1data e2data coeffdata :
      Option (List Nat))
    (hd : Present ddata) (hn : Readable ndata) (hp : Readable pdata) (hq : Readable qdata)
    (he1 : Readable e1data) (he2 : Readable e2data) :
    _libssh2_wincng_rsa_new_blob edata ndata ddata pdata qdata e1data e2data coeffdata =
      some {
        lpszBlobType := BlobType.BCRYPT_RSAFULLPRIVATE_BLOB
        rsakey := {
          Magic := BCRYPT_RSAFULLPRIVATE_MAGIC
          BitLength := max (bnSize ndata) (bnSize ddata) * 8
          cbPublicExp := bufLen edata
          cbModulus := max (bnSize ndata) (bnSize ddata)
          cbPrime1 := max (bnSize pdata) (bnSize e1data)
          cbPrime2 := max (bnSize qdata) (bnSize e2data) }
        key :=
          List.replicate sizeof_BCRYPT_RSAKEY_BLOB 0 ++ edata.getD [] ++
          fitWidth (ndata.getD []) (max (bnSize ndata) (bnSize ddata)) ++
          fitWidth (pdata.getD []) (max (bnSize pdata) (bnSize e1data)) ++
          fitWidth (qdata.getD []) (max (bnSize qdata) (bnSize e2data)) ++
          fitWidth (e1data.getD []) (max (bnSize pdata) (bnSize e1data)) ++
          fitWidth (e2data.getD []) (max (bnSize qdata) (bnSize e2data)) ++
          fitWidth (coeffdata.getD []) (max (bnSize pdata) (bnSize e1data)) ++
          fitWidth (ddata.getD []) (max (bnSize ndata) (bnSize ddata)) } := by
  have hdr : Readable ddata := by
    intro h; rw [h] at hd; simp [Present, bufLen] at hd
  have hd' : ddata.isSome ∧ bufLen ddata > 0 := hd
  simp only [_libssh2_wincng_rsa_new_blob, bn_size_readable _ hn, bn_size_readable _ hdr,
    bn_size_readable _ hp, bn_size_readable _ hq, bn_size_readable _ he1,
    bn_size_readable _ he2, Option.bind_eq_bind, Option.some_bind, Option.pure_def,
    if_pos hd']
  set m := max (bnSize ndata) (bnSize ddata)
  set w1 := max (bnSize pdata) (bnSize e1data)
  set w2 := max (bnSize qdata) (bnSize e2data)
  set H := sizeof_BCRYPT_RSAKEY_BLOB
  have hkey : List.replicate (H + bufLen edata + m + (w1 * 3 + w2 * 2 + m)) 0 =
      List.replicate H 0 ++ (List.replicate (bufLen edata) 0 ++ (List.replicate m 0 ++
        (List.replicate w1 0 ++ (List.replicate w2 0 ++ (List.replicate w1 0 ++
          (List.replicate w2 0 ++ (List.replicate w1 0 ++
            (List.replicate m 0 ++ [])))))))) := by
    simp only [List.append_nil, ← List.replicate_add]
    congr 1; omega
  rw [hkey]
  rw [memcpy_mid _ _ _ (edata.getD []) H (bufLen edata) (by simp) (by simp) (by simp [bufLen])]
  rw [copy_field_mid _ _ _ _ ndata (by simp [bufLen])]
  rw [copy_field_mid _ _ _ _ pdata (by simp [bufLen, length_fitWidth]; omega)]
  rw [copy_field_mid _ _ _ _ qdata (by simp [bufLen, length_fitWidth]; omega)]
  rw [copy_field_mid _ _ _ _ e1data (by simp [bufLen, length_fitWidth]; omega)]
  rw [copy_field_mid _ _ _ _ e2data (by simp [bufLen, length_fitWidth]; omega)]
  rw [copy_field_mid _ _ _ _ coeffdata (by simp [bufLen, length_fitWidth]; omega)]
  rw [copy_field_mid _ _ _ _ ddata (by simp [bufLen, length_fitWidth]; omega)]
  simp only [List.append_nil]

/-- The public blob `_libssh2_wincng_rsa_new` builds, byte for byte. -/
theorem rsa_new_blob_public (edata ndata ddata pdata qdata e1data e2data coeffdata :
      Option (List Nat))
    (hd : ¬ Present ddata) (hn : Readable ndata) (hdr : Readable ddata) :
    _libssh2_wincng_rsa_new_blob edata ndata ddata pdata qdata e1data e2data coeffdata =
      some {
        lpszBlobType := BlobType.BCRYPT_RSAPUBLIC_BLOB
        rsakey := {
          Magic := BCRYPT_RSAPUBLIC_MAGIC
          BitLength := max (bnSize ndata) (bnSize ddata) * 8
          cbPublicExp := bufLen edata
          cbModulus := max (bnSize ndata) (bnSize ddata)
          cbPrime1 := 0
          cbPrime2 := 0 }
        key :=
          List.replicate sizeof_BCRYPT_RSAKEY_BLOB 0 ++ edata.getD [] ++
          fitWidth (ndata.getD []) (max (bnSize ndata) (bnSize ddata)) } := by
  have hd' : ¬ (ddata.isSome ∧ bufLen ddata > 0) := hd
  simp only [_libssh2_wincng_rsa_new_blob, bn_size_readable _ hn, bn_size_readable _ hdr,
    Option.bind_eq_bind, Option.some_bind, Option.pure_def, if_neg hd']
  set m := max (bnSize ndata) (bnSize ddata)
  set H := sizeof_BCRYPT_RSAKEY_BLOB
  have hkey : List.replicate (H + bufLen edata + m) 0 =
      List.replicate H 0 ++ (List.replicate (bufLen edata) 0 ++ (List.replicate m 0 ++ [])) := by
    simp only [List.append_nil, ← List.replicate_add]
    congr 1; omega
  rw [hkey]
  rw [memcpy_mid _ _ _ (edata.getD []) H (bufLen edata) (by simp) (by simp) (by simp [bufLen])]
  rw [copy_field_mid _ _ _ _ ndata (by simp [bufLen])]
  simp only [List.append_nil]

/-- The blob `_libssh2_wincng_dsa_new` builds, byte for byte. -/
theorem dsa_new_blob_eq (pdata qdata gdata ydata xdata : Option (List Nat))
    (hp : Readable pdata) (hg : Readable gdata) (hy : Readable ydata) :
    _libssh2_wincng_dsa_new_blob pdata qdata gdata ydata xdata =
      some {
        lpszBlobType :=
          if Present xdata then BlobType.BCRYPT_DSA_PRIVATE_BLOB
          else BlobType.BCRYPT_DSA_PUBLIC_BLOB
        dsakey := {
          dwMagic :=
            if Present xdata then BCRYPT_DSA_PRIVATE_MAGIC else BCRYPT_DSA_PUBLIC_MAGIC
          cbKey := max (max (bnSize pdata) (bnSize gdata)) (bnSize ydata)
          Count := List.replicate 4 0xff
          Seed := List.replicate 20 0xff
          q := fitWidth (qdata.getD []) 20 }
        key :=
          List.replicate sizeof_BCRYPT_DSA_KEY_BLOB 0 ++
          fitWidth (pdata.getD []) (max (max (bnSize pdata) (bnSize gdata)) (bnSize ydata)) ++
          fitWidth (gdata.getD []) (max (max (bnSize pdata) (bnSize gdata)) (bnSize ydata)) ++
          fitWidth (ydata.getD []) (max (max (bnSize pdata) (bnSize gdata)) (bnSize ydata)) ++
          (if Present xdata then fitWidth (xdata.getD []) 20 else []) } := by
  have hq : copy_field (List.replicate 20 0) 0 20 qdata = fitWidth (qdata.getD []) 20 := by
    have := copy_field_mid [] [] 0 20 qdata rfl
    simpa using this
  have hC : memset (List.replicate 4 0) 0 0xff 4 = List.replicate 4 0xff := by decide
  have hS : memset (List.replicate 20 0) 0 0xff 20 = List.replicate 20 0xff := by decide
  simp only [_libssh2_wincng_dsa_new_blob, bn_size_readable _ hp, bn_size_readable _ hg,
    bn_size_readable _ hy, Option.bind_eq_bind, Option.some_bind, Option.pure_def, hq, hC, hS]
  set L := max (max (bnSize pdata) (bnSize gdata)) (bnSize ydata)
  set H := sizeof_BCRYPT_DSA_KEY_BLOB
  by_cases hx : Present xdata
  · have hx' : xdata.isSome ∧ bufLen xdata > 0 := hx
    simp only [if_pos hx', if_pos hx]
    have hkey : List.replicate (H + L * 3 + 20) 0 =
        List.replicate H 0 ++ (List.replicate L 0 ++ (List.replicate L 0 ++
          (List.replicate L 0 ++ (List.replicate 20 0 ++ [])))) := by
      simp only [List.append_nil, ← List.replicate_add]
      congr 1; omega
    rw [hkey]
    rw [copy_field_mid _ _ _ _ pdata (by simp)]
    rw [copy_field_mid _ _ _ _ gdata (by simp [length_fitWidth])]
    rw [copy_field_mid _ _ _ _ ydata (by simp [length_fitWidth]; omega)]
    rw [copy_field_mid _ _ _ _ xdata (by simp [length_fitWidth]; omega)]
    simp only [List.append_nil]
  · have hx' : ¬ (xdata.isSome ∧ bufLen xdata > 0) := hx
    simp only [if_neg hx', if_neg hx]
    have hkey : List.replicate (H + L * 3) 0 =
        List.replicate H 0 ++ (List.replicate L 0 ++ (List.replicate L 0 ++
          (List.replicate L 0 ++ []))) := by
      simp only [List.append_nil, ← List.replicate_add]
      congr 1; omega
    rw [hkey]
    rw [copy_field_mid _ _ _ _ pdata (by simp)]
    rw [copy_field_mid _ _ _ _ gdata (by simp [length_fitWidth])]
    rw [copy_field_mid _ _ _ _ ydata (by simp [length_fitWidth]; omega)]

theorem splitWidths_cons (a rest : List Nat) (w : Nat) (ws : List Nat) (h : a.length = w) :
    splitWidths (a ++ rest) (w :: ws) = a :: splitWidths rest ws := by
  subst h
  simp [splitWidths]

theorem beValue_drop_of_le (l : List Nat) (k : Nat) (h : k ≤ leadingZeros l) :
    beValue (l.drop k) = beValue l := by
  induction l generalizing k with
  | nil => simp
  | cons x xs ih =>
    cases k with
    | zero => simp
    | succ j =>
      simp only [leadingZeros] at h
      by_cases hx : x = 0
      · rw [if_pos hx] at h
        simp only [List.drop_succ_cons]
        rw [ih j (by omega), beValue_cons, hx]
        simp
      · rw [if_neg hx] at h
        omega

/-- A field at least as wide as the minimal length of its source holds the
source's value. -/
theorem beValue_fitWidth (data : Option (List Nat)) (w : Nat) (h : bnSize data ≤ w) :
    beValue (fitWidth (data.getD []) w) = beValue (data.getD []) := by
  simp only [fitWidth]
  split
  · rw [beValue_append, beValue_replicate_zero]; simp
  · apply beValue_drop_of_le
    cases data with
    | none => simp
    | some bs =>
      by_cases hb : bs = []
      · subst hb; simp
      · rw [bnSize_some bs hb] at h
        have := leadingZeros_le bs
        simp only [Option.getD_some]
        omega

theorem splitWidths_single (a : List Nat) (w : Nat) (h : a.length = w) :
    splitWidths a [w] = [a] := by
  subst h
  simp [splitWidths]

/-- The fields of the private blob, cut at the declared widths, are the sources
fitted to those widths. -/
theorem rsaFields_private (edata ndata ddata pdata qdata e1data e2data coeffdata :
      Option (List Nat))
    (hd : Present ddata) (hn : Readable ndata) (hp : Readable pdata) (hq : Readable qdata)
    (he1 : Readable e1data) (he2 : Readable e2data) :
    (_libssh2_wincng_rsa_new_blob edata ndata ddata pdata qdata e1data e2data
        coeffdata).map rsaFields =
      some [edata.getD [],
        fitWidth (ndata.getD []) (max (bnSize ndata) (bnSize ddata)),
        fitWidth (pdata.getD []) (max (bnSize pdata) (bnSize e1data)),
        fitWidth (qdata.getD []) (max (bnSize qdata) (bnSize e2data)),
        fitWidth (e1data.getD []) (max (bnSize pdata) (bnSize e1data)),
        fitWidth (e2data.getD []) (max (bnSize qdata) (bnSize e2data)),
        fitWidth (coeffdata.getD []) (max (bnSize pdata) (bnSize e1data)),
        fitWidth (ddata.getD []) (max (bnSize ndata) (bnSize ddata))] := by
  rw [rsa_new_blob_private _ _ _ _ _ _ _ _ hd hn hp hq he1 he2]
  simp only [Option.map_some', rsaFields, if_true, List.append_assoc]
  rw [List.drop_left' (by simp)]
  rw [splitWidths_cons _ _ _ _ (by simp [bufLen])]
  rw [splitWidths_cons _ _ _ _ (length_fitWidth _ _)]
  rw [splitWidths_cons _ _ _ _ (length_fitWidth _ _)]
  rw [splitWidths_cons _ _ _ _ (length_fitWidth _ _)]
  rw [splitWidths_cons _ _ _ _ (length_fitWidth _ _)]
  rw [splitWidths_cons _ _ _ _ (length_fitWidth _ _)]
  rw [splitWidths_cons _ _ _ _ (length_fitWidth _ _)]
  rw [splitWidths_single _ _ (length_fitWidth _ _)]

/-- The fields of the public blob. -/
theorem rsaFields_public (edata ndata ddata pdata qdata e1data e2data coeffdata :
      Option (List Nat))
    (hd : ¬ Present ddata) (hn : Readable ndata) (hdr : Readable ddata) :
    (_libssh2_wincng_rsa_new_blob edata ndata ddata pdata qdata e1data e2data
        coeffdata).map rsaFields =
      some [edata.getD [],
        fitWidth (ndata.getD []) (max (bnSize ndata) (bnSize ddata))] := by
  rw [rsa_new_blob_public _ _ _ _ _ _ _ _ hd hn hdr]
  have hm : ¬ (BCRYPT_RSAPUBLIC_MAGIC = BCRYPT_RSAFULLPRIVATE_MAGIC) := by decide
  simp only [Option.map_some', rsaFields, if_neg hm, List.append_assoc]
  rw [List.drop_left' (by simp)]
  rw [splitWidths_cons _ _ _ _ (by simp [bufLen])]
  rw [splitWidths_single _ _ (length_fitWidth _ _)]

theorem bnSize_of_head_ne_zero (n : List Nat) (hn : n ≠ []) (h : n.head? ≠ some 0) :
    bnSize (some n) = n.length := by
  rw [bnSize_some n hn]
  cases n with
  | nil => exact absurd rfl hn
  | cons x xs =>
    have hx : x ≠ 0 := by
      intro hx; apply h; simp [hx]
    simp [leadingZeros, hx]

theorem fitWidth_self (l : List Nat) : fitWidth l l.length = l := by
  simp [fitWidth]

/-- When the blob is built, the allocations succeed and the provider imports the
key, `_libssh2_wincng_rsa_new` returns 0 and its context keeps that blob. -/
theorem rsa_new_keeps_blob {κ : Type} (importKeyPair : RsaKeyBlob → Option κ)
    (edata ndata ddata pdata qdata e1data e2data coeffdata : Option (List Nat))
    (blob : RsaKeyBlob) (hKey : κ)
    (hb : _libssh2_wincng_rsa_new_blob edata ndata ddata pdata qdata e1data e2data
      coeffdata = some blob)
    (hi : importKeyPair blob = some hKey) :
    _libssh2_wincng_rsa_new true true importKeyPair edata ndata ddata pdata qdata e1data
        e2data coeffdata = some (0, some { hKey := hKey, pbKeyObject := blob }) := by
  simp [_libssh2_wincng_rsa_new, hb, hi]

/-- When the blob is built, the allocations succeed and the provider imports the
key, `_libssh2_wincng_dsa_new` returns 0 and its context keeps that blob. -/
theorem dsa_new_keeps_blob {κ : Type} (importKeyPair : DsaKeyBlob → Option κ)
    (pdata qdata gdata ydata xdata : Option (List Nat)) (blob : DsaKeyBlob) (hKey : κ)
    (hb : _libssh2_wincng_dsa_new_blob pdata qdata gdata ydata xdata = some blob)
    (hi : importKeyPair blob = some hKey) :
    _libssh2_wincng_dsa_new true true importKeyPair pdata qdata gdata ydata xdata =
      some (0, some { hKey := hKey, pbKeyObject := blob }) := by
  simp [_libssh2_wincng_dsa_new, hb, hi]

/-! ## Key blobs: the claims -/

/-- C5 as stated fails: for the 256-byte modulus `00 01 01 ... 01` (with
`e = 01 00 01` and no private exponent) the public blob declares
`cbModulus = 255` and `BitLength = 2040`. -/
theorem rsa_new_modulus_leading_zero :
    (0 :: List.replicate 255 1).length = 256 ∧
    (_libssh2_wincng_rsa_new_blob (some [1, 0, 1]) (some (0 :: List.replicate 255 1))
        none none none none none none).map
      (fun blob => (blob.rsakey.cbModulus, blob.rsakey.BitLength)) = some (255, 2040) := by
  refine ⟨by rw [List.length_cons, List.length_replicate], ?_⟩
  rw [rsa_new_blob_public _ _ _ _ _ _ _ _ (by decide) (by decide) (by decide)]
  have h : bnSize (some (0 :: List.replicate 255 1)) = 255 := by
    rw [bnSize_some _ (List.cons_ne_nil _ _)]
    have hz : leadingZeros (0 :: List.replicate 255 1) = 1 := by decide
    rw [hz, List.length_cons, List.length_replicate]
    decide
  have h0 : bnSize none = 0 := rfl
  rw [h, h0]
  rfl

/-- C5 as amended: for every 256-byte modulus `n` whose first byte is not zero,
`_libssh2_wincng_rsa_new` called with `e = 01 00 01`, that `n` and no private
exponent builds a public blob that declares `cbModulus = 256` and
`BitLength = 2048` and whose modulus field is the 256 bytes of `n`. -/
theorem rsa_new_public_modulus_256 (n : List Nat) (hlen : n.length = 256)
    (hfirst : n.head? ≠ some 0) :
    ∃ blob, _libssh2_wincng_rsa_new_blob (some [1, 0, 1]) (some n)
        none none none none none none = some blob ∧
      blob.lpszBlobType = BlobType.BCRYPT_RSAPUBLIC_BLOB ∧
      blob.rsakey.cbModulus = 256 ∧ blob.rsakey.BitLength = 2048 ∧
      rsaFields blob = [[1, 0, 1], n] ∧ n.length = 256 := by
  have hn : n ≠ [] := by
    intro h; rw [h] at hlen; simp at hlen
  have hr : Readable (some n) := by
    intro h; exact hn (Option.some.inj h)
  have hsz : bnSize (some n) = 256 := by rw [bnSize_of_head_ne_zero n hn hfirst, hlen]
  have h0 : bnSize none = 0 := rfl
  have hm : max (bnSize (some n)) (bnSize none) = 256 := by rw [hsz, h0]; rfl
  have hblob := rsa_new_blob_public (some [1, 0, 1]) (some n) none none none none none none
    (by decide) hr (by decide)
  have hf := rsaFields_public (some [1, 0, 1]) (some n) none none none none none none
    (by decide) hr (by decide)
  rw [hblob] at hf
  rw [hm] at hblob hf
  refine ⟨_, hblob, rfl, rfl, rfl, ?_, hlen⟩
  have hfit : fitWidth n 256 = n := by rw [← hlen]; exact fitWidth_self n
  simpa [hfit] using hf

theorem rsa_new_public_modulus_256_witness :
    (List.replicate 256 255).length = 256 ∧ (List.replicate 256 255).head? ≠ some 0 ∧
    ∃ blob, _libssh2_wincng_rsa_new_blob (some [1, 0, 1]) (some (List.replicate 256 255))
        none none none none none none = some blob ∧
      blob.lpszBlobType = BlobType.BCRYPT_RSAPUBLIC_BLOB ∧
      blob.rsakey.cbModulus = 256 ∧ blob.rsakey.BitLength = 2048 ∧
      rsaFields blob = [[1, 0, 1], List.replicate 256 255] ∧
      (List.replicate 256 255).length = 256 :=
  ⟨List.length_replicate _ _, by decide,
    rsa_new_public_modulus_256 (List.replicate 256 255) (List.length_replicate _ _)
      (by decide)⟩

/-- C6, evaluated at a private key whose coefficient `01 00` is longer than both
`p = 03` and `dp = 01`: the prime width is 1, the Coefficient field of the blob
is the single byte `00`, of value 0, while the coefficient is 256. -/
theorem rsa_new_truncates_coefficient :
    (_libssh2_wincng_rsa_new_blob (some [3]) (some [15]) (some [7]) (some [3]) (some [5])
        (some [1]) (some [1]) (some [1, 0])).map
      (fun blob => (blob.rsakey.cbPrime1, (rsaFields blob).getD 6 [])) = some (1, [0]) ∧
    beValue [0] = 0 ∧ beValue [1, 0] = 256 := by
  decide

/-- In the private blob the fields Modulus, PrivateExponent, Prime1, Prime2,
Exponent1 and Exponent2 hold the values of `n`, `d`, `p`, `q`, `dp` and `dq`; the
field Coefficient holds the value of `qinv` when the minimal length of `qinv` is
at most the prime width `cbPrime1`. -/
theorem rsa_new_private_field_values (edata ndata ddata pdata qdata e1data e2data
      coeffdata : Option (List Nat))
    (hd : Present ddata) (hn : Readable ndata) (hp : Readable pdata) (hq : Readable qdata)
    (he1 : Readable e1data) (he2 : Readable e2data) :
    ∃ blob fe fn fp fq fdp fdq fc fd,
      _libssh2_wincng_rsa_new_blob edata ndata ddata pdata qdata e1data e2data coeffdata =
        some blob ∧
      rsaFields blob = [fe, fn, fp, fq, fdp, fdq, fc, fd] ∧
      fe = edata.getD [] ∧
      beValue fn = beValue (ndata.getD []) ∧ beValue fd = beValue (ddata.getD []) ∧
      beValue fp = beValue (pdata.getD []) ∧ beValue fq = beValue (qdata.getD []) ∧
      beValue fdp = beValue (e1data.getD []) ∧ beValue fdq = beValue (e2data.getD []) ∧
      (bnSize coeffdata ≤ blob.rsakey.cbPrime1 →
        beValue fc = beValue (coeffdata.getD [])) := by
  have hblob := rsa_new_blob_private edata ndata ddata pdata qdata e1data e2data coeffdata
    hd hn hp hq he1 he2
  have hf := rsaFields_private edata ndata ddata pdata qdata e1data e2data coeffdata
    hd hn hp hq he1 he2
  rw [hblob] at hf
  simp only [Option.map_some', Option.some.injEq] at hf
  refine ⟨_, _, _, _, _, _, _, _, _, hblob, hf, rfl, ?_, ?_, ?_, ?_, ?_, ?_, ?_⟩
  · exact beValue_fitWidth _ _ (Nat.le_max_left _ _)
  · exact beValue_fitWidth _ _ (Nat.le_max_right _ _)
  · exact beValue_fitWidth _ _ (Nat.le_max_left _ _)
  · exact beValue_fitWidth _ _ (Nat.le_max_left _ _)
  · exact beValue_fitWidth _ _ (Nat.le_max_right _ _)
  · exact beValue_fitWidth _ _ (Nat.le_max_right _ _)
  · intro h
    exact beValue_fitWidth _ _ h

/-- C7. For buffer arguments on which the size computation is defined,
`_libssh2_wincng_rsa_new` builds a blob whose header declares
`BitLength = 8 * m`, `cbPublicExp = |e|` and `cbModulus = m`, with
`m = max(|n|, |d|)`; the blob is the full private one (type
`BCRYPT_RSAFULLPRIVATE_BLOB`, magic `RSA3`, `cbPrime1 = w1 = max(|p|, |dp|)`,
`cbPrime2 = w2 = max(|q|, |dq|)`, length `header + |e| + m + 3*w1 + 2*w2 + m`)
exactly when `d` is present and not empty, and otherwise the public one (type
`BCRYPT_RSAPUBLIC_BLOB`, magic `RSA1`, `cbPrime1 = cbPrime2 = 0`, length
`header + |e| + m`). -/
theorem rsa_new_blob_header (edata ndata ddata pdata qdata e1data e2data coeffdata :
      Option (List Nat))
    (hn : Readable ndata) (hdr : Readable ddata)
    (hpriv : Present ddata →
      Readable pdata ∧ Readable qdata ∧ Readable e1data ∧ Readable e2data) :
    ∃ blob,
      _libssh2_wincng_rsa_new_blob edata ndata ddata pdata qdata e1data e2data coeffdata =
        some blob ∧
      blob.rsakey.BitLength = 8 * max (bnSize ndata) (bnSize ddata) ∧
      blob.rsakey.cbPublicExp = bufLen edata ∧
      blob.rsakey.cbModulus = max (bnSize ndata) (bnSize ddata) ∧
      (blob.lpszBlobType = BlobType.BCRYPT_RSAFULLPRIVATE_BLOB ↔ Present ddata) ∧
      (Present ddata →
        blob.lpszBlobType = BlobType.BCRYPT_RSAFULLPRIVATE_BLOB ∧
        blob.rsakey.Magic = BCRYPT_RSAFULLPRIVATE_MAGIC ∧
        blob.rsakey.cbPrime1 = max (bnSize pdata) (bnSize e1data) ∧
        blob.rsakey.cbPrime2 = max (bnSize qdata) (bnSize e2data) ∧
        blob.key.length = sizeof_BCRYPT_RSAKEY_BLOB + bufLen edata +
          max (bnSize ndata) (bnSize ddata) +
          (3 * max (bnSize pdata) (bnSize e1data) + 2 * max (bnSize qdata) (bnSize e2data) +
            max (bnSize ndata) (bnSize ddata))) ∧
      (¬ Present ddata →
        blob.lpszBlobType = BlobType.BCRYPT_RSAPUBLIC_BLOB ∧
        blob.rsakey.Magic = BCRYPT_RSAPUBLIC_MAGIC ∧
        blob.rsakey.cbPrime1 = 0 ∧ blob.rsakey.cbPrime2 = 0 ∧
        blob.key.length = sizeof_BCRYPT_RSAKEY_BLOB + bufLen edata +
          max (bnSize ndata) (bnSize ddata)) := by
  by_cases hd : Present ddata
  · obtain ⟨hp, hq, he1, he2⟩ := hpriv hd
    refine ⟨_, rsa_new_blob_private edata ndata ddata pdata qdata e1data e2data coeffdata
      hd hn hp hq he1 he2, ?_, rfl, rfl, ?_, ?_, ?_⟩
    · simp only; omega
    · simp [hd]
    · intro _
      refine ⟨rfl, rfl, rfl, rfl, ?_⟩
      simp only [List.length_append, List.length_replicate, length_fitWidth, bufLen]
      omega
    · intro h; exact absurd hd h
  · refine ⟨_, rsa_new_blob_public edata ndata ddata pdata qdata e1data e2data coeffdata
      hd hn hdr, ?_, rfl, rfl, ?_, ?_, ?_⟩
    · simp only; omega
    · simp [hd]
    · intro h; exact absurd h hd
    · intro _
      refine ⟨rfl, rfl, rfl, rfl, ?_⟩
      simp only [List.length_append, List.length_replicate, length_fitWidth, bufLen]

theorem rsa_new_blob_header_witness :
    Readable (some [0, 15]) ∧ Readable (some [7]) ∧ Present (some [7]) ∧
    ∃ blob,
      _libssh2_wincng_rsa_new_blob (some [1, 0, 1]) (some [0, 15]) (some [7]) (some [3])
        (some [5]) (some [1]) (some [1]) (some [2]) = some blob ∧
      blob.rsakey.BitLength = 8 * max (bnSize (some [0, 15])) (bnSize (some [7])) ∧
      blob.rsakey.cbPublicExp = bufLen (some [1, 0, 1]) ∧
      blob.rsakey.cbModulus = max (bnSize (some [0, 15])) (bnSize (some [7])) ∧
      (blob.lpszBlobType = BlobType.BCRYPT_RSAFULLPRIVATE_BLOB ↔ Present (some [7])) ∧
      (Present (some [7]) →
        blob.lpszBlobType = BlobType.BCRYPT_RSAFULLPRIVATE_BLOB ∧
        blob.rsakey.Magic = BCRYPT_RSAFULLPRIVATE_MAGIC ∧
        blob.rsakey.cbPrime1 = max (bnSize (some [3])) (bnSize (some [1])) ∧
        blob.rsakey.cbPrime2 = max (bnSize (some [5])) (bnSize (some [1])) ∧
        blob.key.length = sizeof_BCRYPT_RSAKEY_BLOB + bufLen (some [1, 0, 1]) +
          max (bnSize (some [0, 15])) (bnSize (some [7])) +
          (3 * max (bnSize (some [3])) (bnSize (some [1])) +
            2 * max (bnSize (some [5])) (bnSize (some [1])) +
            max (bnSize (some [0, 15])) (bnSize (some [7])))) ∧
      (¬ Present (some [7]) →
        blob.lpszBlobType = BlobType.BCRYPT_RSAPUBLIC_BLOB ∧
        blob.rsakey.Magic = BCRYPT_RSAPUBLIC_MAGIC ∧
        blob.rsakey.cbPrime1 = 0 ∧ blob.rsakey.cbPrime2 = 0 ∧
        blob.key.length = sizeof_BCRYPT_RSAKEY_BLOB + bufLen (some [1, 0, 1]) +
          max (bnSize (some [0, 15])) (bnSize (some [7]))) :=
  ⟨by decide, by decide, by decide,
    rsa_new_blob_header (some [1, 0, 1]) (some [0, 15]) (some [7]) (some [3]) (some [5])
      (some [1]) (some [1]) (some [2]) (by decide) (by decide)
      (fun _ => ⟨by decide, by decide, by decide, by decide⟩)⟩

/-- C8. For every sub-prime `q`, of any length, `_libssh2_wincng_dsa_new` writes
the field `q` of the blob header as exactly 20 bytes: `q` right-aligned behind
zero bytes when `q` is shorter than 20 bytes, and the last (low-order) 20 bytes
of `q` otherwise. -/
theorem dsa_new_q_field (pdata gdata ydata xdata : Option (List Nat)) (q : List Nat)
    (hp : Readable pdata) (hg : Readable gdata) (hy : Readable ydata) :
    ∃ blob, _libssh2_wincng_dsa_new_blob pdata (some q) gdata ydata xdata = some blob ∧
      blob.dsakey.q.length = 20 ∧
      (q.length < 20 → blob.dsakey.q = List.replicate (20 - q.length) 0 ++ q) ∧
      (20 ≤ q.length → blob.dsakey.q = q.drop (q.length - 20)) := by
  refine ⟨_, dsa_new_blob_eq pdata (some q) gdata ydata xdata hp hg hy, ?_, ?_, ?_⟩
  · exact length_fitWidth _ _
  · intro h
    simp only [Option.getD_some, fitWidth, if_pos h]
  · intro h
    have h' : ¬ q.length < 20 := by omega
    simp only [Option.getD_some, fitWidth, if_neg h']

theorem dsa_new_q_field_witness :
    Readable (some [0, 23]) ∧ Readable (some [2]) ∧ Readable (some [4, 5, 6]) ∧
    ∃ blob, _libssh2_wincng_dsa_new_blob (some [0, 23]) (some [11, 12, 13]) (some [2])
        (some [4, 5, 6]) none = some blob ∧
      blob.dsakey.q.length = 20 ∧
      (([11, 12, 13] : List Nat).length < 20 →
        blob.dsakey.q = List.replicate (20 - ([11, 12, 13] : List Nat).length) 0 ++
          [11, 12, 13]) ∧
      (20 ≤ ([11, 12, 13] : List Nat).length →
        blob.dsakey.q = ([11, 12, 13] : List Nat).drop (([11, 12, 13] : List Nat).length - 20)) :=
  ⟨by decide, by decide, by decide,
    dsa_new_q_field (some [0, 23]) (some [2]) (some [4, 5, 6]) none [11, 12, 13]
      (by decide) (by decide) (by decide)⟩

/-- C9 as stated fails for the helper: `memcpy_with_be_padding` with a 3-byte
source and a 2-byte field at offset 2 of the block `09 09 09 09` leaves
`09 01 02 03`; the byte at offset 1, in front of the field, was written. -/
theorem be_padding_writes_before_field :
    memcpy_with_be_padding [9, 9, 9, 9] 2 2 [1, 2, 3] 3 = some [9, 1, 2, 3] ∧
    ([9, 1, 2, 3] : List Nat).take 2 ≠ ([9, 9, 9, 9] : List Nat).take 2 := by
  decide

theorem memset_mid (pre mid post : List Nat) (c offset n : Nat) (ho : offset = pre.length)
    (hm : mid.length = n) :
    memset (pre ++ (mid ++ post)) offset c n = (pre ++ List.replicate n c) ++ post := by
  subst ho
  simp only [memset]
  rw [List.take_left, ← hm]
  rw [← List.append_assoc pre mid post, ← List.length_append, List.drop_left]

theorem be_padding_fits (pre mid post src : List Nat) (h : src.length ≤ mid.length) :
    memcpy_with_be_padding (pre ++ mid ++ post) pre.length mid.length src src.length =
      some (pre ++ fitWidth src mid.length ++ post) := by
  simp only [memcpy_with_be_padding]
  rw [if_pos (by omega)]
  by_cases hlt : src.length < mid.length
  · have hgt : mid.length > src.length := hlt
    rw [if_pos hgt]
    have hset : memset (pre ++ mid ++ post) pre.length 0 (mid.length - src.length) =
        (pre ++ List.replicate (mid.length - src.length) 0) ++
          (mid.drop (mid.length - src.length) ++ post) := by
      have hmid : pre ++ mid ++ post = pre ++ (mid.take (mid.length - src.length) ++
          (mid.drop (mid.length - src.length) ++ post)) := by
        rw [← List.append_assoc (mid.take _), List.take_append_drop, List.append_assoc]
      rw [hmid]
      exact memset_mid pre _ _ 0 pre.length (mid.length - src.length) rfl
        (by simp)
    rw [hset]
    have := memcpy_mid (pre ++ List.replicate (mid.length - src.length) 0)
      (mid.drop (mid.length - src.length)) post src (pre.length + mid.length - src.length)
      src.length (by simp; omega) (by simp; omega) rfl
    rw [this]
    simp [fitWidth, hlt]
  · have heq : src.length = mid.length := by omega
    have hgt : ¬ mid.length > src.length := by omega
    rw [if_neg hgt]
    have := memcpy_mid pre mid post src (pre.length + mid.length - src.length) src.length
      (by omega) heq.symm rfl
    rw [List.append_assoc, this]
    simp [fitWidth, heq]

/-- C9 as amended: every field of the RSA and DSA blobs is its source fitted to
the field width (zero bytes in front of a shorter source, the last bytes of a
longer one) and the blob consists of the header and these fields only; the
statement pair that makes each inline copy turns a zeroed field into the fitted
source and leaves the bytes around it alone; `memcpy_with_be_padding` does the
same for a field of any content when the source is not longer than the field. -/
theorem field_copies_obey_width_rule :
    (∀ (edata ndata ddata pdata qdata e1data e2data coeffdata : Option (List Nat)),
      Present ddata → Readable ndata → Readable pdata → Readable qdata →
      Readable e1data → Readable e2data →
      (_libssh2_wincng_rsa_new_blob edata ndata ddata pdata qdata e1data e2data
          coeffdata).map (fun blob => blob.key) =
        some (List.replicate sizeof_BCRYPT_RSAKEY_BLOB 0 ++ edata.getD [] ++
          fitWidth (ndata.getD []) (max (bnSize ndata) (bnSize ddata)) ++
          fitWidth (pdata.getD []) (max (bnSize pdata) (bnSize e1data)) ++
          fitWidth (qdata.getD []) (max (bnSize qdata) (bnSize e2data)) ++
          fitWidth (e1data.getD []) (max (bnSize pdata) (bnSize e1data)) ++
          fitWidth (e2data.getD []) (max (bnSize qdata) (bnSize e2data)) ++
          fitWidth (coeffdata.getD []) (max (bnSize pdata) (bnSize e1data)) ++
          fitWidth (ddata.getD []) (max (bnSize ndata) (bnSize ddata)))) ∧
    (∀ (edata ndata ddata pdata qdata e1data e2data coeffdata : Option (List Nat)),
      ¬ Present ddata → Readable ndata → Readable ddata →
      (_libssh2_wincng_rsa_new_blob edata ndata ddata pdata qdata e1data e2data
          coeffdata).map (fun blob => blob.key) =
        some (List.replicate sizeof_BCRYPT_RSAKEY_BLOB 0 ++ edata.getD [] ++
          fitWidth (ndata.getD []) (max (bnSize ndata) (bnSize ddata)))) ∧
    (∀ (pdata qdata gdata ydata xdata : Option (List Nat)),
      Readable pdata → Readable gdata → Readable ydata →
      (_libssh2_wincng_dsa_new_blob pdata qdata gdata ydata xdata).map
          (fun blob => (blob.dsakey.q, blob.key)) =
        some (fitWidth (qdata.getD []) 20,
          List.replicate sizeof_BCRYPT_DSA_KEY_BLOB 0 ++
          fitWidth (pdata.getD []) (max (max (bnSize pdata) (bnSize gdata)) (bnSize ydata)) ++
          fitWidth (gdata.getD []) (max (max (bnSize pdata) (bnSize gdata)) (bnSize ydata)) ++
          fitWidth (ydata.getD []) (max (max (bnSize pdata) (bnSize gdata)) (bnSize ydata)) ++
          (if Present xdata then fitWidth (xdata.getD []) 20 else []))) ∧
    (∀ (pre post : List Nat) (width : Nat) (data : Option (List Nat)),
      copy_field (pre ++ List.replicate width 0 ++ post) pre.length width data =
        pre ++ fitWidth (data.getD []) width ++ post) ∧
    (∀ (pre mid post src : List Nat), src.length ≤ mid.length →
      memcpy_with_be_padding (pre ++ mid ++ post) pre.length mid.length src src.length =
        some (pre ++ fitWidth src mid.length ++ post)) := by
  refine ⟨?_, ?_, ?_, ?_, ?_⟩
  · intro e n d p q e1 e2 c hd hn hp hq he1 he2
    rw [rsa_new_blob_private e n d p q e1 e2 c hd hn hp hq he1 he2]
    rfl
  · intro e n d p q e1 e2 c hd hn hdr
    rw [rsa_new_blob_public e n d p q e1 e2 c hd hn hdr]
    rfl
  · intro p q g y x hp hg hy
    rw [dsa_new_blob_eq p q g y x hp hg hy]
    rfl
  · intro pre post width data
    rw [List.append_assoc]
    exact copy_field_mid pre post pre.length width data rfl
  · intro pre mid post src h
    exact be_padding_fits pre mid post src h

theorem field_copies_obey_width_rule_witness :
    (_libssh2_wincng_rsa_new_blob (some [3]) (some [0, 15]) (some [7]) (some [3]) (some [5])
          (some [1]) (some [1]) (some [2])).map (fun blob => blob.key) =
        some (List.replicate 24 0 ++ [3, 15, 3, 5, 1, 1, 2, 7]) ∧
    (_libssh2_wincng_rsa_new_blob (some [3]) (some [0, 15]) none none none none none
          none).map (fun blob => blob.key) =
        some (List.replicate 24 0 ++ [3, 15]) ∧
    (_libssh2_wincng_dsa_new_blob (some [23]) (some [11]) (some [2]) (some [4, 5]) none).map
          (fun blob => (blob.dsakey.q, blob.key)) =
        some (List.replicate 19 0 ++ [11], List.replicate 52 0 ++ [0, 23, 0, 2, 4, 5]) ∧
    copy_field ([7] ++ List.replicate 3 0 ++ [8]) 1 3 (some [1, 2]) = [7, 0, 1, 2, 8] ∧
    memcpy_with_be_padding ([7] ++ [9, 9, 9] ++ [8]) 1 3 [1, 2] 2 = some [7, 0, 1, 2, 8] :=
  ⟨field_copies_obey_width_rule.1 (some [3]) (some [0, 15]) (some [7]) (some [3]) (some [5])
      (some [1]) (some [1]) (some [2]) (by decide) (by decide) (by decide) (by decide)
      (by decide) (by decide),
    field_copies_obey_width_rule.2.1 (some [3]) (some [0, 15]) none none none none none none
      (by decide) (by decide) (by decide),
    field_copies_obey_width_rule.2.2.1 (some [23]) (some [11]) (some [2]) (some [4, 5]) none
      (by decide) (by decide) (by decide),
    field_copies_obey_width_rule.2.2.2.1 [7] [8] 3 (some [1, 2]),
    field_copies_obey_width_rule.2.2.2.2 [7] [9, 9, 9] [8] [1, 2] (by decide)⟩

/-! ## Modular exponentiation and the Diffie-Hellman fallback: facts -/

theorem length_eq_bytes (bn : _libssh2_bn) : bn.length = bn.bytes.length := by
  obtain ⟨bg⟩ := bn
  cases bg <;> rfl

theorem length_toBE (v w : Nat) : (toBE v w).length = w := by
  induction w generalizing v with
  | zero => rfl
  | succ w ih => simp [toBE, ih]

theorem beValue_toBE (v w : Nat) : beValue (toBE v w) = v % 256 ^ w := by
  induction w generalizing v with
  | zero => simp [toBE, beValue, Nat.mod_one]
  | succ w ih =>
    simp only [toBE]
    rw [beValue_append, ih, beValue_cons]
    simp only [List.length_singleton, pow_one, List.length_nil, pow_zero, mul_one]
    have hnil : beValue [] = 0 := rfl
    rw [hnil, pow_succ', Nat.mod_mul]
    omega

theorem resize_true (clear : Bool) (bn : _libssh2_bn) (n : Nat) (hn : n ≠ 0) :
    ∃ r1, _libssh2_wincng_bignum_resize clear true (some bn) n = (0, some r1) ∧
      r1.length = n := by
  simp only [_libssh2_wincng_bignum_resize]
  by_cases h : n = bn.length
  · rw [if_pos h]
    exact ⟨bn, rfl, h.symm⟩
  · rw [if_neg h, if_neg hn]
    refine ⟨_, rfl, ?_⟩
    simp only [_libssh2_bn.length, if_true]
    exact length_realloc _ _

theorem resize_same (clear alloc : Bool) (bn : _libssh2_bn) (n : Nat) (h : n = bn.length) :
    _libssh2_wincng_bignum_resize clear alloc (some bn) n = (0, some bn) := by
  simp only [_libssh2_wincng_bignum_resize]
  rw [if_pos h]

theorem beValue_fitWidth_of_le (src : List Nat) (w : Nat) (h : src.length ≤ w) :
    beValue (fitWidth src w) = beValue src := by
  simp only [fitWidth]
  split
  · rw [beValue_append, beValue_replicate_zero]; simp
  · have : src.length - w = 0 := by omega
    rw [this]; simp

/-- The blob `_libssh2_wincng_bignum_mod_exp` imports carries the exponent and
the modulus as its two fields. -/
theorem mod_exp_blob_fields (p m : _libssh2_bn) :
    rsaFields
      { lpszBlobType := BlobType.BCRYPT_RSAPUBLIC_BLOB,
        rsakey := {
          Magic := BCRYPT_RSAPUBLIC_MAGIC
          BitLength := m.length * 8
          cbPublicExp := p.length
          cbModulus := m.length
          cbPrime1 := 0
          cbPrime2 := 0 },
        key := memcpy
          (memcpy (List.replicate (sizeof_BCRYPT_RSAKEY_BLOB + p.length + m.length) 0)
            sizeof_BCRYPT_RSAKEY_BLOB p.bytes p.length)
          (sizeof_BCRYPT_RSAKEY_BLOB + p.length) m.bytes m.length } = [p.bytes, m.bytes] := by
  have hm : ¬ (BCRYPT_RSAPUBLIC_MAGIC = BCRYPT_RSAFULLPRIVATE_MAGIC) := by decide
  have hkey : List.replicate (sizeof_BCRYPT_RSAKEY_BLOB + p.length + m.length) 0 =
      List.replicate sizeof_BCRYPT_RSAKEY_BLOB 0 ++ (List.replicate p.length 0 ++
        (List.replicate m.length 0 ++ [])) := by
    simp only [List.append_nil, ← List.replicate_add]
    congr 1; omega
  simp only [rsaFields, if_neg hm]
  rw [hkey]
  rw [memcpy_mid _ _ _ p.bytes _ p.length (by simp) (by simp) (length_eq_bytes p).symm]
  rw [memcpy_mid _ _ _ m.bytes _ m.length (by simp [length_eq_bytes]) (by simp)
    (length_eq_bytes m).symm]
  simp only [List.append_assoc]
  rw [List.drop_left' (by simp)]
  rw [splitWidths_cons _ _ _ _ (length_eq_bytes p).symm]
  rw [List.append_nil, splitWidths_single _ _ (length_eq_bytes m).symm]

/-- With the exact provider, a modulus of at least one byte and every allocation
succeeding, `_libssh2_wincng_bignum_mod_exp` returns success and leaves in `r` the modulus
width's big-endian encoding of `a ^ p mod m`. -/
theorem mod_exp_exact (clear : Bool) (r a p m : _libssh2_bn) (hm : m.length ≠ 0) :
    ∃ r', _libssh2_wincng_bignum_mod_exp exactModExpProvider clear true true true true
        (some r) (some a) (some p) (some m) = (0, some r') ∧
      r'.bytes = toBE (a.value ^ p.value % m.value) m.length := by
  obtain ⟨r1, hres, hr1⟩ := resize_true clear r m.length hm
  have hpad : memcpy_with_be_padding (List.replicate (max a.length m.length) 0) 0
      (max a.length m.length) a.bytes a.length =
      some (fitWidth a.bytes (max a.length m.length)) := by
    have := be_padding_fits [] (List.replicate (max a.length m.length) 0) [] a.bytes
      (by simp [← length_eq_bytes])
    simpa [← length_eq_bytes] using this
  have hval : beValue (fitWidth a.bytes (max a.length m.length)) = a.value :=
    beValue_fitWidth_of_le _ _ (by rw [← length_eq_bytes]; exact Nat.le_max_left _ _)
  simp only [_libssh2_wincng_bignum_mod_exp, exactModExpProvider, not_true_eq_false,
    if_false, hres, hpad, mod_exp_blob_fields, List.getD_cons_zero, List.getD_cons_succ, hval]
  set out := toBE (a.value ^ beValue p.bytes % beValue m.bytes) m.length with hout
  have hlen : out.length = m.length := length_toBE _ _
  obtain ⟨bg⟩ := r1
  cases bg with
  | none =>
    have hm0 : m.length = 0 := by simpa [_libssh2_bn.length] using hr1.symm
    refine ⟨{ bignum := none }, ?_, ?_⟩
    · simp only [Option.map_none']
      rw [resize_same _ _ _ _ (by rw [hlen, hm0]; rfl)]
    · have : out = [] := List.length_eq_zero.mp (by rw [hlen, hm0])
      show ([] : List Nat) = _
      rw [← this]; rfl
  | some buf =>
    have hbuf : buf.length = m.length := by simpa [_libssh2_bn.length] using hr1
    refine ⟨{ bignum := some out }, ?_, ?_⟩
    · have hcopy : memcpy buf 0 out out.length = out := memcpy_full buf out (by rw [hbuf, hlen])
      simp only [Option.map_some', hcopy]
      rw [resize_same clear true { bignum := some out } out.length rfl]
    · rfl

/-! ## The Diffie-Hellman fallback: the claim -/

theorem toBE_mod (v w : Nat) : toBE (v % 256 ^ w) w = toBE v w := by
  induction w generalizing v with
  | zero => rfl
  | succ w ih =>
    simp only [toBE]
    rw [pow_succ', Nat.mod_mul_right_div_self, Nat.mod_mul_right_mod, ih]

theorem toBE_congr (v₁ v₂ w : Nat) (h : v₁ % 256 ^ w = v₂ % 256 ^ w) :
    toBE v₁ w = toBE v₂ w := by
  rw [← toBE_mod v₁, ← toBE_mod v₂, h]

/-- Both orders of exponentiation agree, also after each intermediate result
went through an encoding of `w` bytes, for a modulus below `256 ^ w`. -/
theorem pow_exchange (G a b P w : Nat) (hP : P < 256 ^ w) :
    ((G ^ b % P % 256 ^ w) ^ a % P) % 256 ^ w = ((G ^ a % P % 256 ^ w) ^ b % P) % 256 ^ w := by
  rcases Nat.eq_zero_or_pos P with h0 | hpos
  · subst h0
    simp only [Nat.mod_zero]
    rw [← Nat.pow_mod, ← Nat.pow_mod, ← pow_mul, ← pow_mul, Nat.mul_comm]
  · have hb : G ^ b % P % 256 ^ w = G ^ b % P :=
      Nat.mod_eq_of_lt (lt_trans (Nat.mod_lt _ hpos) hP)
    have ha : G ^ a % P % 256 ^ w = G ^ a % P :=
      Nat.mod_eq_of_lt (lt_trans (Nat.mod_lt _ hpos) hP)
    rw [hb, ha, ← Nat.pow_mod, ← Nat.pow_mod, ← pow_mul, ← pow_mul, Nat.mul_comm]

theorem value_lt (p : _libssh2_bn) (h : IsBytes p.bytes) : p.value < 256 ^ p.length := by
  rw [length_eq_bytes]
  exact beValue_lt _ h

/-- The two secrets of an exchange computed by
`_libssh2_wincng_bignum_mod_exp` with the exact provider, for arbitrary private
exponents and a modulus of at least one byte. -/
theorem secrets_agree (clear : Bool) (g p a b pubA₀ pubB₀ secA₀ secB₀ : _libssh2_bn)
    (hp : IsBytes p.bytes) (hp1 : p.length ≠ 0) :
    ∃ pubA pubB secA secB,
      _libssh2_wincng_bignum_mod_exp exactModExpProvider clear true true true true
        (some pubA₀) (some g) (some a) (some p) = (0, some pubA) ∧
      _libssh2_wincng_bignum_mod_exp exactModExpProvider clear true true true true
        (some pubB₀) (some g) (some b) (some p) = (0, some pubB) ∧
      _libssh2_wincng_bignum_mod_exp exactModExpProvider clear true true true true
        (some secA₀) (some pubB) (some a) (some p) = (0, some secA) ∧
      _libssh2_wincng_bignum_mod_exp exactModExpProvider clear true true true true
        (some secB₀) (some pubA) (some b) (some p) = (0, some secB) ∧
      secA.bytes = secB.bytes ∧
      (0 < p.value →
        pubA.value = g.value ^ a.value % p.value ∧
        pubB.value = g.value ^ b.value % p.value ∧
        secA.value = (g.value ^ b.value % p.value) ^ a.value % p.value ∧
        secB.value = (g.value ^ a.value % p.value) ^ b.value % p.value) := by
  obtain ⟨pubA, hA, hAb⟩ := mod_exp_exact clear pubA₀ g a p hp1
  obtain ⟨pubB, hB, hBb⟩ := mod_exp_exact clear pubB₀ g b p hp1
  obtain ⟨secA, hsA, hsAb⟩ := mod_exp_exact clear secA₀ pubB a p hp1
  obtain ⟨secB, hsB, hsBb⟩ := mod_exp_exact clear secB₀ pubA b p hp1
  have hlt := value_lt p hp
  have hvA : pubA.value = g.value ^ a.value % p.value % 256 ^ p.length := by
    simp only [_libssh2_bn.value] at *
    rw [hAb, beValue_toBE]
  have hvB : pubB.value = g.value ^ b.value % p.value % 256 ^ p.length := by
    simp only [_libssh2_bn.value] at *
    rw [hBb, beValue_toBE]
  refine ⟨pubA, pubB, secA, secB, hA, hB, hsA, hsB, ?_, ?_⟩
  · rw [hsAb, hsBb, hvA, hvB]
    exact toBE_congr _ _ _ (pow_exchange _ _ _ _ _ hlt)
  · intro hpos
    have hA' : pubA.value = g.value ^ a.value % p.value := by
      rw [hvA]; exact Nat.mod_eq_of_lt (lt_trans (Nat.mod_lt _ hpos) hlt)
    have hB' : pubB.value = g.value ^ b.value % p.value := by
      rw [hvB]; exact Nat.mod_eq_of_lt (lt_trans (Nat.mod_lt _ hpos) hlt)
    refine ⟨hA', hB', ?_, ?_⟩
    · have : secA.value = beValue secA.bytes := rfl
      rw [this, hsAb, beValue_toBE, hB']
      exact Nat.mod_eq_of_lt (lt_trans (Nat.mod_lt _ hpos) hlt)
    · have : secB.value = beValue secB.bytes := rfl
      rw [this, hsBb, beValue_toBE, hA']
      exact Nat.mod_eq_of_lt (lt_trans (Nat.mod_lt _ hpos) hlt)

/-- The fallback branch of `_libssh2_dh_key_pair` with the exact provider, a
modulus of at least one byte, the random fill and every allocation succeeding:
it stores the random private exponent and the public value computed from it by
`_libssh2_wincng_bignum_mod_exp`. -/
theorem key_pair_fallback_ok (clear : Bool) (f : Nat → Nat) (pub₀ g p : _libssh2_bn)
    (group_order : Int) (ho : 1 ≤ group_order) (hp1 : p.length ≠ 0) :
    ∃ x pub,
      _libssh2_dh_key_pair_fallback exactModExpProvider (some f) clear true true true true
        true true (some pub₀) (some g) (some p) group_order = (0, some x, some pub) ∧
      _libssh2_wincng_bignum_mod_exp exactModExpProvider clear true true true true
        (some pub₀) (some g) (some x) (some p) = (0, some pub) := by
  obtain ⟨bs, hr, _⟩ := rand_ok clear f { bignum := none } (group_order * 8 - 1) 0 (-1)
    (by omega)
  obtain ⟨pub, hm, _⟩ := mod_exp_exact clear pub₀ g { bignum := some bs } p hp1
  refine ⟨{ bignum := some bs }, pub, ?_, hm⟩
  simp only [_libssh2_dh_key_pair_fallback, _libssh2_wincng_bignum_init, if_true, hr, hm]

/-- On a context without key handle `_libssh2_dh_secret` is
`_libssh2_wincng_bignum_mod_exp(secret, f, dhctx->dh_privbn, p)`: it makes no
Diffie-Hellman provider call and leaves the global as it is. -/
theorem dh_secret_slow {κ : Type} (prov : DhProvider) (rsa : RsaProvider κ) (clear : Bool)
    (a : SecretAllocs) (G : _libssh2_wincng_ctx) (log : List DhCall)
    (dhctx : _libssh2_dh_ctx) (secret f p : Option _libssh2_bn)
    (hh : dhctx.dh_handle = none) :
    _libssh2_dh_secret prov rsa clear a G log dhctx secret f p =
      some ⟨(_libssh2_wincng_bignum_mod_exp rsa clear a.key a.r a.buf a.fin secret f
          dhctx.dh_privbn p).1,
        (_libssh2_wincng_bignum_mod_exp rsa clear a.key a.r a.buf a.fin secret f
          dhctx.dh_privbn p).2, G, log⟩ := by
  unfold _libssh2_dh_secret
  rcases hA : G.hAlgDH with _ | hAlg <;> rcases hp : dhctx.dh_params with _ | dh_params <;>
    rcases f with _ | ff <;> simp only [hh]

/-- Without the Diffie-Hellman algorithm of the provider, or with the flag
Unsupported, `_libssh2_dh_key_pair` is its fallback branch. -/
theorem key_pair_slow {κ : Type} (prov : DhProvider) (rsa : RsaProvider κ)
    (random : RandomFill) (clear : Bool) (allocs : Nat → KeyPairAllocs)
    (fb : FallbackAllocs) (G : _libssh2_wincng_ctx) (g p : _libssh2_bn)
    (group_order : Int) (fuel turn : Nat) (log : List DhCall) (dhctx : _libssh2_dh_ctx)
    (public_ : Option _libssh2_bn)
    (hG : ¬ (G.hAlgDH.isSome = true ∧ G.hasAlgDHwithKDF ≠ -1)) :
    _libssh2_dh_key_pair prov rsa random clear allocs fb G g p group_order fuel turn log
        dhctx public_ =
      some ⟨(_libssh2_dh_key_pair_fallback rsa random clear fb.init fb.rand fb.key
          fb.r fb.buf fb.fin public_ (some g) (some p) group_order).1,
        { dhctx with dh_privbn := (_libssh2_dh_key_pair_fallback rsa random clear
          fb.init fb.rand fb.key fb.r fb.buf fb.fin public_ (some g) (some p)
          group_order).2.1 },
        (_libssh2_dh_key_pair_fallback rsa random clear fb.init fb.rand fb.key
          fb.r fb.buf fb.fin public_ (some g) (some p) group_order).2.2, log⟩ := by
  cases fuel <;> simp only [_libssh2_dh_key_pair, if_neg hG]

/-- C10. With the provider's no-padding RSA public-key encrypt being exact
modular exponentiation (and the allocations and random fills succeeding), the
slow path agrees from both sides, for every generator `g`, every modulus `p` of
at least one byte and all private exponents `a` and `b`.  With the public
values computed as the fallback branch of `_libssh2_dh_key_pair` computes them
(`_libssh2_wincng_bignum_mod_exp(public, g, dh_privbn, p)`), `_libssh2_dh_secret`
on A's context (no key handle, private exponent `a`) with B's public value and
`_libssh2_dh_secret` on B's context with A's public value both return 0, make no
Diffie-Hellman provider call and leave the same bytes; for a non-zero modulus
their value is `(g^b mod p)^a mod p = (g^a mod p)^b mod p`.  The same holds for
the contexts and public values that `_libssh2_dh_key_pair` itself leaves when it
takes its fallback branch (no Diffie-Hellman algorithm, or the flag
Unsupported), for any random bytes. -/
theorem dh_fallback_consistent (provA provB : DhProvider) (clear : Bool)
    (g p : _libssh2_bn) (hp : IsBytes p.bytes) (hp1 : p.length ≠ 0) :
    (∀ (a b pubA₀ pubB₀ secA₀ secB₀ : _libssh2_bn) (GA GB : _libssh2_wincng_ctx)
        (logA logB : List DhCall),
      ∃ pubA pubB secA secB,
        _libssh2_wincng_bignum_mod_exp exactModExpProvider clear true true true true
          (some pubA₀) (some g) (some a) (some p) = (0, some pubA) ∧
        _libssh2_wincng_bignum_mod_exp exactModExpProvider clear true true true true
          (some pubB₀) (some g) (some b) (some p) = (0, some pubB) ∧
        _libssh2_dh_secret provA exactModExpProvider clear
          ⟨true, true, true, true, true, true⟩ GA logA ⟨none, none, some a⟩
          (some secA₀) (some pubB) (some p) = some ⟨0, some secA, GA, logA⟩ ∧
        _libssh2_dh_secret provB exactModExpProvider clear
          ⟨true, true, true, true, true, true⟩ GB logB ⟨none, none, some b⟩
          (some secB₀) (some pubA) (some p) = some ⟨0, some secB, GB, logB⟩ ∧
        secA.bytes = secB.bytes ∧
        (0 < p.value →
          secA.value = (g.value ^ b.value % p.value) ^ a.value % p.value ∧
          secB.value = (g.value ^ a.value % p.value) ^ b.value % p.value ∧
          (g.value ^ a.value % p.value) ^ b.value % p.value =
            (g.value ^ b.value % p.value) ^ a.value % p.value)) ∧
    (∀ (fA fB : Nat → Nat) (group_order : Int) (pubA₀ pubB₀ secA₀ secB₀ : _libssh2_bn)
        (GA GB : _libssh2_wincng_ctx) (allocsA allocsB : Nat → KeyPairAllocs)
        (fuelA turnA fuelB turnB : Nat) (logA logB : List DhCall),
      1 ≤ group_order →
      ¬ (GA.hAlgDH.isSome = true ∧ GA.hasAlgDHwithKDF ≠ -1) →
      ¬ (GB.hAlgDH.isSome = true ∧ GB.hasAlgDHwithKDF ≠ -1) →
      ∃ a b pubA pubB secA secB,
        _libssh2_dh_key_pair provA exactModExpProvider (some fA) clear allocsA
          ⟨true, true, true, true, true, true⟩ GA g p group_order fuelA turnA logA
          _libssh2_dh_init (some pubA₀) =
          some ⟨0, ⟨none, none, some a⟩, some pubA, logA⟩ ∧
        _libssh2_dh_key_pair provB exactModExpProvider (some fB) clear allocsB
          ⟨true, true, true, true, true, true⟩ GB g p group_order fuelB turnB logB
          _libssh2_dh_init (some pubB₀) =
          some ⟨0, ⟨none, none, some b⟩, some pubB, logB⟩ ∧
        _libssh2_dh_secret provA exactModExpProvider clear
          ⟨true, true, true, true, true, true⟩ GA logA ⟨none, none, some a⟩
          (some secA₀) (some pubB) (some p) = some ⟨0, some secA, GA, logA⟩ ∧
        _libssh2_dh_secret provB exactModExpProvider clear
          ⟨true, true, true, true, true, true⟩ GB logB ⟨none, none, some b⟩
          (some secB₀) (some pubA) (some p) = some ⟨0, some secB, GB, logB⟩ ∧
        secA.bytes = secB.bytes ∧
        (0 < p.value →
          secA.value = (g.value ^ b.value % p.value) ^ a.value % p.value ∧
          secB.value = (g.value ^ a.value % p.value) ^ b.value % p.value)) := by
  constructor
  · intro a b pubA₀ pubB₀ secA₀ secB₀ GA GB logA logB
    obtain ⟨pubA, pubB, secA, secB, hA, hB, hsA, hsB, heq, hval⟩ :=
      secrets_agree clear g p a b pubA₀ pubB₀ secA₀ secB₀ hp hp1
    refine ⟨pubA, pubB, secA, secB, hA, hB, ?_, ?_, heq, ?_⟩
    · rw [dh_secret_slow _ _ _ _ _ _ _ _ _ _ rfl]
      simp only [hsA]
    · rw [dh_secret_slow _ _ _ _ _ _ _ _ _ _ rfl]
      simp only [hsB]
    · intro hpos
      obtain ⟨_, _, h1, h2⟩ := hval hpos
      refine ⟨h1, h2, ?_⟩
      rw [← h1, ← h2]
      show beValue secB.bytes = beValue secA.bytes
      rw [heq]
  · intro fA fB group_order pubA₀ pubB₀ secA₀ secB₀ GA GB allocsA allocsB fuelA turnA fuelB
      turnB logA logB ho hGA hGB
    obtain ⟨a, pubA', hkA, hmA⟩ := key_pair_fallback_ok clear fA pubA₀ g p group_order ho hp1
    obtain ⟨b, pubB', hkB, hmB⟩ := key_pair_fallback_ok clear fB pubB₀ g p group_order ho hp1
    obtain ⟨pubA, pubB, secA, secB, hA, hB, hsA, hsB, heq, hval⟩ :=
      secrets_agree clear g p a b pubA₀ pubB₀ secA₀ secB₀ hp hp1
    have eA : pubA' = pubA := by
      have := hmA.symm.trans hA
      simpa using this
    have eB : pubB' = pubB := by
      have := hmB.symm.trans hB
      simpa using this
    subst eA eB
    refine ⟨a, b, pubA', pubB', secA, secB, ?_, ?_, ?_, ?_, heq, ?_⟩
    · rw [key_pair_slow _ _ _ _ _ _ _ _ _ _ _ _ _ _ _ hGA]
      simp only [hkA, _libssh2_dh_init]
    · rw [key_pair_slow _ _ _ _ _ _ _ _ _ _ _ _ _ _ _ hGB]
      simp only [hkB, _libssh2_dh_init]
    · rw [dh_secret_slow _ _ _ _ _ _ _ _ _ _ rfl]
      simp only [hsA]
    · rw [dh_secret_slow _ _ _ _ _ _ _ _ _ _ rfl]
      simp only [hsB]
    · intro hpos
      obtain ⟨_, _, h1, h2⟩ := hval hpos
      exact ⟨h1, h2⟩

theorem dh_fallback_consistent_witness :
    ∃ pubA pubB secA secB,
      _libssh2_wincng_bignum_mod_exp exactModExpProvider true true true true true
        (some { bignum := none }) (some { bignum := some [5] }) (some { bignum := some [6] })
        (some { bignum := some [23] }) = (0, some pubA) ∧
      _libssh2_wincng_bignum_mod_exp exactModExpProvider true true true true true
        (some { bignum := none }) (some { bignum := some [5] }) (some { bignum := some [15] })
        (some { bignum := some [23] }) = (0, some pubB) ∧
      _libssh2_dh_secret (fun _ _ => ⟨0, 1, 0, 0, 0, []⟩) exactModExpProvider true
        ⟨true, true, true, true, true, true⟩ ⟨none, 0⟩ []
        ⟨none, none, some { bignum := some [6] }⟩ (some { bignum := none }) (some pubB)
        (some { bignum := some [23] }) = some ⟨0, some secA, ⟨none, 0⟩, []⟩ ∧
      _libssh2_dh_secret (fun _ _ => ⟨0, 1, 0, 0, 0, []⟩) exactModExpProvider true
        ⟨true, true, true, true, true, true⟩ ⟨some 1, -1⟩ []
        ⟨none, none, some { bignum := some [15] }⟩ (some { bignum := none }) (some pubA)
        (some { bignum := some [23] }) = some ⟨0, some secB, ⟨some 1, -1⟩, []⟩ ∧
      secA.bytes = secB.bytes ∧
      (0 < _libssh2_bn.value { bignum := some [23] } →
        secA.value =
          (_libssh2_bn.value { bignum := some [5] } ^ _libssh2_bn.value { bignum := some [15] } %
            _libssh2_bn.value { bignum := some [23] }) ^ _libssh2_bn.value { bignum := some [6] } %
            _libssh2_bn.value { bignum := some [23] } ∧
        secB.value =
          (_libssh2_bn.value { bignum := some [5] } ^ _libssh2_bn.value { bignum := some [6] } %
            _libssh2_bn.value { bignum := some [23] }) ^ _libssh2_bn.value { bignum := some [15] } %
            _libssh2_bn.value { bignum := some [23] } ∧
        (_libssh2_bn.value { bignum := some [5] } ^ _libssh2_bn.value { bignum := some [6] } %
            _libssh2_bn.value { bignum := some [23] }) ^ _libssh2_bn.value { bignum := some [15] } %
            _libssh2_bn.value { bignum := some [23] } =
          (_libssh2_bn.value { bignum := some [5] } ^ _libssh2_bn.value { bignum := some [15] } %
            _libssh2_bn.value { bignum := some [23] }) ^ _libssh2_bn.value { bignum := some [6] } %
            _libssh2_bn.value { bignum := some [23] }) :=
  (dh_fallback_consistent (fun _ _ => ⟨0, 1, 0, 0, 0, []⟩) (fun _ _ => ⟨0, 1, 0, 0, 0, []⟩)
    true { bignum := some [5] } { bignum := some [23] } (by decide) (by decide)).1
    { bignum := some [6] } { bignum := some [15] } { bignum := none }
    { bignum := none } { bignum := none } { bignum := none } ⟨none, 0⟩ ⟨some 1, -1⟩ [] []

/-! ## Diffie-Hellman: the capability flag -/

/-- C14. Capability stickiness: whenever the capability flag is Unsupported (-1),
`_libssh2_dh_secret` on any context makes no provider call of the fast path (the
list of Diffie-Hellman calls is unchanged), leaves the global unchanged and
returns exactly the status and the secret of
`_libssh2_wincng_bignum_mod_exp(secret, f, dhctx->dh_privbn, p)`; and
`_libssh2_dh_key_pair`, for every bound on its loop, makes no Diffie-Hellman
provider call either and returns the result of its fallback branch. -/
theorem unsupported_goes_straight_to_fallback {κ : Type} (prov : DhProvider)
    (rsa : RsaProvider κ) (clear : Bool) (G : _libssh2_wincng_ctx) (log : List DhCall)
    (dhctx : _libssh2_dh_ctx) (hflag : G.hasAlgDHwithKDF = -1) :
    (∀ (a : SecretAllocs) (secret f p : Option _libssh2_bn),
      _libssh2_dh_secret prov rsa clear a G log dhctx secret f p =
        some {
          status := (_libssh2_wincng_bignum_mod_exp rsa clear a.key a.r a.buf a.fin secret f
            dhctx.dh_privbn p).1,
          secret := (_libssh2_wincng_bignum_mod_exp rsa clear a.key a.r a.buf a.fin secret f
            dhctx.dh_privbn p).2,
          G := G, log := log }) ∧
    (∀ (random : RandomFill) (allocs : Nat → KeyPairAllocs) (fb : FallbackAllocs)
        (g p : _libssh2_bn) (group_order : Int) (fuel turn : Nat)
        (public_ : Option _libssh2_bn),
      _libssh2_dh_key_pair prov rsa random clear allocs fb G g p group_order fuel turn log
          dhctx public_ =
        some {
          status := (_libssh2_dh_key_pair_fallback rsa random clear fb.init fb.rand fb.key
            fb.r fb.buf fb.fin public_ (some g) (some p) group_order).1,
          dhctx := { dhctx with dh_privbn := (_libssh2_dh_key_pair_fallback rsa random clear
            fb.init fb.rand fb.key fb.r fb.buf fb.fin public_ (some g) (some p)
            group_order).2.1 },
          public_ := (_libssh2_dh_key_pair_fallback rsa random clear fb.init fb.rand fb.key
            fb.r fb.buf fb.fin public_ (some g) (some p) group_order).2.2,
          log := log }) := by
  constructor
  · intro a secret f p
    unfold _libssh2_dh_secret
    rcases hA : G.hAlgDH with _ | hAlg <;> rcases hh : dhctx.dh_handle with _ | dh_handle <;>
      rcases hp : dhctx.dh_params with _ | dh_params <;> rcases f with _ | ff <;>
      simp [hflag]
  · intro random allocs fb g p group_order fuel turn public_
    cases fuel <;> simp [_libssh2_dh_key_pair, hflag]

theorem unsupported_goes_straight_to_fallback_witness :
    (_libssh2_dh_secret (fun _ _ => ⟨0, 1, 0, 0, 0, []⟩) exactModExpProvider true
      ⟨true, true, true, true, true, true⟩ ⟨some 1, -1⟩ []
      ⟨none, none, some ⟨some [6]⟩⟩
      (some ⟨none⟩) (some ⟨some [8]⟩) (some ⟨some [23]⟩)).map (fun res => res.log) =
      some [] :=
  congrArg (Option.map (fun res => res.log))
    ((unsupported_goes_straight_to_fallback (fun _ _ => ⟨0, 1, 0, 0, 0, []⟩)
      exactModExpProvider true ⟨some 1, -1⟩ [] ⟨none, none, some ⟨some [6]⟩⟩ rfl).1
      ⟨true, true, true, true, true, true⟩
      (some ⟨none⟩) (some ⟨some [8]⟩) (some ⟨some [23]⟩))

/-- The flag after one call of `_libssh2_dh_secret`: unchanged, or 1, or -1; and
-1 stays -1.  The algorithm handle is never changed. -/
theorem secret_flag_step {κ : Type} (prov : DhProvider) (rsa : RsaProvider κ) (clear : Bool)
    (a : SecretAllocs) (G : _libssh2_wincng_ctx) (log : List DhCall)
    (dhctx : _libssh2_dh_ctx) (secret f p : Option _libssh2_bn) :
    ∀ res, _libssh2_dh_secret prov rsa clear a G log dhctx secret f p = some res →
      (res.G.hasAlgDHwithKDF = G.hasAlgDHwithKDF ∨
        (G.hasAlgDHwithKDF ≠ -1 ∧
          (res.G.hasAlgDHwithKDF = 1 ∨ res.G.hasAlgDHwithKDF = -1))) ∧
      res.G.hAlgDH = G.hAlgDH := by
  unfold _libssh2_dh_secret
  rcases hA : G.hAlgDH with _ | hAlg <;> rcases hh : dhctx.dh_handle with _ | dh_handle <;>
    rcases hp : dhctx.dh_params with _ | dh_params <;> rcases f with _ | ff <;>
    simp only [Option.some.injEq, forall_eq', hA, true_and, and_true, true_or]
  by_cases hflag : G.hasAlgDHwithKDF = -1
  · simp [hflag, hA]
  · simp only [hflag, if_false]
    repeat' split
    all_goals simp [hA, hflag]

/-- C13 as stated fails: with the flag at Supported (1) and a provider whose
length query of the raw derivation reports `STATUS_NOT_SUPPORTED`, a call of
`_libssh2_dh_secret` on a context with a key handle and saved parameters leaves
the flag at Unsupported (-1). -/
theorem supported_becomes_unsupported :
    (_libssh2_dh_secret noRawKdfProvider exactModExpProvider true
      ⟨true, true, true, true, true, true⟩ ⟨some 1, 1⟩ []
      ⟨some 1, some ⟨⟨14, BCRYPT_DH_PARAMETERS_MAGIC, 1⟩, List.replicate 12 0 ++ [23, 5]⟩, none⟩
      (some ⟨none⟩) (some ⟨some [8]⟩) (some ⟨some [23]⟩)).map
      (fun res => res.G.hasAlgDHwithKDF) = some (-1) := by
  decide

/-- C13 as amended: across any sequence of calls of `_libssh2_dh_secret` with
arbitrary arguments and providers (calls of `_libssh2_dh_key_pair` do not write
the flag), the flag either keeps its value or, when that value is not
Unsupported (-1), ends at Supported (1) or Unsupported (-1); once it is
Unsupported no call changes it again, and from Supported it never returns to
Unknown but can still become Unsupported. -/
theorem flag_transitions {κ : Type} (calls : List (SecretCall κ)) (G : _libssh2_wincng_ctx) :
    ((globalAfter calls G).hasAlgDHwithKDF = G.hasAlgDHwithKDF ∨
      (G.hasAlgDHwithKDF ≠ -1 ∧
        ((globalAfter calls G).hasAlgDHwithKDF = 1 ∨
         (globalAfter calls G).hasAlgDHwithKDF = -1))) ∧
    (G.hasAlgDHwithKDF = -1 → (globalAfter calls G).hasAlgDHwithKDF = -1) ∧
    (G.hasAlgDHwithKDF = 1 →
      (globalAfter calls G).hasAlgDHwithKDF = 1 ∨
      (globalAfter calls G).hasAlgDHwithKDF = -1) := by
  have key : ∀ (calls : List (SecretCall κ)) (G : _libssh2_wincng_ctx),
      (globalAfter calls G).hasAlgDHwithKDF = G.hasAlgDHwithKDF ∨
      (G.hasAlgDHwithKDF ≠ -1 ∧
        ((globalAfter calls G).hasAlgDHwithKDF = 1 ∨
         (globalAfter calls G).hasAlgDHwithKDF = -1)) := by
    intro calls
    induction calls with
    | nil => intro G; left; rfl
    | cons c cs ih =>
      intro G
      simp only [globalAfter]
      cases hres : _libssh2_dh_secret c.prov c.rsa c.clear c.allocs G c.log c.dhctx
          c.secret c.f c.p with
      | none => left; rfl
      | some res =>
      simp only []
      have hstep := (secret_flag_step c.prov c.rsa c.clear c.allocs G c.log c.dhctx c.secret
        c.f c.p res hres).1
      rcases ih res.G with h1 | ⟨_, h1⟩
      · rcases hstep with h2 | ⟨hne, h2⟩
        · left; rw [h1, h2]
        · right; refine ⟨hne, ?_⟩
          rw [h1]; exact h2
      · rcases hstep with h2 | ⟨hne, _⟩
        · right
          refine ⟨?_, h1⟩
          rw [← h2]; assumption
        · right; exact ⟨hne, h1⟩
  refine ⟨key calls G, ?_, ?_⟩
  · intro h
    rcases key calls G with h1 | ⟨hne, _⟩
    · rw [h1, h]
    · exact absurd h hne
  · intro h
    rcases key calls G with h1 | ⟨_, h1⟩
    · left; rw [h1, h]
    · exact h1

theorem flag_transitions_witness :
    (globalAfter
      [(⟨noRawKdfProvider, exactModExpProvider, true, ⟨true, true, true, true, true, true⟩, [],
        ⟨some 1, some ⟨⟨14, BCRYPT_DH_PARAMETERS_MAGIC, 1⟩, List.replicate 12 0 ++ [23, 5]⟩,
          none⟩,
        some ⟨none⟩, some ⟨some [8]⟩, some ⟨some [23]⟩⟩ : SecretCall RsaKeyBlob)]
      ⟨some 1, 1⟩).hasAlgDHwithKDF = 1 ∨
    (globalAfter
      [(⟨noRawKdfProvider, exactModExpProvider, true, ⟨true, true, true, true, true, true⟩, [],
        ⟨some 1, some ⟨⟨14, BCRYPT_DH_PARAMETERS_MAGIC, 1⟩, List.replicate 12 0 ++ [23, 5]⟩,
          none⟩,
        some ⟨none⟩, some ⟨some [8]⟩, some ⟨some [23]⟩⟩ : SecretCall RsaKeyBlob)]
      ⟨some 1, 1⟩).hasAlgDHwithKDF = -1 :=
  (flag_transitions _ ⟨some 1, 1⟩).2.2 rfl

/-! ## Diffie-Hellman: the fast path of the secret derivation -/

theorem BCRYPT_SUCCESS_iff (status : Int) : BCRYPT_SUCCESS status = true ↔ 0 ≤ status := by
  simp [BCRYPT_SUCCESS]

/-- The result of `_libssh2_dh_secret` when the fast path is entered and the peer
blob is allocated, as a case distinction on the answers of the provider. -/
theorem dh_secret_fast {κ : Type} (prov : DhProvider) (rsa : RsaProvider κ) (clear : Bool)
    (a : SecretAllocs) (G : _libssh2_wincng_ctx) (log : List DhCall)
    (dhctx : _libssh2_dh_ctx) (secret p : Option _libssh2_bn) (ff : _libssh2_bn)
    (hAlg dh_handle : Nat) (dh_params : DhParams) (blob : DhKeyBlob)
    (hA : G.hAlgDH = some hAlg) (hflag : G.hasAlgDHwithKDF ≠ -1)
    (hh : dhctx.dh_handle = some dh_handle) (hp : dhctx.dh_params = some dh_params)
    (halloc : a.blob = true) (hb : _libssh2_dh_secret_blob dh_params ff = some blob) :
    _libssh2_dh_secret prov rsa clear a G log dhctx secret (some ff) p =
      if ¬ 0 ≤ (importResp prov log blob).status then
        some ⟨-1, secret, G, fastPathLog prov log dh_handle blob 1⟩
      else if ¬ 0 ≤ (agreementResp prov log dh_handle blob).status then
        some ⟨-1, secret, G, fastPathLog prov log dh_handle blob 2⟩
      else if ¬ 0 ≤ (deriveSizeResp prov log dh_handle blob).status then
        if (deriveSizeResp prov log dh_handle blob).status = STATUS_NOT_SUPPORTED then
          some ⟨(_libssh2_wincng_bignum_mod_exp rsa clear a.key a.r a.buf a.fin secret
              (some ff) dhctx.dh_privbn p).1,
            (_libssh2_wincng_bignum_mod_exp rsa clear a.key a.r a.buf a.fin secret
              (some ff) dhctx.dh_privbn p).2,
            { G with hasAlgDHwithKDF := -1 }, fastPathLog prov log dh_handle blob 3⟩
        else some ⟨-1, secret, G, fastPathLog prov log dh_handle blob 3⟩
      else
        match _libssh2_wincng_bignum_resize clear a.secret secret
            (deriveSizeResp prov log dh_handle blob).size with
        | (0, some sec) =>
          if ¬ 0 ≤ (deriveResp prov log dh_handle blob).status then
            if (deriveResp prov log dh_handle blob).status = STATUS_NOT_SUPPORTED then
              some ⟨(_libssh2_wincng_bignum_mod_exp rsa clear a.key a.r a.buf a.fin
                  (some (derive_into sec (deriveResp prov log dh_handle blob).bytes))
                  (some ff) dhctx.dh_privbn p).1,
                (_libssh2_wincng_bignum_mod_exp rsa clear a.key a.r a.buf a.fin
                  (some (derive_into sec (deriveResp prov log dh_handle blob).bytes))
                  (some ff) dhctx.dh_privbn p).2,
                { G with hasAlgDHwithKDF := -1 }, fastPathLog prov log dh_handle blob 4⟩
            else
              some ⟨-1, some (derive_into sec (deriveResp prov log dh_handle blob).bytes), G,
                fastPathLog prov log dh_handle blob 4⟩
          else
            match (derive_into sec (deriveResp prov log dh_handle blob).bytes).bignum with
            | none => none
            | some _ =>
              some ⟨0, some (swap_bytes sec.length
                  (derive_into sec (deriveResp prov log dh_handle blob).bytes)),
                { G with hasAlgDHwithKDF := 1 }, fastPathLog prov log dh_handle blob 4⟩
        | (_, sec) => some ⟨-1, sec, G, fastPathLog prov log dh_handle blob 3⟩ := by
  unfold _libssh2_dh_secret
  simp only [hA, hh, hp, hflag, halloc, hb, if_false, not_true_eq_false, importResp,
    agreementResp, deriveSizeResp, deriveResp, BCRYPT_SUCCESS, decide_eq_true_eq, fastPathLog]

theorem resize_length (clear alloc : Bool) (bn : Option _libssh2_bn) (n : Nat)
    (sec : _libssh2_bn)
    (h : _libssh2_wincng_bignum_resize clear alloc bn n = (0, some sec)) : sec.length = n := by
  cases bn with
  | none => simp [_libssh2_wincng_bignum_resize] at h
  | some b =>
    simp only [_libssh2_wincng_bignum_resize] at h
    by_cases hn : n = b.length
    · rw [if_pos hn] at h
      simp only [Prod.mk.injEq, Option.some.injEq, true_and] at h
      rw [← h, hn]
    · rw [if_neg hn] at h
      have hneg : ¬ ((-1 : Int) = 0) := by decide
      by_cases h0 : n = 0
      · rw [if_pos h0] at h
        exact absurd (congrArg Prod.fst h) hneg
      rw [if_neg h0] at h
      cases alloc with
      | false => simp at h
      | true =>
        simp only [if_true, Prod.mk.injEq, Option.some.injEq, true_and] at h
        rw [← h]
        simp only [_libssh2_bn.length]
        exact length_realloc _ _

theorem resize_buffer (clear alloc : Bool) (bn : Option _libssh2_bn) (n : Nat)
    (r : _libssh2_bn) (hn : 1 ≤ n)
    (h : _libssh2_wincng_bignum_resize clear alloc bn n = (0, some r)) :
    ∃ buf, r = { bignum := some buf } ∧ buf.length = n := by
  have hl := resize_length clear alloc bn n r h
  obtain ⟨bg⟩ := r
  cases bg with
  | none =>
    have h0 : (0 : Nat) = n := hl
    omega
  | some buf =>
    exact ⟨buf, rfl, by simpa [_libssh2_bn.length] using hl⟩

/-- C15. On the fast path of `_libssh2_dh_secret` (flag not Unsupported, key
handle and saved parameters present, peer blob allocated): when the length query
or the fill call of the raw derivation reports `STATUS_NOT_SUPPORTED`, the flag
becomes Unsupported (-1) and the status and the secret are exactly those of
`_libssh2_wincng_bignum_mod_exp(secret, f, dhctx->dh_privbn, p)` run on the
secret as it is at that point (untouched after the length query, resized and
written by the provider after the fill call); when both derivation calls succeed
and the resized secret has a buffer, the status is 0 and the flag becomes
Supported (1); when the import, the secret agreement or a derivation call fails
otherwise, the status is -1 and the global is unchanged.  When both derivation
calls succeed and the resized secret has no buffer (a derived length of 0 on a
secret without buffer), the function has no result: the source reads outside
the secret. -/
theorem probe_outcomes {κ : Type} (prov : DhProvider) (rsa : RsaProvider κ) (clear : Bool)
    (a : SecretAllocs) (G : _libssh2_wincng_ctx) (log : List DhCall)
    (dhctx : _libssh2_dh_ctx) (secret p : Option _libssh2_bn) (ff : _libssh2_bn)
    (hAlg dh_handle : Nat) (dh_params : DhParams) (blob : DhKeyBlob)
    (hA : G.hAlgDH = some hAlg) (hflag : G.hasAlgDHwithKDF ≠ -1)
    (hh : dhctx.dh_handle = some dh_handle) (hp : dhctx.dh_params = some dh_params)
    (halloc : a.blob = true) (hb : _libssh2_dh_secret_blob dh_params ff = some blob) :
    ((importResp prov log blob).status < 0 →
      ∃ res, _libssh2_dh_secret prov rsa clear a G log dhctx secret (some ff) p = some res ∧
        res.status = -1 ∧ res.G = G) ∧
    (0 ≤ (importResp prov log blob).status →
      (agreementResp prov log dh_handle blob).status < 0 →
      ∃ res, _libssh2_dh_secret prov rsa clear a G log dhctx secret (some ff) p = some res ∧
        res.status = -1 ∧ res.G = G) ∧
    (0 ≤ (importResp prov log blob).status →
      0 ≤ (agreementResp prov log dh_handle blob).status →
      ((deriveSizeResp prov log dh_handle blob).status = STATUS_NOT_SUPPORTED →
        ∃ res, _libssh2_dh_secret prov rsa clear a G log dhctx secret (some ff) p =
            some res ∧
          res.G.hasAlgDHwithKDF = -1 ∧
          res.status =
            (_libssh2_wincng_bignum_mod_exp rsa clear a.key a.r a.buf a.fin secret (some ff)
              dhctx.dh_privbn p).1 ∧
          res.secret =
            (_libssh2_wincng_bignum_mod_exp rsa clear a.key a.r a.buf a.fin secret (some ff)
              dhctx.dh_privbn p).2) ∧
      ((deriveSizeResp prov log dh_handle blob).status < 0 →
        (deriveSizeResp prov log dh_handle blob).status ≠ STATUS_NOT_SUPPORTED →
        ∃ res, _libssh2_dh_secret prov rsa clear a G log dhctx secret (some ff) p =
            some res ∧
          res.status = -1 ∧ res.G = G) ∧
      (0 ≤ (deriveSizeResp prov log dh_handle blob).status →
        ∀ sec, _libssh2_wincng_bignum_resize clear a.secret secret
            (deriveSizeResp prov log dh_handle blob).size = (0, some sec) →
          ((deriveResp prov log dh_handle blob).status = STATUS_NOT_SUPPORTED →
            ∃ res, _libssh2_dh_secret prov rsa clear a G log dhctx secret (some ff) p =
                some res ∧
              res.G.hasAlgDHwithKDF = -1 ∧
              res.status =
                (_libssh2_wincng_bignum_mod_exp rsa clear a.key a.r a.buf a.fin
                  (some (derive_into sec (deriveResp prov log dh_handle blob).bytes))
                  (some ff) dhctx.dh_privbn p).1 ∧
              res.secret =
                (_libssh2_wincng_bignum_mod_exp rsa clear a.key a.r a.buf a.fin
                  (some (derive_into sec (deriveResp prov log dh_handle blob).bytes))
                  (some ff) dhctx.dh_privbn p).2) ∧
          ((deriveResp prov log dh_handle blob).status < 0 →
            (deriveResp prov log dh_handle blob).status ≠ STATUS_NOT_SUPPORTED →
            ∃ res, _libssh2_dh_secret prov rsa clear a G log dhctx secret (some ff) p =
                some res ∧
              res.status = -1 ∧ res.G = G) ∧
          (0 ≤ (deriveResp prov log dh_handle blob).status → sec.bignum.isSome = true →
            ∃ res, _libssh2_dh_secret prov rsa clear a G log dhctx secret (some ff) p =
                some res ∧
              res.status = 0 ∧ res.G.hasAlgDHwithKDF = 1) ∧
          (0 ≤ (deriveResp prov log dh_handle blob).status → sec.bignum = none →
            _libssh2_dh_secret prov rsa clear a G log dhctx secret (some ff) p = none))) := by
  have hns : STATUS_NOT_SUPPORTED < 0 := by decide
  rw [dh_secret_fast prov rsa clear a G log dhctx secret p ff hAlg dh_handle dh_params blob
    hA hflag hh hp halloc hb]
  refine ⟨?_, ?_, ?_⟩
  · intro h1
    rw [if_pos (by omega)]
    exact ⟨_, rfl, rfl, rfl⟩
  · intro h1 h2
    rw [if_neg (by omega), if_pos (by omega)]
    exact ⟨_, rfl, rfl, rfl⟩
  · intro h1 h2
    rw [if_neg (by omega), if_neg (by omega)]
    refine ⟨?_, ?_, ?_⟩
    · intro h3
      rw [if_pos (by omega), if_pos h3]
      exact ⟨_, rfl, rfl, rfl, rfl⟩
    · intro h3 h3'
      rw [if_pos (by omega), if_neg h3']
      exact ⟨_, rfl, rfl, rfl⟩
    · intro h3 sec hsec
      rw [if_neg (by omega), hsec]
      refine ⟨?_, ?_, ?_, ?_⟩
      · intro h4
        simp only []
        rw [if_pos (by omega), if_pos h4]
        exact ⟨_, rfl, rfl, rfl, rfl⟩
      · intro h4 h4'
        simp only []
        rw [if_pos (by omega), if_neg h4']
        exact ⟨_, rfl, rfl, rfl⟩
      · intro h4 hbuf
        simp only []
        rw [if_neg (by omega)]
        obtain ⟨bg⟩ := sec
        cases bg with
        | none => exact absurd hbuf (by decide)
        | some buf => exact ⟨_, rfl, rfl, rfl⟩
      · intro h4 hbuf
        simp only []
        rw [if_neg (by omega)]
        obtain ⟨bg⟩ := sec
        cases bg with
        | none => rfl
        | some buf => exact absurd hbuf (by simp)

theorem probe_outcomes_witness :
    ∃ res, _libssh2_dh_secret noRawKdfProvider exactModExpProvider true
        ⟨true, true, true, true, true, true⟩ ⟨some 1, 0⟩ []
        ⟨some 1, some ⟨⟨14, BCRYPT_DH_PARAMETERS_MAGIC, 1⟩, List.replicate 12 0 ++ [23, 5]⟩,
          some ⟨some [3]⟩⟩
        (some ⟨none⟩) (some ⟨some [8]⟩) (some ⟨some [23]⟩) = some res ∧
      res.G.hasAlgDHwithKDF = -1 ∧
      res.status =
        (_libssh2_wincng_bignum_mod_exp exactModExpProvider true true true true true
          (some ⟨none⟩) (some ⟨some [8]⟩) (some ⟨some [3]⟩) (some ⟨some [23]⟩)).1 ∧
      res.secret =
        (_libssh2_wincng_bignum_mod_exp exactModExpProvider true true true true true
          (some ⟨none⟩) (some ⟨some [8]⟩) (some ⟨some [3]⟩) (some ⟨some [23]⟩)).2 :=
  ((probe_outcomes noRawKdfProvider exactModExpProvider true
    ⟨true, true, true, true, true, true⟩ ⟨some 1, 0⟩ []
    ⟨some 1, some ⟨⟨14, BCRYPT_DH_PARAMETERS_MAGIC, 1⟩, List.replicate 12 0 ++ [23, 5]⟩,
      some ⟨some [3]⟩⟩
    (some ⟨none⟩) (some ⟨some [23]⟩) ⟨some [8]⟩ 1 1
    ⟨⟨14, BCRYPT_DH_PARAMETERS_MAGIC, 1⟩, List.replicate 12 0 ++ [23, 5]⟩
    ⟨⟨BCRYPT_DH_PUBLIC_MAGIC, 1⟩, List.replicate 8 0 ++ [23, 5, 8]⟩
    rfl (by decide) rfl rfl rfl (by decide)).2.2 (by decide) (by decide)).1 (by decide)

/-- The padded input that `_libssh2_wincng_bignum_mod_exp` hands to the second
encrypt call. -/
theorem mod_exp_input (a : _libssh2_bn) (length : Nat) :
    memcpy_with_be_padding (List.replicate (max a.length length) 0) 0
      (max a.length length) a.bytes a.length =
      some (fitWidth a.bytes (max a.length length)) := by
  have := be_padding_fits [] (List.replicate (max a.length length) 0) [] a.bytes
    (by simp [← length_eq_bytes])
  simpa [← length_eq_bytes] using this

/-- C17 as stated fails: with a provider whose key import and length query
succeed (announcing 1 byte) and whose encrypt call fails,
`_libssh2_wincng_bignum_mod_exp` returns -1 and the result number, `07 09`
before the call, is the one byte `07` afterwards. -/
theorem mod_exp_failure_resizes_result :
    _libssh2_wincng_bignum_mod_exp failingEncryptProvider true true true true true
      (some ⟨some [7, 9]⟩) (some ⟨some [2]⟩) (some ⟨some [3]⟩) (some ⟨some [5]⟩) =
      (-1, some ⟨some [7]⟩) := by
  decide

/-- C17 as amended: when `_libssh2_wincng_bignum_mod_exp` fails because the
provider refused the key or its length query failed, the result number is the one
passed in, unchanged; when it fails because the encrypt call into the result
buffer failed, the result number is the one the resize to the announced length
left: its length is the announced length, and it is the number passed in exactly
when that length was already its length. -/
theorem mod_exp_provider_failure {κ : Type} (prov : RsaProvider κ)
    (clear allocKey allocR allocBuf allocEnd : Bool) (r a p m : _libssh2_bn)
    (hkey : allocKey = true) :
    (prov.importKeyPair (modExpKeyBlob p m) = none →
      _libssh2_wincng_bignum_mod_exp prov clear allocKey allocR allocBuf allocEnd
        (some r) (some a) (some p) (some m) = (-1, some r)) ∧
    (∀ hKey, prov.importKeyPair (modExpKeyBlob p m) = some hKey →
      prov.encryptSize hKey a.bytes = none →
      _libssh2_wincng_bignum_mod_exp prov clear allocKey allocR allocBuf allocEnd
        (some r) (some a) (some p) (some m) = (-1, some r)) ∧
    (∀ hKey length r1, prov.importKeyPair (modExpKeyBlob p m) = some hKey →
      prov.encryptSize hKey a.bytes = some length →
      _libssh2_wincng_bignum_resize clear allocR (some r) length = (0, some r1) →
      allocBuf = true →
      prov.encrypt hKey (fitWidth a.bytes (max a.length length)) r1.length = none →
      _libssh2_wincng_bignum_mod_exp prov clear allocKey allocR allocBuf allocEnd
        (some r) (some a) (some p) (some m) = (-1, some r1) ∧
      r1.length = length ∧ (r1 = r ↔ length = r.length)) := by
  subst hkey
  refine ⟨?_, ?_, ?_⟩
  · intro h
    simp only [modExpKeyBlob] at h
    simp [_libssh2_wincng_bignum_mod_exp, h]
  · intro hKey h1 h2
    simp only [modExpKeyBlob] at h1
    simp [_libssh2_wincng_bignum_mod_exp, h1, h2]
  · intro hKey length r1 h1 h2 h3 h4 h5
    subst h4
    simp only [modExpKeyBlob] at h1
    have hlen := resize_length _ _ _ _ _ h3
    refine ⟨?_, hlen, ?_⟩
    · simp [_libssh2_wincng_bignum_mod_exp, h1, h2, h3, mod_exp_input, h5]
    · constructor
      · intro h; rw [← hlen, h]
      · intro h
        rw [resize_same clear allocR r length h] at h3
        simp only [Prod.mk.injEq, Option.some.injEq, true_and] at h3
        exact h3.symm

theorem mod_exp_provider_failure_witness :
    _libssh2_wincng_bignum_mod_exp failingEncryptProvider true true true true true
      (some ⟨some [7, 9]⟩) (some ⟨some [2]⟩) (some ⟨some [3]⟩) (some ⟨some [5]⟩) =
      (-1, some ⟨some [7]⟩) ∧
    _libssh2_bn.length ⟨some [7]⟩ = 1 ∧
    ((⟨some [7]⟩ : _libssh2_bn) = ⟨some [7, 9]⟩ ↔ 1 = _libssh2_bn.length ⟨some [7, 9]⟩) :=
  (mod_exp_provider_failure failingEncryptProvider true true true true true
    ⟨some [7, 9]⟩ ⟨some [2]⟩ ⟨some [3]⟩ ⟨some [5]⟩ rfl).2.2 () 1 ⟨some [7]⟩ rfl rfl
    (by decide) rfl rfl

/-! ## Decoding of private keys: facts -/

theorem asn_decode_spec (dec : CryptDecoder) (alloc : Nat → Bool) (heap : Heap)
    (e : List Nat) (t : StructType) :
    (∃ d, _libssh2_wincng_asn_decode dec alloc heap e t =
        (0, some d, ⟨heap.calls + 1, heap.live + 1⟩) ∧
      dec.decode t e = some d ∧ (dec.size t e).isSome ∧ alloc heap.calls = true) ∨
    (∃ h, _libssh2_wincng_asn_decode dec alloc heap e t = (-1, none, h) ∧
      h.live = heap.live ∧
      (dec.size t e = none ∨ alloc heap.calls = false ∨ dec.decode t e = none)) := by
  unfold _libssh2_wincng_asn_decode Heap.malloc
  cases hs : dec.size t e with
  | none => right; exact ⟨heap, rfl, rfl, Or.inl rfl⟩
  | some n =>
    cases ha : alloc heap.calls with
    | false => right; exact ⟨_, rfl, by simp, Or.inr (Or.inl rfl)⟩
    | true =>
      cases hd : dec.decode t e with
      | none => right; exact ⟨_, rfl, by simp [Heap.free], Or.inr (Or.inr rfl)⟩
      | some d => left; exact ⟨d, by simp, rfl, rfl, rfl⟩

theorem length_bn_ltob_loop (pbInput : List Nat) (length offset cbOutput cbInput fuel : Nat) :
    ∀ (index : Nat) (pbOutput : List Nat),
      (bn_ltob_loop pbInput length offset cbOutput cbInput fuel index pbOutput).length =
        pbOutput.length := by
  induction fuel with
  | zero => intro index pbOutput; rfl
  | succ fuel ih =>
    intro index pbOutput
    simp only [bn_ltob_loop]
    split
    · rw [ih]; simp
    · rfl

/-- The outcomes of `_libssh2_wincng_bn_ltob`: for an input of no bytes, success
with nothing stored and no allocation; otherwise one allocation, and on success
a buffer of at least one byte that does not depend on the heap. -/
theorem bn_ltob_spec (alloc : Nat → Bool) (heap : Heap) (pbInput : List Nat) :
    (∃ h, _libssh2_wincng_bn_ltob alloc heap pbInput =
        (0, (_libssh2_wincng_bn_ltob (fun _ => true) ⟨0, 0⟩ pbInput).2.1, h) ∧
      Readable (_libssh2_wincng_bn_ltob (fun _ => true) ⟨0, 0⟩ pbInput).2.1 ∧
      (_libssh2_wincng_bn_ltob (fun _ => true) ⟨0, 0⟩ pbInput).1 = 0 ∧
      h.live = heap.live +
        liveBlocks [(_libssh2_wincng_bn_ltob (fun _ => true) ⟨0, 0⟩ pbInput).2.1] ∧
      (pbInput = [] ∨ alloc heap.calls = true)) ∨
    (∃ h, _libssh2_wincng_bn_ltob alloc heap pbInput = (-1, none, h) ∧
      h.live = heap.live ∧ alloc heap.calls = false) := by
  unfold _libssh2_wincng_bn_ltob Heap.malloc
  by_cases hlen : pbInput.length < 1
  · left
    simp only [if_pos hlen]
    have hnil : pbInput = [] := List.length_eq_zero.mp (by omega)
    refine ⟨heap, ?_, ?_, ?_, ?_, Or.inl hnil⟩ <;> simp [Readable, liveBlocks]
  · simp only [if_neg hlen]
    cases ha : alloc heap.calls with
    | false =>
      right
      refine ⟨_, rfl, ?_, ?_⟩ <;> simp
    | true =>
      left
      refine ⟨_, rfl, ?_, ?_, ?_, ?_⟩
      rotate_left
      · simp
      · simp [liveBlocks]
      · simp
      simp only [Readable, ne_eq, Option.some.injEq]
      intro h
      have := congrArg List.length h
      rw [length_bn_ltob_loop] at this
      simp only [List.length_set, List.length_replicate, List.length_nil] at this
      omega

/-- The outcomes of `_libssh2_wincng_asn_decode_bn`: on success the element is
the one decoded when every allocation succeeds, it is NULL or holds at least one
byte, and one block is live for it unless it is NULL; on failure nothing is
stored and no block stays allocated. -/
theorem asn_decode_bn_spec (dec : CryptDecoder) (alloc : Nat → Bool) (heap : Heap)
    (blob : List Nat) :
    (∃ v h, _libssh2_wincng_asn_decode_bn dec alloc heap blob = (0, some v, h) ∧
      decodeInteger dec blob = some v ∧ Readable v ∧ h.live = heap.live + liveBlocks [v]) ∨
    (∃ h, _libssh2_wincng_asn_decode_bn dec alloc heap blob = (-1, none, h) ∧
      h.live = heap.live ∧ (decodeInteger dec blob = none ∨ ∃ n, alloc n = false)) := by
  have hpure : ∀ d, dec.decode StructType.X509_MULTI_BYTE_UINT blob = some d →
      (dec.size StructType.X509_MULTI_BYTE_UINT blob).isSome →
      decodeInteger dec blob =
        some (_libssh2_wincng_bn_ltob (fun _ => true) ⟨0, 0⟩ d).2.1 := by
    intro d hd hs
    obtain ⟨n, hn⟩ := Option.isSome_iff_exists.mp hs
    rcases bn_ltob_spec (fun _ => true) ⟨1, 1⟩ d with ⟨h, hh, -, -, -, -⟩ | ⟨h, -, -, hf⟩
    · simp [decodeInteger, _libssh2_wincng_asn_decode_bn, _libssh2_wincng_asn_decode,
        Heap.malloc, hn, hd, hh]
    · simp at hf
  have hnone : (dec.size StructType.X509_MULTI_BYTE_UINT blob = none ∨
      dec.decode StructType.X509_MULTI_BYTE_UINT blob = none) →
      decodeInteger dec blob = none := by
    intro h
    rcases h with h | h
    · simp [decodeInteger, _libssh2_wincng_asn_decode_bn, _libssh2_wincng_asn_decode, h]
    · cases hs : dec.size StructType.X509_MULTI_BYTE_UINT blob <;>
        simp [decodeInteger, _libssh2_wincng_asn_decode_bn, _libssh2_wincng_asn_decode,
          Heap.malloc, h, hs, Heap.free]
  unfold _libssh2_wincng_asn_decode_bn
  rcases asn_decode_spec dec alloc heap blob StructType.X509_MULTI_BYTE_UINT with
    ⟨d, hd, hdec, hsize, -⟩ | ⟨h, hd, hlive, hwhy⟩
  · rw [hd]
    rcases bn_ltob_spec alloc ⟨heap.calls + 1, heap.live + 1⟩ d with
      ⟨h, hh, hr, -, hl, -⟩ | ⟨h, hh, hl, hf⟩
    · left
      simp only []
      rw [hh]
      refine ⟨_, _, rfl, hpure d hdec hsize, hr, ?_⟩
      simp only [Heap.free, hl]
      omega
    · right
      simp only []
      rw [hh]
      refine ⟨_, rfl, ?_, Or.inr ⟨_, hf⟩⟩
      simp only [Heap.free, hl]
      omega
  · right
    rw [hd]
    refine ⟨h, rfl, hlive, ?_⟩
    rcases hwhy with h1 | h1 | h1
    · exact Or.inl (hnone (Or.inl h1))
    · exact Or.inr ⟨_, h1⟩
    · exact Or.inl (hnone (Or.inr h1))

theorem liveBlocks_cons (v : Option (List Nat)) (ds : List (Option (List Nat))) :
    liveBlocks (v :: ds) = liveBlocks [v] + liveBlocks ds := by
  cases v <;> simp [liveBlocks]
  omega

theorem free_all_live (ds : List (Option (List Nat))) :
    ∀ heap : Heap, (free_all heap ds).live = heap.live - liveBlocks ds := by
  induction ds with
  | nil => intro heap; simp [free_all, liveBlocks]
  | cons v ds ih =>
    intro heap
    have := liveBlocks_cons v ds
    rw [free_all, ih]
    cases v
    · simp [Heap.free, liveBlocks] at this ⊢
    · simp [Heap.free, liveBlocks] at this ⊢
      omega

/-- The outcomes of the decoding loop of `_libssh2_wincng_asn_decode_bns`: it
appends the elements it decoded, in order, and one block is live for each that
is not NULL; it ends with status 0 when every element decoded, and with -1 at
the first element that did not. -/
theorem asn_decode_bns_loop_spec (dec : CryptDecoder) (alloc : Nat → Bool) :
    ∀ (blobs : List (List Nat)) (acc : List (Option (List Nat))) (heap : Heap),
      ∃ ds h,
        ((asn_decode_bns_loop dec alloc blobs acc heap = (0, acc ++ ds, h) ∧
            blobs.map (decodeInteger dec) = ds.map some) ∨
          (asn_decode_bns_loop dec alloc blobs acc heap = (-1, acc ++ ds, h) ∧
            ds.length < blobs.length ∧
            ((∃ b ∈ blobs, decodeInteger dec b = none) ∨ ∃ n, alloc n = false))) ∧
        h.live = heap.live + liveBlocks ds ∧ (∀ v ∈ ds, Readable v) := by
  intro blobs
  induction blobs with
  | nil =>
    intro acc heap
    exact ⟨[], heap, Or.inl ⟨by simp [asn_decode_bns_loop], rfl⟩, by simp [liveBlocks],
      by simp⟩
  | cons b rest ih =>
    intro acc heap
    rcases asn_decode_bn_spec dec alloc heap b with ⟨v, h1, hv, hdec, hr, hl⟩ | ⟨h1, hv, hl, hwhy⟩
    · obtain ⟨ds, h, hcase, hlive, hread⟩ := ih (acc ++ [v]) h1
      refine ⟨v :: ds, h, ?_, ?_, ?_⟩
      · rcases hcase with ⟨hres, hmap⟩ | ⟨hres, hlt, hwhy⟩
        · left
          refine ⟨?_, ?_⟩
          · simp only [asn_decode_bns_loop, hv]
            rw [hres]; simp
          · simp [hdec, hmap]
        · right
          refine ⟨?_, ?_, ?_⟩
          · simp only [asn_decode_bns_loop, hv]
            rw [hres]; simp
          · simp only [List.length_cons]; omega
          · rcases hwhy with ⟨b', hb', hnone⟩ | hal
            · exact Or.inl ⟨b', List.mem_cons_of_mem _ hb', hnone⟩
            · exact Or.inr hal
      · have := liveBlocks_cons v ds
        omega
      · intro w hw
        rcases List.mem_cons.mp hw with hw | hw
        · rw [hw]; exact hr
        · exact hread w hw
    · refine ⟨[], h1, Or.inr ⟨?_, by simp, ?_⟩, by simp [liveBlocks, hl], by simp⟩
      · simp only [asn_decode_bns_loop, hv, List.append_nil]
      · rcases hwhy with hnone | hal
        · exact Or.inl ⟨b, List.mem_cons_self _ _, hnone⟩
        · exact Or.inr hal

/-- The outcomes of `_libssh2_wincng_asn_decode_bns`: on success the decoded
elements of the sequence in order, with the two arrays and one block for each
element that is not NULL live; on failure nothing is stored and no block stays
allocated. -/
theorem asn_decode_bns_spec (dec : CryptDecoder) (alloc : Nat → Bool) (heap : Heap)
    (pbEncoded : List Nat) :
    (∃ (blobs : List (List Nat)) (rpb : List (Option (List Nat))) (h : Heap),
      _libssh2_wincng_asn_decode_bns dec alloc heap pbEncoded = (0, some rpb, h) ∧
      dec.decode StructType.X509_SEQUENCE_OF_ANY pbEncoded = some blobs ∧
      blobs.map (decodeInteger dec) = rpb.map some ∧
      h.live = heap.live + 2 + liveBlocks rpb ∧ (∀ v ∈ rpb, Readable v)) ∨
    (∃ h, _libssh2_wincng_asn_decode_bns dec alloc heap pbEncoded = (-1, none, h) ∧
      h.live = heap.live ∧
      (dec.size StructType.X509_SEQUENCE_OF_ANY pbEncoded = none ∨
        dec.decode StructType.X509_SEQUENCE_OF_ANY pbEncoded = none ∨
        (∃ n, alloc n = false) ∨
        ∃ blobs : List (List Nat),
          dec.decode StructType.X509_SEQUENCE_OF_ANY pbEncoded = some blobs ∧
          ∃ b ∈ blobs, decodeInteger dec b = none)) := by
  unfold _libssh2_wincng_asn_decode_bns
  rcases asn_decode_spec dec alloc heap pbEncoded StructType.X509_SEQUENCE_OF_ANY with
    ⟨d, hd, hdec, -, -⟩ | ⟨h, hd, hlive, hwhy⟩
  · rw [hd]
    cases ha1 : alloc (heap.calls + 1) with
    | false =>
      right
      simp only [Heap.malloc, ha1]
      refine ⟨_, rfl, by simp [Heap.free], Or.inr (Or.inr (Or.inl ⟨_, ha1⟩))⟩
    | true =>
      cases ha2 : alloc (heap.calls + 1 + 1) with
      | false =>
        right
        simp only [Heap.malloc, ha1, ha2]
        refine ⟨_, rfl, by simp [Heap.free], Or.inr (Or.inr (Or.inl ⟨_, ha2⟩))⟩
      | true =>
        obtain ⟨ds, h, hcase, hl, hread⟩ := asn_decode_bns_loop_spec dec alloc d []
          ⟨heap.calls + 1 + 1 + 1, heap.live + 1 + 1 + 1⟩
        rcases hcase with ⟨hres, hmap⟩ | ⟨hres, -, hwhy⟩
        · left
          simp only [Heap.malloc, ha1, ha2, if_true]
          rw [hres]
          refine ⟨d, ds, h.free (some ()), by simp, hdec, hmap, ?_, hread⟩
          simp only [Heap.free, hl]
          omega
        · right
          simp only [Heap.malloc, ha1, ha2, if_true]
          rw [hres]
          refine ⟨_, rfl, ?_, ?_⟩
          · simp only [Heap.free, free_all_live, hl, List.nil_append]
            omega
          · rcases hwhy with hb | hal
            · exact Or.inr (Or.inr (Or.inr ⟨d, hdec, hb⟩))
            · exact Or.inr (Or.inr (Or.inl hal))
  · right
    rw [hd]
    refine ⟨h, rfl, hlive, ?_⟩
    rcases hwhy with h1 | h1 | h1
    · exact Or.inl h1
    · exact Or.inr (Or.inr (Or.inl ⟨_, h1⟩))
    · exact Or.inr (Or.inl h1)

theorem readable_getD (l : List (Option (List Nat))) (h : ∀ v ∈ l, Readable v) (i : Nat) :
    Readable (l.getD i none) := by
  by_cases hi : i < l.length
  · rw [List.getD_eq_getElem l none hi]
    exact h _ (List.getElem_mem hi)
  · rw [List.getD_eq_default l none (by omega)]
    simp [Readable]

/-- On buffers that are NULL or hold at least one byte,
`_libssh2_wincng_dsa_new` with its allocations made on the heap returns the
status and the context of `_libssh2_wincng_dsa_new` with the outcomes of the
next two allocations; the key blob and the context stay allocated on success
and nothing stays allocated on failure. -/
theorem dsa_new_heap_spec {κ : Type} (alloc : Nat → Bool)
    (importKeyPair : DsaKeyBlob → Option κ) (heap : Heap)
    (pdata qdata gdata ydata xdata : Option (List Nat))
    (hp : Readable pdata) (hg : Readable gdata) (hy : Readable ydata) :
    ∃ ret dsa h,
      _libssh2_wincng_dsa_new_heap alloc importKeyPair heap pdata qdata gdata ydata xdata =
        some (ret, dsa, h) ∧
      _libssh2_wincng_dsa_new (alloc heap.calls) (alloc (heap.calls + 1)) importKeyPair
        pdata qdata gdata ydata xdata = some (ret, dsa) ∧
      h.live = heap.live + (if ret = 0 then 2 else 0) ∧
      (ret = 0 ∨ ret = -1) := by
  have hb := dsa_new_blob_eq pdata qdata gdata ydata xdata hp hg hy
  simp only [_libssh2_wincng_dsa_new_heap, _libssh2_wincng_dsa_new, hb, Heap.malloc,
    Option.bind_eq_bind, Option.some_bind, Option.pure_def]
  cases ha1 : alloc heap.calls with
  | false => exact ⟨-1, none, _, rfl, by simp, by simp, Or.inr rfl⟩
  | true =>
    simp only []
    cases hi : importKeyPair _ with
    | none => exact ⟨-1, none, _, rfl, by simp, by simp [Heap.free], Or.inr rfl⟩
    | some hKey =>
      simp only []
      cases ha2 : alloc (heap.calls + 1) with
      | false => exact ⟨-1, none, _, rfl, by simp, by simp [Heap.free], Or.inr rfl⟩
      | true => exact ⟨0, _, _, rfl, by simp, by simp; omega, Or.inl rfl⟩

/-! ## Diffie-Hellman key pairs: facts -/

theorem rand_success_some (clear alloc : Bool) (random : RandomFill)
    (rnd : Option _libssh2_bn) (bits top bottom : Int) (x : Option _libssh2_bn)
    (h : _libssh2_wincng_bignum_rand clear alloc random rnd bits top bottom = (0, x)) :
    x.isSome := by
  have hneg : ¬ ((-1 : Int) = 0) := by decide
  cases rnd with
  | none =>
    simp only [_libssh2_wincng_bignum_rand, Prod.mk.injEq] at h
    exact absurd h.1 hneg
  | some b =>
    simp only [_libssh2_wincng_bignum_rand] at h
    rcases hr : _libssh2_wincng_bignum_resize clear alloc (some b) ((bits + 7) / 8).toNat with
      ⟨st, r⟩
    rw [hr] at h
    cases random with
    | none =>
      have h1 : (-1 : Int) = 0 := by
        revert h
        split <;> intro h <;> exact congrArg Prod.fst h
      exact absurd h1 hneg
    | some f =>
      revert h
      split
      · intro h
        have h2 := congrArg Prod.snd h
        simp only [] at h2
        rw [← h2]; rfl
      · intro h; exact absurd (congrArg Prod.fst h) hneg

theorem fallback_success_priv {κ : Type} (prov : RsaProvider κ) (random : RandomFill)
    (clear allocInit allocRand allocKey allocR allocBuf allocEnd : Bool)
    (public_ g p : Option _libssh2_bn) (group_order : Int)
    (h : (_libssh2_dh_key_pair_fallback prov random clear allocInit allocRand allocKey allocR
      allocBuf allocEnd public_ g p group_order).1 = 0) :
    (_libssh2_dh_key_pair_fallback prov random clear allocInit allocRand allocKey allocR
      allocBuf allocEnd public_ g p group_order).2.1.isSome := by
  have hneg : ¬ ((-1 : Int) = 0) := by decide
  unfold _libssh2_dh_key_pair_fallback at h ⊢
  cases hi : _libssh2_wincng_bignum_init allocInit with
  | none => rw [hi] at h; exact absurd h hneg
  | some bn =>
    rw [hi] at h
    simp only [] at h ⊢
    rcases hr : _libssh2_wincng_bignum_rand clear allocRand random (some bn)
      (group_order * 8 - 1) 0 (-1) with ⟨st, x⟩
    rw [hr] at h
    by_cases hst : st = 0
    · subst hst
      have hx := rand_success_some _ _ _ _ _ _ _ _ hr
      simp only [] at h ⊢
      split <;> exact hx
    · exfalso
      revert h
      split
      · rename_i heq
        simp only [Prod.mk.injEq] at heq
        exact absurd heq.1 hst
      · intro h; exact absurd h hneg

/-! ## Decoding of private keys -/

/-- C18. The function `_libssh2_wincng_asn_decode_bns` is atomic.  When it
fails it stores nothing through its three output pointers and the number of
live allocations is the one before the call (every element decoded before the
failing one and both arrays are released).  When it succeeds it stores, in order,
the decoded element of every element of the sequence, as many as the sequence
has, and the live allocations are the two arrays and one block for each element
that is not NULL.  When the outer sequence decodes and every allocation succeeds,
it succeeds exactly when every element decodes. -/
theorem asn_decode_bns_atomic (dec : CryptDecoder) (alloc : Nat → Bool) (heap : Heap)
    (pbEncoded : List Nat) :
    ((_libssh2_wincng_asn_decode_bns dec alloc heap pbEncoded).1 ≠ 0 →
      (_libssh2_wincng_asn_decode_bns dec alloc heap pbEncoded).2.1 = none ∧
      (_libssh2_wincng_asn_decode_bns dec alloc heap pbEncoded).2.2.live = heap.live) ∧
    ((_libssh2_wincng_asn_decode_bns dec alloc heap pbEncoded).1 = 0 →
      ∃ (blobs : List (List Nat)) (rpb : List (Option (List Nat))),
        dec.decode StructType.X509_SEQUENCE_OF_ANY pbEncoded = some blobs ∧
        (_libssh2_wincng_asn_decode_bns dec alloc heap pbEncoded).2.1 = some rpb ∧
        blobs.map (decodeInteger dec) = rpb.map some ∧ rpb.length = blobs.length ∧
        (_libssh2_wincng_asn_decode_bns dec alloc heap pbEncoded).2.2.live =
          heap.live + 2 + liveBlocks rpb) ∧
    (∀ blobs : List (List Nat),
      (dec.size StructType.X509_SEQUENCE_OF_ANY pbEncoded).isSome →
      dec.decode StructType.X509_SEQUENCE_OF_ANY pbEncoded = some blobs →
      (∀ n, alloc n = true) →
      ((_libssh2_wincng_asn_decode_bns dec alloc heap pbEncoded).1 = 0 ↔
        ∀ b ∈ blobs, (decodeInteger dec b).isSome)) := by
  have hall : ∀ (blobs : List (List Nat)) (rpb : List (Option (List Nat))),
      blobs.map (decodeInteger dec) = rpb.map some →
      ∀ b ∈ blobs, (decodeInteger dec b).isSome := by
    intro blobs rpb hmap b hb
    have hmem : decodeInteger dec b ∈ rpb.map some := by
      rw [← hmap]; exact List.mem_map_of_mem _ hb
    obtain ⟨v, -, hv⟩ := List.mem_map.mp hmem
    rw [← hv]; rfl
  rcases asn_decode_bns_spec dec alloc heap pbEncoded with
    ⟨blobs, rpb, h, hres, hdec, hmap, hlive, -⟩ | ⟨h, hres, hlive, hwhy⟩
  · rw [hres]
    refine ⟨fun hne => absurd rfl hne, fun _ => ?_, ?_⟩
    · refine ⟨blobs, rpb, hdec, rfl, hmap, ?_, hlive⟩
      have := congrArg List.length hmap
      simpa using this.symm
    · intro blobs' _ hdec' _
      rw [hdec] at hdec'
      have hb : blobs = blobs' := Option.some.inj hdec'
      rw [← hb]
      exact ⟨fun _ => hall blobs rpb hmap, fun _ => rfl⟩
  · rw [hres]
    have hneg : ¬ ((-1 : Int) = 0) := by decide
    refine ⟨fun _ => ⟨rfl, hlive⟩, fun h0 => absurd h0 hneg, ?_⟩
    intro blobs hsize hdec hal
    constructor
    · intro h0; exact absurd h0 hneg
    · intro hgood
      exfalso
      rcases hwhy with h1 | h1 | ⟨n, h1⟩ | ⟨blobs', hdec', b, hb, hnone⟩
      · rw [h1] at hsize; exact absurd hsize (by decide)
      · rw [h1] at hdec; exact absurd hdec (by simp)
      · rw [hal n] at h1; exact absurd h1 (by decide)
      · rw [hdec] at hdec'
        have hbl : blobs = blobs' := Option.some.inj hdec'
        have := hgood b (by rw [hbl]; exact hb)
        rw [hnone] at this
        exact absurd this (by decide)

theorem asn_decode_bns_atomic_witness :
    (_libssh2_wincng_asn_decode_bns (sixElementDecoder [3]) (fun _ => true) ⟨0, 0⟩ [48]).2.1 =
      none ∧
    (_libssh2_wincng_asn_decode_bns (sixElementDecoder [3]) (fun _ => true) ⟨0, 0⟩
      [48]).2.2.live = 0 :=
  (asn_decode_bns_atomic (sixElementDecoder [3]) (fun _ => true) ⟨0, 0⟩ [48]).1 (by decide)

/-- C19. After `_libssh2_wincng_asn_decode_bns` succeeded with `rpb`,
`_libssh2_wincng_dsa_new_private_parse` returns -1 without a context for every
count other than 6; for the count 6 it returns the status and the context of
`_libssh2_wincng_dsa_new` called with the elements 1, 2, 3, 4, 5 as (p, q, g, y,
x), in that order.  In both cases every decoded element and both arrays are
released: of the blocks the function met or made, only the encoded input is
gone (it frees it) and, on success, the key blob and the context are live. -/
theorem dsa_private_parse_count {κ : Type} (dec : CryptDecoder) (alloc : Nat → Bool)
    (importKeyPair : DsaKeyBlob → Option κ) (heap heap1 : Heap) (pbEncoded : List Nat)
    (rpb : List (Option (List Nat)))
    (hdec : _libssh2_wincng_asn_decode_bns dec alloc heap pbEncoded = (0, some rpb, heap1)) :
    (rpb.length ≠ 6 →
      ∃ h, _libssh2_wincng_dsa_new_private_parse dec alloc importKeyPair heap pbEncoded =
          some (-1, none, h) ∧
        h.live = heap.live - 1) ∧
    (rpb.length = 6 →
      ∃ ret dsa h,
        _libssh2_wincng_dsa_new_private_parse dec alloc importKeyPair heap pbEncoded =
          some (ret, dsa, h) ∧
        _libssh2_wincng_dsa_new (alloc heap1.calls) (alloc (heap1.calls + 1)) importKeyPair
          (rpb.getD 1 none) (rpb.getD 2 none) (rpb.getD 3 none) (rpb.getD 4 none)
          (rpb.getD 5 none) = some (ret, dsa) ∧
        h.live = heap.live - 1 + (if ret = 0 then 2 else 0)) := by
  have hlive : heap1.live = heap.live + 2 + liveBlocks rpb ∧ ∀ v ∈ rpb, Readable v := by
    rcases asn_decode_bns_spec dec alloc heap pbEncoded with
      ⟨blobs, rpb', h, hres, -, -, hl, hr⟩ | ⟨h, hres, -, -⟩
    · rw [hdec] at hres
      simp only [Prod.mk.injEq, Option.some.injEq, true_and] at hres
      obtain ⟨h1, h2⟩ := hres
      subst h1; subst h2
      exact ⟨hl, hr⟩
    · rw [hdec] at hres
      simp at hres
  obtain ⟨hl, hr⟩ := hlive
  constructor
  · intro hne
    simp only [_libssh2_wincng_dsa_new_private_parse, hdec, if_neg hne]
    refine ⟨_, rfl, ?_⟩
    simp only [Heap.free, free_all_live, hl]
    omega
  · intro h6
    obtain ⟨ret, dsa, h, hnew, hsame, hl2, -⟩ := dsa_new_heap_spec alloc importKeyPair
      (heap1.free (some pbEncoded)) (rpb.getD 1 none) (rpb.getD 2 none) (rpb.getD 3 none)
      (rpb.getD 4 none) (rpb.getD 5 none) (readable_getD rpb hr 1) (readable_getD rpb hr 3)
      (readable_getD rpb hr 4)
    simp only [_libssh2_wincng_dsa_new_private_parse, hdec, if_pos h6, hnew]
    refine ⟨ret, dsa, _, rfl, hsame, ?_⟩
    simp only [Heap.free, free_all_live, hl2, hl]
    omega

theorem dsa_private_parse_count_witness :
    ∃ ret dsa h,
      _libssh2_wincng_dsa_new_private_parse (sixElementDecoder [0]) (fun _ => true)
        (fun blob => some blob) ⟨1, 1⟩ [48] = some (ret, dsa, h) ∧
      _libssh2_wincng_dsa_new true true (fun blob => some blob)
        (some [2]) (some [3]) (some [4]) (some [5]) (some [6]) = some (ret, dsa) ∧
      h.live = 1 - 1 + (if ret = 0 then 2 else 0) :=
  (dsa_private_parse_count (sixElementDecoder [0]) (fun _ => true)
    (fun blob => some blob) ⟨1, 1⟩ ⟨16, 9⟩ [48]
    [some [1], some [2], some [3], some [4], some [5], some [6]] (by decide)).2 rfl

/-- C20 as stated fails: `_libssh2_wincng_rsa_new_private_parse` has no count
check and does not build a key blob from integers.  With a decoder for which the
input is a sequence of six integers (`_libssh2_wincng_asn_decode_bns` decodes six
elements) and which accepts the input as `PKCS_RSA_PRIVATE_KEY`, and a provider
that imports `LEGACY_RSAPRIVATE_BLOB` blobs only, the function returns 0; the key
object of the context is the structure the decoder produced. -/
theorem rsa_private_parse_ignores_count :
    (_libssh2_wincng_asn_decode_bns (sixElementDecoder [0]) (fun _ => true) ⟨1, 1⟩ [48]).2.1 =
      some [some [1], some [2], some [3], some [4], some [5], some [6]] ∧
    _libssh2_wincng_rsa_new_private_parse (sixElementDecoder [0]) (fun _ => true)
      (fun t _ => if t = BlobType.LEGACY_RSAPRIVATE_BLOB then some 7 else none) ⟨1, 1⟩ [48] =
      (0, some (7, [48]), ⟨3, 2⟩) := by
  decide

/-- C20 as amended: `_libssh2_wincng_rsa_new_private_parse` hands the encoded key
to the decoder as one `PKCS_RSA_PRIVATE_KEY` structure and imports the decoded
structure as a `LEGACY_RSAPRIVATE_BLOB`, which it keeps as the key object of the
context.  It returns 0 when the decoder accepts the input, the provider imports
the decoded structure and both allocations succeed, and only then; otherwise it
returns -1, stores no context and leaves no block allocated.  In both cases it
frees the encoded input. -/
theorem rsa_private_parse_delegates {κ : Type} (dec : CryptDecoder) (alloc : Nat → Bool)
    (importKeyPair : BlobType → List Nat → Option κ) (heap : Heap) (pbEncoded : List Nat) :
    (∀ (d : List Nat) (hKey : κ),
      (dec.size StructType.PKCS_RSA_PRIVATE_KEY pbEncoded).isSome →
      alloc heap.calls = true →
      dec.decode StructType.PKCS_RSA_PRIVATE_KEY pbEncoded = some d →
      importKeyPair BlobType.LEGACY_RSAPRIVATE_BLOB d = some hKey →
      alloc (heap.calls + 1) = true →
      _libssh2_wincng_rsa_new_private_parse dec alloc importKeyPair heap pbEncoded =
        (0, some (hKey, d), ⟨heap.calls + 2, heap.live + 1⟩)) ∧
    ((_libssh2_wincng_rsa_new_private_parse dec alloc importKeyPair heap pbEncoded).1 = 0 →
      ∃ (d : List Nat) (hKey : κ),
        (dec.size StructType.PKCS_RSA_PRIVATE_KEY pbEncoded).isSome ∧
        dec.decode StructType.PKCS_RSA_PRIVATE_KEY pbEncoded = some d ∧
        importKeyPair BlobType.LEGACY_RSAPRIVATE_BLOB d = some hKey ∧
        (_libssh2_wincng_rsa_new_private_parse dec alloc importKeyPair heap pbEncoded).2.1 =
          some (hKey, d)) ∧
    ((_libssh2_wincng_rsa_new_private_parse dec alloc importKeyPair heap pbEncoded).1 ≠ 0 →
      (_libssh2_wincng_rsa_new_private_parse dec alloc importKeyPair heap pbEncoded).1 = -1 ∧
      (_libssh2_wincng_rsa_new_private_parse dec alloc importKeyPair heap pbEncoded).2.1 =
        none ∧
      (_libssh2_wincng_rsa_new_private_parse dec alloc importKeyPair heap pbEncoded).2.2.live =
        heap.live - 1) := by
  have hneg : ¬ ((-1 : Int) = 0) := by decide
  rcases asn_decode_spec dec alloc heap pbEncoded StructType.PKCS_RSA_PRIVATE_KEY with
    ⟨d, hd, hdec, hsize, ha⟩ | ⟨h, hd, hlive, hwhy⟩
  · cases hi : importKeyPair BlobType.LEGACY_RSAPRIVATE_BLOB d with
    | none =>
      have hres : _libssh2_wincng_rsa_new_private_parse dec alloc importKeyPair heap
          pbEncoded = (-1, none, ⟨heap.calls + 1, heap.live + 1 - 1 - 1⟩) := by
        simp only [_libssh2_wincng_rsa_new_private_parse, hd, hi, Heap.free]
      rw [hres]
      refine ⟨?_, fun h0 => absurd h0 hneg, fun _ => ⟨rfl, rfl, ?_⟩⟩
      · intro d' hKey _ _ hdec' himp _
        rw [hdec] at hdec'
        have hdd : d = d' := Option.some.inj hdec'
        rw [← hdd, hi] at himp
        exact absurd himp (by simp)
      · show heap.live + 1 - 1 - 1 = heap.live - 1
        omega
    | some hKey =>
      cases ha2 : alloc (heap.calls + 1) with
      | false =>
        have hres : _libssh2_wincng_rsa_new_private_parse dec alloc importKeyPair heap
            pbEncoded = (-1, none, ⟨heap.calls + 1 + 1, heap.live + 1 - 1 - 1⟩) := by
          simp only [_libssh2_wincng_rsa_new_private_parse, hd, hi, Heap.free, Heap.malloc,
            ha2]
          rfl
        rw [hres]
        refine ⟨?_, fun h0 => absurd h0 hneg, fun _ => ⟨rfl, rfl, ?_⟩⟩
        · intro d' hKey' _ _ _ _ ha2'
          exact absurd ha2' (by simp)
        · show heap.live + 1 - 1 - 1 = heap.live - 1
          omega
      | true =>
        have hres : _libssh2_wincng_rsa_new_private_parse dec alloc importKeyPair heap
            pbEncoded = (0, some (hKey, d), ⟨heap.calls + 2, heap.live + 1⟩) := by
          simp only [_libssh2_wincng_rsa_new_private_parse, hd, hi, Heap.free, Heap.malloc,
            ha2, if_true, Prod.mk.injEq, Heap.mk.injEq, true_and]
          omega
        rw [hres]
        refine ⟨?_, fun _ => ⟨d, hKey, hsize, hdec, hi, rfl⟩, fun hne => absurd rfl hne⟩
        intro d' hKey' _ _ hdec' himp _
        rw [hdec] at hdec'
        have hdd : d = d' := Option.some.inj hdec'
        rw [← hdd, hi] at himp
        have hkk : hKey = hKey' := Option.some.inj himp
        rw [← hdd, ← hkk]
  · have hres : _libssh2_wincng_rsa_new_private_parse dec alloc importKeyPair heap
        pbEncoded = (-1, none, h.free (some pbEncoded)) := by
      simp only [_libssh2_wincng_rsa_new_private_parse, hd]
    rw [hres]
    refine ⟨?_, fun h0 => absurd h0 hneg, fun _ => ⟨rfl, rfl, ?_⟩⟩
    · intro d hKey hsize ha hdec _ _
      rcases hwhy with h1 | h1 | h1
      · rw [h1] at hsize; exact absurd hsize (by decide)
      · rw [h1] at ha; exact absurd ha (by decide)
      · rw [h1] at hdec; exact absurd hdec (by simp)
    · simp only [Heap.free, hlive]

theorem rsa_private_parse_delegates_witness :
    _libssh2_wincng_rsa_new_private_parse (sixElementDecoder [0]) (fun _ => true)
      (fun t _ => if t = BlobType.LEGACY_RSAPRIVATE_BLOB then some 7 else none) ⟨1, 1⟩ [48] =
      (0, some (7, [48]), ⟨1 + 2, 1 + 1⟩) :=
  (rsa_private_parse_delegates (sixElementDecoder [0]) (fun _ => true)
    (fun t _ => if t = BlobType.LEGACY_RSAPRIVATE_BLOB then some 7 else none) ⟨1, 1⟩ [48]).1
    [48] 7 (by decide) rfl rfl rfl rfl

/-! ## Diffie-Hellman key pairs: the loop -/

theorem key_pair_store_again (clear : Bool) (a : KeyPairAllocs)
    (flag : Int) (log : List DhCall) (dhctx : _libssh2_dh_ctx)
    (public_ : Option _libssh2_bn) (hKey : Nat) (r5 : DhResp)
    (ctx : _libssh2_dh_ctx) (pub : Option _libssh2_bn) (log' : List DhCall)
    (h : _libssh2_dh_key_pair_store clear a flag log dhctx public_ hKey r5 =
      KeyPairStep.again ctx pub log') :
    ctx = _libssh2_dh_init := by
  unfold _libssh2_dh_key_pair_store at h
  simp only [] at h
  split at h
  rotate_left
  · exact KeyPairStep.noConfusion h
  split at h
  rotate_left
  · exact KeyPairStep.noConfusion h
  split at h
  · exact KeyPairStep.noConfusion h
  split at h
  rotate_left
  · exact KeyPairStep.noConfusion h
  split at h
  rotate_left
  · exact KeyPairStep.noConfusion h
  simp only [_libssh2_dh_dtor, KeyPairStep.again.injEq] at h
  rw [← h.1]; rfl

theorem countGenerations_append (l₁ l₂ : List DhCall) :
    countGenerations (l₁ ++ l₂) = countGenerations l₁ + countGenerations l₂ := by
  induction l₁ with
  | nil => simp [countGenerations]
  | cons c cs ih =>
    cases c
    all_goals simp only [List.cons_append, countGenerations, List.append_eq, ih]
    omega

theorem countExports_append (l₁ l₂ : List DhCall) :
    countExports (l₁ ++ l₂) = countExports l₁ + countExports l₂ := by
  induction l₁ with
  | nil => simp [countExports]
  | cons c cs ih =>
    cases c
    all_goals simp only [List.cons_append, countExports, List.append_eq, ih]
    omega

theorem beValue_mod_two (bs : List Nat) :
    beValue bs % 2 = bs.getD (bs.length - 1) 0 % 2 := by
  rcases List.eq_nil_or_concat bs with h | ⟨xs, x, h⟩
  · subst h; rfl
  · subst h
    rw [List.concat_eq_append, beValue_append]
    have h1 : beValue [x] = x := by simp [beValue]
    rw [h1, List.getD_eq_getElem?_getD]
    simp only [List.length_append, List.length_singleton, Nat.add_sub_cancel, pow_one]
    rw [List.getElem?_append_right (le_refl _)]
    simp only [Nat.sub_self, List.getElem?_cons_zero, Option.getD_some]
    omega

/-- The parameter blob of `_libssh2_dh_key_pair`: `p` and `g` right-aligned in
fields of the key length. -/
theorem dh_params_blob (g p : _libssh2_bn) (klb : Nat) (hp : p.length ≤ klb)
    (hg : g.length ≤ klb) :
    (memcpy_with_be_padding (List.replicate (sizeof_BCRYPT_DH_PARAMETER_HEADER + 2 * klb) 0)
        sizeof_BCRYPT_DH_PARAMETER_HEADER klb p.bytes p.length).bind
      (fun blob => memcpy_with_be_padding blob (sizeof_BCRYPT_DH_PARAMETER_HEADER + klb) klb
        g.bytes g.length) =
      some (List.replicate sizeof_BCRYPT_DH_PARAMETER_HEADER 0 ++ fitWidth p.bytes klb ++
        fitWidth g.bytes klb) := by
  have hsplit : List.replicate (sizeof_BCRYPT_DH_PARAMETER_HEADER + 2 * klb) 0 =
      List.replicate sizeof_BCRYPT_DH_PARAMETER_HEADER 0 ++ List.replicate klb 0 ++
        List.replicate klb 0 := by
    rw [← List.replicate_add, ← List.replicate_add]
    congr 1; omega
  have h1 := be_padding_fits (List.replicate sizeof_BCRYPT_DH_PARAMETER_HEADER 0)
    (List.replicate klb 0) (List.replicate klb 0) p.bytes
    (by rw [← length_eq_bytes, List.length_replicate]; exact hp)
  simp only [List.length_replicate, ← length_eq_bytes] at h1
  rw [hsplit, h1, Option.some_bind]
  have h2 := be_padding_fits
    (List.replicate sizeof_BCRYPT_DH_PARAMETER_HEADER 0 ++ fitWidth p.bytes klb)
    (List.replicate klb 0) [] g.bytes
    (by rw [← length_eq_bytes, List.length_replicate]; exact hg)
  simp only [List.length_replicate, ← length_eq_bytes, List.length_append, length_fitWidth,
    List.append_nil] at h2
  exact h2

theorem key_pair_store_done (clear : Bool) (a : KeyPairAllocs)
    (flag : Int) (log : List DhCall) (dhctx : _libssh2_dh_ctx)
    (public_ : Option _libssh2_bn) (hKey : Nat) (r5 : DhResp)
    (ctx : _libssh2_dh_ctx) (pub : Option _libssh2_bn) (log' : List DhCall)
    (hflag : flag ≠ -1)
    (h : _libssh2_dh_key_pair_store clear a flag log dhctx public_ hKey r5 =
      KeyPairStep.done 0 ctx pub log') :
    ctx.dh_handle = dhctx.dh_handle ∧ ctx.dh_params = dhctx.dh_params ∧ log' = log ∧
    (r5.dwMagic = BCRYPT_DH_PRIVATE_MAGIC → ctx.dh_privbn.isSome) ∧
    (r5.dwMagic ≠ BCRYPT_DH_PRIVATE_MAGIC → ctx.dh_privbn = dhctx.dh_privbn) := by
  have hneg : ¬ ((-1 : Int) = 0) := by decide
  unfold _libssh2_dh_key_pair_store at h
  simp only [hflag, if_false] at h
  split at h
  rotate_left
  · simp only [KeyPairStep.done.injEq] at h
    exact absurd h.1 hneg
  split at h
  rotate_left
  · rename_i hm
    simp only [KeyPairStep.done.injEq] at h
    obtain ⟨-, h2, -, h4⟩ := h
    subst h2
    exact ⟨rfl, rfl, h4.symm, fun hm' => absurd hm' hm, fun _ => rfl⟩
  rename_i hm
  split at h
  · simp only [KeyPairStep.done.injEq] at h
    exact absurd h.1 hneg
  split at h
  rotate_left
  · simp only [KeyPairStep.done.injEq] at h
    exact absurd h.1 hneg
  split at h
  · exact KeyPairStep.noConfusion h
  simp only [KeyPairStep.done.injEq] at h
  obtain ⟨-, h2, -, h4⟩ := h
  subst h2
  exact ⟨rfl, rfl, h4.symm, fun _ => rfl, fun hm' => absurd hm hm'⟩

/-- The second half of a turn when every allocation succeeds and the export is a
well-formed private blob: an even private value ends the turn with `continue`
on the empty context, an odd one ends the function with success and that value
as `dhctx->dh_privbn`. -/
theorem key_pair_store_run (clear : Bool) (a : KeyPairAllocs)
    (flag : Int) (log : List DhCall) (dhctx : _libssh2_dh_ctx)
    (pb : _libssh2_bn) (hKey : Nat) (r5 : DhResp)
    (hflag : flag ≠ -1)
    (ha : a.resizePublic = true ∧ a.initPriv = true ∧ a.resizePriv = true)
    (hm : r5.dwMagic = BCRYPT_DH_PRIVATE_MAGIC) (hcb : 1 ≤ r5.cbKey)
    (hlen : r5.bytes.length = sizeof_BCRYPT_DH_KEY_BLOB + 4 * r5.cbKey) :
    (beValue (dhPrivateField r5) % 2 = 0 →
      ∃ pub log', _libssh2_dh_key_pair_store clear a flag log dhctx (some pb) hKey r5 =
          KeyPairStep.again _libssh2_dh_init (some pub) log' ∧
        countGenerations log' = countGenerations log ∧
        countExports log' = countExports log) ∧
    (¬ beValue (dhPrivateField r5) % 2 = 0 →
      ∃ pub, _libssh2_dh_key_pair_store clear a flag log dhctx (some pb) hKey r5 =
        KeyPairStep.done 0
          { dhctx with dh_privbn := some { bignum := some (dhPrivateField r5) } }
          (some pub) log) := by
  obtain ⟨ha1, ha2, ha3⟩ := ha
  obtain ⟨pub1, hpub, -⟩ := resize_true clear pb r5.cbKey (by omega)
  obtain ⟨priv1, hpriv, hpl⟩ := resize_true clear { bignum := none } r5.cbKey (by omega)
  have hsrc : (r5.bytes.drop (sizeof_BCRYPT_DH_KEY_BLOB + 3 * r5.cbKey)).length = r5.cbKey := by
    rw [List.length_drop, hlen]; omega
  have hfield : dhPrivateField r5 = r5.bytes.drop (sizeof_BCRYPT_DH_KEY_BLOB + 3 * r5.cbKey) := by
    unfold dhPrivateField
    rw [List.take_of_length_le (by omega)]
  obtain ⟨bg⟩ := priv1
  cases bg with
  | none =>
    exfalso
    simp only [_libssh2_bn.length] at hpl
    omega
  | some buf =>
    have hbuf : buf.length = r5.cbKey := by simpa [_libssh2_bn.length] using hpl
    have hcopy : memcpy buf 0 (r5.bytes.drop (sizeof_BCRYPT_DH_KEY_BLOB + 3 * r5.cbKey))
        r5.cbKey = r5.bytes.drop (sizeof_BCRYPT_DH_KEY_BLOB + 3 * r5.cbKey) := by
      have := memcpy_full buf (r5.bytes.drop (sizeof_BCRYPT_DH_KEY_BLOB + 3 * r5.cbKey))
        (by rw [hbuf, hsrc])
      rw [hsrc] at this
      exact this
    have hpar : beValue (dhPrivateField r5) % 2 =
        (r5.bytes.drop (sizeof_BCRYPT_DH_KEY_BLOB + 3 * r5.cbKey)).getD (r5.cbKey - 1) 0 % 2 := by
      rw [beValue_mod_two, hfield, hsrc]
    have hstore : _libssh2_dh_key_pair_store clear a flag log dhctx (some pb) hKey r5 =
        if (r5.bytes.drop (sizeof_BCRYPT_DH_KEY_BLOB + 3 * r5.cbKey)).getD (r5.cbKey - 1) 0 % 2
            = 0 then
          KeyPairStep.again _libssh2_dh_init
            (some { bignum := pub1.bignum.map (fun buf =>
              memcpy buf 0 (r5.bytes.drop (sizeof_BCRYPT_DH_KEY_BLOB + 2 * r5.cbKey)) r5.cbKey) })
            (_libssh2_dh_dtor log { dhctx with
              dh_privbn := some { bignum := some (dhPrivateField r5) } }).2
        else
          KeyPairStep.done 0
            { dhctx with dh_privbn := some { bignum := some (dhPrivateField r5) } }
            (some { bignum := pub1.bignum.map (fun buf =>
              memcpy buf 0 (r5.bytes.drop (sizeof_BCRYPT_DH_KEY_BLOB + 2 * r5.cbKey)) r5.cbKey) })
            log := by
      unfold _libssh2_dh_key_pair_store
      simp only [hflag, if_false, ha1, ha2, ha3, hpub, hm, if_true, _libssh2_wincng_bignum_init,
        hpriv, Option.map_some', hcopy, _libssh2_bn.bytes, _libssh2_bn.length, Option.getD_some,
        hsrc, hfield]
      rfl
    rw [hstore, ← hpar]
    constructor
    · intro he
      rw [if_pos he]
      refine ⟨_, _, rfl, ?_, ?_⟩
      · unfold _libssh2_dh_dtor
        cases dhctx.dh_handle <;> simp [countGenerations_append, countGenerations]
      · unfold _libssh2_dh_dtor
        cases dhctx.dh_handle <;> simp [countExports_append, countExports]
    · intro ho
      rw [if_neg ho]
      exact ⟨_, rfl⟩

/-- Case analysis of one turn of the loop of `_libssh2_dh_key_pair`: either it
returns -1, which needs a failed allocation or provider call, or it reaches its
second half with the blob that the provider exported, after one more key
generation and as many exports as before. -/
theorem key_pair_body_cases (P : KeyPairStep → Prop) (prov : DhProvider) (clear : Bool)
    (a : KeyPairAllocs) (flag : Int) (log : List DhCall) (dhctx : _libssh2_dh_ctx)
    (public_ : Option _libssh2_bn) (g p : _libssh2_bn) (group_order : Int)
    (hfail : ∀ ctx pub log',
      ¬ (a.blobParams = true ∧ a.blobKey = true ∧ ∀ l c, 0 ≤ (prov l c).status) →
      P (KeyPairStep.done (-1) ctx pub log'))
    (hstore : ∀ hd prm l n, countGenerations l = countGenerations log + 1 →
      countExports l = countExports log →
      P (_libssh2_dh_key_pair_store clear a flag
        (l ++ [DhCall.ExportKey hd (if flag = 1 then BlobType.BCRYPT_DH_PUBLIC_BLOB
          else BlobType.BCRYPT_DH_PRIVATE_BLOB) n])
        (if flag = -1 then
          { dh_handle := some hd, dh_params := dhctx.dh_params, dh_privbn := dhctx.dh_privbn }
        else { dh_handle := some hd, dh_params := some prm, dh_privbn := dhctx.dh_privbn })
        public_ hd
        (prov l (DhCall.ExportKey hd (if flag = 1 then BlobType.BCRYPT_DH_PUBLIC_BLOB
          else BlobType.BCRYPT_DH_PRIVATE_BLOB) n)))) :
    P (_libssh2_dh_key_pair_body prov clear a flag log dhctx public_ g p group_order) := by
  have hblob := dh_params_blob g p
    (max (round_down group_order 8).toNat (max g.length p.length))
    (le_trans (le_max_right _ _) (le_max_right _ _))
    (le_trans (le_max_left _ _) (le_max_right _ _))
  have hprov : ∀ l c, (∀ l c, 0 ≤ (prov l c).status) → BCRYPT_SUCCESS (prov l c).status = true := by
    intro l c hok
    simp only [BCRYPT_SUCCESS, decide_eq_true_eq]
    exact hok l c
  unfold _libssh2_dh_key_pair_body
  lift_lets
  extract_lets klb c1 r1 log1 ctx1 plen hdr c3 kt c4
  split
  · rename_i hc
    exact hfail _ _ _ (fun hall => hc (hprov _ _ hall.2.2))
  split
  · rename_i hc
    exact hfail _ _ _ (fun hall => hc hall.1)
  split
  · rename_i heq
    exfalso
    have hblob' : (memcpy_with_be_padding (List.replicate plen 0)
        sizeof_BCRYPT_DH_PARAMETER_HEADER klb p.bytes p.length).bind
        (fun blob => memcpy_with_be_padding blob (sizeof_BCRYPT_DH_PARAMETER_HEADER + klb) klb
          g.bytes g.length) = some _ := hblob
    rw [hblob'] at heq
    exact Option.noConfusion heq
  rename_i blob heq
  lift_lets
  extract_lets prm c2 r2 log2 ctx2 r3 log3 r4 log4 c5 r5 log5
  split
  · rename_i hc
    exact hfail _ _ _ (fun hall => hc (hprov _ _ hall.2.2))
  split
  · rename_i hc
    exact hfail _ _ _ (fun hall => hc (hprov _ _ hall.2.2))
  split
  · rename_i hc
    exact hfail _ _ _ (fun hall => hc (hprov _ _ hall.2.2))
  split
  · rename_i hc
    exact hfail _ _ _ (fun hall => hc hall.2.1)
  split
  · rename_i hc
    exact hfail _ _ _ (fun hall => hc (hprov _ _ hall.2.2))
  have hg : countGenerations log4 = countGenerations log + 1 := by
    show countGenerations (log ++ [DhCall.GenerateKeyPair _] ++ [DhCall.SetProperty _ _] ++
      [DhCall.FinalizeKeyPair _] ++ [DhCall.ExportKeySize _ _]) = _
    simp only [countGenerations_append, countGenerations]
  have he : countExports log4 = countExports log := by
    show countExports (log ++ [DhCall.GenerateKeyPair _] ++ [DhCall.SetProperty _ _] ++
      [DhCall.FinalizeKeyPair _] ++ [DhCall.ExportKeySize _ _]) = _
    simp only [countExports_append, countExports]
    omega
  exact hstore r1.handle prm log4 r4.size hg he

theorem key_pair_body_again (prov : DhProvider) (clear : Bool) (a : KeyPairAllocs)
    (flag : Int) (log : List DhCall) (dhctx : _libssh2_dh_ctx)
    (public_ : Option _libssh2_bn) (g p : _libssh2_bn) (group_order : Int) :
    ∀ ctx pub log',
      _libssh2_dh_key_pair_body prov clear a flag log dhctx public_ g p group_order =
        KeyPairStep.again ctx pub log' → ctx = _libssh2_dh_init := by
  apply key_pair_body_cases
    (fun s => ∀ ctx pub log', s = KeyPairStep.again ctx pub log' → ctx = _libssh2_dh_init)
  · intro _ _ _ _ ctx pub log' h
    exact KeyPairStep.noConfusion h
  · intro hd prm l n _ _ ctx pub log' h
    exact key_pair_store_again _ _ _ _ _ _ _ _ _ _ _ h

/-- The context after a turn of the loop that ends `_libssh2_dh_key_pair` with
success: the key handle and the parameters are set; the private number is set
when the exported blob carries the private magic and untouched otherwise. -/
theorem key_pair_body_done (prov : DhProvider) (clear : Bool) (a : KeyPairAllocs)
    (flag : Int) (log : List DhCall) (dhctx : _libssh2_dh_ctx)
    (public_ : Option _libssh2_bn) (g p : _libssh2_bn) (group_order : Int)
    (hflag : flag ≠ -1) :
    ∀ ctx pub log',
      _libssh2_dh_key_pair_body prov clear a flag log dhctx public_ g p group_order =
        KeyPairStep.done 0 ctx pub log' →
      ctx.dh_handle.isSome ∧ ctx.dh_params.isSome ∧
      (flag = 1 →
        (∀ l h n, (prov l (DhCall.ExportKey h BlobType.BCRYPT_DH_PUBLIC_BLOB n)).dwMagic ≠
          BCRYPT_DH_PRIVATE_MAGIC) →
        ctx.dh_privbn = dhctx.dh_privbn) ∧
      (flag ≠ 1 →
        (∀ l h n, (prov l (DhCall.ExportKey h BlobType.BCRYPT_DH_PRIVATE_BLOB n)).dwMagic =
          BCRYPT_DH_PRIVATE_MAGIC) →
        ctx.dh_privbn.isSome) := by
  apply key_pair_body_cases
    (fun s => ∀ ctx pub log', s = KeyPairStep.done 0 ctx pub log' →
      ctx.dh_handle.isSome ∧ ctx.dh_params.isSome ∧
      (flag = 1 →
        (∀ l h n, (prov l (DhCall.ExportKey h BlobType.BCRYPT_DH_PUBLIC_BLOB n)).dwMagic ≠
          BCRYPT_DH_PRIVATE_MAGIC) →
        ctx.dh_privbn = dhctx.dh_privbn) ∧
      (flag ≠ 1 →
        (∀ l h n, (prov l (DhCall.ExportKey h BlobType.BCRYPT_DH_PRIVATE_BLOB n)).dwMagic =
          BCRYPT_DH_PRIVATE_MAGIC) →
        ctx.dh_privbn.isSome))
  · intro _ _ _ _ ctx pub log' h
    simp only [KeyPairStep.done.injEq] at h
    exact absurd h.1 (by decide)
  · intro hd prm l n _ _ ctx pub log' h
    obtain ⟨h1, h2, -, h4, h5⟩ := key_pair_store_done _ _ _ _ _ _ _ _ _ _ _ hflag h
    simp only [if_neg hflag] at h1 h2 h5
    refine ⟨by rw [h1]; rfl, by rw [h2]; rfl, ?_, ?_⟩
    · intro hf hhon
      apply h5
      rw [if_pos hf]
      exact hhon l hd n
    · intro hf hhon
      apply h4
      rw [if_neg hf]
      exact hhon l hd n

/-- The context that a successful `_libssh2_dh_key_pair` leaves when it ran its
loop on an empty context. -/
theorem key_pair_native_shape {κ : Type} (prov : DhProvider) (rsa : RsaProvider κ)
    (random : RandomFill) (clear : Bool) (allocs : Nat → KeyPairAllocs)
    (fb : FallbackAllocs) (G : _libssh2_wincng_ctx) (g p : _libssh2_bn)
    (group_order : Int) (hA : G.hAlgDH.isSome = true) (hflag : G.hasAlgDHwithKDF ≠ -1) :
    ∀ (fuel turn : Nat) (log : List DhCall) (public_ : Option _libssh2_bn)
      (res : KeyPairResult),
      _libssh2_dh_key_pair prov rsa random clear allocs fb G g p group_order fuel turn log
        _libssh2_dh_init public_ = some res →
      res.status = 0 →
      res.dhctx.dh_handle.isSome ∧ res.dhctx.dh_params.isSome ∧
      (G.hasAlgDHwithKDF = 1 →
        (∀ l h n, (prov l (DhCall.ExportKey h BlobType.BCRYPT_DH_PUBLIC_BLOB n)).dwMagic ≠
          BCRYPT_DH_PRIVATE_MAGIC) →
        res.dhctx.dh_privbn = none) ∧
      (G.hasAlgDHwithKDF ≠ 1 →
        (∀ l h n, (prov l (DhCall.ExportKey h BlobType.BCRYPT_DH_PRIVATE_BLOB n)).dwMagic =
          BCRYPT_DH_PRIVATE_MAGIC) →
        res.dhctx.dh_privbn.isSome) := by
  intro fuel
  induction fuel with
  | zero =>
    intro turn log public_ res h
    simp [_libssh2_dh_key_pair, hA, hflag] at h
  | succ fuel ih =>
    intro turn log public_ res h hst
    simp only [_libssh2_dh_key_pair, hA, hflag, ne_eq, not_false_eq_true, and_self,
      if_true] at h
    cases hb : _libssh2_dh_key_pair_body prov clear (allocs turn) G.hasAlgDHwithKDF log
        _libssh2_dh_init public_ g p group_order with
    | done status ctx pub l =>
      rw [hb] at h
      simp only [Option.some.injEq] at h
      subst h
      simp only at hst
      subst hst
      exact key_pair_body_done _ _ _ _ _ _ _ _ _ _ hflag _ _ _ hb
    | again ctx pub l =>
      rw [hb] at h
      simp only at h
      have hctx := key_pair_body_again _ _ _ _ _ _ _ _ _ _ _ _ _ hb
      subst hctx
      exact ih _ _ _ _ h hst

/-- One turn of the loop of `_libssh2_dh_key_pair` with a provider that succeeds
in every call and exports well-formed private blobs, when every allocation
succeeds: the turn ends with `continue` on the empty context when the exported
private value is even, and ends the function with success and that value as the
private number when it is odd. -/
theorem key_pair_body_run (prov : DhProvider) (clear : Bool) (a : KeyPairAllocs)
    (flag : Int) (log : List DhCall) (dhctx : _libssh2_dh_ctx)
    (pb : _libssh2_bn) (g p : _libssh2_bn) (group_order : Int) (k : Nat)
    (hflag : flag ≠ -1) (hflag1 : flag ≠ 1)
    (ha : a = ⟨true, true, true, true, true⟩)
    (hok : ∀ l c, 0 ≤ (prov l c).status)
    (hblob : ∀ l h n,
      (prov l (DhCall.ExportKey h BlobType.BCRYPT_DH_PRIVATE_BLOB n)).dwMagic =
        BCRYPT_DH_PRIVATE_MAGIC ∧
      1 ≤ (prov l (DhCall.ExportKey h BlobType.BCRYPT_DH_PRIVATE_BLOB n)).cbKey ∧
      (prov l (DhCall.ExportKey h BlobType.BCRYPT_DH_PRIVATE_BLOB n)).bytes.length =
        sizeof_BCRYPT_DH_KEY_BLOB +
          4 * (prov l (DhCall.ExportKey h BlobType.BCRYPT_DH_PRIVATE_BLOB n)).cbKey)
    (heven : ∀ l h n, countExports l < k →
      beValue (dhPrivateField
        (prov l (DhCall.ExportKey h BlobType.BCRYPT_DH_PRIVATE_BLOB n))) % 2 = 0)
    (hodd : ∀ l h n, countExports l = k →
      beValue (dhPrivateField
        (prov l (DhCall.ExportKey h BlobType.BCRYPT_DH_PRIVATE_BLOB n))) % 2 = 1) :
    (countExports log < k →
      ∃ pub log', _libssh2_dh_key_pair_body prov clear a flag log dhctx (some pb) g p
          group_order = KeyPairStep.again _libssh2_dh_init (some pub) log' ∧
        countGenerations log' = countGenerations log + 1 ∧
        countExports log' = countExports log + 1) ∧
    (countExports log = k →
      ∃ pub log' hd prm l n, _libssh2_dh_key_pair_body prov clear a flag log dhctx (some pb)
          g p group_order =
          KeyPairStep.done 0
            { dh_handle := some hd, dh_params := some prm,
              dh_privbn := some { bignum := some (dhPrivateField
                (prov l (DhCall.ExportKey hd BlobType.BCRYPT_DH_PRIVATE_BLOB n))) } }
            (some pub) log' ∧
        countExports l = k ∧
        countGenerations log' = countGenerations log + 1) := by
  apply key_pair_body_cases
    (fun s => (countExports log < k →
      ∃ pub log', s = KeyPairStep.again _libssh2_dh_init (some pub) log' ∧
        countGenerations log' = countGenerations log + 1 ∧
        countExports log' = countExports log + 1) ∧
    (countExports log = k →
      ∃ pub log' hd prm l n, s =
          KeyPairStep.done 0
            { dh_handle := some hd, dh_params := some prm,
              dh_privbn := some { bignum := some (dhPrivateField
                (prov l (DhCall.ExportKey hd BlobType.BCRYPT_DH_PRIVATE_BLOB n))) } }
            (some pub) log' ∧
        countExports l = k ∧
        countGenerations log' = countGenerations log + 1))
  · intro _ _ _ hnot
    exact absurd ⟨by rw [ha], by rw [ha], hok⟩ hnot
  · intro hd prm l n hg he
    simp only [if_neg hflag, if_neg hflag1]
    obtain ⟨hm, hcb, hlen⟩ := hblob l hd n
    have hrun := key_pair_store_run clear a flag
      (l ++ [DhCall.ExportKey hd BlobType.BCRYPT_DH_PRIVATE_BLOB n])
      { dh_handle := some hd, dh_params := some prm, dh_privbn := dhctx.dh_privbn } pb hd
      (prov l (DhCall.ExportKey hd BlobType.BCRYPT_DH_PRIVATE_BLOB n)) hflag
      (by rw [ha]; exact ⟨rfl, rfl, rfl⟩) hm hcb hlen
    have hg' : countGenerations (l ++ [DhCall.ExportKey hd BlobType.BCRYPT_DH_PRIVATE_BLOB n]) =
        countGenerations log + 1 := by
      simp only [countGenerations_append, countGenerations, hg]
    have he' : countExports (l ++ [DhCall.ExportKey hd BlobType.BCRYPT_DH_PRIVATE_BLOB n]) =
        countExports log + 1 := by
      simp only [countExports_append, countExports, he]
    constructor
    · intro hlt
      obtain ⟨pub, log', hs, h1, h2⟩ := hrun.1 (heven l hd n (by omega))
      exact ⟨pub, log', hs, by omega, by omega⟩
    · intro heq
      have hne : ¬ beValue (dhPrivateField
          (prov l (DhCall.ExportKey hd BlobType.BCRYPT_DH_PRIVATE_BLOB n))) % 2 = 0 := by
        have := hodd l hd n (by omega)
        omega
      obtain ⟨pub, hs⟩ := hrun.2 hne
      exact ⟨pub, _, hd, prm, l, n, hs, by omega, hg'⟩

/-- The loop of `_libssh2_dh_key_pair` with a provider whose exported private
values are even until `k` exports were made and odd at the next one: from a
state with `k - d` exports made, `d + 1` turns end it with success. -/
theorem key_pair_loop_run {κ : Type} (prov : DhProvider) (rsa : RsaProvider κ)
    (random : RandomFill) (clear : Bool) (allocs : Nat → KeyPairAllocs)
    (fb : FallbackAllocs) (G : _libssh2_wincng_ctx) (g p : _libssh2_bn)
    (group_order : Int) (k : Nat)
    (hA : G.hAlgDH.isSome = true) (hflag : G.hasAlgDHwithKDF ≠ -1)
    (hflag1 : G.hasAlgDHwithKDF ≠ 1)
    (hallocs : ∀ i, allocs i = ⟨true, true, true, true, true⟩)
    (hok : ∀ l c, 0 ≤ (prov l c).status)
    (hblob : ∀ l h n,
      (prov l (DhCall.ExportKey h BlobType.BCRYPT_DH_PRIVATE_BLOB n)).dwMagic =
        BCRYPT_DH_PRIVATE_MAGIC ∧
      1 ≤ (prov l (DhCall.ExportKey h BlobType.BCRYPT_DH_PRIVATE_BLOB n)).cbKey ∧
      (prov l (DhCall.ExportKey h BlobType.BCRYPT_DH_PRIVATE_BLOB n)).bytes.length =
        sizeof_BCRYPT_DH_KEY_BLOB +
          4 * (prov l (DhCall.ExportKey h BlobType.BCRYPT_DH_PRIVATE_BLOB n)).cbKey)
    (heven : ∀ l h n, countExports l < k →
      beValue (dhPrivateField
        (prov l (DhCall.ExportKey h BlobType.BCRYPT_DH_PRIVATE_BLOB n))) % 2 = 0)
    (hodd : ∀ l h n, countExports l = k →
      beValue (dhPrivateField
        (prov l (DhCall.ExportKey h BlobType.BCRYPT_DH_PRIVATE_BLOB n))) % 2 = 1) :
    ∀ (d fuel turn : Nat) (log : List DhCall) (dhctx : _libssh2_dh_ctx) (pb : _libssh2_bn),
      countExports log + d = k → d + 1 ≤ fuel →
      ∃ res l hd n,
        _libssh2_dh_key_pair prov rsa random clear allocs fb G g p group_order fuel turn log
          dhctx (some pb) = some res ∧
        res.status = 0 ∧
        countGenerations res.log = countGenerations log + (d + 1) ∧
        countExports l = k ∧
        res.dhctx.dh_handle = some hd ∧ res.dhctx.dh_params.isSome ∧
        res.dhctx.dh_privbn = some { bignum := some (dhPrivateField
          (prov l (DhCall.ExportKey hd BlobType.BCRYPT_DH_PRIVATE_BLOB n))) } := by
  intro d
  induction d with
  | zero =>
    intro fuel turn log dhctx pb hk hfuel
    obtain ⟨fuel, rfl⟩ : ∃ f, fuel = f + 1 := ⟨fuel - 1, by omega⟩
    obtain ⟨pub, log', hd, prm, l, n, hbody, hl, hg⟩ :=
      (key_pair_body_run prov clear (allocs turn) G.hasAlgDHwithKDF log dhctx pb g p
        group_order k hflag hflag1 (hallocs turn) hok hblob heven hodd).2 (by omega)
    refine ⟨⟨0, ⟨some hd, some prm, some ⟨some (dhPrivateField
      (prov l (DhCall.ExportKey hd BlobType.BCRYPT_DH_PRIVATE_BLOB n)))⟩⟩, some pub, log'⟩,
      l, hd, n, ?_, ?_⟩
    · simp only [_libssh2_dh_key_pair, hA, hflag, ne_eq, not_false_eq_true, and_self,
        if_true, hbody]
    · exact ⟨rfl, hg, hl, rfl, rfl, rfl⟩
  | succ d ih =>
    intro fuel turn log dhctx pb hk hfuel
    obtain ⟨fuel, rfl⟩ : ∃ f, fuel = f + 1 := ⟨fuel - 1, by omega⟩
    obtain ⟨pub, log', hbody, hg, he⟩ :=
      (key_pair_body_run prov clear (allocs turn) G.hasAlgDHwithKDF log dhctx pb g p
        group_order k hflag hflag1 (hallocs turn) hok hblob heven hodd).1 (by omega)
    obtain ⟨res, l, hd, n, hres, hst, hcg, hl, hh, hp, hpriv⟩ :=
      ih fuel (turn + 1) log' _libssh2_dh_init pub (by omega) (by omega)
    refine ⟨res, l, hd, n, ?_, hst, by omega, hl, hh, hp, hpriv⟩
    simp only [_libssh2_dh_key_pair, hA, hflag, ne_eq, not_false_eq_true, and_self,
      if_true, hbody]
    exact hres

/-! ## Diffie-Hellman key pairs -/

/-- C11. With the provider's Diffie-Hellman algorithm present and the flag
neither Unsupported nor Supported (so that the private blob is exported), every
allocation succeeding, and a provider that succeeds in every call and exports
well-formed private blobs whose private value is even in its first `k` exports
and odd in the next one: `_libssh2_dh_key_pair`, given at least `k + 1` turns,
returns 0 after exactly `k + 1` key generations, with the odd value of export
`k + 1` stored as `dhctx->dh_privbn`; and every turn that meets an even value
ends with `continue` on the empty context of `_libssh2_dh_init`. -/
theorem key_pair_retries_until_odd {κ : Type} (prov : DhProvider) (rsa : RsaProvider κ)
    (random : RandomFill) (clear : Bool) (allocs : Nat → KeyPairAllocs)
    (fb : FallbackAllocs) (G : _libssh2_wincng_ctx) (g p : _libssh2_bn)
    (group_order : Int) (k fuel turn : Nat) (log : List DhCall) (dhctx : _libssh2_dh_ctx)
    (pb : _libssh2_bn)
    (hA : G.hAlgDH.isSome = true) (hflag : G.hasAlgDHwithKDF ≠ -1)
    (hflag1 : G.hasAlgDHwithKDF ≠ 1)
    (hallocs : ∀ i, allocs i = ⟨true, true, true, true, true⟩)
    (hok : ∀ l c, 0 ≤ (prov l c).status)
    (hblob : ∀ l h n,
      (prov l (DhCall.ExportKey h BlobType.BCRYPT_DH_PRIVATE_BLOB n)).dwMagic =
        BCRYPT_DH_PRIVATE_MAGIC ∧
      1 ≤ (prov l (DhCall.ExportKey h BlobType.BCRYPT_DH_PRIVATE_BLOB n)).cbKey ∧
      (prov l (DhCall.ExportKey h BlobType.BCRYPT_DH_PRIVATE_BLOB n)).bytes.length =
        sizeof_BCRYPT_DH_KEY_BLOB +
          4 * (prov l (DhCall.ExportKey h BlobType.BCRYPT_DH_PRIVATE_BLOB n)).cbKey)
    (heven : ∀ l h n, countExports l < k →
      beValue (dhPrivateField
        (prov l (DhCall.ExportKey h BlobType.BCRYPT_DH_PRIVATE_BLOB n))) % 2 = 0)
    (hodd : ∀ l h n, countExports l = k →
      beValue (dhPrivateField
        (prov l (DhCall.ExportKey h BlobType.BCRYPT_DH_PRIVATE_BLOB n))) % 2 = 1)
    (hlog : countExports log = 0) (hfuel : k + 1 ≤ fuel) :
    (∃ res l hd n,
      _libssh2_dh_key_pair prov rsa random clear allocs fb G g p group_order fuel turn log
        dhctx (some pb) = some res ∧
      res.status = 0 ∧
      countGenerations res.log = countGenerations log + (k + 1) ∧
      countExports l = k ∧
      res.dhctx.dh_privbn = some { bignum := some (dhPrivateField
        (prov l (DhCall.ExportKey hd BlobType.BCRYPT_DH_PRIVATE_BLOB n))) } ∧
      beValue (dhPrivateField
        (prov l (DhCall.ExportKey hd BlobType.BCRYPT_DH_PRIVATE_BLOB n))) % 2 = 1) ∧
    (∀ (i : Nat) (l : List DhCall) (ctx : _libssh2_dh_ctx) (pb' : _libssh2_bn),
      countExports l < k →
      ∃ pub l', _libssh2_dh_key_pair_body prov clear (allocs i) G.hasAlgDHwithKDF l ctx
        (some pb') g p group_order = KeyPairStep.again _libssh2_dh_init (some pub) l') := by
  constructor
  · obtain ⟨res, l, hd, n, hres, hst, hcg, hl, -, -, hpriv⟩ :=
      key_pair_loop_run prov rsa random clear allocs fb G g p group_order k hA hflag hflag1
        hallocs hok hblob heven hodd k fuel turn log dhctx pb (by omega) hfuel
    exact ⟨res, l, hd, n, hres, hst, hcg, hl, hpriv, hodd l hd n hl⟩
  · intro i l ctx pb' hlt
    obtain ⟨pub, l', hbody, -, -⟩ :=
      (key_pair_body_run prov clear (allocs i) G.hasAlgDHwithKDF l ctx pb' g p
        group_order k hflag hflag1 (hallocs i) hok hblob heven hodd).1 hlt
    exact ⟨pub, l', hbody⟩

theorem key_pair_retries_until_odd_witness :
    ∃ res l hd n,
      _libssh2_dh_key_pair (retryProvider 1) exactModExpProvider none true
        (fun _ => ⟨true, true, true, true, true⟩) ⟨true, true, true, true, true, true⟩
        ⟨some 1, 0⟩ ⟨some [5]⟩ ⟨some [23]⟩ 1 2 0 [] _libssh2_dh_init (some ⟨none⟩) =
        some res ∧
      res.status = 0 ∧
      countGenerations res.log = countGenerations [] + (1 + 1) ∧
      countExports l = 1 ∧
      res.dhctx.dh_privbn = some { bignum := some (dhPrivateField
        (retryProvider 1 l (DhCall.ExportKey hd BlobType.BCRYPT_DH_PRIVATE_BLOB n))) } ∧
      beValue (dhPrivateField
        (retryProvider 1 l (DhCall.ExportKey hd BlobType.BCRYPT_DH_PRIVATE_BLOB n))) % 2 = 1 :=
  (key_pair_retries_until_odd (retryProvider 1) exactModExpProvider none true
    (fun _ => ⟨true, true, true, true, true⟩) ⟨true, true, true, true, true, true⟩
    ⟨some 1, 0⟩ ⟨some [5]⟩ ⟨some [23]⟩ 1 1 2 0 [] _libssh2_dh_init ⟨none⟩
    rfl (by decide) (by decide) (fun _ => rfl)
    (by intro l c; cases c <;> simp only [retryProvider] <;> (try split) <;> exact Int.le_refl 0)
    (by
      intro l h n
      simp only [retryProvider, if_true]
      exact ⟨trivial, Nat.le_refl 1, rfl⟩)
    (by
      intro l h n hlt
      simp only [retryProvider, if_true, if_pos hlt]
      decide)
    (by
      intro l h n heq
      have hnot : ¬ countExports l < 1 := by omega
      simp only [retryProvider, if_true, if_neg hnot]
      decide)
    rfl (by decide)).1

/-- C12 as stated fails: with the Diffie-Hellman algorithm present and the flag
Unknown (0), a successful `_libssh2_dh_key_pair` on a fresh context leaves the
key handle, the saved parameters and the private number all set (the provider
exports the private value 3). -/
theorem key_pair_unknown_sets_all_three :
    (_libssh2_dh_key_pair (retryProvider 0) exactModExpProvider none true
      (fun _ => ⟨true, true, true, true, true⟩) ⟨true, true, true, true, true, true⟩
      ⟨some 1, 0⟩ ⟨some [5]⟩ ⟨some [23]⟩ 1 1 0 [] _libssh2_dh_init (some ⟨none⟩)).map
      (fun res => (res.status, res.dhctx)) =
      some (0, ⟨some 1,
        some ⟨⟨14, BCRYPT_DH_PARAMETERS_MAGIC, 1⟩, List.replicate 12 0 ++ [23, 5]⟩,
        some ⟨some [3]⟩⟩) := by
  decide

/-- C12 as amended: after a successful `_libssh2_dh_key_pair` on a freshly
initialised context there are three shapes.  When the function takes its
fallback branch (no Diffie-Hellman algorithm, or the flag is Unsupported), the
handle and the parameters are absent and the private number is set.  When it
takes the native branch, the handle and the parameters are set; the private
number is absent when the flag is Supported and the provider exports a public
blob as asked, and it is set as well when the flag is not Supported (Unknown)
and the provider exports a private blob as asked. -/
theorem key_pair_context_shapes {κ : Type} (prov : DhProvider) (rsa : RsaProvider κ)
    (random : RandomFill) (clear : Bool) (allocs : Nat → KeyPairAllocs)
    (fb : FallbackAllocs) (G : _libssh2_wincng_ctx) (g p : _libssh2_bn)
    (group_order : Int) (fuel turn : Nat) (log : List DhCall)
    (public_ : Option _libssh2_bn) (res : KeyPairResult)
    (hres : _libssh2_dh_key_pair prov rsa random clear allocs fb G g p group_order fuel turn
      log _libssh2_dh_init public_ = some res)
    (hst : res.status = 0) :
    (¬ (G.hAlgDH.isSome = true ∧ G.hasAlgDHwithKDF ≠ -1) →
      res.dhctx.dh_handle = none ∧ res.dhctx.dh_params = none ∧
      res.dhctx.dh_privbn.isSome) ∧
    (G.hAlgDH.isSome = true ∧ G.hasAlgDHwithKDF ≠ -1 →
      res.dhctx.dh_handle.isSome ∧ res.dhctx.dh_params.isSome ∧
      (G.hasAlgDHwithKDF = 1 →
        (∀ l h n, (prov l (DhCall.ExportKey h BlobType.BCRYPT_DH_PUBLIC_BLOB n)).dwMagic ≠
          BCRYPT_DH_PRIVATE_MAGIC) →
        res.dhctx.dh_privbn = none) ∧
      (G.hasAlgDHwithKDF ≠ 1 →
        (∀ l h n, (prov l (DhCall.ExportKey h BlobType.BCRYPT_DH_PRIVATE_BLOB n)).dwMagic =
          BCRYPT_DH_PRIVATE_MAGIC) →
        res.dhctx.dh_privbn.isSome)) := by
  constructor
  · intro hnot
    have hfb : res = {
        status := (_libssh2_dh_key_pair_fallback rsa random clear fb.init fb.rand fb.key
          fb.r fb.buf fb.fin public_ (some g) (some p) group_order).1,
        dhctx := { _libssh2_dh_init with dh_privbn := (_libssh2_dh_key_pair_fallback rsa random
          clear fb.init fb.rand fb.key fb.r fb.buf fb.fin public_ (some g) (some p)
          group_order).2.1 },
        public_ := (_libssh2_dh_key_pair_fallback rsa random clear fb.init fb.rand fb.key
          fb.r fb.buf fb.fin public_ (some g) (some p) group_order).2.2,
        log := log } := by
      cases fuel <;> simp only [_libssh2_dh_key_pair, if_neg hnot, Option.some.injEq] at hres <;>
        exact hres.symm
    rw [hfb] at hst ⊢
    exact ⟨rfl, rfl, fallback_success_priv _ _ _ _ _ _ _ _ _ _ _ _ _ hst⟩
  · intro hnat
    exact key_pair_native_shape prov rsa random clear allocs fb G g p group_order hnat.1
      hnat.2 fuel turn log public_ res hres hst

theorem key_pair_context_shapes_witness :
    (_libssh2_dh_key_pair (retryProvider 0) exactModExpProvider none true
      (fun _ => ⟨true, true, true, true, true⟩) ⟨true, true, true, true, true, true⟩
      ⟨some 1, 0⟩ ⟨some [5]⟩ ⟨some [23]⟩ 1 1 0 [] _libssh2_dh_init (some ⟨none⟩)).map
      (fun res => res.status) = some 0 ∧
    (some 1 : Option Nat).isSome ∧
    (some ⟨⟨14, BCRYPT_DH_PARAMETERS_MAGIC, 1⟩, List.replicate 12 0 ++ [23, 5]⟩ :
      Option DhParams).isSome ∧
    (some ⟨some [3]⟩ : Option _libssh2_bn).isSome :=
  have shapes := (key_pair_context_shapes (retryProvider 0) exactModExpProvider none true
    (fun _ => ⟨true, true, true, true, true⟩) ⟨true, true, true, true, true, true⟩
    ⟨some 1, 0⟩ ⟨some [5]⟩ ⟨some [23]⟩ 1 1 0 [] (some ⟨none⟩)
    ⟨0, ⟨some 1, some ⟨⟨14, BCRYPT_DH_PARAMETERS_MAGIC, 1⟩, List.replicate 12 0 ++ [23, 5]⟩,
        some ⟨some [3]⟩⟩, some ⟨some [8]⟩,
      [DhCall.GenerateKeyPair 8,
        DhCall.SetProperty 1
          ⟨⟨14, BCRYPT_DH_PARAMETERS_MAGIC, 1⟩, List.replicate 12 0 ++ [23, 5]⟩,
        DhCall.FinalizeKeyPair 1,
        DhCall.ExportKeySize 1 BlobType.BCRYPT_DH_PRIVATE_BLOB,
        DhCall.ExportKey 1 BlobType.BCRYPT_DH_PRIVATE_BLOB 12]⟩
    (by decide) rfl).2 ⟨rfl, by decide⟩
  ⟨by decide, shapes.1, shapes.2.1,
    shapes.2.2.2 (by decide) (fun _ _ _ => rfl)⟩

/-! ## Random numbers -/

theorem isBytes_set (l : List Nat) (i v : Nat) (hl : IsBytes l) (hv : v < 256) :
    IsBytes (l.set i v) := by
  intro x hx
  rcases List.mem_or_eq_of_mem_set hx with h | h
  · exact hl x h
  · rw [h]; exact hv

theorem getD_lt_of_isBytes (l : List Nat) (i : Nat) (hl : IsBytes l) : l.getD i 0 < 256 := by
  by_cases hi : i < l.length
  · rw [List.getD_eq_getElem l 0 hi]
    exact hl _ (List.getElem_mem hi)
  · rw [List.getD_eq_default l 0 (by omega)]
    decide

theorem getD_set_self (l : List Nat) (i v : Nat) (hi : i < l.length) :
    (l.set i v).getD i 0 = v := by
  rw [List.getD_eq_getElem?_getD, List.getElem?_set_self hi]
  rfl

theorem getD_set_ne (l : List Nat) (i j v : Nat) (hij : i ≠ j) :
    (l.set i v).getD j 0 = l.getD j 0 := by
  rw [List.getD_eq_getElem?_getD, List.getElem?_set_ne hij, List.getD_eq_getElem?_getD]

/-- A buffer of `n ≥ 1` bytes whose first byte is below `2 ^ b` has a value below
`2 ^ (b + 8 * (n - 1))`. -/
theorem beValue_lt_of_head (l : List Nat) (b : Nat) (hl : IsBytes l) (hn : 0 < l.length)
    (hh : l.getD 0 0 < 2 ^ b) : beValue l < 2 ^ (b + 8 * (l.length - 1)) := by
  cases l with
  | nil => simp at hn
  | cons x xs =>
    have hx : x < 2 ^ b := by simpa using hh
    have hxs : IsBytes xs := fun y hy => hl y (List.mem_cons_of_mem _ hy)
    have hlt := beValue_lt xs hxs
    rw [beValue_cons]
    simp only [List.length_cons, Nat.add_sub_cancel]
    have h256 : (256 : Nat) ^ xs.length = 2 ^ (8 * xs.length) := by
      rw [pow_mul]; norm_num
    rw [pow_add, ← h256]
    calc x * 256 ^ xs.length + beValue xs
        < x * 256 ^ xs.length + 256 ^ xs.length := by omega
      _ = (x + 1) * 256 ^ xs.length := by ring
      _ ≤ 2 ^ b * 256 ^ xs.length := Nat.mul_le_mul_right _ hx

/-- A buffer of `n` bytes whose first byte is below `2 ^ b`. -/
theorem topBounded_mask (l : List Nat) (b : Nat) (hl : IsBytes l) (hn : 0 < l.length)
    (hb8 : b ≤ 8) :
    TopBounded l.length b (l.set 0 (l.getD 0 0 &&& ((1 <<< b) - 1))) := by
  have hpow : (1 <<< b) = 2 ^ b := by rw [Nat.shiftLeft_eq, one_mul]
  have hlt : l.getD 0 0 &&& ((1 <<< b) - 1) < 2 ^ b := by
    rw [hpow]
    exact Nat.and_lt_two_pow _ (Nat.sub_lt (Nat.two_pow_pos b) Nat.one_pos)
  have h256 : 2 ^ b ≤ 256 := by
    calc 2 ^ b ≤ 2 ^ 8 := Nat.pow_le_pow_right (by decide) hb8
      _ = 256 := by norm_num
  refine ⟨List.length_set _ _ _, isBytes_set _ _ _ hl (by omega), ?_⟩
  rw [getD_set_self _ _ _ hn]
  exact hlt

theorem topBounded_or (l : List Nat) (n b v : Nat) (h : TopBounded n b l) (hn : 0 < n)
    (hb8 : b ≤ 8) (hv : v < 2 ^ b) :
    TopBounded n b (l.set 0 (l.getD 0 0 ||| v)) := by
  obtain ⟨hlen, hl, hh⟩ := h
  have hlt : l.getD 0 0 ||| v < 2 ^ b := Nat.or_lt_two_pow hh hv
  have h256 : 2 ^ b ≤ 256 := by
    calc 2 ^ b ≤ 2 ^ 8 := Nat.pow_le_pow_right (by decide) hb8
      _ = 256 := by norm_num
  refine ⟨by rw [List.length_set, hlen], isBytes_set _ _ _ hl (by omega), ?_⟩
  rw [getD_set_self _ _ _ (by omega)]
  exact hlt

theorem topBounded_bottom (l : List Nat) (n b : Nat) (h : TopBounded n b l) (hn : 0 < n)
    (hb1 : 1 ≤ b) :
    TopBounded n b (l.set (n - 1) (l.getD (n - 1) 0 ||| 1)) ∧
    (l.set (n - 1) (l.getD (n - 1) 0 ||| 1)).getD (n - 1) 0 % 2 = 1 := by
  obtain ⟨hlen, hl, hh⟩ := h
  have hone : 1 < 2 ^ b := Nat.one_lt_two_pow (by omega)
  have hbyte : l.getD (n - 1) 0 ||| 1 < 256 :=
    Nat.or_lt_two_pow (n := 8) (getD_lt_of_isBytes l _ hl) (by decide)
  refine ⟨⟨by rw [List.length_set, hlen], isBytes_set _ _ _ hl hbyte, ?_⟩, ?_⟩
  · by_cases h0 : n - 1 = 0
    · rw [h0, getD_set_self _ _ _ (by omega)]
      exact Nat.or_lt_two_pow hh hone
    · rw [getD_set_ne _ _ _ _ h0]
      exact hh
  · rw [getD_set_self _ _ _ (by omega)]
    exact Nat.or_mod_two_eq_one.mpr (Or.inr rfl)

theorem rand_bounded (clear : Bool) (f : Nat → Nat) (rnd : _libssh2_bn)
    (bits top bottom : Int) (hbits : 1 ≤ bits) (hf : ∀ i, f i < 256)
    (htop : top = 1 → bits % 8 ≠ 1) :
    ∃ bs, _libssh2_wincng_bignum_rand clear true (some f) (some rnd) bits top bottom =
        (0, some { bignum := some bs }) ∧
      TopBounded ((bits + 7) / 8).toNat (if bits % 8 = 0 then 8 else bits % 8).toNat bs ∧
      (bottom ≠ 0 → bs.getD (((bits + 7) / 8).toNat - 1) 0 % 2 = 1) := by
  have hn : 0 < ((bits + 7) / 8).toNat := by
    have : 1 ≤ (bits + 7) / 8 := by omega
    omega
  obtain ⟨buf, hres, _⟩ := resize_ok clear rnd _ (by omega : ((bits + 7) / 8).toNat ≠ 0)
  have hl0 : IsBytes ((List.range ((bits + 7) / 8).toNat).map f) := by
    intro x hx
    obtain ⟨i, -, hi⟩ := List.mem_map.mp hx
    rw [← hi]; exact hf i
  have hlen0 : ((List.range ((bits + 7) / 8).toNat).map f).length = ((bits + 7) / 8).toNat := by
    simp
  have hb1 : 1 ≤ (if bits % 8 = 0 then 8 else bits % 8).toNat := by
    split <;> omega
  have hb8 : (if bits % 8 = 0 then 8 else bits % 8).toNat ≤ 8 := by
    split <;> omega
  have h1 := topBounded_mask _ (if bits % 8 = 0 then 8 else bits % 8).toNat hl0
    (by rw [hlen0]; exact hn) hb8
  rw [hlen0] at h1
  have hs1 : 1 <<< ((if bits % 8 = 0 then 8 else bits % 8) - 1).toNat <
      2 ^ (if bits % 8 = 0 then 8 else bits % 8).toNat := by
    rw [Nat.shiftLeft_eq, one_mul]
    apply Nat.pow_lt_pow_right (by decide)
    split <;> omega
  have hs2 : top = 1 → 3 <<< ((if bits % 8 = 0 then 8 else bits % 8) - 2).toNat <
      2 ^ (if bits % 8 = 0 then 8 else bits % 8).toNat := by
    intro ht
    have hne := htop ht
    have hsum : (if bits % 8 = 0 then 8 else bits % 8).toNat =
        ((if bits % 8 = 0 then 8 else bits % 8) - 2).toNat + 2 := by
      split <;> omega
    rw [Nat.shiftLeft_eq, hsum, pow_add]
    have := Nat.two_pow_pos ((if bits % 8 = 0 then 8 else bits % 8) - 2).toNat
    omega
  simp only [_libssh2_wincng_bignum_rand, hres]
  refine ⟨_, rfl, ?_⟩
  by_cases ht0 : top = 0
  · have h2 := topBounded_or _ _ _ _ h1 hn hb8 hs1
    by_cases hbt : bottom ≠ 0
    · simp only [if_pos ht0, if_pos hbt]
      have h3 := topBounded_bottom _ _ _ h2 hn hb1
      exact ⟨h3.1, fun _ => h3.2⟩
    · simp only [if_pos ht0, if_neg hbt]
      exact ⟨h2, fun h => absurd h hbt⟩
  · by_cases ht1 : top = 1
    · have h2 := topBounded_or _ _ _ _ h1 hn hb8 (hs2 ht1)
      by_cases hbt : bottom ≠ 0
      · simp only [if_neg ht0, if_pos ht1, if_pos hbt]
        have h3 := topBounded_bottom _ _ _ h2 hn hb1
        exact ⟨h3.1, fun _ => h3.2⟩
      · simp only [if_neg ht0, if_pos ht1, if_neg hbt]
        exact ⟨h2, fun h => absurd h hbt⟩
    · by_cases hbt : bottom ≠ 0
      · simp only [if_neg ht0, if_neg ht1, if_pos hbt]
        have h3 := topBounded_bottom _ _ _ h1 hn hb1
        exact ⟨h3.1, fun _ => h3.2⟩
      · simp only [if_neg ht0, if_neg ht1, if_neg hbt]
        exact ⟨h1, fun h => absurd h hbt⟩

/-- C21. For every bit length of at least 1 and every random fill of bytes, with
the allocation succeeding, `_libssh2_wincng_bignum_rand` leaves a buffer of
exactly `ceil(bits / 8)` bytes whose big-endian value is below `2 ^ bits`, and
the value is odd when `bottom` is not 0.  For `top = 1` the bit length is not 1
modulo 8: there the source shifts by `-1`, which has no defined result. -/
theorem rand_length_value_parity (clear : Bool) (f : Nat → Nat) (rnd : _libssh2_bn)
    (bits top bottom : Int) (hbits : 1 ≤ bits) (hf : ∀ i, f i < 256)
    (htop : top = 1 → bits % 8 ≠ 1) :
    ∃ bs, _libssh2_wincng_bignum_rand clear true (some f) (some rnd) bits top bottom =
        (0, some { bignum := some bs }) ∧
      (bs.length : Int) = (bits + 7) / 8 ∧ IsBytes bs ∧
      beValue bs < 2 ^ bits.toNat ∧
      (bottom ≠ 0 → beValue bs % 2 = 1) := by
  obtain ⟨bs, hres, ⟨hlen, hbytes, hhead⟩, hodd⟩ :=
    rand_bounded clear f rnd bits top bottom hbits hf htop
  have hn : 0 < ((bits + 7) / 8).toNat := by
    have : 1 ≤ (bits + 7) / 8 := by omega
    omega
  refine ⟨bs, hres, by omega, hbytes, ?_, ?_⟩
  · have hlt := beValue_lt_of_head bs _ hbytes (by omega) hhead
    have hexp : (if bits % 8 = 0 then 8 else bits % 8).toNat + 8 * (bs.length - 1) =
        bits.toNat := by
      rw [hlen]
      split <;> omega
    rw [hexp] at hlt
    exact hlt
  · intro hb
    rw [beValue_mod_two, hlen]
    exact hodd hb

theorem rand_length_value_parity_witness :
    ∃ bs, _libssh2_wincng_bignum_rand true true (some (fun _ => 255)) (some ⟨none⟩) 9 (-1) 1 =
        (0, some { bignum := some bs }) ∧
      (bs.length : Int) = (9 + 7) / 8 ∧ IsBytes bs ∧
      beValue bs < 2 ^ (9 : Int).toNat ∧
      ((1 : Int) ≠ 0 → beValue bs % 2 = 1) :=
  rand_length_value_parity true (fun _ => 255) ⟨none⟩ 9 (-1) 1 (by decide)
    (fun _ => (by decide : (255 : Nat) < 256)) (fun h => absurd h (by decide))

theorem getD_map_range (f : Nat → Nat) (n i : Nat) (hi : i < n) :
    ((List.range n).map f).getD i 0 = f i := by
  rw [List.getD_eq_getElem?_getD, List.getElem?_map, List.getElem?_range hi]
  rfl

/-- The private exponent that the fallback branch of `_libssh2_dh_key_pair`
draws: `group_order` random bytes, the first masked to 7 bits with bit 6 set,
the last with bit 0 set. -/
theorem fallback_private_bytes {κ : Type} (prov : RsaProvider κ) (f : Nat → Nat)
    (clear allocKey allocR allocBuf allocEnd : Bool) (public_ g p : Option _libssh2_bn)
    (group_order : Int) (ho : 1 ≤ group_order) :
    (_libssh2_dh_key_pair_fallback prov (some f) clear true true allocKey allocR allocBuf
      allocEnd public_ g p group_order).2.1 =
      some ⟨some (fallbackPrivateBytes f group_order.toNat)⟩ := by
  have hlen : ((group_order * 8 - 1 + 7) / 8).toNat = group_order.toNat := by
    have : (group_order * 8 - 1 + 7) / 8 = group_order := by omega
    rw [this]
  have hmod : (group_order * 8 - 1) % 8 = 7 := by omega
  obtain ⟨buf, hres, _⟩ := resize_ok clear { bignum := none } group_order.toNat (by omega)
  have hn : 0 < group_order.toNat := by omega
  obtain ⟨l1, hl1⟩ : ∃ l1, l1 = ((List.range group_order.toNat).map f).set 0
      (((List.range group_order.toNat).map f).getD 0 0 &&& 127) := ⟨_, rfl⟩
  obtain ⟨l2, hl2⟩ : ∃ l2, l2 = l1.set 0 (l1.getD 0 0 ||| 64) := ⟨_, rfl⟩
  obtain ⟨l3, hl3⟩ : ∃ l3, l3 = l2.set (group_order.toNat - 1)
      (l2.getD (group_order.toNat - 1) 0 ||| 1) := ⟨_, rfl⟩
  have hrand : _libssh2_wincng_bignum_rand clear true (some f) (some { bignum := none })
      (group_order * 8 - 1) 0 (-1) = (0, some ⟨some l3⟩) := by
    simp only [_libssh2_wincng_bignum_rand, hlen, hres, hmod]
    rw [hl3, hl2, hl1]
    rfl
  have h0 : ((List.range group_order.toNat).map f).length = group_order.toNat := by simp
  have hlen1 : l1.length = group_order.toNat := by rw [hl1, List.length_set, h0]
  have hlen2 : l2.length = group_order.toNat := by rw [hl2, List.length_set, hlen1]
  have hg1 : ∀ i, 0 < i → l1.getD i 0 = ((List.range group_order.toNat).map f).getD i 0 := by
    intro i hi
    rw [hl1, getD_set_ne _ _ _ _ (by omega)]
  have hg10 : l1.getD 0 0 = f 0 &&& 127 := by
    rw [hl1, getD_set_self _ _ _ (by omega), getD_map_range f _ 0 hn]
  have hg2 : ∀ i, 0 < i → i < group_order.toNat → l2.getD i 0 = f i := by
    intro i hi hin
    rw [hl2, getD_set_ne _ _ _ _ (by omega), hg1 i hi, getD_map_range f _ i hin]
  have hg20 : l2.getD 0 0 = (f 0 &&& 127) ||| 64 := by
    rw [hl2, getD_set_self _ _ _ (by omega), hg10]
  have hfin : l3 = fallbackPrivateBytes f group_order.toNat := by
    apply List.ext_getElem?
    intro i
    by_cases hin : i < group_order.toNat
    · have hl3len : l3.length = group_order.toNat := by rw [hl3, List.length_set, hlen2]
      rw [List.getElem?_eq_getElem (by omega), List.getElem?_eq_getElem
        (by simp only [fallbackPrivateBytes, List.length_map, List.length_range]; exact hin)]
      congr 1
      have hi3 : i < l3.length := by omega
      have hleft : l3[i] = l3.getD i 0 := by
        rw [List.getD_eq_getElem l3 0 hi3]
      rw [hleft]
      simp only [fallbackPrivateBytes, List.getElem_map, List.getElem_range]
      by_cases hlast : i + 1 = group_order.toNat
      · have hi : group_order.toNat - 1 = i := by omega
        rw [hl3, hi, getD_set_self _ _ _ (by omega)]
        by_cases hi0 : i = 0
        · subst hi0
          rw [hg20, if_pos rfl, if_pos hlast]
        · rw [hg2 i (by omega) hin, if_neg hi0, if_pos hlast]
      · rw [hl3, getD_set_ne _ _ _ _ (by omega)]
        by_cases hi0 : i = 0
        · subst hi0
          rw [hg20, if_pos rfl, if_neg hlast]
        · rw [hg2 i (by omega) hin, if_neg hi0, if_neg hlast]
    · rw [List.getElem?_eq_none (by rw [hl3, List.length_set, hlen2]; omega),
        List.getElem?_eq_none (by
          simp only [fallbackPrivateBytes, List.length_map, List.length_range]; omega)]
  rw [hfin] at hrand
  simp only [_libssh2_dh_key_pair_fallback, _libssh2_wincng_bignum_init, if_true, hrand]
  split <;> rfl

/-- C22 as stated fails: on the fallback branch of `_libssh2_dh_key_pair` with a
group order of 2 bytes and random bytes that are all zero, the private exponent
is `40 01`: the top bit of the 15-bit number is forced to 1 (the claim has
`00 01`). -/
theorem fallback_private_forces_top_bit :
    (_libssh2_dh_key_pair_fallback exactModExpProvider (some (fun _ => 0)) true true true
      true true true true (some ⟨none⟩) (some ⟨some [5]⟩) (some ⟨some [23]⟩) 2).2.1 =
      some ⟨some [0x40, 0x01]⟩ := by
  decide

/-- C22 as amended: on the fallback branch of `_libssh2_dh_key_pair` the private
exponent is drawn by `_libssh2_wincng_bignum_rand` with
`bits = 8 * group_order - 1`, `top = 0` (set the top bit) and `bottom = -1`
(odd): it has `group_order` bytes; the first byte is the random byte masked to
its 7 low bits with bit 6, the top bit of the number, forced to 1; the last
byte is the random byte with bit 0 set; every other byte is the random byte
unchanged. -/
theorem fallback_private_top_and_bottom {κ : Type} (prov : RsaProvider κ) (f : Nat → Nat)
    (clear allocKey allocR allocBuf allocEnd : Bool) (public_ g p : Option _libssh2_bn)
    (group_order : Int) (ho : 1 ≤ group_order) :
    (_libssh2_dh_key_pair_fallback prov (some f) clear true true allocKey allocR allocBuf
      allocEnd public_ g p group_order).2.1 =
      some ⟨some (fallbackPrivateBytes f group_order.toNat)⟩ ∧
    (fallbackPrivateBytes f group_order.toNat).length = group_order.toNat ∧
    64 ≤ (fallbackPrivateBytes f group_order.toNat).getD 0 0 ∧
    (fallbackPrivateBytes f group_order.toNat).getD 0 0 < 128 ∧
    (fallbackPrivateBytes f group_order.toNat).getD (group_order.toNat - 1) 0 % 2 = 1 ∧
    (∀ i, 0 < i → i + 1 < group_order.toNat →
      (fallbackPrivateBytes f group_order.toNat).getD i 0 = f i) := by
  have hn : 0 < group_order.toNat := by omega
  have hget : ∀ i, i < group_order.toNat →
      (fallbackPrivateBytes f group_order.toNat).getD i 0 =
        if i = 0 then
          if i + 1 = group_order.toNat then ((f i &&& 127) ||| 64) ||| 1
          else (f i &&& 127) ||| 64
        else if i + 1 = group_order.toNat then f i ||| 1 else f i := by
    intro i hi
    unfold fallbackPrivateBytes
    rw [List.getD_eq_getElem?_getD, List.getElem?_map, List.getElem?_range hi]
    rfl
  have hbit : ((f 0 &&& 127) ||| 64).testBit 6 = true := by
    rw [Nat.testBit_or]
    have : (64 : Nat).testBit 6 = true := by decide
    rw [this, Bool.or_true]
  have h64 : 64 ≤ (f 0 &&& 127) ||| 64 := Nat.testBit_implies_ge hbit
  have h64' : 64 ≤ ((f 0 &&& 127) ||| 64) ||| 1 := by
    apply Nat.testBit_implies_ge (i := 6)
    rw [Nat.testBit_or, hbit, Bool.true_or]
  have h128 : (f 0 &&& 127) ||| 64 < 128 :=
    Nat.or_lt_two_pow (n := 7) (Nat.and_lt_two_pow _ (by decide)) (by decide)
  refine ⟨fallback_private_bytes prov f clear allocKey allocR allocBuf allocEnd public_ g p
    group_order ho, by simp [fallbackPrivateBytes], ?_, ?_, ?_, ?_⟩
  · rw [hget 0 hn, if_pos rfl]
    split
    · exact h64'
    · exact h64
  · rw [hget 0 hn, if_pos rfl]
    split
    · exact Nat.or_lt_two_pow (n := 7) h128 (by decide)
    · exact h128
  · rw [hget _ (by omega)]
    have hlast : group_order.toNat - 1 + 1 = group_order.toNat := by omega
    rw [if_pos hlast, if_pos hlast]
    split <;> exact Nat.or_mod_two_eq_one.mpr (Or.inr rfl)
  · intro i hi hlt
    rw [hget i (by omega), if_neg (by omega), if_neg (by omega)]

theorem fallback_private_top_and_bottom_witness :
    (_libssh2_dh_key_pair_fallback exactModExpProvider (some (fun _ => 0)) true true true
      true true true true (some ⟨none⟩) (some ⟨some [5]⟩) (some ⟨some [23]⟩) 2).2.1 =
      some ⟨some (fallbackPrivateBytes (fun _ => 0) (2 : Int).toNat)⟩ :=
  (fallback_private_top_and_bottom exactModExpProvider (fun _ => 0) true true true
    true true (some ⟨none⟩) (some ⟨some [5]⟩) (some ⟨some [23]⟩) 2 (by decide)).1

/-! ## Conversion of decoded integers -/

theorem take_succ_set (l : List Nat) (k v : Nat) (hk : k < l.length) :
    (l.set k v).take (k + 1) = l.take k ++ [v] := by
  have h1 : (l.set k v).take k = l.take k := by
    apply List.ext_getElem?
    intro i
    rw [List.getElem?_take, List.getElem?_take]
    split
    · rw [List.getElem?_set_ne (by omega)]
    · rfl
  rw [List.take_succ, List.getElem?_set_self hk, h1]
  rfl

theorem set_zero_replicate (m : Nat) : (List.replicate m 0).set 0 0 = List.replicate m 0 := by
  cases m with
  | zero => rfl
  | succ m => rfl

/-- The loop of `_libssh2_wincng_bn_ltob` writes the input in reverse order
behind the first `offset` bytes. -/
theorem bn_ltob_loop_eq (pbInput : List Nat) (offset : Nat) :
    ∀ (fuel index : Nat) (pbOutput : List Nat),
      pbOutput.length = pbInput.length + offset → index ≤ pbInput.length →
      pbInput.length - index ≤ fuel →
      bn_ltob_loop pbInput (pbInput.length - 1) offset (pbInput.length + offset)
          pbInput.length fuel index pbOutput =
        pbOutput.take (index + offset) ++ pbInput.reverse.drop index := by
  intro fuel
  induction fuel with
  | zero =>
    intro index pbOutput hlen hle hfuel
    have hidx : index = pbInput.length := by omega
    simp only [bn_ltob_loop]
    rw [List.take_of_length_le (by omega), List.drop_of_length_le (by simp; omega),
      List.append_nil]
  | succ fuel ih =>
    intro index pbOutput hlen hle hfuel
    simp only [bn_ltob_loop]
    by_cases hlt : index < pbInput.length
    · rw [if_pos ⟨by omega, hlt⟩]
      rw [ih (index + 1) _ (by rw [List.length_set, hlen]) (by omega) (by omega)]
      have hidx : index + 1 + offset = (index + offset) + 1 := by omega
      rw [hidx, take_succ_set _ _ _ (by omega)]
      have hdrop : pbInput.reverse.drop index =
          pbInput.getD (pbInput.length - 1 - index) 0 :: pbInput.reverse.drop (index + 1) := by
        rw [List.drop_eq_getElem_cons (by simp; exact hlt)]
        congr 1
        rw [List.getElem_reverse, List.getD_eq_getElem pbInput 0 (by omega)]
      rw [hdrop, List.append_assoc]
      rfl
    · rw [if_neg (fun h => hlt h.2)]
      have hidx : index = pbInput.length := by omega
      rw [List.take_of_length_le (by omega), List.drop_of_length_le (by simp; omega),
        List.append_nil]

/-- The output of `_libssh2_wincng_bn_ltob` for an input of at least one byte
when the allocation succeeds: the input in reverse order, behind one `0x00` byte
when bit 7 of the last input byte is set. -/
theorem bn_ltob_eq (alloc : Nat → Bool) (heap : Heap) (pbInput : List Nat)
    (hne : pbInput ≠ []) (ha : alloc heap.calls = true) :
    _libssh2_wincng_bn_ltob alloc heap pbInput =
      ((0 : Int), some (List.replicate
          (if pbInput.getD (pbInput.length - 1) 0 &&& (1 <<< 7) ≠ 0 then 1 else 0) 0 ++
        pbInput.reverse), (⟨heap.calls + 1, heap.live + 1⟩ : Heap)) := by
  have hlen : ¬ pbInput.length < 1 := by
    have := List.length_pos.mpr hne
    omega
  simp only [_libssh2_wincng_bn_ltob, if_neg hlen, Heap.malloc, ha, if_true, set_zero_replicate]
  rw [bn_ltob_loop_eq pbInput _ pbInput.length 0 _ (by simp) (by omega) (by omega)]
  simp only [Nat.zero_add, List.drop_zero]
  rw [List.take_replicate, Nat.min_eq_left (by omega)]

theorem beValue_reverse (l : List Nat) : beValue l.reverse = leValue l := by
  induction l with
  | nil => rfl
  | cons x xs ih =>
    rw [List.reverse_cons, beValue_append, ih]
    simp only [leValue, List.length_singleton, pow_one]
    have : beValue [x] = x := by simp [beValue]
    rw [this]
    omega

theorem high_bit_clear (x : Nat) (hx : x < 256) (h : x &&& (1 <<< 7) = 0) : x < 128 := by
  have h7 : x.testBit 7 = false := by
    have hand := congrArg (fun y => Nat.testBit y 7) h
    simp only [Nat.testBit_and, Nat.zero_testBit] at hand
    have hbit : (1 <<< 7 : Nat).testBit 7 = true := by decide
    rw [hbit, Bool.and_true] at hand
    exact hand
  apply Nat.lt_pow_two_of_testBit x (n := 7)
  intro i hi
  by_cases h7i : i = 7
  · rw [h7i]; exact h7
  · apply Nat.testBit_lt_two_pow
    calc x < 2 ^ 8 := hx
      _ ≤ 2 ^ i := Nat.pow_le_pow_right (by decide) (by omega)

/-- C27. For every input of at least one byte, read least-significant byte
first, `_libssh2_wincng_bn_ltob` (its allocation succeeding) returns success
with bytes whose big-endian value is the little-endian value of the input,
whose number is the input length or one more, and whose first byte has bit 7
clear; for an input of no bytes it returns success, stores no output and
allocates nothing. -/
theorem bn_ltob_value_length_sign (alloc : Nat → Bool) (heap : Heap) :
    (∀ pbInput : List Nat, pbInput ≠ [] → IsBytes pbInput → alloc heap.calls = true →
      ∃ out heap', _libssh2_wincng_bn_ltob alloc heap pbInput = (0, some out, heap') ∧
        beValue out = leValue pbInput ∧
        (out.length = pbInput.length ∨ out.length = pbInput.length + 1) ∧
        out.getD 0 0 < 128) ∧
    _libssh2_wincng_bn_ltob alloc heap [] = (0, none, heap) := by
  constructor
  · intro pbInput hne hbytes ha
    refine ⟨_, _, bn_ltob_eq alloc heap pbInput hne ha, ?_, ?_, ?_⟩
    · rw [beValue_append, beValue_replicate_zero, Nat.zero_mul, Nat.zero_add, beValue_reverse]
    · split
      · right; simp
      · left; simp
    · have hpos := List.length_pos.mpr hne
      split
      · simp
      · rename_i hbit
        have hzero : pbInput.getD (pbInput.length - 1) 0 &&& (1 <<< 7) = 0 :=
          not_not.mp hbit
        have hlast := high_bit_clear _ (getD_lt_of_isBytes pbInput _ hbytes) hzero
        simp only [List.replicate_zero, List.nil_append]
        rw [List.getD_eq_getElem _ 0 (by simp; exact hpos), List.getElem_reverse]
        rw [List.getD_eq_getElem _ 0 (by omega)] at hlast
        simpa using hlast
  · rfl

theorem bn_ltob_value_length_sign_witness :
    ∃ out heap', _libssh2_wincng_bn_ltob (fun _ => true) ⟨0, 0⟩ [0x01, 0x80] =
        (0, some out, heap') ∧
      beValue out = leValue [0x01, 0x80] ∧
      (out.length = [0x01, 0x80].length ∨ out.length = [0x01, 0x80].length + 1) ∧
      out.getD 0 0 < 128 :=
  (bn_ltob_value_length_sign (fun _ => true) ⟨0, 0⟩).1 [0x01, 0x80] (by decide) (by decide) rfl

/-- C26 as stated fails: for the integer of the one byte `80`, whose most
significant bit is set, `_libssh2_wincng_asn_decode_bn` stores the two bytes
`00 80`: one byte more than the magnitude, starting with a `0x00` byte. -/
theorem decoded_integer_gets_sign_byte :
    (_libssh2_wincng_asn_decode_bn (listDecoder []) (fun _ => true) ⟨0, 0⟩ [0x80]).2.1 =
      some (some [0x00, 0x80]) := by
  decide

/-- C26 as amended: for every decoded integer of at least one byte (the
allocations succeeding), `_libssh2_wincng_asn_decode_bn` stores the magnitude
most significant byte first; it has exactly as many bytes as the magnitude and
no byte in front when bit 7 of the most significant byte is clear, and it is one
byte longer, a `0x00` byte in front of the magnitude, when that bit is set. -/
theorem decoded_integer_bytes (dec : CryptDecoder) (alloc : Nat → Bool) (heap : Heap)
    (blob d : List Nat)
    (hsize : (dec.size StructType.X509_MULTI_BYTE_UINT blob).isSome = true)
    (hdec : dec.decode StructType.X509_MULTI_BYTE_UINT blob = some d)
    (hne : d ≠ []) (ha : ∀ n, alloc n = true) :
    (d.getD (d.length - 1) 0 &&& (1 <<< 7) = 0 →
      (_libssh2_wincng_asn_decode_bn dec alloc heap blob).1 = 0 ∧
      (_libssh2_wincng_asn_decode_bn dec alloc heap blob).2.1 = some (some d.reverse)) ∧
    (d.getD (d.length - 1) 0 &&& (1 <<< 7) ≠ 0 →
      (_libssh2_wincng_asn_decode_bn dec alloc heap blob).1 = 0 ∧
      (_libssh2_wincng_asn_decode_bn dec alloc heap blob).2.1 =
        some (some (0 :: d.reverse))) := by
  obtain ⟨n, hn⟩ := Option.isSome_iff_exists.mp hsize
  have hres : _libssh2_wincng_asn_decode_bn dec alloc heap blob =
      ((0 : Int), some (some (List.replicate
          (if d.getD (d.length - 1) 0 &&& (1 <<< 7) ≠ 0 then 1 else 0) 0 ++ d.reverse)),
        (⟨heap.calls + 1 + 1, heap.live + 1 + 1 - 1⟩ : Heap)) := by
    simp only [_libssh2_wincng_asn_decode_bn, _libssh2_wincng_asn_decode, hn, Heap.malloc, ha,
      if_true, hdec]
    rw [bn_ltob_eq alloc _ d hne (ha _)]
    rfl
  rw [hres]
  constructor
  · intro hbit
    rw [if_neg (not_not.mpr hbit)]
    exact ⟨rfl, rfl⟩
  · intro hbit
    rw [if_pos hbit]
    exact ⟨rfl, rfl⟩

theorem decoded_integer_bytes_witness :
    (_libssh2_wincng_asn_decode_bn (listDecoder []) (fun _ => true) ⟨0, 0⟩ [0x01, 0x80]).1 = 0 ∧
    (_libssh2_wincng_asn_decode_bn (listDecoder []) (fun _ => true) ⟨0, 0⟩ [0x01, 0x80]).2.1 =
      some (some (0 :: [0x01, 0x80].reverse)) :=
  (decoded_integer_bytes (listDecoder []) (fun _ => true) ⟨0, 0⟩ [0x01, 0x80] [0x01, 0x80]
    rfl rfl (by decide) (fun _ => rfl)).2 (by decide)

/-! ## The callers of `memcpy_with_be_padding` -/

theorem be_padding_take (mem : List Nat) (dest dest_len : Nat) (src : List Nat) (n : Nat) :
    memcpy_with_be_padding mem dest dest_len src n =
      memcpy_with_be_padding mem dest dest_len (src.take n) n := by
  simp only [memcpy_with_be_padding, memcpy, List.take_take, Nat.min_self]

/-- The peer blob of `_libssh2_dh_secret` for saved parameters of the declared
length: the modulus, the generator and the peer's public value, each
right-aligned in `max(f->length, cbKeyLength)` bytes. -/
theorem dh_secret_blob_eq (dh_params : DhParams) (f : _libssh2_bn)
    (hlen : dh_params.blob.length =
      sizeof_BCRYPT_DH_PARAMETER_HEADER + 2 * dh_params.header.cbKeyLength) :
    _libssh2_dh_secret_blob dh_params f =
      some ⟨⟨BCRYPT_DH_PUBLIC_MAGIC, max f.length dh_params.header.cbKeyLength⟩,
        List.replicate sizeof_BCRYPT_DH_KEY_BLOB 0 ++
        fitWidth ((dh_params.blob.drop sizeof_BCRYPT_DH_PARAMETER_HEADER).take
            dh_params.header.cbKeyLength) (max f.length dh_params.header.cbKeyLength) ++
        fitWidth (((dh_params.blob.drop sizeof_BCRYPT_DH_PARAMETER_HEADER).drop
            dh_params.header.cbKeyLength).take dh_params.header.cbKeyLength)
          (max f.length dh_params.header.cbKeyLength) ++
        fitWidth f.bytes (max f.length dh_params.header.cbKeyLength)⟩ := by
  obtain ⟨cb, hcb⟩ : ∃ cb, cb = dh_params.header.cbKeyLength := ⟨_, rfl⟩
  obtain ⟨k, hk⟩ : ∃ k, k = max f.length cb := ⟨_, rfl⟩
  obtain ⟨S, hS⟩ : ∃ S, S = dh_params.blob.drop sizeof_BCRYPT_DH_PARAMETER_HEADER := ⟨_, rfl⟩
  have hSlen : S.length = 2 * cb := by
    rw [hS, List.length_drop, hlen, hcb]; omega
  have hcbk : cb ≤ k := by rw [hk]; exact le_max_right _ _
  have hfk : f.bytes.length ≤ k := by
    rw [hk, ← length_eq_bytes]; exact le_max_left _ _
  have hl1 : (S.take cb).length = cb := by rw [List.length_take, hSlen]; omega
  have hl2 : ((S.drop cb).take cb).length = cb := by
    rw [List.length_take, List.length_drop, hSlen]; omega
  have hmem : List.replicate (sizeof_BCRYPT_DH_KEY_BLOB + 3 * k) 0 =
      List.replicate sizeof_BCRYPT_DH_KEY_BLOB 0 ++ List.replicate k 0 ++
        (List.replicate k 0 ++ List.replicate k 0) := by
    simp only [← List.replicate_add]
    congr 1; omega
  have h1 := be_padding_fits (List.replicate sizeof_BCRYPT_DH_KEY_BLOB 0)
    (List.replicate k 0) (List.replicate k 0 ++ List.replicate k 0) (S.take cb)
    (by rw [hl1, List.length_replicate]; exact hcbk)
  simp only [List.length_replicate, hl1] at h1
  have h2 := be_padding_fits
    (List.replicate sizeof_BCRYPT_DH_KEY_BLOB 0 ++ fitWidth (S.take cb) k)
    (List.replicate k 0) (List.replicate k 0) ((S.drop cb).take cb)
    (by rw [hl2, List.length_replicate]; exact hcbk)
  simp only [List.length_replicate, hl2, List.length_append, length_fitWidth] at h2
  have h3 := be_padding_fits
    (List.replicate sizeof_BCRYPT_DH_KEY_BLOB 0 ++ fitWidth (S.take cb) k ++
      fitWidth ((S.drop cb).take cb) k)
    (List.replicate k 0) [] f.bytes
    (by rw [List.length_replicate]; exact hfk)
  simp only [List.length_replicate, List.length_append, length_fitWidth, List.append_nil,
    ← length_eq_bytes] at h3
  have hd3 : sizeof_BCRYPT_DH_KEY_BLOB + 2 * k = sizeof_BCRYPT_DH_KEY_BLOB + k + k := by omega
  simp only [_libssh2_dh_secret_blob, ← hcb, ← hS]
  simp only [← hk]
  rw [be_padding_take _ _ _ S cb, hmem, h1, Option.some_bind]
  rw [be_padding_take _ _ _ (S.drop cb) cb]
  rw [← List.append_assoc (List.replicate sizeof_BCRYPT_DH_KEY_BLOB 0 ++ fitWidth (S.take cb) k)
    (List.replicate k 0) (List.replicate k 0), h2, Option.some_bind, hd3, h3]
  rfl

/-! ## The public key of a private key file -/

theorem htonu32_eq_toBE (v : Nat) : _libssh2_htonu32 v = toBE v 4 := by
  simp only [_libssh2_htonu32, toBE, List.nil_append, List.cons_append, Nat.div_div_eq_div_mul]
  norm_num

theorem bufLen_eq (data : Option (List Nat)) : bufLen data = (data.getD []).length := rfl

/-- One `_libssh2_wincng_pub_priv_write` call into a field of `4 + length`
bytes: the field becomes the string encoding of the data. -/
theorem pub_priv_write_eq (pre post : List Nat) (data : Option (List Nat)) :
    _libssh2_wincng_pub_priv_write (pre ++ (List.replicate (4 + bufLen data) 0 ++ post))
        pre.length data (bufLen data) =
      some (pre ++ sshString (data.getD []) ++ post, pre.length + 4 + bufLen data) := by
  have hnull : ¬ (data.isNone = true ∧ 0 < bufLen data) := by
    intro h
    cases data with
    | none => exact absurd h.2 (by decide)
    | some d => exact Bool.noConfusion h.1
  have hsplit : List.replicate (4 + bufLen data) 0 =
      List.replicate 4 0 ++ List.replicate (bufLen data) 0 := by
    rw [← List.replicate_add]
  have hh : (_libssh2_htonu32 (bufLen data)).length = 4 := rfl
  simp only [_libssh2_wincng_pub_priv_write, if_neg hnull, hsplit, List.append_assoc]
  rw [memcpy_mid pre (List.replicate 4 0) _ (_libssh2_htonu32 (bufLen data)) pre.length 4 rfl
    (by simp) hh]
  rw [memcpy_mid (pre ++ _libssh2_htonu32 (bufLen data)) (List.replicate (bufLen data) 0) post
    (data.getD []) (pre.length + 4) (bufLen data) (by simp [hh]) (by simp) rfl]
  simp only [sshString, htonu32_eq_toBE, List.append_assoc, bufLen_eq]

theorem length_sshString (x : List Nat) : (sshString x).length = 4 + x.length := by
  simp [sshString, length_toBE]

/-- The key buffer after the writes of the RSA branch. -/
theorem pub_priv_rsa_key {α : Type} (F : List Nat → α) (e n : Option (List Nat)) :
    (_libssh2_wincng_pub_priv_write
        (List.replicate (4 + 7 + 4 + bufLen e + 4 + bufLen n) 0) 0 (some ssh_rsa) 7).bind
      (fun w1 => (_libssh2_wincng_pub_priv_write w1.1 w1.2 e (bufLen e)).bind
        (fun w2 => (_libssh2_wincng_pub_priv_write w2.1 w2.2 n (bufLen n)).map
          (fun w3 => F w3.1))) =
      some (F (sshString ssh_rsa ++ sshString (e.getD []) ++ sshString (n.getD []))) := by
  have hkey : List.replicate (4 + 7 + 4 + bufLen e + 4 + bufLen n) 0 =
      [] ++ (List.replicate (4 + bufLen (some ssh_rsa)) 0 ++
        (List.replicate (4 + bufLen e) 0 ++ (List.replicate (4 + bufLen n) 0 ++ []))) := by
    simp only [List.nil_append, List.append_nil, ← List.replicate_add]
    congr 1
    have : bufLen (some ssh_rsa) = 7 := rfl
    omega
  have h1 := pub_priv_write_eq []
    (List.replicate (4 + bufLen e) 0 ++ (List.replicate (4 + bufLen n) 0 ++ []))
    (some ssh_rsa)
  have h2 := pub_priv_write_eq ([] ++ sshString ssh_rsa)
    (List.replicate (4 + bufLen n) 0 ++ []) e
  have h3 := pub_priv_write_eq ([] ++ sshString ssh_rsa ++ sshString (e.getD [])) [] n
  have hl1 : ([] ++ sshString ssh_rsa).length = ([] : List Nat).length + 4 +
      bufLen (some ssh_rsa) := rfl
  have hl2 : ([] ++ sshString ssh_rsa ++ sshString (e.getD [])).length =
      ([] ++ sshString ssh_rsa).length + 4 + bufLen e := by
    rw [List.length_append, length_sshString, bufLen_eq]
    omega
  rw [hl1] at h2
  rw [hl2, hl1] at h3
  have h7 : bufLen (some ssh_rsa) = 7 := rfl
  have h0 : ([] : List Nat).length = 0 := rfl
  rw [h7, h0] at h1 h2 h3
  simp only [List.nil_append, List.append_nil, List.append_assoc, Option.getD_some,
    Nat.zero_add] at h1 h2 h3
  rw [hkey, h7]
  simp only [List.nil_append, List.append_nil, List.append_assoc, h1, Option.some_bind, h2, h3,
    Option.map_some']

/-- The key buffer after the writes of the DSA branch. -/
theorem pub_priv_dsa_key {α : Type} (F : List Nat → α) (p q g y : Option (List Nat)) :
    (_libssh2_wincng_pub_priv_write
        (List.replicate (4 + 7 + 4 + bufLen p + 4 + bufLen q + 4 + bufLen g + 4 + bufLen y) 0)
        0 (some ssh_dss) 7).bind
      (fun w1 => (_libssh2_wincng_pub_priv_write w1.1 w1.2 p (bufLen p)).bind
        (fun w2 => (_libssh2_wincng_pub_priv_write w2.1 w2.2 q (bufLen q)).bind
          (fun w3 => (_libssh2_wincng_pub_priv_write w3.1 w3.2 g (bufLen g)).bind
            (fun w4 => (_libssh2_wincng_pub_priv_write w4.1 w4.2 y (bufLen y)).map
              (fun w5 => F w5.1))))) =
      some (F (sshString ssh_dss ++ sshString (p.getD []) ++ sshString (q.getD []) ++
        sshString (g.getD []) ++ sshString (y.getD []))) := by
  have hkey : List.replicate
      (4 + 7 + 4 + bufLen p + 4 + bufLen q + 4 + bufLen g + 4 + bufLen y) 0 =
      [] ++ (List.replicate (4 + bufLen (some ssh_dss)) 0 ++
        (List.replicate (4 + bufLen p) 0 ++ (List.replicate (4 + bufLen q) 0 ++
          (List.replicate (4 + bufLen g) 0 ++ (List.replicate (4 + bufLen y) 0 ++ []))))) := by
    simp only [List.nil_append, List.append_nil, ← List.replicate_add]
    congr 1
    have : bufLen (some ssh_dss) = 7 := rfl
    omega
  have h1 := pub_priv_write_eq []
    (List.replicate (4 + bufLen p) 0 ++ (List.replicate (4 + bufLen q) 0 ++
      (List.replicate (4 + bufLen g) 0 ++ (List.replicate (4 + bufLen y) 0 ++ []))))
    (some ssh_dss)
  have h2 := pub_priv_write_eq ([] ++ sshString ssh_dss)
    (List.replicate (4 + bufLen q) 0 ++
      (List.replicate (4 + bufLen g) 0 ++ (List.replicate (4 + bufLen y) 0 ++ []))) p
  have h3 := pub_priv_write_eq ([] ++ sshString ssh_dss ++ sshString (p.getD []))
    (List.replicate (4 + bufLen g) 0 ++ (List.replicate (4 + bufLen y) 0 ++ [])) q
  have h4 := pub_priv_write_eq
    ([] ++ sshString ssh_dss ++ sshString (p.getD []) ++ sshString (q.getD []))
    (List.replicate (4 + bufLen y) 0 ++ []) g
  have h5 := pub_priv_write_eq
    ([] ++ sshString ssh_dss ++ sshString (p.getD []) ++ sshString (q.getD []) ++
      sshString (g.getD [])) [] y
  have hl1 : ([] ++ sshString ssh_dss).length = ([] : List Nat).length + 4 +
      bufLen (some ssh_dss) := rfl
  have hl2 : ([] ++ sshString ssh_dss ++ sshString (p.getD [])).length =
      ([] ++ sshString ssh_dss).length + 4 + bufLen p := by
    rw [List.length_append, length_sshString, bufLen_eq]
    omega
  have hl3 : ([] ++ sshString ssh_dss ++ sshString (p.getD []) ++
      sshString (q.getD [])).length =
      ([] ++ sshString ssh_dss ++ sshString (p.getD [])).length + 4 + bufLen q := by
    rw [List.length_append, length_sshString, bufLen_eq]
    omega
  have hl4 : ([] ++ sshString ssh_dss ++ sshString (p.getD []) ++
      sshString (q.getD []) ++ sshString (g.getD [])).length =
      ([] ++ sshString ssh_dss ++ sshString (p.getD []) ++
        sshString (q.getD [])).length + 4 + bufLen g := by
    rw [List.length_append, length_sshString, bufLen_eq]
    omega
  rw [hl1] at h2
  rw [hl2, hl1] at h3
  rw [hl3, hl2, hl1] at h4
  rw [hl4, hl3, hl2, hl1] at h5
  have h7 : bufLen (some ssh_dss) = 7 := rfl
  have h0 : ([] : List Nat).length = 0 := rfl
  rw [h7, h0] at h1 h2 h3 h4 h5
  simp only [List.nil_append, List.append_nil, List.append_assoc, Option.getD_some,
    Nat.zero_add] at h1 h2 h3 h4 h5
  rw [hkey, h7]
  simp only [List.nil_append, List.append_nil, List.append_assoc, h1, Option.some_bind, h2, h3,
    h4, h5, Option.map_some']

theorem length_ssh_rsa_blob (e n : List Nat) :
    (sshString ssh_rsa ++ sshString e ++ sshString n).length =
      4 + 7 + 4 + e.length + 4 + n.length := by
  simp only [List.length_append, length_sshString]
  have : ssh_rsa.length = 7 := rfl
  omega

theorem length_ssh_dss_blob (p q g y : List Nat) :
    (sshString ssh_dss ++ sshString p ++ sshString q ++ sshString g ++ sshString y).length =
      4 + 7 + 4 + p.length + 4 + q.length + 4 + g.length + 4 + y.length := by
  simp only [List.length_append, length_sshString]
  have : ssh_dss.length = 7 := rfl
  omega

/-- C30. After `_libssh2_wincng_asn_decode_bns` succeeded with the integers
`rpb` and when both output buffers are allocated,
`_libssh2_wincng_pub_priv_keyfile_parse` returns 0 with the method `ssh-rsa` when
there are exactly 9 integers and with the method `ssh-dss` when there are exactly
6; the method length is 7.  The key blob is the string of the method followed by
the strings of the integers 2 and 1 (RSA: `e`, `n`) or of the integers 1, 2, 3
and 4 (DSA: `p`, `q`, `g`, `y`), where the string of `x` is the length of `x` as
4 bytes, the most significant first, followed by `x`; the reported length is
the length of that blob, the sum of the lengths of the parts.  For every other
count, whatever the allocations do, it returns -1 and stores neither method nor
key. -/
theorem pub_priv_keyfile_parse_blob (dec : CryptDecoder) (alloc : Nat → Bool)
    (heap heap1 : Heap) (pbEncoded : List Nat) (rpb : List (Option (List Nat)))
    (hdec : _libssh2_wincng_asn_decode_bns dec alloc heap pbEncoded = (0, some rpb, heap1)) :
    (rpb.length = 9 →
      ∃ key h,
        _libssh2_wincng_pub_priv_keyfile_parse dec alloc true true heap pbEncoded =
          some (0, some key, h) ∧
        key.method = ssh_rsa ∧ key.method_len = 7 ∧
        key.pubkeydata = sshString ssh_rsa ++ sshString ((rpb.getD 2 none).getD []) ++
          sshString ((rpb.getD 1 none).getD []) ∧
        key.pubkeydata_len = key.pubkeydata.length ∧
        key.pubkeydata_len = (sshString ssh_rsa).length +
          (sshString ((rpb.getD 2 none).getD [])).length +
          (sshString ((rpb.getD 1 none).getD [])).length) ∧
    (rpb.length = 6 →
      ∃ key h,
        _libssh2_wincng_pub_priv_keyfile_parse dec alloc true true heap pbEncoded =
          some (0, some key, h) ∧
        key.method = ssh_dss ∧ key.method_len = 7 ∧
        key.pubkeydata = sshString ssh_dss ++ sshString ((rpb.getD 1 none).getD []) ++
          sshString ((rpb.getD 2 none).getD []) ++ sshString ((rpb.getD 3 none).getD []) ++
          sshString ((rpb.getD 4 none).getD []) ∧
        key.pubkeydata_len = key.pubkeydata.length ∧
        key.pubkeydata_len = (sshString ssh_dss).length +
          (sshString ((rpb.getD 1 none).getD [])).length +
          (sshString ((rpb.getD 2 none).getD [])).length +
          (sshString ((rpb.getD 3 none).getD [])).length +
          (sshString ((rpb.getD 4 none).getD [])).length) ∧
    (rpb.length ≠ 9 → rpb.length ≠ 6 →
      ∀ allocMth allocKey, ∃ h,
        _libssh2_wincng_pub_priv_keyfile_parse dec alloc allocMth allocKey heap pbEncoded =
          some (-1, none, h)) := by
  have hneg : ¬ ((-1 : Int) = 0) := by decide
  refine ⟨fun h9 => ?_, fun h6 => ?_, fun h9 h6 am ak => ?_⟩
  · simp only [_libssh2_wincng_pub_priv_keyfile_parse, hdec, h9, if_true]
    have hk := pub_priv_rsa_key
      (fun k => pub_priv_finish rpb 0 (some ssh_rsa) (some k) 7
        (4 + 7 + 4 + bufLen (rpb.getD 2 none) + 4 + bufLen (rpb.getD 1 none))
        (heap1.free (some pbEncoded))) (rpb.getD 2 none) (rpb.getD 1 none)
    beta_reduce at hk
    rw [hk]
    simp only [pub_priv_finish, ne_eq, not_true_eq_false, if_false]
    refine ⟨_, _, rfl, rfl, rfl, rfl, ?_, ?_⟩
    · simp only [Option.getD_some, length_ssh_rsa_blob, bufLen_eq]
    · simp only [length_sshString, bufLen_eq]
      have : ssh_rsa.length = 7 := rfl
      omega
  · have h69 : ¬ ((6 : Nat) = 9) := by decide
    simp only [_libssh2_wincng_pub_priv_keyfile_parse, hdec, h6, h69, if_true, if_false]
    have hk := pub_priv_dsa_key
      (fun k => pub_priv_finish rpb 0 (some ssh_dss) (some k) 7
        (4 + 7 + 4 + bufLen (rpb.getD 1 none) + 4 + bufLen (rpb.getD 2 none) + 4 +
          bufLen (rpb.getD 3 none) + 4 + bufLen (rpb.getD 4 none))
        (heap1.free (some pbEncoded))) (rpb.getD 1 none) (rpb.getD 2 none)
      (rpb.getD 3 none) (rpb.getD 4 none)
    beta_reduce at hk
    rw [hk]
    simp only [pub_priv_finish, ne_eq, not_true_eq_false, if_false]
    refine ⟨_, _, rfl, rfl, rfl, rfl, ?_, ?_⟩
    · simp only [Option.getD_some, length_ssh_dss_blob, bufLen_eq]
    · simp only [length_sshString, bufLen_eq]
      have : ssh_dss.length = 7 := rfl
      omega
  · simp only [_libssh2_wincng_pub_priv_keyfile_parse, hdec, h9, h6, if_false,
      pub_priv_finish, ne_eq, hneg, not_false_eq_true, if_true]
    exact ⟨_, rfl⟩

theorem pub_priv_keyfile_parse_blob_witness :
    ∃ key h,
      _libssh2_wincng_pub_priv_keyfile_parse
          (listDecoder [[0], [1, 2], [3], [4], [5], [6], [7], [8], [9]]) (fun _ => true)
          true true ⟨1, 1⟩ [48] = some (0, some key, h) ∧
      key.method = ssh_rsa ∧ key.method_len = 7 ∧
      key.pubkeydata = sshString ssh_rsa ++ sshString [3] ++ sshString [2, 1] ∧
      key.pubkeydata_len = key.pubkeydata.length ∧
      key.pubkeydata_len = (sshString ssh_rsa).length + (sshString [3]).length +
        (sshString [2, 1]).length :=
  (pub_priv_keyfile_parse_blob (listDecoder [[0], [1, 2], [3], [4], [5], [6], [7], [8], [9]])
    (fun _ => true) ⟨1, 1⟩ ⟨22, 12⟩ [48]
    [some [0], some [2, 1], some [3], some [4], some [5], some [6], some [7], some [8],
      some [9]] (by decide)).1 rfl
/-! ## One turn of the key-pair loop, with the calls it makes -/

/-- Case analysis of one turn of the loop of `_libssh2_dh_key_pair` with the
provider calls spelled out: either it returns -1 after the first `n` calls of
the turn (`1 ≤ n ≤ 5`), which needs a failed allocation or provider call (after
one call only: a failed key generation or a failed allocation of the parameter
blob), or it makes all five calls and reaches its second half with the blob that
the provider exported; the parameters it passed to the provider are
`dhParamsBlob g p group_order`. -/
theorem key_pair_body_exact (P : KeyPairStep → Prop) (prov : DhProvider) (clear : Bool)
    (a : KeyPairAllocs) (flag : Int) (log : List DhCall) (dhctx : _libssh2_dh_ctx)
    (public_ : Option _libssh2_bn) (g p : _libssh2_bn) (group_order : Int)
    (hfail : ∀ ctx pub n, 1 ≤ n → n ≤ 5 →
      ¬ (a.blobParams = true ∧ a.blobKey = true ∧ ∀ l c, 0 ≤ (prov l c).status) →
      (n = 1 →
        ¬ 0 ≤ (prov log (DhCall.GenerateKeyPair (dhKeyLength g p group_order * 8))).status ∨
        a.blobParams = false) →
      P (KeyPairStep.done (-1) ctx pub (keyPairTurnLog prov log g p group_order flag n)))
    (hstore :
      P (_libssh2_dh_key_pair_store clear a flag
        (keyPairTurnLog prov log g p group_order flag 5)
        (if flag = -1 then
          { dh_handle := some (keyPairHandle prov log g p group_order),
            dh_params := dhctx.dh_params, dh_privbn := dhctx.dh_privbn }
        else { dh_handle := some (keyPairHandle prov log g p group_order),
               dh_params := some (dhParamsBlob g p group_order),
               dh_privbn := dhctx.dh_privbn })
        public_ (keyPairHandle prov log g p group_order)
        (keyPairExportResp prov log g p group_order flag))) :
    P (_libssh2_dh_key_pair_body prov clear a flag log dhctx public_ g p group_order) := by
  have hblob := dh_params_blob g p
    (max (round_down group_order 8).toNat (max g.length p.length))
    (le_trans (le_max_right _ _) (le_max_right _ _))
    (le_trans (le_max_left _ _) (le_max_right _ _))
  have hprov : ∀ l c, (∀ l c, 0 ≤ (prov l c).status) → BCRYPT_SUCCESS (prov l c).status = true := by
    intro l c hok
    simp only [BCRYPT_SUCCESS, decide_eq_true_eq]
    exact hok l c
  unfold _libssh2_dh_key_pair_body
  lift_lets
  extract_lets klb c1 r1 log1 ctx1 plen hdr c3 kt c4
  split
  · rename_i hc
    exact hfail _ _ 1 (le_refl 1) (by decide) (fun hall => hc (hprov _ _ hall.2.2))
      (fun _ => Or.inl (fun h => hc (by
        simp only [BCRYPT_SUCCESS, decide_eq_true_eq]
        exact h)))
  split
  · rename_i hc
    exact hfail _ _ 1 (le_refl 1) (by decide) (fun hall => hc hall.1)
      (fun _ => Or.inr (by simpa using hc))
  have hblob' : (memcpy_with_be_padding (List.replicate plen 0)
      sizeof_BCRYPT_DH_PARAMETER_HEADER klb p.bytes p.length).bind
      (fun blob => memcpy_with_be_padding blob (sizeof_BCRYPT_DH_PARAMETER_HEADER + klb) klb
        g.bytes g.length) = some _ := hblob
  split
  · rename_i heq
    exfalso
    rw [hblob'] at heq
    exact Option.noConfusion heq
  rename_i blob heq
  rw [hblob'] at heq
  have hb := Option.some.inj heq
  subst hb
  lift_lets
  extract_lets prm c2 r2 log2 ctx2 r3 log3 r4 log4 c5 r5 log5
  split
  · rename_i hc
    exact hfail _ _ 2 (by decide) (by decide) (fun hall => hc (hprov _ _ hall.2.2))
      (fun h => absurd h (by decide))
  split
  · rename_i hc
    exact hfail _ _ 3 (by decide) (by decide) (fun hall => hc (hprov _ _ hall.2.2))
      (fun h => absurd h (by decide))
  split
  · rename_i hc
    exact hfail _ _ 4 (by decide) (by decide) (fun hall => hc (hprov _ _ hall.2.2))
      (fun h => absurd h (by decide))
  split
  · rename_i hc
    exact hfail _ _ 4 (by decide) (by decide) (fun hall => hc hall.2.1)
      (fun h => absurd h (by decide))
  split
  · rename_i hc
    exact hfail _ _ 5 (by decide) (le_refl 5) (fun hall => hc (hprov _ _ hall.2.2))
      (fun h => absurd h (by decide))
  exact hstore

theorem memcpy_zero_take (buf src : List Nat) (n : Nat) (h : buf.length = n) :
    memcpy buf 0 src n = src.take n := by
  simp [memcpy, ← h]

/-- What the second half of a turn stores when it ends `_libssh2_dh_key_pair`
with success: `public` is the third field of the exported blob; the private
number is the fourth field when the blob carries the private magic, and is left
as it was otherwise. -/
theorem key_pair_store_fields (clear : Bool) (a : KeyPairAllocs)
    (flag : Int) (log : List DhCall) (dhctx : _libssh2_dh_ctx)
    (public_ : Option _libssh2_bn) (hKey : Nat) (r5 : DhResp)
    (ctx : _libssh2_dh_ctx) (pub : Option _libssh2_bn) (log' : List DhCall)
    (hcb : 1 ≤ r5.cbKey)
    (h : _libssh2_dh_key_pair_store clear a flag log dhctx public_ hKey r5 =
      KeyPairStep.done 0 ctx pub log') :
    pub = some { bignum := some (dhPublicField r5) } ∧
    (r5.dwMagic = BCRYPT_DH_PRIVATE_MAGIC →
      ctx.dh_privbn = some { bignum := some (dhPrivateField r5) }) ∧
    (r5.dwMagic ≠ BCRYPT_DH_PRIVATE_MAGIC → ctx.dh_privbn = dhctx.dh_privbn) := by
  have hneg : ¬ ((-1 : Int) = 0) := by decide
  unfold _libssh2_dh_key_pair_store at h
  lift_lets at h
  extract_lets log1 ctx1 at h
  have hctx1 : ctx1.dh_privbn = dhctx.dh_privbn := by
    show (if flag = -1 then { dhctx with dh_handle := none } else dhctx).dh_privbn = _
    split <;> rfl
  split at h
  rotate_left
  · simp only [KeyPairStep.done.injEq] at h
    exact absurd h.1 hneg
  rename_i pub1 hres
  obtain ⟨buf, hb, hbl⟩ := resize_buffer _ _ _ _ _ hcb hres
  subst hb
  simp only [Option.map_some', memcpy_zero_take _ _ _ hbl] at h
  split at h
  rotate_left
  · rename_i hm
    simp only [KeyPairStep.done.injEq] at h
    obtain ⟨-, h2, h3, -⟩ := h
    subst h2 h3
    exact ⟨rfl, fun hm' => absurd hm' hm, fun _ => hctx1⟩
  rename_i hm
  split at h
  · simp only [KeyPairStep.done.injEq] at h
    exact absurd h.1 hneg
  split at h
  rotate_left
  · simp only [KeyPairStep.done.injEq] at h
    exact absurd h.1 hneg
  rename_i priv1 hres2
  obtain ⟨buf2, hb2, hbl2⟩ := resize_buffer _ _ _ _ _ hcb hres2
  subst hb2
  simp only [Option.map_some', memcpy_zero_take _ _ _ hbl2] at h
  split at h
  · exact KeyPairStep.noConfusion h
  simp only [KeyPairStep.done.injEq] at h
  obtain ⟨-, h2, h3, -⟩ := h
  subst h2 h3
  exact ⟨rfl, fun _ => rfl, fun hm' => absurd hm hm'⟩

theorem exportTypes_append (l₁ l₂ : List DhCall) :
    exportTypes (l₁ ++ l₂) = exportTypes l₁ ++ exportTypes l₂ := by
  induction l₁ with
  | nil => rfl
  | cons c cs ih =>
    cases c <;> simp only [List.cons_append, exportTypes, ih, List.append_eq]

theorem exportTypes_destroys (d : List DhCall) (h : OnlyDestroys d) : exportTypes d = [] := by
  induction d with
  | nil => rfl
  | cons c cs ih =>
    obtain ⟨hd, rfl⟩ := h c (List.mem_cons_self _ _)
    simp only [exportTypes]
    exact ih (fun c hc => h c (List.mem_cons_of_mem _ hc))

theorem onlyDestroys_nil : OnlyDestroys [] := fun _ hc => absurd hc (List.not_mem_nil _)

theorem onlyDestroys_single (h : Nat) : OnlyDestroys [DhCall.DestroyKey h] := by
  intro c hc
  exact ⟨h, List.mem_singleton.mp hc⟩

/-- The second half of a turn adds no provider call when the flag is not
Unsupported, except for the `BCryptDestroyKey` of `_libssh2_dh_dtor` before a
new turn. -/
theorem key_pair_store_calls (clear : Bool) (a : KeyPairAllocs)
    (flag : Int) (log : List DhCall) (dhctx : _libssh2_dh_ctx)
    (public_ : Option _libssh2_bn) (hKey : Nat) (r5 : DhResp) (hflag : flag ≠ -1) :
    ∃ d, (_libssh2_dh_key_pair_store clear a flag log dhctx public_ hKey r5).calls = log ++ d ∧
      OnlyDestroys d := by
  have hnil : ∃ d, log = log ++ d ∧ OnlyDestroys d := ⟨[], by simp, onlyDestroys_nil⟩
  unfold _libssh2_dh_key_pair_store
  simp only [hflag, if_false]
  split
  rotate_left
  · exact hnil
  split
  rotate_left
  · exact hnil
  split
  · exact hnil
  split
  rotate_left
  · exact hnil
  split
  · simp only [KeyPairStep.calls, _libssh2_dh_dtor]
    cases dhctx.dh_handle with
    | none => exact hnil
    | some h => exact ⟨_, rfl, onlyDestroys_single h⟩
  · exact hnil

theorem exportTypes_turn (prov : DhProvider) (log : List DhCall) (g p : _libssh2_bn)
    (group_order : Int) (flag : Int) (n : Nat) (hn : n ≤ 5) :
    exportTypes (keyPairTurnLog prov log g p group_order flag n) =
      exportTypes log ++ List.replicate (n - 3) (dhKeyType flag) := by
  have h : n = 0 ∨ n = 1 ∨ n = 2 ∨ n = 3 ∨ n = 4 ∨ n = 5 := by omega
  rcases h with h | h | h | h | h | h <;> subst h <;>
    simp [keyPairTurnLog, exportTypes_append, exportTypes, List.replicate]

/-- The provider calls of one turn of the loop of `_libssh2_dh_key_pair`: the
first `n` calls of the turn, `1 ≤ n ≤ 5`, and then at most the
`BCryptDestroyKey` before a new turn. -/
theorem key_pair_body_calls (prov : DhProvider) (clear : Bool) (a : KeyPairAllocs)
    (flag : Int) (log : List DhCall) (dhctx : _libssh2_dh_ctx)
    (public_ : Option _libssh2_bn) (g p : _libssh2_bn) (group_order : Int)
    (hflag : flag ≠ -1) :
    ∃ n d, 1 ≤ n ∧ n ≤ 5 ∧
      (_libssh2_dh_key_pair_body prov clear a flag log dhctx public_ g p group_order).calls =
        keyPairTurnLog prov log g p group_order flag n ++ d ∧
      OnlyDestroys d := by
  apply key_pair_body_exact
    (fun s => ∃ n d, 1 ≤ n ∧ n ≤ 5 ∧
      s.calls = keyPairTurnLog prov log g p group_order flag n ++ d ∧ OnlyDestroys d)
  · intro ctx pub n h1 h5 _ _
    exact ⟨n, [], h1, h5, by simp [KeyPairStep.calls], onlyDestroys_nil⟩
  · obtain ⟨d, hd, hdd⟩ := key_pair_store_calls clear a flag
      (keyPairTurnLog prov log g p group_order flag 5)
      (if flag = -1 then
          { dh_handle := some (keyPairHandle prov log g p group_order),
            dh_params := dhctx.dh_params, dh_privbn := dhctx.dh_privbn }
        else { dh_handle := some (keyPairHandle prov log g p group_order),
               dh_params := some (dhParamsBlob g p group_order),
               dh_privbn := dhctx.dh_privbn })
      public_ (keyPairHandle prov log g p group_order)
      (keyPairExportResp prov log g p group_order flag) hflag
    exact ⟨5, d, by decide, le_refl 5, hd, hdd⟩

/-- A turn of the loop that ends `_libssh2_dh_key_pair` with success made the five
provider calls of the turn; the context holds the key handle and the parameters
`dhParamsBlob g p group_order`, `public` is the third field of the exported
blob, and the private number is its fourth field when the blob carries the
private magic and is left as it was otherwise. -/
theorem key_pair_body_done_exact (prov : DhProvider) (clear : Bool) (a : KeyPairAllocs)
    (flag : Int) (log : List DhCall) (dhctx : _libssh2_dh_ctx)
    (public_ : Option _libssh2_bn) (g p : _libssh2_bn) (group_order : Int)
    (hflag : flag ≠ -1) :
    ∀ ctx pub log',
      _libssh2_dh_key_pair_body prov clear a flag log dhctx public_ g p group_order =
        KeyPairStep.done 0 ctx pub log' →
      log' = keyPairTurnLog prov log g p group_order flag 5 ∧
      ctx.dh_handle = some (keyPairHandle prov log g p group_order) ∧
      ctx.dh_params = some (dhParamsBlob g p group_order) ∧
      (1 ≤ (keyPairExportResp prov log g p group_order flag).cbKey →
        pub = some (⟨some (dhPublicField (keyPairExportResp prov log g p group_order flag))⟩ : _libssh2_bn) ∧
        ((keyPairExportResp prov log g p group_order flag).dwMagic = BCRYPT_DH_PRIVATE_MAGIC →
          ctx.dh_privbn = some (⟨some (dhPrivateField (keyPairExportResp prov log g p group_order flag))⟩ : _libssh2_bn)) ∧
        ((keyPairExportResp prov log g p group_order flag).dwMagic ≠ BCRYPT_DH_PRIVATE_MAGIC →
          ctx.dh_privbn = dhctx.dh_privbn)) := by
  apply key_pair_body_exact
    (fun s => ∀ ctx pub log', s = KeyPairStep.done 0 ctx pub log' →
      log' = keyPairTurnLog prov log g p group_order flag 5 ∧
      ctx.dh_handle = some (keyPairHandle prov log g p group_order) ∧
      ctx.dh_params = some (dhParamsBlob g p group_order) ∧
      (1 ≤ (keyPairExportResp prov log g p group_order flag).cbKey →
        pub = some (⟨some (dhPublicField (keyPairExportResp prov log g p group_order flag))⟩ : _libssh2_bn) ∧
        ((keyPairExportResp prov log g p group_order flag).dwMagic = BCRYPT_DH_PRIVATE_MAGIC →
          ctx.dh_privbn = some (⟨some (dhPrivateField (keyPairExportResp prov log g p group_order flag))⟩ : _libssh2_bn)) ∧
        ((keyPairExportResp prov log g p group_order flag).dwMagic ≠ BCRYPT_DH_PRIVATE_MAGIC →
          ctx.dh_privbn = dhctx.dh_privbn)))
  · intro _ _ _ _ _ _ _ ctx pub log' h
    simp only [KeyPairStep.done.injEq] at h
    exact absurd h.1 (by decide)
  · intro ctx pub log' h
    obtain ⟨h1, h2, h3, -, -⟩ := key_pair_store_done _ _ _ _ _ _ _ _ _ _ _ hflag h
    simp only [if_neg hflag] at h1 h2
    refine ⟨h3, h1, h2, fun hcb => ?_⟩
    have hf := key_pair_store_fields _ _ _ _ _ _ _ _ _ _ _ hcb h
    simp only [if_neg hflag] at hf
    exact hf

/-- Every export that the loop of `_libssh2_dh_key_pair` asks of the provider is
of the blob type `dhKeyType` of the flag; a successful run asks for at least
two (the size and the blob). -/
theorem key_pair_loop_export_types {κ : Type} (prov : DhProvider) (rsa : RsaProvider κ)
    (random : RandomFill) (clear : Bool) (allocs : Nat → KeyPairAllocs)
    (fb : FallbackAllocs) (G : _libssh2_wincng_ctx) (g p : _libssh2_bn)
    (group_order : Int) (hA : G.hAlgDH.isSome = true) (hflag : G.hasAlgDHwithKDF ≠ -1) :
    ∀ (fuel turn : Nat) (log : List DhCall) (dhctx : _libssh2_dh_ctx)
      (public_ : Option _libssh2_bn) (res : KeyPairResult),
      _libssh2_dh_key_pair prov rsa random clear allocs fb G g p group_order fuel turn log
        dhctx public_ = some res →
      ∃ m, exportTypes res.log =
          exportTypes log ++ List.replicate m (dhKeyType G.hasAlgDHwithKDF) ∧
        (res.status = 0 → 2 ≤ m) := by
  intro fuel
  induction fuel with
  | zero =>
    intro turn log dhctx public_ res h
    simp [_libssh2_dh_key_pair, hA, hflag] at h
  | succ fuel ih =>
    intro turn log dhctx public_ res h
    simp only [_libssh2_dh_key_pair, hA, hflag, ne_eq, not_false_eq_true, and_self,
      if_true] at h
    obtain ⟨n, d, h1, h5, hcalls, hd⟩ := key_pair_body_calls prov clear (allocs turn)
      G.hasAlgDHwithKDF log dhctx public_ g p group_order hflag
    have hdone := key_pair_body_done_exact prov clear (allocs turn)
      G.hasAlgDHwithKDF log dhctx public_ g p group_order hflag
    cases hb : _libssh2_dh_key_pair_body prov clear (allocs turn) G.hasAlgDHwithKDF log
        dhctx public_ g p group_order with
    | done status ctx pub l =>
      rw [hb] at h hcalls
      simp only [Option.some.injEq] at h
      subst h
      simp only [KeyPairStep.calls] at hcalls
      refine ⟨n - 3, ?_, ?_⟩
      · simp only [hcalls, exportTypes_append, exportTypes_turn _ _ _ _ _ _ _ h5,
          exportTypes_destroys d hd, List.append_nil]
      · intro hst
        simp only at hst
        subst hst
        have hl := (hdone _ _ _ hb).1
        have h2 := exportTypes_turn prov log g p group_order G.hasAlgDHwithKDF 5 (le_refl 5)
        have h3 := exportTypes_turn prov log g p group_order G.hasAlgDHwithKDF n h5
        have hlen : (exportTypes l).length = (exportTypes l).length := rfl
        nth_rewrite 1 [hl, h2] at hlen
        rw [hcalls, exportTypes_append, h3, exportTypes_destroys d hd] at hlen
        simp only [List.length_append, List.length_replicate, List.length_nil] at hlen
        omega
    | again ctx pub l =>
      rw [hb] at h hcalls
      simp only at h
      simp only [KeyPairStep.calls] at hcalls
      obtain ⟨m, hm, hm2⟩ := ih _ _ _ _ _ h
      refine ⟨(n - 3) + m, ?_, fun hst => ?_⟩
      · rw [hm, hcalls, exportTypes_append, exportTypes_turn _ _ _ _ _ _ _ h5,
          exportTypes_destroys d hd, List.append_nil, List.append_assoc,
          ← List.replicate_add]
      · have := hm2 hst
        omega

/-- A successful run of the loop of `_libssh2_dh_key_pair`: its last turn started
after some calls `l` and made the five calls of a turn; the context holds the
key handle of that turn and the parameters `dhParamsBlob g p group_order`,
`public` is the third field of the blob exported in that turn, and the private
number is the fourth field when the blob carries the private magic and
otherwise is the one the function started with or absent. -/
theorem key_pair_loop_done_exact {κ : Type} (prov : DhProvider) (rsa : RsaProvider κ)
    (random : RandomFill) (clear : Bool) (allocs : Nat → KeyPairAllocs)
    (fb : FallbackAllocs) (G : _libssh2_wincng_ctx) (g p : _libssh2_bn)
    (group_order : Int) (hA : G.hAlgDH.isSome = true) (hflag : G.hasAlgDHwithKDF ≠ -1) :
    ∀ (fuel turn : Nat) (log : List DhCall) (dhctx : _libssh2_dh_ctx)
      (public_ : Option _libssh2_bn) (res : KeyPairResult),
      _libssh2_dh_key_pair prov rsa random clear allocs fb G g p group_order fuel turn log
        dhctx public_ = some res →
      res.status = 0 →
      ∃ l,
        res.log = keyPairTurnLog prov l g p group_order G.hasAlgDHwithKDF 5 ∧
        res.dhctx.dh_handle = some (keyPairHandle prov l g p group_order) ∧
        res.dhctx.dh_params = some (dhParamsBlob g p group_order) ∧
        (1 ≤ (keyPairExportResp prov l g p group_order G.hasAlgDHwithKDF).cbKey →
          res.public_ = some (⟨some (dhPublicField
            (keyPairExportResp prov l g p group_order G.hasAlgDHwithKDF))⟩ : _libssh2_bn) ∧
          ((keyPairExportResp prov l g p group_order G.hasAlgDHwithKDF).dwMagic =
              BCRYPT_DH_PRIVATE_MAGIC →
            res.dhctx.dh_privbn = some (⟨some (dhPrivateField
              (keyPairExportResp prov l g p group_order G.hasAlgDHwithKDF))⟩ : _libssh2_bn)) ∧
          ((keyPairExportResp prov l g p group_order G.hasAlgDHwithKDF).dwMagic ≠
              BCRYPT_DH_PRIVATE_MAGIC →
            res.dhctx.dh_privbn = dhctx.dh_privbn ∨ res.dhctx.dh_privbn = none)) := by
  intro fuel
  induction fuel with
  | zero =>
    intro turn log dhctx public_ res h
    simp [_libssh2_dh_key_pair, hA, hflag] at h
  | succ fuel ih =>
    intro turn log dhctx public_ res h hst
    simp only [_libssh2_dh_key_pair, hA, hflag, ne_eq, not_false_eq_true, and_self,
      if_true] at h
    cases hb : _libssh2_dh_key_pair_body prov clear (allocs turn) G.hasAlgDHwithKDF log
        dhctx public_ g p group_order with
    | done status ctx pub l =>
      rw [hb] at h
      simp only [Option.some.injEq] at h
      subst h
      simp only at hst
      subst hst
      obtain ⟨h1, h2, h3, h4⟩ := key_pair_body_done_exact prov clear (allocs turn)
        G.hasAlgDHwithKDF log dhctx public_ g p group_order hflag _ _ _ hb
      refine ⟨log, h1, h2, h3, fun hcb => ?_⟩
      obtain ⟨h5, h6, h7⟩ := h4 hcb
      exact ⟨h5, h6, fun hm => Or.inl (h7 hm)⟩
    | again ctx pub l =>
      rw [hb] at h
      simp only at h
      have hctx := key_pair_body_again _ _ _ _ _ _ _ _ _ _ _ _ _ hb
      subst hctx
      obtain ⟨l', h1, h2, h3, h4⟩ := ih _ _ _ _ _ h hst
      refine ⟨l', h1, h2, h3, fun hcb => ?_⟩
      obtain ⟨h5, h6, h7⟩ := h4 hcb
      refine ⟨h5, h6, fun hm => Or.inr ?_⟩
      rcases h7 hm with h8 | h8
      · rw [h8]; rfl
      · exact h8

theorem keyPairTurnLog_two (prov : DhProvider) (log : List DhCall) (g p : _libssh2_bn)
    (group_order : Int) (flag : Int) (n : Nat) (h2 : 2 ≤ n) (h5 : n ≤ 5) :
    ∃ rest, keyPairTurnLog prov log g p group_order flag n =
      log ++ [DhCall.GenerateKeyPair (dhKeyLength g p group_order * 8)] ++
        [DhCall.SetProperty (keyPairHandle prov log g p group_order)
          (dhParamsBlob g p group_order)] ++ rest := by
  have h : n = 2 ∨ n = 3 ∨ n = 4 ∨ n = 5 := by omega
  rcases h with h | h | h | h <;> subst h
  · exact ⟨[], by simp [keyPairTurnLog]⟩
  · exact ⟨_, by simp only [keyPairTurnLog, List.append_assoc]; rfl⟩
  · exact ⟨_, by simp only [keyPairTurnLog, List.append_assoc]; rfl⟩
  · exact ⟨_, by simp only [keyPairTurnLog, List.append_assoc]; rfl⟩

/-- A turn of the loop of `_libssh2_dh_key_pair` in which the key generation
succeeds and the parameter blob is allocated passes the parameters
`dhParamsBlob g p group_order` to the provider: whatever happens later in the
turn, its calls start with the key generation and that `BCryptSetProperty`. -/
theorem key_pair_body_params (prov : DhProvider) (clear : Bool) (a : KeyPairAllocs)
    (flag : Int) (log : List DhCall) (dhctx : _libssh2_dh_ctx)
    (public_ : Option _libssh2_bn) (g p : _libssh2_bn) (group_order : Int)
    (hflag : flag ≠ -1) (ha : a.blobParams = true)
    (hgen : 0 ≤ (prov log (DhCall.GenerateKeyPair (dhKeyLength g p group_order * 8))).status) :
    ∃ rest,
      (_libssh2_dh_key_pair_body prov clear a flag log dhctx public_ g p group_order).calls =
        log ++ [DhCall.GenerateKeyPair (dhKeyLength g p group_order * 8)] ++
          [DhCall.SetProperty (keyPairHandle prov log g p group_order)
            (dhParamsBlob g p group_order)] ++ rest := by
  apply key_pair_body_exact
    (fun s => ∃ rest, s.calls =
      log ++ [DhCall.GenerateKeyPair (dhKeyLength g p group_order * 8)] ++
        [DhCall.SetProperty (keyPairHandle prov log g p group_order)
          (dhParamsBlob g p group_order)] ++ rest)
  · intro ctx pub n h1 h5 _ hone
    have h2 : 2 ≤ n := by
      by_contra hlt
      have hn : n = 1 := by omega
      rcases hone hn with h | h
      · exact h hgen
      · rw [ha] at h
        exact Bool.noConfusion h
    exact keyPairTurnLog_two prov log g p group_order flag n h2 h5
  · obtain ⟨d, hd, -⟩ := key_pair_store_calls clear a flag
      (keyPairTurnLog prov log g p group_order flag 5)
      (if flag = -1 then
          { dh_handle := some (keyPairHandle prov log g p group_order),
            dh_params := dhctx.dh_params, dh_privbn := dhctx.dh_privbn }
        else { dh_handle := some (keyPairHandle prov log g p group_order),
               dh_params := some (dhParamsBlob g p group_order),
               dh_privbn := dhctx.dh_privbn })
      public_ (keyPairHandle prov log g p group_order)
      (keyPairExportResp prov log g p group_order flag) hflag
    obtain ⟨rest, hrest⟩ := keyPairTurnLog_two prov log g p group_order flag 5 (by decide)
      (le_refl 5)
    exact ⟨rest ++ d, by rw [hd, hrest, List.append_assoc]⟩
/-! ## Claims on the native branch of `_libssh2_dh_key_pair` -/

theorem fitWidth_of_le (src : List Nat) (w : Nat) (h : src.length ≤ w) :
    fitWidth src w = List.replicate (w - src.length) 0 ++ src := by
  simp only [fitWidth]
  split
  · rfl
  · have h0 : src.length - w = 0 := by omega
    have h1 : w - src.length = 0 := by omega
    rw [h0, h1]
    rfl

theorem dhKeyLength_ge_p (g p : _libssh2_bn) (group_order : Int) :
    p.length ≤ dhKeyLength g p group_order :=
  le_trans (le_max_right _ _) (le_max_right _ _)

theorem dhKeyLength_ge_g (g p : _libssh2_bn) (group_order : Int) :
    g.length ≤ dhKeyLength g p group_order :=
  le_trans (le_max_left _ _) (le_max_right _ _)

/-- The two fields of `dhParamsBlob g p group_order`. -/
theorem dh_params_fields (g p : _libssh2_bn) (group_order : Int) :
    (dhParamsBlob g p group_order).blob.length =
      sizeof_BCRYPT_DH_PARAMETER_HEADER + 2 * dhKeyLength g p group_order ∧
    ((dhParamsBlob g p group_order).blob.drop sizeof_BCRYPT_DH_PARAMETER_HEADER).take
        (dhKeyLength g p group_order) =
      List.replicate (dhKeyLength g p group_order - p.length) 0 ++ p.bytes ∧
    ((dhParamsBlob g p group_order).blob.drop
        (sizeof_BCRYPT_DH_PARAMETER_HEADER + dhKeyLength g p group_order)).take
        (dhKeyLength g p group_order) =
      List.replicate (dhKeyLength g p group_order - g.length) 0 ++ g.bytes := by
  have hp := dhKeyLength_ge_p g p group_order
  have hg := dhKeyLength_ge_g g p group_order
  rw [length_eq_bytes] at hp hg
  have hfp := fitWidth_of_le p.bytes _ hp
  have hfg := fitWidth_of_le g.bytes _ hg
  have hlp := length_fitWidth p.bytes (dhKeyLength g p group_order)
  have hlg := length_fitWidth g.bytes (dhKeyLength g p group_order)
  rw [length_eq_bytes p, length_eq_bytes g, ← hfp, ← hfg]
  refine ⟨?_, ?_, ?_⟩
  · simp only [dhParamsBlob, List.length_append, List.length_replicate, hlp, hlg]
    omega
  · simp only [dhParamsBlob, List.append_assoc]
    rw [List.drop_left' (List.length_replicate _ _), List.take_left' hlp]
  · simp only [dhParamsBlob]
    rw [List.drop_left' (by
      simp only [List.length_append, List.length_replicate, hlp])]
    exact List.take_of_length_le (le_of_eq hlg)

theorem round_down_nonneg (n : Int) (h : 0 ≤ n) : 0 ≤ round_down n 8 := by
  unfold round_down
  exact Int.mul_nonneg (Int.tdiv_nonneg h (by decide)) (by decide)

theorem dhKeyLength_cast (g p : _libssh2_bn) (group_order : Int) (h : 0 ≤ group_order) :
    (dhKeyLength g p group_order : Int) =
      max (round_down group_order 8) (max (g.length : Int) (p.length : Int)) := by
  unfold dhKeyLength
  rw [Nat.cast_max, Nat.cast_max, Int.toNat_of_nonneg (round_down_nonneg _ h)]

/-- C24. When `_libssh2_dh_key_pair` succeeds on its native branch (for a group
order that is not negative), the parameters it passed to the provider with
`BCryptSetProperty` and keeps in the context are, for
`k = max(round_down(group_order, 8), max(g->length, p->length))`: a header that
declares the total length `sizeof(header) + 2 * k`, the magic
`BCRYPT_DH_PARAMETERS_MAGIC` and the key length `k`, followed by a field of `k`
bytes with `p` and a field of `k` bytes with `g`, each right-aligned after zero
bytes, so that each field read as a big-endian integer is the value of `p` and
of `g`. -/
theorem key_pair_params_layout {κ : Type} (prov : DhProvider) (rsa : RsaProvider κ)
    (random : RandomFill) (clear : Bool) (allocs : Nat → KeyPairAllocs)
    (fb : FallbackAllocs) (G : _libssh2_wincng_ctx) (g p : _libssh2_bn)
    (group_order : Int) (fuel turn : Nat) (log : List DhCall) (dhctx : _libssh2_dh_ctx)
    (public_ : Option _libssh2_bn) (res : KeyPairResult)
    (hA : G.hAlgDH.isSome = true) (hflag : G.hasAlgDHwithKDF ≠ -1) (hgo : 0 ≤ group_order)
    (hres : _libssh2_dh_key_pair prov rsa random clear allocs fb G g p group_order fuel turn
      log dhctx public_ = some res)
    (hst : res.status = 0) :
    ∃ (k : Nat) (prm : DhParams) (hd : Nat),
      (k : Int) = max (round_down group_order 8) (max (g.length : Int) (p.length : Int)) ∧
      res.dhctx.dh_params = some prm ∧
      DhCall.SetProperty hd prm ∈ res.log ∧
      prm.header.cbLength = sizeof_BCRYPT_DH_PARAMETER_HEADER + 2 * k ∧
      prm.header.dwMagic = BCRYPT_DH_PARAMETERS_MAGIC ∧
      prm.header.cbKeyLength = k ∧
      prm.blob.length = sizeof_BCRYPT_DH_PARAMETER_HEADER + 2 * k ∧
      (prm.blob.drop sizeof_BCRYPT_DH_PARAMETER_HEADER).take k =
        List.replicate (k - p.length) 0 ++ p.bytes ∧
      (prm.blob.drop (sizeof_BCRYPT_DH_PARAMETER_HEADER + k)).take k =
        List.replicate (k - g.length) 0 ++ g.bytes ∧
      beValue ((prm.blob.drop sizeof_BCRYPT_DH_PARAMETER_HEADER).take k) = p.value ∧
      beValue ((prm.blob.drop (sizeof_BCRYPT_DH_PARAMETER_HEADER + k)).take k) = g.value := by
  obtain ⟨l, hlog, -, hprm, -⟩ := key_pair_loop_done_exact prov rsa random clear allocs fb G g p
    group_order hA hflag fuel turn log dhctx public_ res hres hst
  obtain ⟨hlen, hfp, hfg⟩ := dh_params_fields g p group_order
  refine ⟨dhKeyLength g p group_order, dhParamsBlob g p group_order,
    keyPairHandle prov l g p group_order, dhKeyLength_cast g p group_order hgo, hprm, ?_,
    rfl, rfl, rfl, hlen, hfp, hfg, ?_, ?_⟩
  · rw [hlog]
    simp [keyPairTurnLog]
  · rw [hfp, beValue_append, beValue_replicate_zero]
    simp [_libssh2_bn.value]
  · rw [hfg, beValue_append, beValue_replicate_zero]
    simp [_libssh2_bn.value]

theorem key_pair_params_layout_witness :
    ∃ (k : Nat) (prm : DhParams) (hd : Nat),
      (k : Int) = max (round_down 1 8)
        (max ((⟨some [5]⟩ : _libssh2_bn).length : Int) ((⟨some [23]⟩ : _libssh2_bn).length : Int)) ∧
      retryResult.dhctx.dh_params = some prm ∧
      DhCall.SetProperty hd prm ∈ retryResult.log ∧
      prm.header.cbLength = sizeof_BCRYPT_DH_PARAMETER_HEADER + 2 * k ∧
      prm.header.dwMagic = BCRYPT_DH_PARAMETERS_MAGIC ∧
      prm.header.cbKeyLength = k ∧
      prm.blob.length = sizeof_BCRYPT_DH_PARAMETER_HEADER + 2 * k ∧
      (prm.blob.drop sizeof_BCRYPT_DH_PARAMETER_HEADER).take k =
        List.replicate (k - (⟨some [23]⟩ : _libssh2_bn).length) 0 ++
          (⟨some [23]⟩ : _libssh2_bn).bytes ∧
      (prm.blob.drop (sizeof_BCRYPT_DH_PARAMETER_HEADER + k)).take k =
        List.replicate (k - (⟨some [5]⟩ : _libssh2_bn).length) 0 ++
          (⟨some [5]⟩ : _libssh2_bn).bytes ∧
      beValue ((prm.blob.drop sizeof_BCRYPT_DH_PARAMETER_HEADER).take k) =
        (⟨some [23]⟩ : _libssh2_bn).value ∧
      beValue ((prm.blob.drop (sizeof_BCRYPT_DH_PARAMETER_HEADER + k)).take k) =
        (⟨some [5]⟩ : _libssh2_bn).value :=
  key_pair_params_layout (retryProvider 0) exactModExpProvider none true
    (fun _ => ⟨true, true, true, true, true⟩) ⟨true, true, true, true, true, true⟩
    ⟨some 1, 0⟩ ⟨some [5]⟩ ⟨some [23]⟩ 1 1 0 [] _libssh2_dh_init (some ⟨none⟩) retryResult
    rfl (by decide) (by decide) (by decide) rfl

/-- C25. When `_libssh2_dh_key_pair` succeeds on its native branch and the
provider's exported key blobs hold their fields (a header that declares a field
width `cbKey ≥ 1`, then at least three fields of that width, four when the magic
is the private one), then for the blob `r` exported in the last turn, with
`k = r.cbKey`: `public` is exactly the `k` bytes at offset
`sizeof(BCRYPT_DH_KEY_BLOB) + 2 * k`; when `r` carries
`BCRYPT_DH_PRIVATE_MAGIC` the private number of the context is exactly the `k`
bytes at offset `sizeof(BCRYPT_DH_KEY_BLOB) + 3 * k`; with any other magic no
private number is created: the context has the one it started with, or none. -/
theorem key_pair_blob_fields {κ : Type} (prov : DhProvider) (rsa : RsaProvider κ)
    (random : RandomFill) (clear : Bool) (allocs : Nat → KeyPairAllocs)
    (fb : FallbackAllocs) (G : _libssh2_wincng_ctx) (g p : _libssh2_bn)
    (group_order : Int) (fuel turn : Nat) (log : List DhCall) (dhctx : _libssh2_dh_ctx)
    (public_ : Option _libssh2_bn) (res : KeyPairResult)
    (hA : G.hAlgDH.isSome = true) (hflag : G.hasAlgDHwithKDF ≠ -1)
    (hblob : ∀ l h t n,
      1 ≤ (prov l (DhCall.ExportKey h t n)).cbKey ∧
      sizeof_BCRYPT_DH_KEY_BLOB + 3 * (prov l (DhCall.ExportKey h t n)).cbKey ≤
        (prov l (DhCall.ExportKey h t n)).bytes.length ∧
      ((prov l (DhCall.ExportKey h t n)).dwMagic = BCRYPT_DH_PRIVATE_MAGIC →
        sizeof_BCRYPT_DH_KEY_BLOB + 4 * (prov l (DhCall.ExportKey h t n)).cbKey ≤
          (prov l (DhCall.ExportKey h t n)).bytes.length))
    (hres : _libssh2_dh_key_pair prov rsa random clear allocs fb G g p group_order fuel turn
      log dhctx public_ = some res)
    (hst : res.status = 0) :
    ∃ (l : List DhCall) (hd n : Nat) (r : DhResp),
      r = prov l (DhCall.ExportKey hd
        (if G.hasAlgDHwithKDF = 1 then BlobType.BCRYPT_DH_PUBLIC_BLOB
          else BlobType.BCRYPT_DH_PRIVATE_BLOB) n) ∧
      res.log = l ++ [DhCall.ExportKey hd
        (if G.hasAlgDHwithKDF = 1 then BlobType.BCRYPT_DH_PUBLIC_BLOB
          else BlobType.BCRYPT_DH_PRIVATE_BLOB) n] ∧
      res.dhctx.dh_handle = some hd ∧
      res.public_ = some (⟨some
        ((r.bytes.drop (sizeof_BCRYPT_DH_KEY_BLOB + 2 * r.cbKey)).take r.cbKey)⟩ :
          _libssh2_bn) ∧
      ((r.bytes.drop (sizeof_BCRYPT_DH_KEY_BLOB + 2 * r.cbKey)).take r.cbKey).length =
        r.cbKey ∧
      (r.dwMagic = BCRYPT_DH_PRIVATE_MAGIC →
        res.dhctx.dh_privbn = some (⟨some
          ((r.bytes.drop (sizeof_BCRYPT_DH_KEY_BLOB + 3 * r.cbKey)).take r.cbKey)⟩ :
            _libssh2_bn) ∧
        ((r.bytes.drop (sizeof_BCRYPT_DH_KEY_BLOB + 3 * r.cbKey)).take r.cbKey).length =
          r.cbKey) ∧
      (r.dwMagic ≠ BCRYPT_DH_PRIVATE_MAGIC →
        res.dhctx.dh_privbn = dhctx.dh_privbn ∨ res.dhctx.dh_privbn = none) := by
  obtain ⟨l, hlog, hh, -, hf⟩ := key_pair_loop_done_exact prov rsa random clear allocs fb G g p
    group_order hA hflag fuel turn log dhctx public_ res hres hst
  obtain ⟨hcb, hlen, hlenp⟩ := hblob (keyPairTurnLog prov l g p group_order G.hasAlgDHwithKDF 4)
    (keyPairHandle prov l g p group_order) (dhKeyType G.hasAlgDHwithKDF)
    (prov (keyPairTurnLog prov l g p group_order G.hasAlgDHwithKDF 3)
      (DhCall.ExportKeySize (keyPairHandle prov l g p group_order)
        (dhKeyType G.hasAlgDHwithKDF))).size
  obtain ⟨hpub, hpriv, hnone⟩ := hf hcb
  refine ⟨keyPairTurnLog prov l g p group_order G.hasAlgDHwithKDF 4,
    keyPairHandle prov l g p group_order, _,
    keyPairExportResp prov l g p group_order G.hasAlgDHwithKDF, rfl, hlog, hh, hpub, ?_,
    fun hm => ⟨hpriv hm, ?_⟩, hnone⟩
  · rw [List.length_take, List.length_drop]
    exact Nat.min_eq_left (by
      have : sizeof_BCRYPT_DH_KEY_BLOB + 3 *
          (keyPairExportResp prov l g p group_order G.hasAlgDHwithKDF).cbKey ≤
          (keyPairExportResp prov l g p group_order G.hasAlgDHwithKDF).bytes.length := hlen
      omega)
  · rw [List.length_take, List.length_drop]
    exact Nat.min_eq_left (by
      have : sizeof_BCRYPT_DH_KEY_BLOB + 4 *
          (keyPairExportResp prov l g p group_order G.hasAlgDHwithKDF).cbKey ≤
          (keyPairExportResp prov l g p group_order G.hasAlgDHwithKDF).bytes.length :=
        hlenp hm
      omega)

theorem retry_provider_blobs (k : Nat) (l : List DhCall) (h : Nat) (t : BlobType) (n : Nat) :
    1 ≤ (retryProvider k l (DhCall.ExportKey h t n)).cbKey ∧
    sizeof_BCRYPT_DH_KEY_BLOB + 3 * (retryProvider k l (DhCall.ExportKey h t n)).cbKey ≤
      (retryProvider k l (DhCall.ExportKey h t n)).bytes.length ∧
    ((retryProvider k l (DhCall.ExportKey h t n)).dwMagic = BCRYPT_DH_PRIVATE_MAGIC →
      sizeof_BCRYPT_DH_KEY_BLOB + 4 * (retryProvider k l (DhCall.ExportKey h t n)).cbKey ≤
        (retryProvider k l (DhCall.ExportKey h t n)).bytes.length) := by
  by_cases ht : t = BlobType.BCRYPT_DH_PRIVATE_BLOB
  · simp [retryProvider, ht, sizeof_BCRYPT_DH_KEY_BLOB]
  · simp [retryProvider, ht, sizeof_BCRYPT_DH_KEY_BLOB, BCRYPT_DH_PUBLIC_MAGIC,
      BCRYPT_DH_PRIVATE_MAGIC]

theorem key_pair_blob_fields_witness :
    ∃ (l : List DhCall) (hd n : Nat) (r : DhResp),
      r = retryProvider 0 l (DhCall.ExportKey hd
        (if (0 : Int) = 1 then BlobType.BCRYPT_DH_PUBLIC_BLOB
          else BlobType.BCRYPT_DH_PRIVATE_BLOB) n) ∧
      retryResult.log = l ++ [DhCall.ExportKey hd
        (if (0 : Int) = 1 then BlobType.BCRYPT_DH_PUBLIC_BLOB
          else BlobType.BCRYPT_DH_PRIVATE_BLOB) n] ∧
      retryResult.dhctx.dh_handle = some hd ∧
      retryResult.public_ = some (⟨some
        ((r.bytes.drop (sizeof_BCRYPT_DH_KEY_BLOB + 2 * r.cbKey)).take r.cbKey)⟩ :
          _libssh2_bn) ∧
      ((r.bytes.drop (sizeof_BCRYPT_DH_KEY_BLOB + 2 * r.cbKey)).take r.cbKey).length =
        r.cbKey ∧
      (r.dwMagic = BCRYPT_DH_PRIVATE_MAGIC →
        retryResult.dhctx.dh_privbn = some (⟨some
          ((r.bytes.drop (sizeof_BCRYPT_DH_KEY_BLOB + 3 * r.cbKey)).take r.cbKey)⟩ :
            _libssh2_bn) ∧
        ((r.bytes.drop (sizeof_BCRYPT_DH_KEY_BLOB + 3 * r.cbKey)).take r.cbKey).length =
          r.cbKey) ∧
      (r.dwMagic ≠ BCRYPT_DH_PRIVATE_MAGIC →
        retryResult.dhctx.dh_privbn = _libssh2_dh_init.dh_privbn ∨
          retryResult.dhctx.dh_privbn = none) :=
  key_pair_blob_fields (retryProvider 0) exactModExpProvider none true
    (fun _ => ⟨true, true, true, true, true⟩) ⟨true, true, true, true, true, true⟩
    ⟨some 1, 0⟩ ⟨some [5]⟩ ⟨some [23]⟩ 1 1 0 [] _libssh2_dh_init (some ⟨none⟩) retryResult
    rfl (by decide) (retry_provider_blobs 0) (by decide) rfl

/-- C23 as stated fails: with the Diffie-Hellman algorithm present and the flag
Unknown (0), the native branch of `_libssh2_dh_key_pair` asks the provider for
the private blob, in the size query and in the export, and the private exponent
of that blob (3) is extracted into the context. -/
theorem key_pair_unknown_exports_private :
    (_libssh2_dh_key_pair (retryProvider 0) exactModExpProvider none true
      (fun _ => ⟨true, true, true, true, true⟩) ⟨true, true, true, true, true, true⟩
      ⟨some 1, 0⟩ ⟨some [5]⟩ ⟨some [23]⟩ 1 1 0 [] _libssh2_dh_init (some ⟨none⟩)).map
      (fun res => (res.status, exportTypes res.log, res.dhctx.dh_privbn)) =
      some (0, [BlobType.BCRYPT_DH_PRIVATE_BLOB, BlobType.BCRYPT_DH_PRIVATE_BLOB],
        some ⟨some [3]⟩) := by
  decide

/-- C23 as amended: on the native branch of `_libssh2_dh_key_pair`, started on a
freshly initialised context, every export asked of the provider is of the public
blob when the flag is Supported (1), and then a successful run leaves no private
exponent in the context (the provider answering with a blob that does not carry
the private magic); every export is of the private blob when the flag is Unknown
(0), and then a successful run has extracted the private exponent of the
exported blob into the context (the provider answering with a blob of the
private magic whose field width is at least 1).  A successful run has asked for
at least two exports, the size and the blob.  When the flag is Unsupported (-1)
the native branch is not taken: the function makes no provider call, so nothing
is exported. -/
theorem key_pair_export_by_flag {κ : Type} (prov : DhProvider) (rsa : RsaProvider κ)
    (random : RandomFill) (clear : Bool) (allocs : Nat → KeyPairAllocs)
    (fb : FallbackAllocs) (G : _libssh2_wincng_ctx) (g p : _libssh2_bn)
    (group_order : Int) (fuel turn : Nat) (log : List DhCall)
    (public_ : Option _libssh2_bn) (res : KeyPairResult)
    (hres : _libssh2_dh_key_pair prov rsa random clear allocs fb G g p group_order fuel turn
      log _libssh2_dh_init public_ = some res) :
    (G.hAlgDH.isSome = true → G.hasAlgDHwithKDF = 1 →
      (∃ m, exportTypes res.log =
          exportTypes log ++ List.replicate m BlobType.BCRYPT_DH_PUBLIC_BLOB ∧
        (res.status = 0 → 2 ≤ m)) ∧
      (res.status = 0 →
        (∀ l h n, (prov l (DhCall.ExportKey h BlobType.BCRYPT_DH_PUBLIC_BLOB n)).dwMagic ≠
          BCRYPT_DH_PRIVATE_MAGIC) →
        res.dhctx.dh_privbn = none)) ∧
    (G.hAlgDH.isSome = true → G.hasAlgDHwithKDF = 0 →
      (∃ m, exportTypes res.log =
          exportTypes log ++ List.replicate m BlobType.BCRYPT_DH_PRIVATE_BLOB ∧
        (res.status = 0 → 2 ≤ m)) ∧
      (res.status = 0 →
        (∀ l h n, (prov l (DhCall.ExportKey h BlobType.BCRYPT_DH_PRIVATE_BLOB n)).dwMagic =
            BCRYPT_DH_PRIVATE_MAGIC ∧
          1 ≤ (prov l (DhCall.ExportKey h BlobType.BCRYPT_DH_PRIVATE_BLOB n)).cbKey) →
        ∃ l h n, res.dhctx.dh_privbn = some (⟨some (dhPrivateField
          (prov l (DhCall.ExportKey h BlobType.BCRYPT_DH_PRIVATE_BLOB n)))⟩ :
            _libssh2_bn))) ∧
    (G.hasAlgDHwithKDF = -1 → res.log = log) := by
  refine ⟨fun hA h1 => ?_, fun hA h0 => ?_, fun hm => ?_⟩
  · have hflag : G.hasAlgDHwithKDF ≠ -1 := by rw [h1]; decide
    have ht := key_pair_loop_export_types prov rsa random clear allocs fb G g p group_order
      hA hflag fuel turn log _libssh2_dh_init public_ res hres
    have hk : dhKeyType G.hasAlgDHwithKDF = BlobType.BCRYPT_DH_PUBLIC_BLOB := by
      rw [h1]; rfl
    rw [hk] at ht
    refine ⟨ht, fun hst hhon => ?_⟩
    exact (key_pair_native_shape prov rsa random clear allocs fb G g p group_order hA hflag
      fuel turn log public_ res hres hst).2.2.1 h1 hhon
  · have hflag : G.hasAlgDHwithKDF ≠ -1 := by rw [h0]; decide
    have ht := key_pair_loop_export_types prov rsa random clear allocs fb G g p group_order
      hA hflag fuel turn log _libssh2_dh_init public_ res hres
    have hk : dhKeyType G.hasAlgDHwithKDF = BlobType.BCRYPT_DH_PRIVATE_BLOB := by
      rw [h0]; rfl
    rw [hk] at ht
    refine ⟨ht, fun hst hhon => ?_⟩
    obtain ⟨l, -, -, -, hf⟩ := key_pair_loop_done_exact prov rsa random clear allocs fb G g p
      group_order hA hflag fuel turn log _libssh2_dh_init public_ res hres hst
    have hr : keyPairExportResp prov l g p group_order G.hasAlgDHwithKDF =
        prov (keyPairTurnLog prov l g p group_order G.hasAlgDHwithKDF 4)
          (DhCall.ExportKey (keyPairHandle prov l g p group_order)
            BlobType.BCRYPT_DH_PRIVATE_BLOB
            (prov (keyPairTurnLog prov l g p group_order G.hasAlgDHwithKDF 3)
              (DhCall.ExportKeySize (keyPairHandle prov l g p group_order)
                (dhKeyType G.hasAlgDHwithKDF))).size) := by
      unfold keyPairExportResp
      rw [hk]
    rw [hr] at hf
    obtain ⟨hmagic, hcb⟩ := hhon (keyPairTurnLog prov l g p group_order G.hasAlgDHwithKDF 4)
      (keyPairHandle prov l g p group_order)
      (prov (keyPairTurnLog prov l g p group_order G.hasAlgDHwithKDF 3)
        (DhCall.ExportKeySize (keyPairHandle prov l g p group_order)
          (dhKeyType G.hasAlgDHwithKDF))).size
    exact ⟨_, _, _, (hf hcb).2.1 hmagic⟩
  · have hnot : ¬ (G.hAlgDH.isSome = true ∧ G.hasAlgDHwithKDF ≠ -1) := fun h => h.2 hm
    cases fuel <;> simp only [_libssh2_dh_key_pair, if_neg hnot, Option.some.injEq] at hres <;>
      rw [← hres]

theorem key_pair_export_by_flag_witness :
    (∃ m, exportTypes retryResult.log =
        exportTypes [] ++ List.replicate m BlobType.BCRYPT_DH_PRIVATE_BLOB ∧
      (retryResult.status = 0 → 2 ≤ m)) ∧
    (retryResult.status = 0 →
      (∀ l h n,
        (retryProvider 0 l (DhCall.ExportKey h BlobType.BCRYPT_DH_PRIVATE_BLOB n)).dwMagic =
          BCRYPT_DH_PRIVATE_MAGIC ∧
        1 ≤ (retryProvider 0 l (DhCall.ExportKey h BlobType.BCRYPT_DH_PRIVATE_BLOB n)).cbKey) →
      ∃ l h n, retryResult.dhctx.dh_privbn = some (⟨some (dhPrivateField
        (retryProvider 0 l (DhCall.ExportKey h BlobType.BCRYPT_DH_PRIVATE_BLOB n)))⟩ :
          _libssh2_bn)) :=
  (key_pair_export_by_flag (retryProvider 0) exactModExpProvider none true
    (fun _ => ⟨true, true, true, true, true⟩) ⟨true, true, true, true, true, true⟩
    ⟨some 1, 0⟩ ⟨some [5]⟩ ⟨some [23]⟩ 1 1 0 [] (some ⟨none⟩) retryResult rfl).2.1
    (by decide) rfl

/-! ## The secret after a key pair of the native branch -/

theorem mod_exp_null_exponent {κ : Type} (rsa : RsaProvider κ)
    (clear allocKey allocR allocBuf allocEnd : Bool) (r a m : Option _libssh2_bn) :
    _libssh2_wincng_bignum_mod_exp rsa clear allocKey allocR allocBuf allocEnd r a none m =
      (-1, r) := by
  unfold _libssh2_wincng_bignum_mod_exp
  cases r <;> cases a <;> cases m <;> rfl

theorem not_supported_neg : ¬ (0 ≤ STATUS_NOT_SUPPORTED) := by decide

/-- A call of `_libssh2_dh_secret` that enters the fast path and whose probe of
the raw derivation answers `STATUS_NOT_SUPPORTED`, at the length query or at the
derivation after a successful length query and resize: the flag becomes
Unsupported and the status and `secret` are those of
`_libssh2_wincng_bignum_mod_exp` run on the secret as it is at that point, with
the private number of the context as the exponent. -/
theorem dh_secret_probe_fallback {κ : Type} (prov : DhProvider) (rsa : RsaProvider κ)
    (clear : Bool) (a : SecretAllocs) (G : _libssh2_wincng_ctx) (log : List DhCall)
    (dhctx : _libssh2_dh_ctx) (secret p : Option _libssh2_bn) (ff : _libssh2_bn)
    (hAlg dh_handle : Nat) (dh_params : DhParams) (blob : DhKeyBlob)
    (hA : G.hAlgDH = some hAlg) (hflag : G.hasAlgDHwithKDF ≠ -1)
    (hh : dhctx.dh_handle = some dh_handle) (hp : dhctx.dh_params = some dh_params)
    (halloc : a.blob = true) (hb : _libssh2_dh_secret_blob dh_params ff = some blob)
    (himp : 0 ≤ (importResp prov log blob).status)
    (hagr : 0 ≤ (agreementResp prov log dh_handle blob).status) :
    ((deriveSizeResp prov log dh_handle blob).status = STATUS_NOT_SUPPORTED →
      _libssh2_dh_secret prov rsa clear a G log dhctx secret (some ff) p =
        some ⟨(_libssh2_wincng_bignum_mod_exp rsa clear a.key a.r a.buf a.fin secret
            (some ff) dhctx.dh_privbn p).1,
          (_libssh2_wincng_bignum_mod_exp rsa clear a.key a.r a.buf a.fin secret
            (some ff) dhctx.dh_privbn p).2,
          { G with hasAlgDHwithKDF := -1 }, fastPathLog prov log dh_handle blob 3⟩) ∧
    (0 ≤ (deriveSizeResp prov log dh_handle blob).status →
      ∀ sec, _libssh2_wincng_bignum_resize clear a.secret secret
          (deriveSizeResp prov log dh_handle blob).size = (0, some sec) →
        (deriveResp prov log dh_handle blob).status = STATUS_NOT_SUPPORTED →
        _libssh2_dh_secret prov rsa clear a G log dhctx secret (some ff) p =
          some ⟨(_libssh2_wincng_bignum_mod_exp rsa clear a.key a.r a.buf a.fin
              (some (derive_into sec (deriveResp prov log dh_handle blob).bytes))
              (some ff) dhctx.dh_privbn p).1,
            (_libssh2_wincng_bignum_mod_exp rsa clear a.key a.r a.buf a.fin
              (some (derive_into sec (deriveResp prov log dh_handle blob).bytes))
              (some ff) dhctx.dh_privbn p).2,
            { G with hasAlgDHwithKDF := -1 }, fastPathLog prov log dh_handle blob 4⟩) := by
  rw [dh_secret_fast prov rsa clear a G log dhctx secret p ff hAlg dh_handle dh_params blob
    hA hflag hh hp halloc hb]
  rw [if_neg (not_not.mpr himp), if_neg (not_not.mpr hagr)]
  constructor
  · intro h1
    rw [if_pos (by rw [h1]; exact not_supported_neg), if_pos h1]
  · intro h1 sec hsec h3
    rw [if_neg (not_not.mpr h1), hsec]
    simp only []
    rw [if_pos (by rw [h3]; exact not_supported_neg), if_pos h3]

/-- C29. Let `_libssh2_dh_key_pair` have succeeded on its native branch, on a
freshly initialised context, and let a later `_libssh2_dh_secret` on that context
enter its fast path (peer blob allocated, import and secret agreement succeed)
and meet a probe of the raw derivation that answers `STATUS_NOT_SUPPORTED`: the
length query, or the derivation itself after a successful length query and
resize.  If the key pair was made while the flag was Unknown (0), the provider
exporting a private blob as asked, the context holds a private exponent and
`_libssh2_dh_secret` returns exactly the status and the secret of
`_libssh2_wincng_bignum_mod_exp` run on the caller's secret (as the probe left
it) with the peer value, that exponent and `p`.  If it was made while the flag
was Supported (1), the provider exporting a public blob as asked, the context
holds no private exponent and `_libssh2_dh_secret` returns -1, the secret left as
the probe left it.  In both cases the flag becomes Unsupported (-1). -/
theorem secret_probe_after_key_pair {κ : Type} (prov : DhProvider) (rsa : RsaProvider κ)
    (random : RandomFill) (clear : Bool) (allocs : Nat → KeyPairAllocs)
    (fb : FallbackAllocs) (G : _libssh2_wincng_ctx) (g p : _libssh2_bn)
    (group_order : Int) (fuel turn : Nat) (log : List DhCall)
    (public_ : Option _libssh2_bn) (res : KeyPairResult)
    (prov2 : DhProvider) (a : SecretAllocs) (G2 : _libssh2_wincng_ctx) (log2 : List DhCall)
    (secret p2 : Option _libssh2_bn) (ff : _libssh2_bn) (hAlg hd : Nat) (blob : DhKeyBlob)
    (hA : G.hAlgDH.isSome = true) (hflag : G.hasAlgDHwithKDF ≠ -1)
    (hres : _libssh2_dh_key_pair prov rsa random clear allocs fb G g p group_order fuel turn
      log _libssh2_dh_init public_ = some res)
    (hst : res.status = 0)
    (hA2 : G2.hAlgDH = some hAlg) (hflag2 : G2.hasAlgDHwithKDF ≠ -1)
    (hh : res.dhctx.dh_handle = some hd) (halloc : a.blob = true)
    (hb : _libssh2_dh_secret_blob (dhParamsBlob g p group_order) ff = some blob)
    (himp : 0 ≤ (importResp prov2 log2 blob).status)
    (hagr : 0 ≤ (agreementResp prov2 log2 hd blob).status) :
    (G.hasAlgDHwithKDF = 0 →
      (∀ l h n, (prov l (DhCall.ExportKey h BlobType.BCRYPT_DH_PRIVATE_BLOB n)).dwMagic =
        BCRYPT_DH_PRIVATE_MAGIC) →
      ∃ priv,
        res.dhctx.dh_privbn = some priv ∧
        ((deriveSizeResp prov2 log2 hd blob).status = STATUS_NOT_SUPPORTED →
          _libssh2_dh_secret prov2 rsa clear a G2 log2 res.dhctx secret (some ff) p2 =
            some ⟨(_libssh2_wincng_bignum_mod_exp rsa clear a.key a.r a.buf a.fin secret
                (some ff) (some priv) p2).1,
              (_libssh2_wincng_bignum_mod_exp rsa clear a.key a.r a.buf a.fin secret
                (some ff) (some priv) p2).2,
              { G2 with hasAlgDHwithKDF := -1 }, fastPathLog prov2 log2 hd blob 3⟩) ∧
        (0 ≤ (deriveSizeResp prov2 log2 hd blob).status →
          ∀ sec, _libssh2_wincng_bignum_resize clear a.secret secret
              (deriveSizeResp prov2 log2 hd blob).size = (0, some sec) →
            (deriveResp prov2 log2 hd blob).status = STATUS_NOT_SUPPORTED →
            _libssh2_dh_secret prov2 rsa clear a G2 log2 res.dhctx secret (some ff) p2 =
              some ⟨(_libssh2_wincng_bignum_mod_exp rsa clear a.key a.r a.buf a.fin
                  (some (derive_into sec (deriveResp prov2 log2 hd blob).bytes))
                  (some ff) (some priv) p2).1,
                (_libssh2_wincng_bignum_mod_exp rsa clear a.key a.r a.buf a.fin
                  (some (derive_into sec (deriveResp prov2 log2 hd blob).bytes))
                  (some ff) (some priv) p2).2,
                { G2 with hasAlgDHwithKDF := -1 }, fastPathLog prov2 log2 hd blob 4⟩)) ∧
    (G.hasAlgDHwithKDF = 1 →
      (∀ l h n, (prov l (DhCall.ExportKey h BlobType.BCRYPT_DH_PUBLIC_BLOB n)).dwMagic ≠
        BCRYPT_DH_PRIVATE_MAGIC) →
      res.dhctx.dh_privbn = none ∧
      ((deriveSizeResp prov2 log2 hd blob).status = STATUS_NOT_SUPPORTED →
        _libssh2_dh_secret prov2 rsa clear a G2 log2 res.dhctx secret (some ff) p2 =
          some ⟨-1, secret, { G2 with hasAlgDHwithKDF := -1 },
            fastPathLog prov2 log2 hd blob 3⟩) ∧
      (0 ≤ (deriveSizeResp prov2 log2 hd blob).status →
        ∀ sec, _libssh2_wincng_bignum_resize clear a.secret secret
            (deriveSizeResp prov2 log2 hd blob).size = (0, some sec) →
          (deriveResp prov2 log2 hd blob).status = STATUS_NOT_SUPPORTED →
          _libssh2_dh_secret prov2 rsa clear a G2 log2 res.dhctx secret (some ff) p2 =
            some ⟨-1, some (derive_into sec (deriveResp prov2 log2 hd blob).bytes),
              { G2 with hasAlgDHwithKDF := -1 }, fastPathLog prov2 log2 hd blob 4⟩)) := by
  obtain ⟨l, -, -, hprm, -⟩ := key_pair_loop_done_exact prov rsa random clear allocs fb G g p
    group_order hA hflag fuel turn log _libssh2_dh_init public_ res hres hst
  obtain ⟨hs1, hs2⟩ := dh_secret_probe_fallback prov2 rsa clear a G2 log2 res.dhctx
    secret p2 ff hAlg hd (dhParamsBlob g p group_order) blob hA2 hflag2 hh hprm halloc hb
    himp hagr
  have hshape := key_pair_native_shape prov rsa random clear allocs fb G g p group_order hA
    hflag fuel turn log public_ res hres hst
  refine ⟨fun h0 hhon => ?_, fun h1 hhon => ?_⟩
  · have hne : G.hasAlgDHwithKDF ≠ 1 := by rw [h0]; decide
    have hsome := hshape.2.2.2 hne hhon
    obtain ⟨priv, hpriv⟩ := Option.isSome_iff_exists.mp hsome
    rw [hpriv] at hs1 hs2
    exact ⟨priv, hpriv, hs1, hs2⟩
  · have hnone := hshape.2.2.1 h1 hhon
    simp only [hnone, mod_exp_null_exponent] at hs1 hs2
    exact ⟨hnone, hs1, hs2⟩

theorem secret_probe_after_key_pair_witness :
    ∃ priv,
      retryResult.dhctx.dh_privbn = some priv ∧
      ((deriveSizeResp noRawKdfProvider [] 1
          ⟨⟨BCRYPT_DH_PUBLIC_MAGIC, 1⟩, List.replicate 8 0 ++ [23, 5, 8]⟩).status =
          STATUS_NOT_SUPPORTED →
        _libssh2_dh_secret noRawKdfProvider exactModExpProvider true
          ⟨true, true, true, true, true, true⟩ ⟨some 1, 0⟩ [] retryResult.dhctx
          (some ⟨none⟩) (some ⟨some [8]⟩) (some ⟨some [23]⟩) =
          some ⟨(_libssh2_wincng_bignum_mod_exp exactModExpProvider true true true true true
              (some ⟨none⟩) (some ⟨some [8]⟩) (some priv) (some ⟨some [23]⟩)).1,
            (_libssh2_wincng_bignum_mod_exp exactModExpProvider true true true true true
              (some ⟨none⟩) (some ⟨some [8]⟩) (some priv) (some ⟨some [23]⟩)).2,
            ⟨some 1, -1⟩,
            fastPathLog noRawKdfProvider [] 1
              ⟨⟨BCRYPT_DH_PUBLIC_MAGIC, 1⟩, List.replicate 8 0 ++ [23, 5, 8]⟩ 3⟩) ∧
      (0 ≤ (deriveSizeResp noRawKdfProvider [] 1
          ⟨⟨BCRYPT_DH_PUBLIC_MAGIC, 1⟩, List.replicate 8 0 ++ [23, 5, 8]⟩).status →
        ∀ sec, _libssh2_wincng_bignum_resize true true (some ⟨none⟩)
            (deriveSizeResp noRawKdfProvider [] 1
              ⟨⟨BCRYPT_DH_PUBLIC_MAGIC, 1⟩, List.replicate 8 0 ++ [23, 5, 8]⟩).size =
            (0, some sec) →
          (deriveResp noRawKdfProvider [] 1
            ⟨⟨BCRYPT_DH_PUBLIC_MAGIC, 1⟩, List.replicate 8 0 ++ [23, 5, 8]⟩).status =
            STATUS_NOT_SUPPORTED →
          _libssh2_dh_secret noRawKdfProvider exactModExpProvider true
            ⟨true, true, true, true, true, true⟩ ⟨some 1, 0⟩ [] retryResult.dhctx
            (some ⟨none⟩) (some ⟨some [8]⟩) (some ⟨some [23]⟩) =
            some ⟨(_libssh2_wincng_bignum_mod_exp exactModExpProvider true true true true true
                (some (derive_into sec (deriveResp noRawKdfProvider [] 1
                  ⟨⟨BCRYPT_DH_PUBLIC_MAGIC, 1⟩, List.replicate 8 0 ++ [23, 5, 8]⟩).bytes))
                (some ⟨some [8]⟩) (some priv) (some ⟨some [23]⟩)).1,
              (_libssh2_wincng_bignum_mod_exp exactModExpProvider true true true true true
                (some (derive_into sec (deriveResp noRawKdfProvider [] 1
                  ⟨⟨BCRYPT_DH_PUBLIC_MAGIC, 1⟩, List.replicate 8 0 ++ [23, 5, 8]⟩).bytes))
                (some ⟨some [8]⟩) (some priv) (some ⟨some [23]⟩)).2,
              ⟨some 1, -1⟩,
              fastPathLog noRawKdfProvider [] 1
                ⟨⟨BCRYPT_DH_PUBLIC_MAGIC, 1⟩, List.replicate 8 0 ++ [23, 5, 8]⟩ 4⟩) :=
  (secret_probe_after_key_pair (retryProvider 0) exactModExpProvider none true
    (fun _ => ⟨true, true, true, true, true⟩) ⟨true, true, true, true, true, true⟩
    ⟨some 1, 0⟩ ⟨some [5]⟩ ⟨some [23]⟩ 1 1 0 [] (some ⟨none⟩) retryResult
    noRawKdfProvider ⟨true, true, true, true, true, true⟩ ⟨some 1, 0⟩ [] (some ⟨none⟩)
    (some ⟨some [23]⟩) ⟨some [8]⟩ 1 1
    ⟨⟨BCRYPT_DH_PUBLIC_MAGIC, 1⟩, List.replicate 8 0 ++ [23, 5, 8]⟩
    rfl (by decide) rfl rfl rfl (by decide) rfl rfl (by decide) (by decide)
    (by decide)).1 rfl (fun _ _ _ => rfl)
/-! ## The callers of `memcpy_with_be_padding`, as the functions use them -/

/-- The result of `_libssh2_wincng_bignum_mod_exp` once the key is imported, the
length query answered and `r` resized: the second encrypt call receives the
base right-aligned in `max(a->length, length)` bytes. -/
theorem mod_exp_padded_base {κ : Type} (prov : RsaProvider κ) (clear allocR allocEnd : Bool)
    (r a p m : _libssh2_bn) (hKey : κ) (length : Nat) (r1 : _libssh2_bn)
    (h1 : prov.importKeyPair (modExpKeyBlob p m) = some hKey)
    (h2 : prov.encryptSize hKey a.bytes = some length)
    (h3 : _libssh2_wincng_bignum_resize clear allocR (some r) length = (0, some r1)) :
    _libssh2_wincng_bignum_mod_exp prov clear true allocR true allocEnd
        (some r) (some a) (some p) (some m) =
      match prov.encrypt hKey (fitWidth a.bytes (max a.length length)) r1.length with
      | none => (-1, some r1)
      | some out =>
        (0, (_libssh2_wincng_bignum_resize clear allocEnd
          (some ⟨r1.bignum.map fun buf => memcpy buf 0 out out.length⟩) out.length).2) := by
  simp only [modExpKeyBlob] at h1
  simp only [_libssh2_wincng_bignum_mod_exp, h1, h2, h3, mod_exp_input, not_true_eq_false,
    if_false]

/-- C28. Every call of `memcpy_with_be_padding` in the file has a destination at
least as long as its source, so the copy stays inside the destination field and
the field read as a big-endian integer has the value of the source.
In a turn of the loop of `_libssh2_dh_key_pair` (group order not negative, key
generation and allocation succeeding) the parameters passed to
`BCryptSetProperty` declare the width
`k = max(round_down(group_order, 8), max(g->length, p->length))`, which is at least
the lengths of `p` and `g`, and hold `p` and `g` right-aligned in `k` bytes each.
In `_libssh2_dh_secret` (for saved parameters of the length their header
declares) the peer blob has three fields of `max(f->length, cbKeyLength)` bytes
with the two saved fields and `f` right-aligned.  In
`_libssh2_wincng_bignum_mod_exp` the second encrypt call receives the base
right-aligned in `max(a->length, length)` bytes. -/
theorem be_padding_callers_fit :
    (∀ (prov : DhProvider) (clear : Bool) (a : KeyPairAllocs) (flag : Int)
        (log : List DhCall) (dhctx : _libssh2_dh_ctx) (public_ : Option _libssh2_bn)
        (g p : _libssh2_bn) (group_order : Int),
      0 ≤ group_order → flag ≠ -1 → a.blobParams = true →
      (∀ n, 0 ≤ (prov log (DhCall.GenerateKeyPair n)).status) →
      ∃ (k hd : Nat) (prm : DhParams) (rest : List DhCall),
        (_libssh2_dh_key_pair_body prov clear a flag log dhctx public_ g p
            group_order).calls =
          log ++ [DhCall.GenerateKeyPair (k * 8)] ++ [DhCall.SetProperty hd prm] ++ rest ∧
        (k : Int) = max (round_down group_order 8) (max (g.length : Int) (p.length : Int)) ∧
        prm.header.cbKeyLength = k ∧ p.length ≤ k ∧ g.length ≤ k ∧
        prm.blob.length = sizeof_BCRYPT_DH_PARAMETER_HEADER + 2 * k ∧
        (prm.blob.drop sizeof_BCRYPT_DH_PARAMETER_HEADER).take k =
          List.replicate (k - p.length) 0 ++ p.bytes ∧
        (prm.blob.drop (sizeof_BCRYPT_DH_PARAMETER_HEADER + k)).take k =
          List.replicate (k - g.length) 0 ++ g.bytes ∧
        beValue ((prm.blob.drop sizeof_BCRYPT_DH_PARAMETER_HEADER).take k) = p.value ∧
        beValue ((prm.blob.drop (sizeof_BCRYPT_DH_PARAMETER_HEADER + k)).take k) =
          g.value) ∧
    (∀ (dh_params : DhParams) (f : _libssh2_bn),
      dh_params.blob.length =
        sizeof_BCRYPT_DH_PARAMETER_HEADER + 2 * dh_params.header.cbKeyLength →
      dh_params.header.cbKeyLength ≤ max f.length dh_params.header.cbKeyLength ∧
      f.length ≤ max f.length dh_params.header.cbKeyLength ∧
      _libssh2_dh_secret_blob dh_params f =
        some ⟨⟨BCRYPT_DH_PUBLIC_MAGIC, max f.length dh_params.header.cbKeyLength⟩,
          List.replicate sizeof_BCRYPT_DH_KEY_BLOB 0 ++
          fitWidth ((dh_params.blob.drop sizeof_BCRYPT_DH_PARAMETER_HEADER).take
              dh_params.header.cbKeyLength) (max f.length dh_params.header.cbKeyLength) ++
          fitWidth (((dh_params.blob.drop sizeof_BCRYPT_DH_PARAMETER_HEADER).drop
              dh_params.header.cbKeyLength).take dh_params.header.cbKeyLength)
            (max f.length dh_params.header.cbKeyLength) ++
          fitWidth f.bytes (max f.length dh_params.header.cbKeyLength)⟩ ∧
      beValue (fitWidth ((dh_params.blob.drop sizeof_BCRYPT_DH_PARAMETER_HEADER).take
          dh_params.header.cbKeyLength) (max f.length dh_params.header.cbKeyLength)) =
        beValue ((dh_params.blob.drop sizeof_BCRYPT_DH_PARAMETER_HEADER).take
          dh_params.header.cbKeyLength) ∧
      beValue (fitWidth (((dh_params.blob.drop sizeof_BCRYPT_DH_PARAMETER_HEADER).drop
          dh_params.header.cbKeyLength).take dh_params.header.cbKeyLength)
          (max f.length dh_params.header.cbKeyLength)) =
        beValue (((dh_params.blob.drop sizeof_BCRYPT_DH_PARAMETER_HEADER).drop
          dh_params.header.cbKeyLength).take dh_params.header.cbKeyLength) ∧
      beValue (fitWidth f.bytes (max f.length dh_params.header.cbKeyLength)) = f.value) ∧
    (∀ {κ : Type} (prov : RsaProvider κ) (clear allocR allocEnd : Bool)
        (r a p m : _libssh2_bn) (hKey : κ) (length : Nat) (r1 : _libssh2_bn),
      prov.importKeyPair (modExpKeyBlob p m) = some hKey →
      prov.encryptSize hKey a.bytes = some length →
      _libssh2_wincng_bignum_resize clear allocR (some r) length = (0, some r1) →
      ∃ base : List Nat,
        _libssh2_wincng_bignum_mod_exp prov clear true allocR true allocEnd
            (some r) (some a) (some p) (some m) =
          (match prov.encrypt hKey base r1.length with
          | none => (-1, some r1)
          | some out =>
            (0, (_libssh2_wincng_bignum_resize clear allocEnd
              (some ⟨r1.bignum.map fun buf => memcpy buf 0 out out.length⟩)
              out.length).2)) ∧
        base = List.replicate (max a.length length - a.length) 0 ++ a.bytes ∧
        base.length = max a.length length ∧ a.length ≤ base.length ∧
        beValue base = a.value) := by
  refine ⟨?_, ?_, ?_⟩
  · intro prov clear a flag log dhctx public_ g p group_order hgo hflag ha hgen
    obtain ⟨rest, hrest⟩ := key_pair_body_params prov clear a flag log dhctx public_ g p
      group_order hflag ha (hgen _)
    obtain ⟨hlen, hfp, hfg⟩ := dh_params_fields g p group_order
    refine ⟨dhKeyLength g p group_order, keyPairHandle prov log g p group_order,
      dhParamsBlob g p group_order, rest, hrest, dhKeyLength_cast g p group_order hgo, rfl,
      dhKeyLength_ge_p g p group_order, dhKeyLength_ge_g g p group_order, hlen, hfp, hfg,
      ?_, ?_⟩
    · rw [hfp, beValue_append, beValue_replicate_zero]
      simp [_libssh2_bn.value]
    · rw [hfg, beValue_append, beValue_replicate_zero]
      simp [_libssh2_bn.value]
  · intro dh_params f hlen
    refine ⟨le_max_right _ _, le_max_left _ _, dh_secret_blob_eq dh_params f hlen, ?_, ?_, ?_⟩
    · apply beValue_fitWidth_of_le
      rw [List.length_take]
      exact le_trans (Nat.min_le_left _ _) (le_max_right _ _)
    · apply beValue_fitWidth_of_le
      rw [List.length_take]
      exact le_trans (Nat.min_le_left _ _) (le_max_right _ _)
    · apply beValue_fitWidth_of_le
      rw [← length_eq_bytes]
      exact le_max_left _ _
  · intro κ prov clear allocR allocEnd r a p m hKey length r1 h1 h2 h3
    have hle : a.bytes.length ≤ max a.length length := by
      rw [← length_eq_bytes]; exact le_max_left _ _
    refine ⟨fitWidth a.bytes (max a.length length),
      mod_exp_padded_base prov clear allocR allocEnd r a p m hKey length r1 h1 h2 h3, ?_,
      length_fitWidth _ _, ?_, beValue_fitWidth_of_le _ _ hle⟩
    · rw [fitWidth_of_le _ _ hle, length_eq_bytes]
    · rw [length_fitWidth]; exact le_max_left _ _

theorem be_padding_callers_fit_witness :
    (∃ (k hd : Nat) (prm : DhParams) (rest : List DhCall),
      (_libssh2_dh_key_pair_body (retryProvider 0) true ⟨true, true, true, true, true⟩ 0 []
          _libssh2_dh_init (some ⟨none⟩) ⟨some [5]⟩ ⟨some [1, 23]⟩ 1).calls =
        [] ++ [DhCall.GenerateKeyPair (k * 8)] ++ [DhCall.SetProperty hd prm] ++ rest ∧
      (k : Int) = max (round_down 1 8)
        (max ((⟨some [5]⟩ : _libssh2_bn).length : Int)
          ((⟨some [1, 23]⟩ : _libssh2_bn).length : Int)) ∧
      prm.header.cbKeyLength = k ∧ (⟨some [1, 23]⟩ : _libssh2_bn).length ≤ k ∧
      (⟨some [5]⟩ : _libssh2_bn).length ≤ k ∧
      prm.blob.length = sizeof_BCRYPT_DH_PARAMETER_HEADER + 2 * k ∧
      (prm.blob.drop sizeof_BCRYPT_DH_PARAMETER_HEADER).take k =
        List.replicate (k - (⟨some [1, 23]⟩ : _libssh2_bn).length) 0 ++
          (⟨some [1, 23]⟩ : _libssh2_bn).bytes ∧
      (prm.blob.drop (sizeof_BCRYPT_DH_PARAMETER_HEADER + k)).take k =
        List.replicate (k - (⟨some [5]⟩ : _libssh2_bn).length) 0 ++
          (⟨some [5]⟩ : _libssh2_bn).bytes ∧
      beValue ((prm.blob.drop sizeof_BCRYPT_DH_PARAMETER_HEADER).take k) =
        (⟨some [1, 23]⟩ : _libssh2_bn).value ∧
      beValue ((prm.blob.drop (sizeof_BCRYPT_DH_PARAMETER_HEADER + k)).take k) =
        (⟨some [5]⟩ : _libssh2_bn).value) ∧
    _libssh2_dh_secret_blob ⟨⟨14, BCRYPT_DH_PARAMETERS_MAGIC, 1⟩, List.replicate 12 0 ++ [23, 5]⟩
        ⟨some [1, 8]⟩ =
      some ⟨⟨BCRYPT_DH_PUBLIC_MAGIC, 2⟩, List.replicate 8 0 ++ [0, 23] ++ [0, 5] ++ [1, 8]⟩ ∧
    (∃ base : List Nat,
      _libssh2_wincng_bignum_mod_exp exactModExpProvider true true true true true
          (some ⟨none⟩) (some ⟨some [8]⟩) (some ⟨some [3]⟩) (some ⟨some [1, 23]⟩) =
        (match exactModExpProvider.encrypt (modExpKeyBlob ⟨some [3]⟩ ⟨some [1, 23]⟩) base
            (⟨some [0, 0]⟩ : _libssh2_bn).length with
        | none => (-1, some ⟨some [0, 0]⟩)
        | some out =>
          (0, (_libssh2_wincng_bignum_resize true true
            (some ⟨(⟨some [0, 0]⟩ : _libssh2_bn).bignum.map fun buf =>
              memcpy buf 0 out out.length⟩) out.length).2)) ∧
      base = List.replicate (max (⟨some [8]⟩ : _libssh2_bn).length 2 -
        (⟨some [8]⟩ : _libssh2_bn).length) 0 ++ (⟨some [8]⟩ : _libssh2_bn).bytes ∧
      base.length = max (⟨some [8]⟩ : _libssh2_bn).length 2 ∧
      (⟨some [8]⟩ : _libssh2_bn).length ≤ base.length ∧
      beValue base = (⟨some [8]⟩ : _libssh2_bn).value) :=
  ⟨be_padding_callers_fit.1 (retryProvider 0) true ⟨true, true, true, true, true⟩ 0 []
      _libssh2_dh_init (some ⟨none⟩) ⟨some [5]⟩ ⟨some [1, 23]⟩ 1 (by decide) (by decide) rfl
      (fun _ => Int.le_refl 0),
    (be_padding_callers_fit.2.1
      ⟨⟨14, BCRYPT_DH_PARAMETERS_MAGIC, 1⟩, List.replicate 12 0 ++ [23, 5]⟩ ⟨some [1, 8]⟩
      (by decide)).2.2.1,
    be_padding_callers_fit.2.2 exactModExpProvider true true true
      ⟨none⟩ ⟨some [8]⟩ ⟨some [3]⟩ ⟨some [1, 23]⟩ (modExpKeyBlob ⟨some [3]⟩ ⟨some [1, 23]⟩) 2
      ⟨some [0, 0]⟩ (by decide) (by decide) (by decide)⟩

end Wincng
